import Mathlib

/-!
# OpenAL Soft mixing core: shallow embedding and verified properties

Sources embedded: `alc/alu.cpp` (mix driver, sample conversion, voice-change
processing, effect-slot sorting, distance attenuation, gain and doppler of
`CalcAttnSourceParams`, gain triplets, disconnection, dithering, distance
compensation, property hand-off, device clock, effect-slot updates, ambisonic
upsampling, azimuth scaling, ambisonic rotator) and `core/voice.cpp` (ADPCM sample
loaders, position and buffer bookkeeping of `Voice::mix`, resampler option, buffer
loading, chunk sizes and progress of the resampling loop).

Conventions of the embedding:
* C++ `unsigned int` values are `Nat` with explicit reduction modulo `2^32`;
  `size_t` indices are `Nat`, reduced modulo `2^64` where the code converts a
  signed value or the arithmetic could wrap; C++ `int` values are `Int`.
* A finite `float` is the rational number it denotes, so sample values are `ℚ`.
  Only operations that are exact on the modelled inputs are embedded this way;
  where a statement turns on the rounding of a `float` operation, `roundBinary32`
  gives the `float` result from the exact one.
* Pointers are natural-number addresses; a nullable pointer is an `Option`.
-/

namespace OpenALSoft

/-! ## Machine integers -/

/-- Number of values of a C++ `unsigned int`. -/
def UIntRange : Nat := 2 ^ 32

/-- Subtraction of two `unsigned int` values (wraps modulo `2^32`). -/
def usub (a b : Nat) : Nat := (a + UIntRange - b % UIntRange) % UIntRange

/-- Addition of two `unsigned int` values (wraps modulo `2^32`). -/
def uadd (a b : Nat) : Nat := (a + b) % UIntRange

/-! ## Mix driver: `DeviceBase::renderSamples` -/

/-- Return value of `DeviceBase::renderSamples(const uint numSamples)`:
`samplesToDo = std::min(numSamples, uint{BufferLineSize})`. The constant
`BufferLineSize` is declared outside the embedded sources and is a parameter. -/
def renderSamples (BufferLineSize numSamples : Nat) : Nat :=
  min numSamples BufferLineSize

/-- Loop shared by both buffer-writing overloads of `DeviceBase::renderSamples`:
`while(const auto todo = numSamples - total) { samplesToDo = renderSamples(todo);
<write>; total += samplesToDo; }`. The write step is the parameter `write`, called
with the output state, `total` and `samplesToDo`. The result is the final output
state together with the list of frame counts returned by the inner calls, in
order; `none` means the fuel ran out before the loop condition became false. -/
def renderSamplesLoop {σ : Type} (BufferLineSize : Nat) (write : σ → Nat → Nat → σ)
    (numSamples : Nat) : Nat → Nat → σ → Option (σ × List Nat)
  | 0, total, out => if usub numSamples total = 0 then some (out, []) else none
  | fuel + 1, total, out =>
    let todo := usub numSamples total
    if todo = 0 then some (out, [])
    else
      let samplesToDo := renderSamples BufferLineSize todo
      match renderSamplesLoop BufferLineSize write numSamples fuel
          (uadd total samplesToDo) (write out total samplesToDo) with
      | none => none
      | some (out', calls) => some (out', samplesToDo :: calls)

/-- Planar overload `renderSamples(std::span<void*> outBuffers, uint numSamples)`:
every iteration writes through the planar `Write<T>` selected by `FmtType`. -/
def renderSamplesPlanar {σ : Type} (BufferLineSize : Nat) (writePlanar : σ → Nat → Nat → σ)
    (outBuffers : σ) (numSamples fuel : Nat) : Option (σ × List Nat) :=
  renderSamplesLoop BufferLineSize writePlanar numSamples fuel 0 outBuffers

/-- Interleaved overload `renderSamples(void *outBuffer, uint numSamples,
size_t frameStep)`: the write happens only `if(outBuffer)`; `outBuffer = none`
is the null pointer. -/
def renderSamplesInterleaved {σ : Type} (BufferLineSize : Nat)
    (writeInterleaved : σ → Nat → Nat → Nat → σ)
    (outBuffer : Option σ) (numSamples frameStep fuel : Nat) : Option (Option σ × List Nat) :=
  renderSamplesLoop BufferLineSize
    (fun (o : Option σ) total samplesToDo =>
      match o with
      | some buf => some (writeInterleaved buf total samplesToDo frameStep)
      | none => none)
    numSamples fuel 0 outBuffer

/-! ## Effect-slot ordering in `ProcessContexts` -/

/-- An `EffectSlot*`, identified by its address. -/
abbrev SlotPtr := Nat

/-- The lambda `has_target`: `slot->Target != nullptr`, with the `Target` field of
every slot given by the heap view `Target`. -/
def has_target (Target : SlotPtr → Option SlotPtr) (slot : SlotPtr) : Bool :=
  (Target slot).isSome

/-- The call `std::partition_copy(first, last, out_true, out_false, pred)` as used in
`ProcessContexts`: `out_true` is a forward iterator (each accepted element is
appended behind the ones already written, `front`), `out_false` is a reverse
iterator (each rejected element is written in front of the ones already written,
`back`). Returns the elements written through each output. -/
def partition_copy (pred : SlotPtr → Bool) :
    List SlotPtr → List SlotPtr → List SlotPtr → List SlotPtr × List SlotPtr
  | [], front, back => (front, back)
  | slot :: rest, front, back =>
    if pred slot then partition_copy pred rest (front ++ [slot]) back
    else partition_copy pred rest front (slot :: back)

/-- What the C++ standard guarantees of `std::partition(first, last, pred)`, for a
function that returns the reordered range as the pair (elements before the
returned iterator, elements from the returned iterator on): the range is
permuted, `pred` holds before the returned iterator and fails from it on. The
relative order inside the two groups is left open, as in the standard. -/
def IsStdPartition
    (partition : (SlotPtr → Bool) → List SlotPtr → List SlotPtr × List SlotPtr) : Prop :=
  ∀ (pred : SlotPtr → Bool) (range : List SlotPtr),
    ((partition pred range).1 ++ (partition pred range).2).Perm range ∧
    (∀ s ∈ (partition pred range).1, pred s = true) ∧
    (∀ s ∈ (partition pred range).2, pred s = false)

/-- One admissible `std::partition`: the order-preserving one. -/
def stablePartition (pred : SlotPtr → Bool) (range : List SlotPtr) :
    List SlotPtr × List SlotPtr :=
  (range.filter pred, range.filter (fun s => !pred s))

/-- The loop `while(std::distance(sorted_slots.begin(), split_point) > 1)` of
`ProcessContexts`. `sorted` is the content of `sorted_slots`, `split_point` and the
first argument (`next_target`) are iterator positions. The lambda `not_next` is
`slot->Target != *next_target`. The recursion is on `next_target`, which the body
decrements once per iteration; position 0 cannot be decremented (the source never
gets there, since `split_point <= next_target` throughout). -/
def sortLoop (partition : (SlotPtr → Bool) → List SlotPtr → List SlotPtr × List SlotPtr)
    (Target : SlotPtr → Option SlotPtr) : Nat → List SlotPtr → Nat → List SlotPtr
  | 0, sorted, _ => sorted
  | next_target + 1, sorted, split_point =>
    if split_point > 1 then
      if next_target + 1 = split_point then sorted
      else
        let not_next := fun (slot : SlotPtr) => Target slot != sorted[next_target]?
        let parts := partition not_next (sorted.take split_point)
        sortLoop partition Target next_target
          (parts.1 ++ parts.2 ++ sorted.drop split_point) parts.1.length
    else sorted

/-- The sort of `ProcessContexts` (the body of `if(!sorted_slots[0])`): copy the
active slots into the sorted array with the slots without target at the end, then
run the partitioning loop from `next_target = sorted_slots.end()`. -/
def sortSlots (partition : (SlotPtr → Bool) → List SlotPtr → List SlotPtr × List SlotPtr)
    (Target : SlotPtr → Option SlotPtr) (auxslots : List SlotPtr) : List SlotPtr :=
  let parts := partition_copy (has_target Target) auxslots.reverse [] []
  sortLoop partition Target (parts.1 ++ parts.2).length (parts.1 ++ parts.2) parts.1.length

/-- The "Process effects" step of `ProcessContexts` up to the point where the
effects run: the content of `sorted_slots` afterwards. Nothing happens for an
empty slot list; the sort is skipped when `sorted_slots[0]` is non-null. -/
def ProcessContexts_sorted_slots
    (partition : (SlotPtr → Bool) → List SlotPtr → List SlotPtr × List SlotPtr)
    (Target : SlotPtr → Option SlotPtr) (auxslots : List SlotPtr)
    (sorted_slots : List (Option SlotPtr)) : List (Option SlotPtr) :=
  if auxslots.isEmpty then sorted_slots
  else
    match sorted_slots with
    | some _ :: _ => sorted_slots
    | _ => (sortSlots partition Target auxslots).map some

/-! ## ADPCM sample loaders (`core/voice.cpp`) -/

/-- Ways in which a modelled loader can fail to produce its output: an access
outside a span or table (undefined behaviour in the source), a signed 32-bit
overflow (likewise undefined), or the model's iteration budget running out. -/
inductive LoadError where
  | outOfBounds
  | intOverflow
  | outOfFuel
  deriving DecidableEq, Repr

/-- Result of a modelled loader. -/
abbrev Load := Except LoadError

/-- Element access `src[i]` on a span of bytes, read as `std::to_integer<uint8_t>`. -/
def spanAt (src : List Nat) (i : Nat) : Load Nat :=
  match src[i]? with
  | some b => pure (b % 256)
  | none => throw LoadError.outOfBounds

/-- The call `src.subspan(k)`. -/
def subspan (src : List Nat) (k : Nat) : Load (List Nat) :=
  if k ≤ src.length then pure (src.drop k) else throw LoadError.outOfBounds

/-- Element access on one of the constant `std::array<int,N>` tables. -/
def tableAt (table : List Int) (i : Nat) : Load Int :=
  match table[i]? with
  | some v => pure v
  | none => throw LoadError.outOfBounds

/-- A value computed in C++ `int` arithmetic: defined only inside the signed
32-bit range. -/
def checkedInt (v : Int) : Load Int :=
  if -2147483648 ≤ v ∧ v ≤ 2147483647 then pure v else throw LoadError.intOverflow

/-- The conversion `static_cast<unsigned int>(v)` of an `int`. -/
def toUInt (v : Int) : Nat := (v % 4294967296).toNat

/-- The function `std::clamp(v, lo, hi)`. -/
def clamp {α : Type} [LT α] [DecidableRel (fun (a b : α) => a < b)] (v lo hi : α) : α :=
  if v < lo then lo else if hi < v then hi else v

/-- The expression `static_cast<float>(sample) / 32768.0f` for a sample in the
signed 16-bit range (both the conversion and the division by `2^15` are exact). -/
def sampleToFloat (sample : Int) : ℚ := (sample : ℚ) / 32768

/-- IMA ADPCM Stepsize table. -/
def IMAStep_size : List Int := [
       7,    8,    9,   10,   11,   12,   13,   14,   16,   17,   19,
      21,   23,   25,   28,   31,   34,   37,   41,   45,   50,   55,
      60,   66,   73,   80,   88,   97,  107,  118,  130,  143,  157,
     173,  190,  209,  230,  253,  279,  307,  337,  371,  408,  449,
     494,  544,  598,  658,  724,  796,  876,  963, 1060, 1166, 1282,
    1411, 1552, 1707, 1878, 2066, 2272, 2499, 2749, 3024, 3327, 3660,
    4026, 4428, 4871, 5358, 5894, 6484, 7132, 7845, 8630, 9493,10442,
   11487,12635,13899,15289,16818,18500,20350,22358,24633,27086,29794,
   32767]

/-- IMA4 ADPCM Codeword decode table. -/
def IMA4Codeword : List Int := [
    1, 3, 5, 7, 9, 11, 13, 15,
   -1,-3,-5,-7,-9,-11,-13,-15]

/-- IMA4 ADPCM Step index adjust decode table. -/
def IMA4Index_adjust : List Int := [
   -1,-1,-1,-1, 2, 4, 6, 8,
   -1,-1,-1,-1, 2, 4, 6, 8]

/-- MSADPCM Adaption table. -/
def MSADPCMAdaption : List Int := [
    230, 230, 230, 230, 307, 409, 512, 614,
    768, 614, 512, 409, 307, 230, 230, 230]

/-- MSADPCM Adaption Coefficient tables. -/
def MSADPCMAdaptionCoeff : List (Int × Int) := [
    (256,    0),
    (512, -256),
    (  0,    0),
    (192,   64),
    (240,    0),
    (460, -208),
    (392, -232)]

/-- The constant `MaxStepIndex = IMAStep_size.size() - 1`. -/
def MaxStepIndex : Int := (IMAStep_size.length : Int) - 1

/-- The lambda `decode_nibble` of `LoadSamples<IMA4Data>`. The captured state
`(prevSample, prevIndex)` is passed in and returned; the new `prevSample` is the
lambda's return value. `(nibbleOffset>>1) & ~3` clears the two low bits. -/
def IMA4_decode_nibble (nibbleData : List Nat) (srcStep : Nat) (state : Int × Int)
    (nibbleOffset : Nat) : Load (Int × Int) := do
  let byteShift := (nibbleOffset &&& 1) * 4
  let wordOffset := (nibbleOffset >>> 1) / 4 * 4
  let byteOffset := wordOffset * srcStep + ((nibbleOffset >>> 1) &&& 3)
  let byteval ← spanAt nibbleData byteOffset
  let nibble := (byteval >>> byteShift) &&& 0xf
  let codeword ← tableAt IMA4Codeword nibble
  let stepSize ← tableAt IMAStep_size (toUInt state.2)
  let prevSample := clamp (state.1 + Int.tdiv (codeword * stepSize) 8) (-32768) 32767
  let adjust ← tableAt IMA4Index_adjust nibble
  let prevIndex := clamp (state.2 + adjust) 0 MaxStepIndex
  pure (prevSample, prevIndex)

/-- Decoding `count` successive nibbles with `decode_nibble`, the nibble offset
advancing by one each time: the final state and the samples returned, in order.
Both the skip loop (`for(;skip;--skip)`, results ignored) and the
`std::ranges::generate` loop of `LoadSamples<IMA4Data>` have this shape. -/
def IMA4_decode_run (nibbleData : List Nat) (srcStep : Nat) :
    Nat → Int × Int → Nat → Load ((Int × Int) × List Int)
  | 0, state, _ => pure (state, [])
  | count + 1, state, nibbleOffset => do
    let state1 ← IMA4_decode_nibble nibbleData srcStep state nibbleOffset
    let rest ← IMA4_decode_run nibbleData srcStep count state1 (nibbleOffset + 1)
    pure (rest.1, state1.1 :: rest.2)

/-- The start of one iteration of the block loop of `LoadSamples<IMA4Data>`, up to the
sign extension: reads the channel's block header from `src` and returns
`(prevSample, prevIndex)`, the span `nibbleData` and the span from the next block on. -/
def IMA4_block_header (srcChan srcStep blockBytes : Nat) (src : List Nat) :
    Load ((Int × Int) × List Nat × List Nat) := do
  let b0 ← spanAt src (srcChan * 4 + 0)
  let b1 ← spanAt src (srcChan * 4 + 1)
  let b2 ← spanAt src (srcChan * 4 + 2)
  let b3 ← spanAt src (srcChan * 4 + 3)
  let nibbleData ← subspan src ((srcStep + srcChan) * 4)
  let src1 ← subspan src blockBytes
  let prevSample : Int := (((b0 ||| (b1 <<< 8)) ^^^ 0x8000 : Nat) : Int) - 32768
  let prevIndex : Int := clamp ((((b2 ||| (b3 <<< 8)) ^^^ 0x8000 : Nat) : Int) - 32768)
    0 MaxStepIndex
  pure ((prevSample, prevIndex), nibbleData, src1)

/-- The loop `while(!dstSamples.empty())` of `LoadSamples<IMA4Data>`: `src` is the
span from the current block on, `skip` the number of samples still to skip and the
last argument the number of output samples still to write. One unit of fuel is
used per decoded block. -/
def LoadSamples_IMA4_blocks (srcChan srcStep samplesPerBlock : Nat) :
    Nat → List Nat → Nat → Nat → Load (List ℚ)
  | _, _, _, 0 => pure []
  | 0, _, _, _ + 1 => throw LoadError.outOfFuel
  | fuel + 1, src, skip, dstSize + 1 => do
    let blockBytes := ((samplesPerBlock - 1) / 2 + 4) * srcStep
    let header ← IMA4_block_header srcChan srcStep blockBytes src
    let written : List ℚ := if skip = 0 then [sampleToFloat header.1.1] else []
    let remaining := if skip = 0 then dstSize else dstSize + 1
    let skip1 := if skip = 0 then 0 else skip - 1
    if remaining = 0 then pure written
    else do
      let startOffset := skip1 + 1
      let skipped ← IMA4_decode_run header.2.1 srcStep skip1 header.1 0
      let count := min remaining (samplesPerBlock - startOffset)
      let decoded ← IMA4_decode_run header.2.1 srcStep count skipped.1 skip1
      let rest ← LoadSamples_IMA4_blocks srcChan srcStep samplesPerBlock fuel header.2.2 0
        (remaining - count)
      pure (written ++ decoded.2.map sampleToFloat ++ rest)

/-- The specialisation `LoadSamples<IMA4Data>(dstSamples, src, srcChan, srcOffset,
srcStep, samplesPerBlock)`: `dstSize` is `dstSamples.size()`, the result is the
content written to `dstSamples`. -/
def LoadSamples_IMA4 (fuel dstSize : Nat) (src : List Nat)
    (srcChan srcOffset srcStep samplesPerBlock : Nat) : Load (List ℚ) := do
  let blockBytes := ((samplesPerBlock - 1) / 2 + 4) * srcStep
  let src1 ← subspan src (srcOffset / samplesPerBlock * blockBytes)
  let skip := srcOffset % samplesPerBlock
  LoadSamples_IMA4_blocks srcChan srcStep samplesPerBlock fuel src1 skip dstSize

/-- The lambda `decode_nibble` of `LoadSamples<MSADPCMData>`. The captured state
`(sampleHistory[0], sampleHistory[1], scale)` is passed in and returned; the new
`sampleHistory[0]` is the lambda's return value. The four `int` results that are
not bounded by construction are range-checked. -/
def MSADPCM_decode_nibble (nibbleData : List Nat) (coeffs : Int × Int)
    (state : Int × Int × Int) (nibbleOffset : Nat) : Load (Int × Int × Int) := do
  let byteOffset := nibbleOffset >>> 1
  let byteShift := ((nibbleOffset &&& 1) ^^^ 1) * 4
  let byteval ← spanAt nibbleData byteOffset
  let nibble := (byteval >>> byteShift) &&& 0xf
  let pred ← checkedInt ((((nibble ^^^ 0x08 : Nat) : Int) - 0x08) * state.2.2)
  let mixed ← checkedInt (state.1 * coeffs.1 + state.2.1 * coeffs.2)
  let diff := Int.tdiv mixed 256
  let sum ← checkedInt (pred + diff)
  let sample := clamp sum (-32768) 32767
  let adaption ← tableAt MSADPCMAdaption nibble
  let scaled ← checkedInt (adaption * state.2.2)
  let scale := max 16 (Int.tdiv scaled 256)
  pure (sample, state.1, scale)

/-- Decoding `count` successive nibbles of one channel with `decode_nibble`, the
nibble offset advancing by `srcStep` each time: the final state and the samples
returned, in order. Both the skip loop and the `std::ranges::generate` loop of
`LoadSamples<MSADPCMData>` have this shape. -/
def MSADPCM_decode_run (nibbleData : List Nat) (coeffs : Int × Int) (srcStep : Nat) :
    Nat → Int × Int × Int → Nat → Load ((Int × Int × Int) × List Int)
  | 0, state, _ => pure (state, [])
  | count + 1, state, nibbleOffset => do
    let state1 ← MSADPCM_decode_nibble nibbleData coeffs state nibbleOffset
    let rest ← MSADPCM_decode_run nibbleData coeffs srcStep count state1
      (nibbleOffset + srcStep)
    pure (rest.1, state1.1 :: rest.2)

/-- Sign extension `(v^0x8000) - 32768` of a 16-bit value assembled from two bytes. -/
def signExtend16 (lo hi : Nat) : Int := (((lo ||| (hi <<< 8)) ^^^ 0x8000 : Nat) : Int) - 32768

/-- Element access `MSADPCMAdaptionCoeff[i]`. -/
def coeffsAt (i : Nat) : Load (Int × Int) :=
  match MSADPCMAdaptionCoeff[i]? with
  | some c => pure c
  | none => throw LoadError.outOfBounds

/-- The start of one iteration of the block loop of `LoadSamples<MSADPCMData>`, up to
the sign extensions: reads the channel's block header from `src` and returns the
coefficient pair selected by the block predictor, the state
`(sampleHistory[0], sampleHistory[1], scale)`, the span `nibbleData` and the span
from the next block on. -/
def MSADPCM_block_header (srcChan srcStep blockBytes : Nat) (src : List Nat) :
    Load ((Int × Int) × (Int × Int × Int) × List Nat × List Nat) := do
  let p ← spanAt src srcChan
  let blockpred := min p (MSADPCMAdaptionCoeff.length - 1)
  let s0 ← spanAt src (srcStep + 2 * srcChan + 0)
  let s1 ← spanAt src (srcStep + 2 * srcChan + 1)
  let h00 ← spanAt src (3 * srcStep + 2 * srcChan + 0)
  let h01 ← spanAt src (3 * srcStep + 2 * srcChan + 1)
  let h10 ← spanAt src (5 * srcStep + 2 * srcChan + 0)
  let h11 ← spanAt src (5 * srcStep + 2 * srcChan + 1)
  let nibbleData ← subspan src (7 * srcStep)
  let src1 ← subspan src blockBytes
  let coeffs ← coeffsAt blockpred
  let scale := signExtend16 s0 s1
  let sampleHistory0 := signExtend16 h00 h01
  let sampleHistory1 := signExtend16 h10 h11
  pure (coeffs, (sampleHistory0, sampleHistory1, scale), nibbleData, src1)

/-- The loop `while(!dstSamples.empty())` of `LoadSamples<MSADPCMData>`: `src` is
the span from the current block on, `skip` the number of samples still to skip and
the last argument the number of output samples still to write. One unit of fuel is
used per decoded block. -/
def LoadSamples_MSADPCM_blocks (srcChan srcStep samplesPerBlock : Nat) :
    Nat → List Nat → Nat → Nat → Load (List ℚ)
  | _, _, _, 0 => pure []
  | 0, _, _, _ + 1 => throw LoadError.outOfFuel
  | fuel + 1, src, skip, dstSize + 1 => do
    let blockBytes := ((samplesPerBlock - 2) / 2 + 7) * srcStep
    let header ← MSADPCM_block_header srcChan srcStep blockBytes src
    let sampleHistory0 := header.2.1.1
    let sampleHistory1 := header.2.1.2.1
    if skip = 0 ∧ dstSize + 1 < 2 then pure [sampleToFloat sampleHistory1]
    else do
      let written : List ℚ :=
        if skip = 0 then [sampleToFloat sampleHistory1, sampleToFloat sampleHistory0]
        else if skip = 1 then [sampleToFloat sampleHistory0]
        else []
      let remaining := dstSize + 1 - written.length
      let skip1 := if skip = 0 then 0 else if skip = 1 then 0 else skip - 2
      if remaining = 0 then pure written
      else do
        let startOffset := skip1 + 2
        let skipped ← MSADPCM_decode_run header.2.2.1 header.1 srcStep skip1
          header.2.1 srcChan
        let count := min remaining (samplesPerBlock - startOffset)
        let decoded ← MSADPCM_decode_run header.2.2.1 header.1 srcStep count skipped.1
          (srcChan + skip1 * srcStep)
        let rest ← LoadSamples_MSADPCM_blocks srcChan srcStep samplesPerBlock fuel
          header.2.2.2 0 (remaining - count)
        pure (written ++ decoded.2.map sampleToFloat ++ rest)

/-- The specialisation `LoadSamples<MSADPCMData>(dstSamples, src, srcChan,
srcOffset, srcStep, samplesPerBlock)`: `dstSize` is `dstSamples.size()`, the result
is the content written to `dstSamples`. -/
def LoadSamples_MSADPCM (fuel dstSize : Nat) (src : List Nat)
    (srcChan srcOffset srcStep samplesPerBlock : Nat) : Load (List ℚ) := do
  let blockBytes := ((samplesPerBlock - 2) / 2 + 7) * srcStep
  let src1 ← subspan src (srcOffset / samplesPerBlock * blockBytes)
  let skip := srcOffset % samplesPerBlock
  LoadSamples_MSADPCM_blocks srcChan srcStep samplesPerBlock fuel src1 skip dstSize

/-- An example IMA4 buffer: one channel, two blocks of 9 samples (8 bytes each). -/
def ima4Example : List Nat :=
  [0x10, 0x00, 0x05, 0x00, 0x12, 0x9A, 0x7F, 0x80,
   0xF0, 0xFF, 0x58, 0x00, 0x77, 0x77, 0x88, 0x88]

/-- An example MSADPCM buffer: one channel, two blocks of 6 samples (9 bytes each). -/
def msadpcmExample : List Nat :=
  [1, 0x10, 0x00, 0x20, 0x00, 0x10, 0x00, 0x12, 0x9A,
   9, 0x00, 0x01, 0xF0, 0xFF, 0x58, 0x00, 0x77, 0x88]

/-! ## Sample conversion and output writing (`alc/alu.cpp`) -/

/-- Modelled from the spec: `fastf2i` (declared outside the embedded sources). The
spec says sample conversion "uses `lrint`-style rounding", and writes the step
computation as `round(...)`: round to the nearest integer, ties to even. -/
def fastf2i (f : ℚ) : Int :=
  if Int.fract f < 1 / 2 then Int.floor f
  else if 1 / 2 < Int.fract f then Int.floor f + 1
  else if Int.floor f % 2 = 0 then Int.floor f
  else Int.floor f + 1

/-- Modelled from the spec: `fastf2u` (declared outside the embedded sources), the
unsigned counterpart of `fastf2i`: the rounded value converted to `unsigned int`. -/
def fastf2u (f : ℚ) : Nat := toUInt (fastf2i f)

/-- The conversion `static_cast<int16_t>(v)` of an `int`. -/
def toInt16 (v : Int) : Int := (v + 32768) % 65536 - 32768

/-- The conversion `static_cast<int8_t>(v)` of an `int`. -/
def toInt8 (v : Int) : Int := (v + 128) % 256 - 128

/-- The specialisation `SampleConv<float>`: the identity. -/
def SampleConv_float (val : ℚ) : ℚ := val

/-- The specialisation `SampleConv<int32_t>`:
`fastf2i(std::clamp(val*2147483648.0f, -2147483648.0f, 2147483520.0f))`. -/
def SampleConv_int32 (val : ℚ) : Int :=
  fastf2i (clamp (val * 2147483648) (-2147483648) 2147483520)

/-- The specialisation `SampleConv<int16_t>`:
`static_cast<int16_t>(fastf2i(std::clamp(val*32768.0f, -32768.0f, 32767.0f)))`. -/
def SampleConv_int16 (val : ℚ) : Int :=
  toInt16 (fastf2i (clamp (val * 32768) (-32768) 32767))

/-- The specialisation `SampleConv<int8_t>`:
`static_cast<int8_t>(fastf2i(std::clamp(val*128.0f, -128.0f, 127.0f)))`. -/
def SampleConv_int8 (val : ℚ) : Int :=
  toInt8 (fastf2i (clamp (val * 128) (-128) 127))

/-- The specialisation `SampleConv<uint32_t>`: `static_cast<uint32_t>(SampleConv<int32_t>(val)) +
2147483648u`, in unsigned 32-bit arithmetic. -/
def SampleConv_uint32 (val : ℚ) : Nat :=
  (toUInt (SampleConv_int32 val) + 2147483648) % 4294967296

/-- The specialisation `SampleConv<uint16_t>`: `static_cast<uint16_t>(SampleConv<int16_t>(val) + 32768)`. -/
def SampleConv_uint16 (val : ℚ) : Nat :=
  ((SampleConv_int16 val + 32768) % 65536).toNat

/-- The specialisation `SampleConv<uint8_t>`: `static_cast<uint8_t>(SampleConv<int8_t>(val) + 128)`. -/
def SampleConv_uint8 (val : ℚ) : Nat :=
  ((SampleConv_int8 val + 128) % 256).toNat

/-- A store `*out = v` into memory viewed as a map from element index to value. -/
def store {τ : Type} (mem : Nat → τ) (out : Nat) (v : τ) : Nat → τ :=
  fun j => if j = out then v else mem j

/-- The call `std::ranges::fill(span, v)` on the elements `[start, start + len)`. -/
def fill {τ : Type} (mem : Nat → τ) (start len : Nat) (v : τ) : Nat → τ :=
  fun j => if start ≤ j ∧ j < start + len then v else mem j

/-- The `for_each` of interleaved `Write<T>` over the samples after the first one:
for every sample, `std::advance(out, FrameStep); *out = SampleConv<T>(s)`. Returns
the memory; `out` is the position of the last store. -/
def Write_advance {τ : Type} (conv : ℚ → τ) (FrameStep : Nat) :
    (Nat → τ) → Nat → List ℚ → (Nat → τ)
  | mem, _, [] => mem
  | mem, out, s :: rest =>
    Write_advance conv FrameStep (store mem (out + FrameStep) (conv s)) (out + FrameStep) rest

/-- The loop `for(const auto &srcbuf : InBuffer)` of interleaved `Write<T>`, with
`outbase` the position the next channel starts at. A `FloatBufferLine` is a
`std::array<float,BufferLineSize>` and so never empty; `front()` of an empty list
(absent in the source) is taken as `0`. -/
def Write_channels {τ : Type} (conv : ℚ → τ) (SamplesToDo FrameStep : Nat) :
    (Nat → τ) → Nat → List (List ℚ) → (Nat → τ)
  | mem, _, [] => mem
  | mem, outbase, srcbuf :: rest =>
    let out := outbase
    let mem1 := store mem out (conv (srcbuf.headD 0))
    let mem2 := Write_advance conv FrameStep mem1 out ((srcbuf.take SamplesToDo).drop 1)
    Write_channels conv SamplesToDo FrameStep mem2 (outbase + 1) rest

/-- Interleaved `Write<T>(InBuffer, OutBuffer, Offset, SamplesToDo, FrameStep)`, for
the sample type whose `SampleConv<T>` is `conv`. `OutBuffer` is the memory behind
the pointer, indexed in elements of `T`; the result is that memory afterwards. -/
def Write {τ : Type} (conv : ℚ → τ) (InBuffer : List (List ℚ)) (OutBuffer : Nat → τ)
    (Offset SamplesToDo FrameStep : Nat) : Nat → τ :=
  let outputStart := Offset * FrameStep
  let outputSize := (Offset + SamplesToDo) * FrameStep - Offset * FrameStep
  let cleared :=
    if FrameStep > InBuffer.length then fill OutBuffer outputStart outputSize (conv 0)
    else OutBuffer
  Write_channels conv SamplesToDo FrameStep cleared outputStart InBuffer

/-! ## Voice step computation (`CalcNonAttnSourceParams`, `CalcAttnSourceParams`) -/

/-- The constant `MixerFracBits`. -/
def MixerFracBits : Nat := 12

/-- The constant `MixerFracOne = 1 << MixerFracBits`. -/
def MixerFracOne : Nat := 1 <<< MixerFracBits

/-- The constant `MaxPitch`. -/
def MaxPitch : Nat := 255

/-- The stepping computation shared verbatim by both functions, from the `float`
value `Pitch` (a finite float, as a rational):
`if(Pitch > float{MaxPitch}) mStep = MaxPitch<<MixerFracBits;
 else mStep = std::max(fastf2u(Pitch * MixerFracOne), 1u);`.
The product with `MixerFracOne` (a power of two) is exact for `Pitch <= MaxPitch`. -/
def CalcStep (Pitch : ℚ) : Nat :=
  if Pitch > (MaxPitch : ℚ) then MaxPitch <<< MixerFracBits
  else max (fastf2u (Pitch * (MixerFracOne : ℚ))) 1

/-- The value `voice->mStep` set by `CalcNonAttnSourceParams`, where `Pitch` is the
float result of `float(voice->mFrequency) / float(Device->mSampleRate) * props.Pitch`. -/
def CalcNonAttnSourceParams_mStep (Pitch : ℚ) : Nat := CalcStep Pitch

/-- The value `voice->mStep` set by `CalcAttnSourceParams`, where `Pitch` is the float
result of `Pitch *= float(voice->mFrequency) / float(Device->mSampleRate)` applied to
the doppler-adjusted pitch. -/
def CalcAttnSourceParams_mStep (Pitch : ℚ) : Nat := CalcStep Pitch

/-! ## Voice-change processing (`ProcessVoiceChanges`)

The atomics are embedded sequentially: the mixer thread is the only one acting
while a record is processed. -/

/-- The enumeration `Voice::State`. -/
inductive PlayState where
  | Stopped
  | Playing
  | Stopping
  | Pending
  deriving DecidableEq, Repr

/-- The enumeration `VChangeState`. -/
inductive VChangeState where
  | Reset
  | Stop
  | Play
  | Pause
  | Restart
  deriving DecidableEq, Repr

/-- The enumeration `AsyncSrcState`. -/
inductive AsyncSrcState where
  | Reset
  | Stop
  | Play
  | Pause
  deriving DecidableEq, Repr

/-- The enumeration `AsyncEnableBits` (bit positions of `mEnabledEvts`). -/
inductive AsyncEnableBits where
  | SourceState
  | BufferCompleted
  | Disconnected
  deriving DecidableEq, Repr

/-- The event kinds carried by the asynchronous event ring. The state of a
source-state event is `none` while it is as `InitAsyncEvent` constructed it. -/
inductive AsyncEvent where
  | SourceState (mId : Nat) (mState : Option AsyncSrcState)
  | BufferComplete (mId : Nat) (mCount : Nat)
  | EffectRelease (mEffectState : Nat)
  | Disconnect (msg : String)
  deriving DecidableEq, Repr

/-- Modelled from the spec: the `RingBuffer` behind `mAsyncEvents` (declared outside
the embedded sources), "SPSC, bounded; `getWriteVector()` yields available
contiguous regions; `writeAdvance(n)` commits": the events committed so far, oldest
first, and the number of free slots. -/
structure RingBuffer where
  written : List AsyncEvent
  writeSpace : Nat
  deriving DecidableEq, Repr

/-- The fields of `Voice` that voice-change processing touches. Buffer pointers are
addresses, `none` being `nullptr`. -/
structure Voice where
  mCurrentBuffer : Option Nat
  mLoopBuffer : Option Nat
  mSourceID : Nat
  mPlayState : PlayState
  mPendingChange : Bool
  deriving DecidableEq, Repr

/-- The structure `VoiceChange`; voice pointers are addresses into the voice heap. -/
structure VoiceChange where
  mVoice : Option Nat
  mOldVoice : Option Nat
  mSourceID : Nat
  mState : VChangeState
  deriving DecidableEq, Repr

/-- The parts of `ContextBase` that voice-change processing touches: the voice
objects by address, the chain of change records from its head (`mNext` links, in
order), the position in it of `mCurrentVoiceChange`, the enabled-event bits and the
event ring. -/
structure ContextBase where
  voices : Nat → Voice
  voiceChanges : List VoiceChange
  mCurrentVoiceChange : Nat
  mEnabledEvts : AsyncEnableBits → Bool
  mAsyncEvents : RingBuffer

/-- Writing the voice object at address `p`. -/
def setVoice (ctx : ContextBase) (p : Nat) (v : Voice) : ContextBase :=
  { ctx with voices := fun q => if q = p then v else ctx.voices q }

/-- The call `mPlayState.compare_exchange_strong(oldvstate, Voice::Stopping)` with
`oldvstate = Voice::Playing`: the voice afterwards, whether the exchange happened,
and the value left in `oldvstate`. -/
def casPlayingToStopping (v : Voice) : Voice × Bool × PlayState :=
  if v.mPlayState = PlayState.Playing then
    ({ v with mPlayState := PlayState.Stopping }, true, PlayState.Playing)
  else (v, false, v.mPlayState)

/-- The function `SendSourceStateEvent(context, id, state)`. -/
def SendSourceStateEvent (ctx : ContextBase) (id : Nat) (state : VChangeState) :
    ContextBase :=
  if ctx.mAsyncEvents.writeSpace = 0 then ctx
  else
    let mState : Option AsyncSrcState :=
      match state with
      | VChangeState.Reset => some AsyncSrcState.Reset
      | VChangeState.Stop => some AsyncSrcState.Stop
      | VChangeState.Play => some AsyncSrcState.Play
      | VChangeState.Pause => some AsyncSrcState.Pause
      | VChangeState.Restart => none
    { ctx with mAsyncEvents :=
        { written := ctx.mAsyncEvents.written ++ [AsyncEvent.SourceState id mState],
          writeSpace := ctx.mAsyncEvents.writeSpace - 1 } }

/-- The state change of one record `cur` (the part of the loop body of
`ProcessVoiceChanges` before the event is sent): the context afterwards and
`sendevt`. `none` is a dereference of a null voice pointer. -/
def applyVoiceChange (ctx : ContextBase) (cur : VoiceChange) : Option (ContextBase × Bool) :=
  match cur.mState with
  | VChangeState.Reset | VChangeState.Stop =>
    let r : ContextBase × Bool :=
      match cur.mVoice with
      | some p =>
        let voice := ctx.voices p
        let sendevt := voice.mSourceID != 0
        let voice1 := { voice with mCurrentBuffer := none, mLoopBuffer := none, mSourceID := 0 }
        let voice2 := (casPlayingToStopping voice1).1
        (setVoice ctx p { voice2 with mPendingChange := false }, sendevt)
      | none => (ctx, false)
    some (r.1, r.2 || (cur.mState == VChangeState.Reset))
  | VChangeState.Pause =>
    match cur.mVoice with
    | some p =>
      let cas := casPlayingToStopping (ctx.voices p)
      some (setVoice ctx p cas.1, cas.2.1)
    | none => none
  | VChangeState.Play =>
    let r : ContextBase × Bool :=
      match cur.mOldVoice with
      | some q =>
        let oldvoice := ctx.voices q
        let oldvoice1 :=
          { oldvoice with mCurrentBuffer := none, mLoopBuffer := none, mSourceID := 0 }
        let cas := casPlayingToStopping oldvoice1
        (setVoice ctx q { cas.1 with mPendingChange := false }, !cas.2.1)
      | none => (ctx, true)
    match cur.mVoice with
    | some p => some (setVoice r.1 p { r.1.voices p with mPlayState := PlayState.Playing }, r.2)
    | none => none
  | VChangeState.Restart =>
    match cur.mOldVoice with
    | some q =>
      let oldvoice := ctx.voices q
      let oldvoice1 :=
        { oldvoice with mCurrentBuffer := none, mLoopBuffer := none, mSourceID := 0 }
      if oldvoice.mSourceID != 0 then
        let cas := casPlayingToStopping oldvoice1
        let ctx1 := setVoice ctx q cas.1
        match cur.mVoice with
        | some p =>
          let newState :=
            if cas.2.2 = PlayState.Playing then PlayState.Playing else PlayState.Stopped
          let ctx2 := setVoice ctx1 p { ctx1.voices p with mPlayState := newState }
          some (setVoice ctx2 q { ctx2.voices q with mPendingChange := false }, false)
        | none => none
      else some (setVoice ctx q { oldvoice1 with mPendingChange := false }, false)
    | none => none

/-- One iteration of the loop of `ProcessVoiceChanges` for the record `cur`, with
`enabledevt` the event bits loaded before the loop. -/
def processVoiceChange (enabledevt : AsyncEnableBits → Bool) (ctx : ContextBase)
    (cur : VoiceChange) : Option ContextBase :=
  match applyVoiceChange ctx cur with
  | some (ctx1, sendevt) =>
    if sendevt && enabledevt AsyncEnableBits.SourceState then
      some (SendSourceStateEvent ctx1 cur.mSourceID cur.mState)
    else some ctx1
  | none => none

/-- The loop `while(next)` over the given records, in order. -/
def processVoiceChangeList (enabledevt : AsyncEnableBits → Bool) :
    ContextBase → List VoiceChange → Option ContextBase
  | ctx, [] => some ctx
  | ctx, cur :: rest =>
    match processVoiceChange enabledevt ctx cur with
    | some ctx1 => processVoiceChangeList enabledevt ctx1 rest
    | none => none

/-- The function `ProcessVoiceChanges(ctx)`: the records after the current one are
processed in order, and the last of them becomes `mCurrentVoiceChange`. -/
def ProcessVoiceChanges (ctx : ContextBase) : Option ContextBase :=
  let pending := ctx.voiceChanges.drop (ctx.mCurrentVoiceChange + 1)
  if pending.isEmpty then some ctx
  else
    match processVoiceChangeList ctx.mEnabledEvts ctx pending with
    | some ctx1 => some { ctx1 with mCurrentVoiceChange := ctx.voiceChanges.length - 1 }
    | none => none

/-- An example context: every voice is playing source 5 with buffers attached, all
event kinds are enabled and the ring has four free slots. -/
def exampleContext : ContextBase :=
  { voices := fun _ =>
      { mCurrentBuffer := some 1, mLoopBuffer := some 2, mSourceID := 5,
        mPlayState := PlayState.Playing, mPendingChange := true },
    voiceChanges := [],
    mCurrentVoiceChange := 0,
    mEnabledEvts := fun _ => true,
    mAsyncEvents := { written := [], writeSpace := 4 } }

/-- Loop invariant of the slot sort, used in the proofs: the sorted array is
`pre ++ unproc ++ proc`, with `pre` the part before `split_point`, `proc` the part
from `next_target` on. Slots in `pre` have a target, none of them targets a slot of
`proc`; every slot behind `split_point` has no target or targets a slot of `proc`;
behind `split_point` no slot comes before one that targets it, and no slot without
target comes before a slot with one. -/
structure SortInv (Target : SlotPtr → Option SlotPtr) (auxslots pre unproc proc : List SlotPtr) :
    Prop where
  perm : (pre ++ unproc ++ proc).Perm auxslots
  pre_has : ∀ s ∈ pre, Target s ≠ none
  pre_not : ∀ s ∈ pre, ∀ t ∈ proc, Target s ≠ some t
  suf_tgt : ∀ s ∈ unproc ++ proc, Target s = none ∨ ∃ t ∈ proc, Target s = some t
  ord : (unproc ++ proc).Pairwise (fun a b => Target b ≠ some a)
  nl : (unproc ++ proc).Pairwise (fun a b => Target a = none → Target b = none)

/-- An example slot configuration: slot 3 feeds slot 1, slot 1 feeds slot 2, slot 2
feeds the device. -/
def chainTarget : SlotPtr → Option SlotPtr :=
  fun s => if s = 1 then some 2 else if s = 3 then some 1 else none

/-- Distance of a slot of `chainTarget` from the device. -/
def chainRank : SlotPtr → Nat :=
  fun s => if s = 2 then 0 else if s = 1 then 1 else 2

/-! ## Position and buffer bookkeeping of `Voice::mix` (`core/voice.cpp`)

The sample loading, resampling and mixing stages of `Voice::mix` write audio
buffers, `mPrevSamples`, the resampler state and the fading flag only (and, for a
callback voice, `mNumCallbackBlocks` through the user callback); they are not part
of this embedding. What is embedded is every exit of the function and the update
of position, buffers, play state, source id and events. -/

/-- The fields of `VoiceBufferItem` that the bookkeeping reads: the `mNext` link
(an address, `none` being `nullptr`), the length in samples and the loop points. -/
structure VoiceBufferItem where
  mNext : Option Nat
  mSampleLen : Nat
  mLoopStart : Nat
  mLoopEnd : Nat
  deriving DecidableEq, Repr

/-- The fields of `Voice`, beside those in `Voice`, that the bookkeeping of
`Voice::mix` reads and writes. `mStartTime` is in nanoseconds; the two flags are
bits of `mFlags`. -/
structure VoiceMixFields where
  mPosition : Int
  mPositionFrac : Nat
  mStep : Nat
  mStartTime : Int
  VoiceIsStatic : Bool
  VoiceIsCallback : Bool
  mSamplesPerBlock : Nat
  mNumCallbackBlocks : Nat
  mCallbackBlockBase : Nat
  deriving DecidableEq, Repr

/-- Ways in which the modelled `Voice::mix` can fail to complete: a dereference of
a null buffer pointer (undefined in the source), or the iteration budget of the
streaming loop running out. -/
inductive MixError where
  | nullDeref
  | outOfFuel
  deriving DecidableEq, Repr

/-- The conversion `static_cast<int>(v)` to a 32-bit `int` (two's complement); also
used for the result of `int` additions and subtractions. -/
def toInt32 (v : Int) : Int := (v + 2147483648) % 4294967296 - 2147483648

/-- Multiplication of two `unsigned int` values (wraps modulo `2^32`). -/
def umul (a b : Nat) : Nat := (a * b) % UIntRange

/-- The constant `MixerFracMask = MixerFracOne - 1`. -/
def MixerFracMask : Nat := MixerFracOne - 1

/-- The position update of `Voice::mix`:
`DataPosFrac += increment*samplesToMix;
 DataPosInt += static_cast<int>(DataPosFrac>>MixerFracBits);
 DataPosFrac &= MixerFracMask;`. Returns `(DataPosInt, DataPosFrac)`. -/
def advancePosition (DataPosInt : Int) (DataPosFrac increment samplesToMix : Nat) :
    Int × Nat :=
  let frac1 := uadd DataPosFrac (umul increment samplesToMix)
  let int1 := toInt32 (DataPosInt + toInt32 ((frac1 >>> MixerFracBits : Nat) : Int))
  (int1, frac1 &&& MixerFracMask)

/-- The value of `round<seconds>(d)` for a non-negative duration of `x` nanoseconds:
the nearest whole number of seconds, ties to the even one (as `std::chrono::round`). -/
def roundToSeconds (x : Int) : Int :=
  let q := x / 1000000000
  let r := x % 1000000000
  if 2 * r < 1000000000 then q
  else if 1000000000 < 2 * r then q + 1
  else if q % 2 = 0 then q else q + 1

/-- The delayed-start check of `Voice::mix` for a voice that is not stopping: `none`
when the function returns without mixing (start a second or more ahead, or beyond
this update), otherwise the output position `OutPos` at which mixing starts. -/
def delayedStart (mStartTime deviceTime : Int) (mSampleRate SamplesToDo : Nat) : Option Nat :=
  if mStartTime > deviceTime then
    let diff := mStartTime - deviceTime
    if diff ≥ 1000000000 then none
    else
      let OutPos := toUInt (roundToSeconds (diff * (mSampleRate : Int)))
      if OutPos ≥ SamplesToDo then none else some OutPos
  else some 0

/-- The item that follows item `b` of a queue: `mNext`, or the loop item when
`mNext` is null. -/
def nextItem (items : Nat → VoiceBufferItem) (BufferLoopItem : Option Nat) (b : Nat) :
    Option Nat :=
  match (items b).mNext with
  | some n => some n
  | none => BufferLoopItem

/-- The loop "Handle streaming source" of `Voice::mix`
(`do { ... } while(BufferListItem);`), entered with a non-null `BufferListItem`.
Arguments after the fuel: the current item, `DataPosInt` and `buffers_done`; the
result has the final `BufferListItem`, `DataPosInt` and `buffers_done`. One unit of
fuel is used per iteration. -/
def streamAdvance (items : Nat → VoiceBufferItem) (BufferLoopItem : Option Nat) :
    Nat → Nat → Int → Nat → Except MixError (Option Nat × Int × Nat)
  | 0, _, _, _ => throw MixError.outOfFuel
  | fuel + 1, item, DataPosInt, buffers_done =>
    if (items item).mSampleLen > toUInt DataPosInt then
      pure (some item, DataPosInt, buffers_done)
    else
      let DataPosInt1 := toInt32 (DataPosInt - toInt32 ((items item).mSampleLen : Int))
      let buffers_done1 := uadd buffers_done 1
      match nextItem items BufferLoopItem item with
      | some n => streamAdvance items BufferLoopItem fuel n DataPosInt1 buffers_done1
      | none => pure (none, DataPosInt1, buffers_done1)

/-- The function `SendSourceStoppedEvent(context, id)` of `core/voice.cpp`. -/
def SendSourceStoppedEvent (ctx : ContextBase) (id : Nat) : ContextBase :=
  if ctx.mAsyncEvents.writeSpace = 0 then ctx
  else
    { ctx with mAsyncEvents :=
        { written := ctx.mAsyncEvents.written ++
            [AsyncEvent.SourceState id (some AsyncSrcState.Stop)],
          writeSpace := ctx.mAsyncEvents.writeSpace - 1 } }

/-- The block of `Voice::mix` that writes an `AsyncBufferCompleteEvent` when the
ring has space. -/
def sendBufferCompleteEvent (ctx : ContextBase) (id count : Nat) : ContextBase :=
  if ctx.mAsyncEvents.writeSpace = 0 then ctx
  else
    { ctx with mAsyncEvents :=
        { written := ctx.mAsyncEvents.written ++ [AsyncEvent.BufferComplete id count],
          writeSpace := ctx.mAsyncEvents.writeSpace - 1 } }

/-- The part of `Voice::mix` after the position update ("Update voice positions and
buffers as needed" without its first three lines): given the advanced position and
the local `BufferListItem` and `BufferLoopItem`, the final `BufferListItem`,
`DataPosInt`, `buffers_done`, `mNumCallbackBlocks` and `mCallbackBlockBase`. -/
def updateBuffers (items : Nat → VoiceBufferItem) (fields : VoiceMixFields)
    (numCallbackBlocks : Nat) (BufferListItem BufferLoopItem : Option Nat)
    (DataPosInt : Int) (fuel : Nat) : Except MixError (Option Nat × Int × Nat × Nat × Nat) :=
  match BufferListItem with
  | none => pure (none, DataPosInt, 0, numCallbackBlocks, fields.mCallbackBlockBase)
  | some b =>
    if DataPosInt > 0 then
      if fields.VoiceIsStatic then
        match BufferLoopItem with
        | some _ =>
          let LoopStart := (items b).mLoopStart
          let LoopEnd := (items b).mLoopEnd
          let DataPosUInt := toUInt DataPosInt
          if DataPosUInt ≥ LoopEnd then
            let wrapped := uadd (usub DataPosUInt LoopStart % usub LoopEnd LoopStart) LoopStart
            pure (some b, toInt32 (wrapped : Int), 0, numCallbackBlocks,
              fields.mCallbackBlockBase)
          else pure (some b, DataPosInt, 0, numCallbackBlocks, fields.mCallbackBlockBase)
        | none =>
          if toUInt DataPosInt ≥ (items b).mSampleLen then
            pure (none, DataPosInt, 0, numCallbackBlocks, fields.mCallbackBlockBase)
          else pure (some b, DataPosInt, 0, numCallbackBlocks, fields.mCallbackBlockBase)
      else if fields.VoiceIsCallback then
        let currentBlock := toUInt DataPosInt / fields.mSamplesPerBlock
        let blocksDone := usub currentBlock fields.mCallbackBlockBase
        if blocksDone < numCallbackBlocks then
          pure (some b, DataPosInt, 0, usub numCallbackBlocks blocksDone,
            uadd fields.mCallbackBlockBase blocksDone)
        else
          pure (none, DataPosInt, 0, 0, uadd fields.mCallbackBlockBase blocksDone)
      else do
        let r ← streamAdvance items BufferLoopItem fuel b DataPosInt 0
        pure (r.1, r.2.1, r.2.2, numCallbackBlocks, fields.mCallbackBlockBase)
    else pure (some b, DataPosInt, 0, numCallbackBlocks, fields.mCallbackBlockBase)

/-- The end of `Voice::mix` ("Update voice info" to the end): stores the position, the
current buffer and, when no buffer is left, a null loop buffer and source id 0; then
sends the buffer-completed event; then, when no buffer is left, sets the play state
to `Stopping` and sends the source-stopped event. `r` holds the final
`BufferListItem`, `DataPosInt`, `buffers_done`, `mNumCallbackBlocks` and
`mCallbackBlockBase`. -/
def storeAndSignal (ctx : ContextBase) (p : Nat) (fields : VoiceMixFields) (DataPosFrac : Nat)
    (r : Option Nat × Int × Nat × Nat × Nat) : ContextBase × VoiceMixFields :=
  let voice := ctx.voices p
  let buffers_done := r.2.2.1
  let SourceID := voice.mSourceID
  let fields1 := { fields with
    mPosition := r.2.1, mPositionFrac := DataPosFrac,
    mNumCallbackBlocks := r.2.2.2.1, mCallbackBlockBase := r.2.2.2.2 }
  let voice1 :=
    match r.1 with
    | some b => { voice with mCurrentBuffer := some b }
    | none => { voice with mCurrentBuffer := none, mLoopBuffer := none, mSourceID := 0 }
  let ctx1 := setVoice ctx p voice1
  let ctx2 :=
    if buffers_done > 0 ∧ ctx.mEnabledEvts AsyncEnableBits.BufferCompleted = true then
      sendBufferCompleteEvent ctx1 SourceID buffers_done
    else ctx1
  match r.1 with
  | some _ => (ctx2, fields1)
  | none =>
    let ctx3 := setVoice ctx2 p { ctx2.voices p with mPlayState := PlayState.Stopping }
    if ctx.mEnabledEvts AsyncEnableBits.SourceState = true then
      (SendSourceStoppedEvent ctx3 SourceID, fields1)
    else (ctx3, fields1)

/-- The bookkeeping of `Voice::mix(vstate, Context, deviceTime, SamplesToDo)` for the
voice at address `p` of the context: the context (voice objects and event ring)
and the voice's further fields afterwards. `items` are the buffer items by address,
`mSampleRate` is the device's; `callbackBlocksLoaded` is the value of
`mNumCallbackBlocks` that the loading stage leaves for a callback voice (the user
callback decides it), and `fuel` bounds the streaming loop. -/
def Voice_mix (vstate : PlayState) (ctx : ContextBase) (p : Nat) (fields : VoiceMixFields)
    (items : Nat → VoiceBufferItem) (deviceTime : Int) (mSampleRate SamplesToDo : Nat)
    (callbackBlocksLoaded fuel : Nat) : Except MixError (ContextBase × VoiceMixFields) :=
  let voice := ctx.voices p
  let stopped := setVoice ctx p { voice with mPlayState := PlayState.Stopped }
  let increment := fields.mStep
  if increment < 1 then
    if vstate = PlayState.Stopping then pure (stopped, fields) else pure (ctx, fields)
  else do
    let BufferListItem := voice.mCurrentBuffer
    let BufferLoopItem ←
      (if fields.VoiceIsStatic ∧ voice.mLoopBuffer.isSome then
        match BufferListItem with
        | some b =>
          if fields.mPosition ≥ ((items b).mLoopEnd : Int) then pure none
          else pure voice.mLoopBuffer
        | none => throw MixError.nullDeref
      else pure voice.mLoopBuffer : Except MixError (Option Nat))
    if fields.mStartTime > deviceTime ∧ vstate = PlayState.Stopping then pure (stopped, fields)
    else
      match delayedStart fields.mStartTime deviceTime mSampleRate SamplesToDo with
      | none => pure (ctx, fields)
      | some OutPos =>
        let samplesToMix := usub SamplesToDo OutPos
        let numCallbackBlocks :=
          if BufferListItem.isSome ∧ ¬ fields.VoiceIsStatic ∧ fields.VoiceIsCallback then
            callbackBlocksLoaded
          else fields.mNumCallbackBlocks
        let loaded := { fields with mNumCallbackBlocks := numCallbackBlocks }
        if vstate = PlayState.Stopping then pure (stopped, loaded)
        else do
          let advanced := advancePosition fields.mPosition fields.mPositionFrac increment
            samplesToMix
          let r ← updateBuffers items fields numCallbackBlocks BufferListItem BufferLoopItem
            advanced.1 fuel
          pure (storeAndSignal ctx p fields advanced.2 r)

/-- The item reached from `cur` after `k` items of the queue have been crossed
(following `mNext`, continuing at the loop item after the last). -/
def itemAfter (items : Nat → VoiceBufferItem) (BufferLoopItem : Option Nat) :
    Option Nat → Nat → Option Nat
  | cur, 0 => cur
  | none, _ + 1 => none
  | some b, k + 1 => itemAfter items BufferLoopItem (nextItem items BufferLoopItem b) k

/-- The total length of the first `k` items of the queue from `cur` on. -/
def crossedLen (items : Nat → VoiceBufferItem) (BufferLoopItem : Option Nat) :
    Option Nat → Nat → Nat
  | _, 0 => 0
  | none, _ + 1 => 0
  | some b, k + 1 =>
    (items b).mSampleLen + crossedLen items BufferLoopItem (nextItem items BufferLoopItem b) k

/-- An example static voice position: sample 90 of a static buffer, step of two
samples per output sample. -/
def exampleStaticFields : VoiceMixFields :=
  { mPosition := 90, mPositionFrac := 0, mStep := 8192, mStartTime := 0,
    VoiceIsStatic := true, VoiceIsCallback := false,
    mSamplesPerBlock := 1, mNumCallbackBlocks := 0, mCallbackBlockBase := 0 }

/-- An example streaming voice position: sample 90 of the current queue item, step
of two samples per output sample. -/
def exampleStreamFields : VoiceMixFields :=
  { mPosition := 90, mPositionFrac := 0, mStep := 8192, mStartTime := 0,
    VoiceIsStatic := false, VoiceIsCallback := false,
    mSamplesPerBlock := 1, mNumCallbackBlocks := 0, mCallbackBlockBase := 0 }

/-- Example buffer items: item 1 (100 samples) is followed by item 2 (20 samples),
which ends the queue; every other address holds a 100-sample item without
successor. -/
def exampleItems : Nat → VoiceBufferItem :=
  fun b =>
    if b = 1 then { mNext := some 2, mSampleLen := 100, mLoopStart := 0, mLoopEnd := 100 }
    else if b = 2 then { mNext := none, mSampleLen := 20, mLoopStart := 0, mLoopEnd := 20 }
    else { mNext := none, mSampleLen := 100, mLoopStart := 0, mLoopEnd := 100 }

/-- An example context for mixing: every voice is playing source 5 from buffer item 1
without loop item, all event kinds are enabled and the ring has four free slots. -/
def exampleMixContext : ContextBase :=
  { voices := fun _ =>
      { mCurrentBuffer := some 1, mLoopBuffer := none, mSourceID := 5,
        mPlayState := PlayState.Playing, mPendingChange := false },
    voiceChanges := [],
    mCurrentVoiceChange := 0,
    mEnabledEvts := fun _ => true,
    mAsyncEvents := { written := [], writeSpace := 4 } }
/-- Example buffer items without samples: every address holds an empty item without
successor. -/
def exampleEmptyItems : Nat → VoiceBufferItem :=
  fun _ => { mNext := none, mSampleLen := 0, mLoopStart := 0, mLoopEnd := 0 }

/-- An example static voice position: the start of a static buffer, with the smallest
step (`1/4096` of a sample per output sample). -/
def exampleStartFields : VoiceMixFields :=
  { mPosition := 0, mPositionFrac := 0, mStep := 1, mStartTime := 0,
    VoiceIsStatic := true, VoiceIsCallback := false,
    mSamplesPerBlock := 1, mNumCallbackBlocks := 0, mCallbackBlockBase := 0 }

/-- An example callback voice that has consumed `2^31 - 2048` samples: one sample per
block and per output sample, 1024 blocks left from the last callback. -/
def exampleCallbackFields : VoiceMixFields :=
  { mPosition := 2147481600, mPositionFrac := 0, mStep := 4096, mStartTime := 0,
    VoiceIsStatic := false, VoiceIsCallback := true,
    mSamplesPerBlock := 1, mNumCallbackBlocks := 1024, mCallbackBlockBase := 2147481600 }

/-! ## Distance attenuation, gain and doppler in `CalcAttnSourceParams` (`alc/alu.cpp`)

Finite `float` values are embedded as rationals and the arithmetic is exact. The
vector and angle computations (`normalize`, `dot_product`, `std::acos`) are not
embedded: their `float` results `Distance`, `directional`, `Angle` and the two dot
products with `ToSource` are inputs. -/

/-- The enumeration `DistanceModel`. -/
inductive DistanceModel where
  | InverseClamped
  | LinearClamped
  | ExponentClamped
  | Inverse
  | Linear
  | Exponent
  | Disable
  deriving DecidableEq, Repr

/-- The fields of `VoiceProps` read by the distance, cone, gain and doppler
computations of `CalcAttnSourceParams`; `DirectGain` is `Direct.Gain`. -/
structure VoiceProps where
  Pitch : ℚ
  Gain : ℚ
  MinGain : ℚ
  MaxGain : ℚ
  DirectGain : ℚ
  InnerAngle : ℚ
  OuterAngle : ℚ
  OuterGain : ℚ
  RefDistance : ℚ
  MaxDistance : ℚ
  RolloffFactor : ℚ
  DopplerFactor : ℚ
  mDistanceModel : DistanceModel

/-- The fields of `context->mParams` read by the same computations. -/
structure ContextParams where
  Gain : ℚ
  DopplerFactor : ℚ
  SpeedOfSound : ℚ
  SourceDistanceModel : Bool
  mDistanceModel : DistanceModel

/-- Modelled from the spec: `lerpf` (declared outside the embedded sources). The spec
writes the inverse model as `refDist / lerp(refDist, attDist, rolloff)`, the linear
interpolation from the first value to the second. -/
def lerpf (val1 val2 mu : ℚ) : ℚ := val1 + (val2 - val1) * mu

/-- The local `DistanceModel` of `CalcAttnSourceParams`:
`context->mParams.SourceDistanceModel ? props.mDistanceModel
 : context->mParams.mDistanceModel`. -/
def selectDistanceModel (props : VoiceProps) (params : ContextParams) : DistanceModel :=
  if params.SourceDistanceModel then props.mDistanceModel else params.mDistanceModel

/-- The local `AttenDistance` of `CalcAttnSourceParams` (the lambda with the `switch`
over the distance model). -/
def AttenDistance (model : DistanceModel) (Distance : ℚ) (props : VoiceProps) : ℚ :=
  match model with
  | DistanceModel.InverseClamped | DistanceModel.LinearClamped
  | DistanceModel.ExponentClamped =>
    if ¬ (props.RefDistance ≤ props.MaxDistance) then props.RefDistance
    else clamp Distance props.RefDistance props.MaxDistance
  | DistanceModel.Inverse | DistanceModel.Linear | DistanceModel.Exponent
  | DistanceModel.Disable => Distance

/-- The values that the distance-model `switch` of `CalcAttnSourceParams` leaves:
`DryAttnBase`, `DryGain.Base` and `WetGain[i].Base` for the first `NumSends` sends. -/
structure DistanceGains where
  DryAttnBase : ℚ
  DryGainBase : ℚ
  WetGainBase : List ℚ
  deriving DecidableEq

/-- The `switch(DistanceModel)` that computes `DryAttnBase` and scales `DryGain.Base`
and the send gains, all starting at `props.Gain`. `pow` is `std::pow` on `float`;
`RoomRolloff` holds the entries of the array of that name for the first `NumSends`
sends. -/
def distanceAttenuation (pow : ℚ → ℚ → ℚ) (model : DistanceModel) (AttenDistance : ℚ)
    (props : VoiceProps) (RoomRolloff : List ℚ) : DistanceGains :=
  let unchanged : DistanceGains :=
    { DryAttnBase := 1, DryGainBase := props.Gain,
      WetGainBase := RoomRolloff.map (fun _ => props.Gain) }
  match model with
  | DistanceModel.Inverse | DistanceModel.InverseClamped =>
    if props.RefDistance > 0 then
      let dist := lerpf props.RefDistance AttenDistance props.RolloffFactor
      let wet := RoomRolloff.map (fun rolloff =>
        let dist := lerpf props.RefDistance AttenDistance rolloff
        if dist > 0 then props.Gain * (props.RefDistance / dist) else props.Gain)
      if dist > 0 then
        { DryAttnBase := props.RefDistance / dist,
          DryGainBase := props.Gain * (props.RefDistance / dist),
          WetGainBase := wet }
      else { DryAttnBase := 1, DryGainBase := props.Gain, WetGainBase := wet }
    else unchanged
  | DistanceModel.Linear | DistanceModel.LinearClamped =>
    if props.MaxDistance ≠ props.RefDistance then
      let scale := (AttenDistance - props.RefDistance) / (props.MaxDistance - props.RefDistance)
      let DryAttnBase := max (1 - scale * props.RolloffFactor) 0
      { DryAttnBase := DryAttnBase,
        DryGainBase := props.Gain * DryAttnBase,
        WetGainBase := RoomRolloff.map (fun rolloff =>
          props.Gain * max (1 - scale * rolloff) 0) }
    else unchanged
  | DistanceModel.Exponent | DistanceModel.ExponentClamped =>
    if AttenDistance > 0 ∧ props.RefDistance > 0 then
      let dist_ratio := AttenDistance / props.RefDistance
      let DryAttnBase := pow dist_ratio (-props.RolloffFactor)
      { DryAttnBase := DryAttnBase,
        DryGainBase := props.Gain * DryAttnBase,
        WetGainBase := RoomRolloff.map (fun rolloff =>
          props.Gain * pow dist_ratio (-rolloff)) }
    else unchanged
  | DistanceModel.Disable => unchanged

/-- The effect of the block "Calculate directional soundcones" on `DryGain.Base`.
`Angle` is the `float` value of
`Rad2Deg*2.0f * std::acos(-Direction.dot_product(ToSource)) * ConeScale`. -/
def applyCone (props : VoiceProps) (directional : Bool) (Angle DryGainBase : ℚ) : ℚ :=
  if directional = true ∧ props.InnerAngle < 360 then
    let ConeGain :=
      if Angle ≥ props.OuterAngle then props.OuterGain
      else if Angle ≥ props.InnerAngle then
        let scale := (Angle - props.InnerAngle) / (props.OuterAngle - props.InnerAngle)
        lerpf 1 props.OuterGain scale
      else 1
    DryGainBase * ConeGain
  else DryGainBase

/-- The two assignments to `DryGain.Base` of the block "Apply gain and frequency
filters". `GainMixMax` is a constant declared outside the embedded sources. -/
def applyGainLimits (GainMixMax : ℚ) (props : VoiceProps) (params : ContextParams)
    (DryGainBase : ℚ) : ℚ :=
  let MinGain := min props.MinGain props.MaxGain
  let MaxGain := props.MaxGain
  let DryGainBase1 := clamp DryGainBase MinGain MaxGain * props.DirectGain
  min GainMixMax (DryGainBase1 * params.Gain)

/-- The value of `DryGain.Base` that `CalcAttnSourceParams` passes on to
`CalcPanningAndFilters`. -/
def CalcAttnSourceParams_DryGainBase (pow : ℚ → ℚ → ℚ) (GainMixMax : ℚ) (props : VoiceProps)
    (params : ContextParams) (Distance : ℚ) (directional : Bool) (Angle : ℚ)
    (RoomRolloff : List ℚ) : ℚ :=
  let model := selectDistanceModel props params
  let atten := AttenDistance model Distance props
  let gains := distanceAttenuation pow model atten props RoomRolloff
  applyGainLimits GainMixMax props params (applyCone props directional Angle gains.DryGainBase)

/-- A `float` pitch value that is finite or positive infinity. -/
inductive PitchValue where
  | finite (v : ℚ)
  | infinity
  deriving DecidableEq

/-- The local `Pitch` of `CalcAttnSourceParams` after the block "Calculate
velocity-based doppler effect". `velocityDot` and `lvelocityDot` are the `float`
values of `Velocity.dot_product(ToSource)` and `lvelocity.dot_product(ToSource)`. The
products, differences and the quotient are exact here; the source rounds each of
them to `float`, which `CalcAttnSourceParams_Pitch_rounded` follows. -/
def CalcAttnSourceParams_Pitch (props : VoiceProps) (params : ContextParams)
    (velocityDot lvelocityDot : ℚ) : PitchValue :=
  let DopplerFactor := props.DopplerFactor * params.DopplerFactor
  if DopplerFactor > 0 then
    let vss := velocityDot * -DopplerFactor
    let vls := lvelocityDot * -DopplerFactor
    let SpeedOfSound := params.SpeedOfSound
    if ¬ (vls < SpeedOfSound) then PitchValue.finite 0
    else if ¬ (vss < SpeedOfSound) then PitchValue.infinity
    else PitchValue.finite (props.Pitch * ((SpeedOfSound - vls) / (SpeedOfSound - vss)))
  else PitchValue.finite props.Pitch

/-- The value `voice->mStep` set by `CalcAttnSourceParams` from the doppler-adjusted
pitch and `freqScale`, the `float` value of
`static_cast<float>(voice->mFrequency) / static_cast<float>(Device->mSampleRate)`.
An infinite pitch times a positive ratio is infinite and exceeds `MaxPitch`; times
another ratio it is not a number or negative, which the sources hand to `fastf2u`:
`none`. -/
def CalcAttnSourceParams_step (Pitch : PitchValue) (freqScale : ℚ) : Option Nat :=
  match Pitch with
  | PitchValue.finite v => some (CalcAttnSourceParams_mStep (v * freqScale))
  | PitchValue.infinity => if freqScale > 0 then some (MaxPitch <<< MixerFracBits) else none

/-! ## Rounding to `float` -/

/-- The integer nearest to `q`, ties to the even one. -/
def nearestEven (q : ℚ) : Int :=
  if Int.fract q < 1 / 2 then Int.floor q
  else if 1 / 2 < Int.fract q then Int.floor q + 1
  else if Int.floor q % 2 = 0 then Int.floor q
  else Int.floor q + 1

/-- The binary32 (`float`) value nearest to `q`, ties to the even significand, for
`q` below `2^128` in size: the result of a `float` operation whose exact result is
`q`, in the default rounding of IEEE 754. The significand has 24 bits, so that the
values from `2^e` up to `2^(e+1)` are the multiples of `2^(e-23)`; below `2^-126`
they are the multiples of `2^-149`. -/
def roundBinary32 (q : ℚ) : ℚ :=
  let e := max (Int.log 2 |q|) (-126)
  (nearestEven (q / 2 ^ (e - 23)) : ℚ) * 2 ^ (e - 23)

/-- The local `Pitch` of `CalcAttnSourceParams` after the block "Calculate
velocity-based doppler effect" with the roundings of its `float` operations: `fl`
gives the `float` result of an operation from its exact result. With `roundBinary32`
this is the arithmetic of the source; with the identity it is
`CalcAttnSourceParams_Pitch`. -/
def CalcAttnSourceParams_Pitch_rounded (fl : ℚ → ℚ) (props : VoiceProps)
    (params : ContextParams) (velocityDot lvelocityDot : ℚ) : PitchValue :=
  let DopplerFactor := fl (props.DopplerFactor * params.DopplerFactor)
  if DopplerFactor > 0 then
    let vss := fl (velocityDot * -DopplerFactor)
    let vls := fl (lvelocityDot * -DopplerFactor)
    let SpeedOfSound := params.SpeedOfSound
    if ¬ (vls < SpeedOfSound) then PitchValue.finite 0
    else if ¬ (vss < SpeedOfSound) then PitchValue.infinity
    else
      PitchValue.finite
        (fl (props.Pitch * fl (fl (SpeedOfSound - vls) / fl (SpeedOfSound - vss))))
  else PitchValue.finite props.Pitch

/-- The power with the exponent rounded down to an integer: stands in for `std::pow`
in examples, and agrees with it on integer exponents. -/
def examplePow (x y : ℚ) : ℚ := x ^ Int.floor y

/-- Example source properties: gain 1/2, unbounded by the gain limits 0 and 1,
reference distance 1, maximal distance 10, rolloff 1, pitch 1, doppler factor 1,
a cone of 90 to 180 degrees, inverse distance model. -/
def exampleProps : VoiceProps :=
  { Pitch := 1, Gain := 1 / 2, MinGain := 0, MaxGain := 1, DirectGain := 1,
    InnerAngle := 90, OuterAngle := 180, OuterGain := 0,
    RefDistance := 1, MaxDistance := 10, RolloffFactor := 1, DopplerFactor := 1,
    mDistanceModel := DistanceModel.Inverse }

/-- Example context parameters: gain 1, doppler factor 1, speed of sound 343, the
source's own distance model in use. -/
def exampleParams : ContextParams :=
  { Gain := 1, DopplerFactor := 1, SpeedOfSound := 343, SourceDistanceModel := true,
    mDistanceModel := DistanceModel.InverseClamped }

/-! ## Gain triplets of `CalcNonAttnSourceParams` and `CalcAttnSourceParams`

The triplets `DryGain` and `WetGain[i]` that the two functions hand to
`CalcPanningAndFilters`. Constants declared outside the embedded sources
(`GainMixMax`, `ReverbDecayGain`, `SpeedOfSoundMetersPerSec`) are parameters, and
`pow` is `std::pow` on `float`. -/

/-- The structure `GainTriplet`. -/
structure GainTriplet where
  Base : ℚ
  HF : ℚ
  LF : ℚ
  deriving DecidableEq

/-- The fields of `EffectSlot` read by the gain computations. -/
structure EffectSlot where
  RoomRolloff : ℚ
  DecayTime : ℚ
  AirAbsorptionGainHF : ℚ
  deriving DecidableEq

/-- The data of one send: the gains of `VoiceProps::SendData` and the entry
`SendSlots[i]`, which is null when the send has no slot or its slot's effect type
is `None`. -/
structure SendData where
  Slot : Option EffectSlot
  Gain : ℚ
  GainHF : ℚ
  GainLF : ℚ
  deriving DecidableEq

/-- Further fields of `VoiceProps` read by the gain computations; `DirectGainHF` and
`DirectGainLF` are `Direct.GainHF` and `Direct.GainLF`, and `Send` holds the first
`NumSends` sends. -/
structure VoiceGainProps where
  OuterGainHF : ℚ
  DryGainHFAuto : Bool
  WetGainAuto : Bool
  WetGainHFAuto : Bool
  DirectGainHF : ℚ
  DirectGainLF : ℚ
  RoomRolloffFactor : ℚ
  AirAbsorptionFactor : ℚ
  Send : List SendData

/-- Further fields of `context->mParams` read by the gain computations. -/
structure ContextGainParams where
  MetersPerUnit : ℚ
  AirAbsorptionGainHF : ℚ

/-- The triplets handed to `CalcPanningAndFilters`: `DryGain` and the first
`NumSends` entries of `WetGain`. -/
structure SourceGains where
  DryGain : GainTriplet
  WetGain : List GainTriplet

/-- The block "Calculate gains" of `CalcNonAttnSourceParams`. -/
def CalcNonAttnSourceParams_gains (GainMixMax : ℚ) (props : VoiceProps)
    (gprops : VoiceGainProps) (params : ContextParams) : SourceGains :=
  let MinGain := min props.MinGain props.MaxGain
  let srcgain := clamp props.Gain MinGain props.MaxGain
  { DryGain :=
      { Base := min GainMixMax (srcgain * props.DirectGain * params.Gain),
        HF := gprops.DirectGainHF,
        LF := gprops.DirectGainLF },
    WetGain := gprops.Send.map (fun send =>
      { Base := min GainMixMax (srcgain * send.Gain * params.Gain),
        HF := send.GainHF,
        LF := send.GainLF }) }

/-- The array `RoomRolloff` of `CalcAttnSourceParams` for the first `NumSends` sends:
the sum of the source's and the slot's room rolloff for a send with a slot, and the
initial 0 otherwise. -/
def RoomRolloff (gprops : VoiceGainProps) : List ℚ :=
  gprops.Send.map (fun send =>
    match send.Slot with
    | some slot => gprops.RoomRolloffFactor + slot.RoomRolloff
    | none => 0)

/-- The locals `ConeGain` and `ConeHF` of the block "Calculate directional
soundcones", for a directional source with `InnerAngle < 360`. -/
def coneGains (props : VoiceProps) (gprops : VoiceGainProps) (Angle : ℚ) : ℚ × ℚ :=
  if Angle ≥ props.OuterAngle then (props.OuterGain, gprops.OuterGainHF)
  else if Angle ≥ props.InnerAngle then
    let scale := (Angle - props.InnerAngle) / (props.OuterAngle - props.InnerAngle)
    (lerpf 1 props.OuterGain scale, lerpf 1 gprops.OuterGainHF scale)
  else (1, 1)

/-- What the block "Calculate directional soundcones" leaves: `DryGain.Base`,
`DryGain.HF`, `WetCone` and `WetConeHF`. -/
structure ConeStage where
  DryGainBase : ℚ
  DryGainHF : ℚ
  WetCone : ℚ
  WetConeHF : ℚ
  deriving DecidableEq

/-- The block "Calculate directional soundcones" of `CalcAttnSourceParams`, entered
with `DryGain.Base` from the distance stage and `DryGain.HF = 1`. `Angle` is the
`float` value of `Rad2Deg*2.0f * std::acos(-Direction.dot_product(ToSource)) *
ConeScale`. -/
def coneStage (props : VoiceProps) (gprops : VoiceGainProps) (directional : Bool)
    (Angle DryGainBase : ℚ) : ConeStage :=
  if directional = true ∧ props.InnerAngle < 360 then
    let cone := coneGains props gprops Angle
    { DryGainBase := DryGainBase * cone.1,
      DryGainHF := if gprops.DryGainHFAuto then 1 * cone.2 else 1,
      WetCone := if gprops.WetGainAuto then cone.1 else 1,
      WetConeHF := if gprops.WetGainHFAuto then cone.2 else 1 }
  else { DryGainBase := DryGainBase, DryGainHF := 1, WetCone := 1, WetConeHF := 1 }

/-- The lambda of the block "Apply gain and frequency filters" that computes the
triplet of one send from its data and its gain after the distance stage. -/
def sendGain (GainMixMax : ℚ) (props : VoiceProps) (params : ContextParams)
    (WetCone WetConeHF : ℚ) (send : SendData) (wetgainBase : ℚ) : GainTriplet :=
  let MinGain := min props.MinGain props.MaxGain
  let MaxGain := props.MaxGain
  let gain := clamp (wetgainBase * WetCone) MinGain MaxGain * send.Gain
  { Base := min GainMixMax (gain * params.Gain),
    HF := send.GainHF * WetConeHF,
    LF := send.GainLF }

/-- The constant `std::numeric_limits<float>::epsilon()`. -/
def floatEpsilon : ℚ := 1 / 8388608

/-- The body of the loop over the sends in the block "Distance-based air absorption
and initial send decay" for one send: the triplet of a send without slot or
without positive decay time is kept; otherwise its `HF` takes the slot's air
absorption and its `Base` is multiplied by the decay gain. -/
def sendDecay (pow : ℚ → ℚ → ℚ) (ReverbDecayGain SpeedOfSoundMetersPerSec : ℚ)
    (DryAttnBase distance_meters absorb : ℚ) (wetgain : GainTriplet) (send : SendData) :
    GainTriplet :=
  match send.Slot with
  | none => wetgain
  | some slot =>
    if ¬ (slot.DecayTime > 0) then wetgain
    else
      let HF :=
        if slot.AirAbsorptionGainHF < 1 ∧ absorb > floatEpsilon then
          wetgain.HF * pow slot.AirAbsorptionGainHF absorb
        else wetgain.HF
      let DecayDistance := slot.DecayTime * SpeedOfSoundMetersPerSec
      let baseAttn := DryAttnBase
      let fact := distance_meters / DecayDistance
      let gain := pow ReverbDecayGain fact * (1 - baseAttn) + baseAttn
      { Base := wetgain.Base * gain, HF := HF, LF := wetgain.LF }

/-- The block "Distance-based air absorption and initial send decay" of
`CalcAttnSourceParams`. -/
def decayStage (pow : ℚ → ℚ → ℚ) (ReverbDecayGain SpeedOfSoundMetersPerSec : ℚ)
    (props : VoiceProps) (gprops : VoiceGainProps) (cparams : ContextGainParams)
    (Distance DryAttnBase : ℚ) (gains : SourceGains) : SourceGains :=
  if Distance > props.RefDistance then
    let distance_units := (Distance - props.RefDistance) * props.RolloffFactor
    let distance_meters := distance_units * cparams.MetersPerUnit
    let absorb := distance_meters * gprops.AirAbsorptionFactor
    let DryGain :=
      if absorb > floatEpsilon then
        { gains.DryGain with
          HF := gains.DryGain.HF * pow cparams.AirAbsorptionGainHF absorb }
      else gains.DryGain
    let WetGain :=
      if gprops.WetGainAuto then
        List.zipWith
          (sendDecay pow ReverbDecayGain SpeedOfSoundMetersPerSec DryAttnBase distance_meters
            absorb)
          gains.WetGain gprops.Send
      else gains.WetGain
    { DryGain := DryGain, WetGain := WetGain }
  else gains

/-- The triplets that `CalcAttnSourceParams` has computed before the decay block:
distance stage, cone stage and the block "Apply gain and frequency filters". -/
def CalcAttnSourceParams_limitedGains (pow : ℚ → ℚ → ℚ) (GainMixMax : ℚ) (props : VoiceProps)
    (gprops : VoiceGainProps) (params : ContextParams) (Distance : ℚ) (directional : Bool)
    (Angle : ℚ) : SourceGains :=
  let model := selectDistanceModel props params
  let atten := AttenDistance model Distance props
  let dist := distanceAttenuation pow model atten props (RoomRolloff gprops)
  let cone := coneStage props gprops directional Angle dist.DryGainBase
  { DryGain :=
      { Base := applyGainLimits GainMixMax props params cone.DryGainBase,
        HF := cone.DryGainHF * gprops.DirectGainHF,
        LF := gprops.DirectGainLF },
    WetGain := List.zipWith (sendGain GainMixMax props params cone.WetCone cone.WetConeHF)
      gprops.Send dist.WetGainBase }

/-- The triplets `DryGain` and `WetGain` that `CalcAttnSourceParams` hands to
`CalcPanningAndFilters`. -/
def CalcAttnSourceParams_gains (pow : ℚ → ℚ → ℚ)
    (GainMixMax ReverbDecayGain SpeedOfSoundMetersPerSec : ℚ) (props : VoiceProps)
    (gprops : VoiceGainProps) (params : ContextParams) (cparams : ContextGainParams)
    (Distance : ℚ) (directional : Bool) (Angle : ℚ) : SourceGains :=
  let model := selectDistanceModel props params
  let atten := AttenDistance model Distance props
  let dist := distanceAttenuation pow model atten props (RoomRolloff gprops)
  decayStage pow ReverbDecayGain SpeedOfSoundMetersPerSec props gprops cparams Distance
    dist.DryAttnBase
    (CalcAttnSourceParams_limitedGains pow GainMixMax props gprops params Distance directional
      Angle)

/-- Example source properties for the decay block: as `exampleProps`, but with the
linear distance model, reference distance 2 and maximal distance 1. -/
def exampleLinearProps : VoiceProps :=
  { exampleProps with
    Gain := 1, RefDistance := 2, MaxDistance := 1,
    mDistanceModel := DistanceModel.Linear }

/-- Example send and flag properties: one send of gain 1 into a slot with decay time 1
and no room rolloff, all automatic gain flags set. -/
def exampleGainProps : VoiceGainProps :=
  { OuterGainHF := 1 / 2, DryGainHFAuto := true, WetGainAuto := true, WetGainHFAuto := true,
    DirectGainHF := 1, DirectGainLF := 1, RoomRolloffFactor := 0, AirAbsorptionFactor := 0,
    Send := [{ Slot := some { RoomRolloff := 0, DecayTime := 1, AirAbsorptionGainHF := 1 },
               Gain := 1, GainHF := 1, GainLF := 1 }] }

/-- Example context parameters with a listener gain of 1000. -/
def exampleLoudParams : ContextParams :=
  { exampleParams with Gain := 1000 }

/-! ## Device disconnection: `DeviceBase::doDisconnect` (`alc/alu.cpp`) -/

/-- A context as `doDisconnect` sees it: the parts in `ContextBase`, the flag
`mStopVoicesOnDisconnect`, and the addresses of the voices in the span that
`getVoicesSpanAcquired()` returns. The flag `mEventsPending` and its notification
are not part of the embedding. -/
structure DeviceContext where
  base : ContextBase
  mStopVoicesOnDisconnect : Bool
  voicesSpan : List Nat

/-- The parts of `DeviceBase` that `doDisconnect` touches: the flag `Connected` and
the contexts in the array `mContexts`. -/
structure DeviceBase where
  Connected : Bool
  mContexts : List DeviceContext

/-- Modelled from the spec: `RingBuffer::write` of a single event (declared outside
the embedded sources): the event is committed when the bounded ring has a free
slot, and dropped otherwise. -/
def ringWrite (ring : RingBuffer) (evt : AsyncEvent) : RingBuffer :=
  if ring.writeSpace = 0 then ring
  else { written := ring.written ++ [evt], writeSpace := ring.writeSpace - 1 }

/-- The lambda that `doDisconnect` applies to one voice. -/
def stopVoice (voice : Voice) : Voice :=
  { voice with
    mCurrentBuffer := none, mLoopBuffer := none, mSourceID := 0,
    mPlayState := PlayState.Stopped }

/-- The call `std::ranges::for_each(ctx->getVoicesSpanAcquired(), ...)` of
`doDisconnect`. -/
def stopVoices (ctx : ContextBase) : List Nat → ContextBase
  | [] => ctx
  | p :: rest => stopVoices (setVoice ctx p (stopVoice (ctx.voices p))) rest

/-- The body of the loop of `doDisconnect` for one context; `none` is a null
dereference inside `ProcessVoiceChanges`. -/
def disconnectContext (msg : String) (ctx : DeviceContext) : Option DeviceContext :=
  let base1 : ContextBase :=
    { ctx.base with
      mAsyncEvents := ringWrite ctx.base.mAsyncEvents (AsyncEvent.Disconnect msg) }
  if ¬ (ctx.mStopVoicesOnDisconnect = true) then
    match ProcessVoiceChanges base1 with
    | some base2 => some { ctx with base := base2 }
    | none => none
  else some { ctx with base := stopVoices base1 ctx.voicesSpan }

/-- The loop `for(auto *ctx : *mContexts.load())` of `doDisconnect`. -/
def disconnectContexts (msg : String) : List DeviceContext → Option (List DeviceContext)
  | [] => some []
  | ctx :: rest =>
    match disconnectContext msg ctx with
    | some ctx1 =>
      match disconnectContexts msg rest with
      | some rest1 => some (ctx1 :: rest1)
      | none => none
    | none => none

/-- The function `DeviceBase::doDisconnect(msg)`, under the mix lock: the exchange on
`Connected` stores `false` and the contexts are handled when it was `true`. -/
def doDisconnect (dev : DeviceBase) (msg : String) : Option DeviceBase :=
  if dev.Connected = true then
    match disconnectContexts msg dev.mContexts with
    | some ctxs => some { Connected := false, mContexts := ctxs }
    | none => none
  else some { dev with Connected := false }

/-- An example device: connected, with one context that stops its voices 3 and 4 on
disconnection and one that does not and has no pending voice change. -/
def exampleDevice : DeviceBase :=
  { Connected := true,
    mContexts :=
      [{ base := exampleContext, mStopVoicesOnDisconnect := true, voicesSpan := [3, 4] },
       { base := exampleContext, mStopVoicesOnDisconnect := false, voicesSpan := [3, 4] }] }

/-! ## Dithering: `dither_rng` and `ApplyDither` (`alc/alu.cpp`) -/

/-- The function `dither_rng(seed)`: the new value of `*seed`, which is also the
value returned. -/
def dither_rng (seed : Nat) : Nat := uadd (umul seed 96314165) 907633515

/-- The constant `invRNGRange = 1.0 / std::numeric_limits<uint>::max()`. -/
def invRNGRange : ℚ := 1 / 4294967295

/-- Modelled from the spec: `fast_roundf` (declared outside the embedded sources).
The spec says the dither stage does "round": to the nearest integer, ties to even,
as `fastf2i`. -/
def fast_roundf (f : ℚ) : ℚ := (fastf2i f : ℚ)

/-- The lambda `dither_sample` of `ApplyDither` with the captured `seed` made
explicit: the dithered sample and the seed afterwards. The `double` products, the
cast to `float` and the `float` sum are taken in exact arithmetic, without their
roundings. -/
def dither_sample (quant_scale : ℚ) (seed : Nat) (sample : ℚ) : ℚ × Nat :=
  let invscale := 1 / quant_scale
  let val := sample * quant_scale
  let rng0 := dither_rng seed
  let rng1 := dither_rng rng0
  let val1 := val + ((rng0 : ℚ) * invRNGRange - (rng1 : ℚ) * invRNGRange)
  (fast_roundf val1 * invscale, rng1)

/-- The call `std::ranges::transform(..., dither_sample)` over a run of samples, in
order: the dithered samples and the seed afterwards. -/
def ditherSamples (quant_scale : ℚ) : Nat → List ℚ → List ℚ × Nat
  | seed, [] => ([], seed)
  | seed, sample :: rest =>
    let r := dither_sample quant_scale seed sample
    let rs := ditherSamples quant_scale r.2 rest
    (r.1 :: rs.1, rs.2)

/-- The loop of `ApplyDither` over the channel lines: the first `SamplesToDo` samples
of each line are dithered in place. -/
def ditherLines (quant_scale : ℚ) (SamplesToDo : Nat) : Nat → List (List ℚ) → List (List ℚ) × Nat
  | seed, [] => ([], seed)
  | seed, inout :: rest =>
    let r := ditherSamples quant_scale seed (inout.take SamplesToDo)
    let rs := ditherLines quant_scale SamplesToDo r.2 rest
    ((r.1 ++ inout.drop SamplesToDo) :: rs.1, rs.2)

/-- The function `ApplyDither(Samples, dither_seed, quant_scale, SamplesToDo)`: the
lines and `*dither_seed` afterwards. -/
def ApplyDither (Samples : List (List ℚ)) (dither_seed : Nat) (quant_scale : ℚ)
    (SamplesToDo : Nat) : List (List ℚ) × Nat :=
  ditherLines quant_scale SamplesToDo dither_seed Samples

/-! ## Property hand-off: `CalcSourceParams` (`alc/alu.cpp`)

Atomics are embedded sequentially. The type `Props` stands for `VoiceProps` and
`State` for what else the voice holds (format, step, gains, filters), which is
what `CalcNonAttnSourceParams` and `CalcAttnSourceParams` write; both read
`voice->mProps` through a `const` reference and touch neither it nor `mUpdate`. -/

/-- The enumeration `DirectMode`. -/
inductive DirectMode where
  | Off
  | DropMismatch
  | RemixMismatch
  deriving DecidableEq, Repr

/-- The enumeration `SpatializeMode`. -/
inductive SpatializeMode where
  | Off
  | On
  | Auto
  deriving DecidableEq, Repr

/-- The fields of `VoiceProps` that `CalcSourceParams` itself reads. -/
structure SourceModeProps where
  DirectChannels : DirectMode
  mSpatializeMode : SpatializeMode
  mPanningEnabled : Bool
  deriving DecidableEq, Repr

/-- A property object `VoicePropsItem`: the `VoiceProps` fields and the `next` link of
the free list (an address, `none` being `nullptr`). -/
structure VoicePropsItem (Props : Type) where
  props : Props
  next : Option Nat

/-- A voice as `CalcSourceParams` sees it: the pointer `mUpdate`, the copy `mProps`,
whether `mFmtChannels` is `FmtMono`, whether `IsAmbisonic(mFmtChannels)` holds, and
the remaining state. -/
structure ParamVoice (Props State : Type) where
  mUpdate : Option Nat
  mProps : Props
  isFmtMono : Bool
  isAmbisonic : Bool
  state : State

/-- A context as `CalcSourceParams` sees it: the property objects by address and the
head `mFreeVoiceProps` of the free list. -/
structure ParamContext (Props : Type) where
  items : Nat → VoicePropsItem Props
  mFreeVoiceProps : Option Nat

/-- Modelled from the spec: `AtomicReplaceHead(head, newhead)` (declared outside the
embedded sources), the push onto "a lock-free treiber stack": the new head's `next`
becomes the old head and the head becomes the new object. -/
def AtomicReplaceHead {Props : Type} (ctx : ParamContext Props) (newhead : Nat) :
    ParamContext Props :=
  { items := fun a =>
      if a = newhead then { ctx.items newhead with next := ctx.mFreeVoiceProps }
      else ctx.items a,
    mFreeVoiceProps := some newhead }

/-- The part of `CalcSourceParams` after the hand-off: the choice between
`CalcNonAttnSourceParams` and `CalcAttnSourceParams`. `mode` reads the fields of
`VoiceProps` named in `SourceModeProps`; `calcNonAttn` and `calcAttn` are the
effects of the two functions on the remaining voice state. -/
def CalcSourceParams_select {Props State : Type} (mode : Props → SourceModeProps)
    (calcNonAttn calcAttn : Props → State → State)
    (voice : ParamVoice Props State) : ParamVoice Props State :=
  let props := mode voice.mProps
  let ismono3d := voice.isFmtMono && !props.mPanningEnabled
  if (props.DirectChannels ≠ DirectMode.Off ∧ ismono3d = false ∧ voice.isAmbisonic = false)
      ∨ props.mSpatializeMode = SpatializeMode.Off
      ∨ (props.mSpatializeMode = SpatializeMode.Auto ∧ ismono3d = false) then
    { voice with state := calcNonAttn voice.mProps voice.state }
  else { voice with state := calcAttn voice.mProps voice.state }

/-- The function `CalcSourceParams(voice, context, force)`. -/
def CalcSourceParams {Props State : Type} (mode : Props → SourceModeProps)
    (calcNonAttn calcAttn : Props → State → State)
    (voice : ParamVoice Props State) (context : ParamContext Props) (force : Bool) :
    ParamVoice Props State × ParamContext Props :=
  match voice.mUpdate with
  | some props =>
    let voice1 := { voice with mUpdate := none, mProps := (context.items props).props }
    (CalcSourceParams_select mode calcNonAttn calcAttn voice1, AtomicReplaceHead context props)
  | none =>
    if force = false then (voice, context)
    else (CalcSourceParams_select mode calcNonAttn calcAttn voice, context)

/-- An example context for the property hand-off: the property object at address `a`
holds the number `a`, nothing is linked, and object 9 heads the free list. -/
def exampleParamContext : ParamContext Nat :=
  { items := fun a => { props := a, next := none }, mFreeVoiceProps := some 9 }

/-- An example voice for the property hand-off: property object 7 is published, the
voice still holds the properties 1. -/
def exampleParamVoice : ParamVoice Nat Nat :=
  { mUpdate := some 7, mProps := 1, isFmtMono := true, isAmbisonic := false, state := 0 }

/-- An example reading of the mode fields: direct channels off, spatialization on. -/
def exampleMode : Nat → SourceModeProps :=
  fun _ =>
    { DirectChannels := DirectMode.Off, mSpatializeMode := SpatializeMode.On,
      mPanningEnabled := false }

/-! ## Resampler option: `Voice::InitMixer` (`core/voice.cpp`) -/

/-- The enumeration `Resampler`. -/
inductive Resampler where
  | Point
  | Linear
  | Spline
  | Gaussian
  | FastBSinc12
  | BSinc12
  | FastBSinc24
  | BSinc24
  | FastBSinc48
  | BSinc48
  deriving DecidableEq, Repr

/-- The table `ResamplerList` of `Voice::InitMixer`. -/
def ResamplerList : List (String × Resampler) :=
  [("none", Resampler.Point),
   ("point", Resampler.Point),
   ("linear", Resampler.Linear),
   ("spline", Resampler.Spline),
   ("gaussian", Resampler.Gaussian),
   ("bsinc12", Resampler.BSinc12),
   ("fast_bsinc12", Resampler.FastBSinc12),
   ("bsinc24", Resampler.BSinc24),
   ("fast_bsinc24", Resampler.FastBSinc24),
   ("bsinc48", Resampler.BSinc48),
   ("fast_bsinc48", Resampler.FastBSinc48)]

/-- The value of `ResamplerDefault` after `Voice::InitMixer(resopt)`. The comparison
`al::case_compare` (declared outside the embedded sources) is a parameter; the
logging and the mixer selection are not part of the embedding. -/
def Voice_InitMixer (case_compare : String → String → Int) (ResamplerDefault : Resampler)
    (resopt : Option String) : Resampler :=
  match resopt with
  | none => ResamplerDefault
  | some opt =>
    let resampler :=
      if case_compare opt "cubic" = 0 then "spline"
      else if case_compare opt "sinc4" = 0 ∨ case_compare opt "sinc8" = 0 then "gaussian"
      else if case_compare opt "bsinc" = 0 then "bsinc12"
      else opt
    match ResamplerList.find? (fun entry => decide (case_compare resampler entry.1 = 0)) with
    | none => ResamplerDefault
    | some entry => entry.2

/-- The resampler names that `Voice::InitMixer` knows, and the deprecated aliases. -/
def resamplerNames : List String :=
  ResamplerList.map (fun entry => entry.1) ++ ["cubic", "sinc4", "sinc8", "bsinc"]

/-- A comparison that ignores the case of ASCII letters: 0 when the strings agree up
to case, 1 otherwise. It stands in for `al::case_compare` in examples. -/
def exampleCaseCompare (a b : String) : Int :=
  if a.toList.map Char.toLower = b.toList.map Char.toLower then 0 else 1

/-! ## Buffer loading: `LoadSamples`, `LoadBufferStatic`, `LoadBufferQueue` (`core/voice.cpp`)

The destination span is embedded by its size and the samples written to it, in
order. The loading functions take the call
`LoadSamples(dst.first(count), buffer->mSamples, srcChannel, offset, srcStep,
buffer->mBlockAlign)` as a function of `count` and `offset` (and of the buffer item),
so that they cover every sample format. -/

/-- Reading element `i` of a span of samples already converted by `to_float`. -/
def sampleAt (src : List ℚ) (i : Nat) : Load ℚ :=
  match src[i]? with
  | some v => pure v
  | none => throw LoadError.outOfBounds

/-- The primary template `LoadSamples<T>` for a destination of `dstSize` samples;
`srcData` holds the values `to_float` gives. It writes `dstSamples.front()` first,
which is outside an empty destination. -/
def LoadSamples_generic (dstSize : Nat) (srcData : List ℚ) (srcChan srcOffset srcStep : Nat) :
    Load (List ℚ) :=
  if dstSize = 0 then throw LoadError.outOfBounds
  else
    (List.range dstSize).mapM
      (fun i => sampleAt srcData (srcOffset * srcStep + srcChan + i * srcStep))

/-- The constant `2^64`, the range of `size_t`. -/
def SizeRange : Nat := 2 ^ 64

/-- Subtraction of two `size_t` values (wraps modulo `2^64`). -/
def zsub (a b : Nat) : Nat := (a + SizeRange - b % SizeRange) % SizeRange

/-- The loop `while(const size_t toFill{std::min(voiceSamples.size(), loopSize)})` of
`LoadBufferStatic`: the samples written to the `size` remaining places. One unit of
fuel is used per iteration. -/
def LoadBufferStatic_repeat (LoadSamples : Nat → Nat → Load (List ℚ))
    (loopStart loopSize : Nat) : Nat → Nat → Load (List ℚ)
  | 0, _ => throw LoadError.outOfFuel
  | fuel + 1, size =>
    let toFill := min size loopSize
    if toFill = 0 then pure []
    else do
      let loaded ← LoadSamples toFill loopStart
      let rest ← LoadBufferStatic_repeat LoadSamples loopStart loopSize fuel (size - toFill)
      pure (loaded ++ rest)

/-- The function `LoadBufferStatic(buffer, bufferLoopItem, dataPosInt, srcChannel,
srcStep, voiceSamples)` for a destination of `size` samples: the samples written,
with the places left unwritten (when the loop size is 0) omitted. A violated
`ASSUME(loopEnd > loopStart)` and the read of `voiceSamples[remaining-1]` with
nothing loaded are undefined, reported like an access out of bounds. -/
def LoadBufferStatic (LoadSamples : Nat → Nat → Load (List ℚ)) (buffer : VoiceBufferItem)
    (bufferLoopItem : Option Nat) (dataPosInt size fuel : Nat) : Load (List ℚ) :=
  match bufferLoopItem with
  | none => do
    let r ← (if buffer.mSampleLen > dataPosInt then do
        let buffer_remaining := buffer.mSampleLen - dataPosInt
        let remaining := min size buffer_remaining
        let loaded ← LoadSamples remaining dataPosInt
        match loaded[remaining - 1]? with
        | some lastSample => pure (loaded, lastSample, size - remaining)
        | none => throw LoadError.outOfBounds
      else pure ([], 0, size) : Load (List ℚ × ℚ × Nat))
    pure (r.1 ++ List.replicate r.2.2 r.2.1)
  | some _ =>
    let loopStart := buffer.mLoopStart
    let loopEnd := buffer.mLoopEnd
    if ¬ (loopEnd > loopStart) then throw LoadError.outOfBounds
    else do
      let intPos :=
        if dataPosInt < loopEnd then dataPosInt
        else (zsub dataPosInt loopStart) % (zsub loopEnd loopStart) + loopStart
      let remaining := min size (zsub loopEnd dataPosInt)
      let loaded ← LoadSamples remaining intPos
      let loopSize := zsub loopEnd loopStart
      let rest ← LoadBufferStatic_repeat LoadSamples loopStart loopSize fuel (size - remaining)
      pure (loaded ++ rest)

/-- The loop `while(buffer && !voiceSamples.empty())` of `LoadBufferQueue`: the
samples written, `lastSample`, and the number of places still unwritten. The
arguments after the fuel are `buffer`, `dataPosInt`, the number of unwritten places
and `lastSample`. One unit of fuel is used per iteration. -/
def LoadBufferQueue_crawl (items : Nat → VoiceBufferItem)
    (LoadSamples : Nat → Nat → Nat → Load (List ℚ)) (bufferLoopItem : Option Nat) :
    Nat → Option Nat → Nat → Nat → ℚ → Load (List ℚ × ℚ × Nat)
  | 0, _, _, _, _ => throw LoadError.outOfFuel
  | fuel + 1, buffer, dataPosInt, size, lastSample =>
    match buffer with
    | none => pure ([], lastSample, size)
    | some b =>
      if size = 0 then pure ([], lastSample, size)
      else if dataPosInt ≥ (items b).mSampleLen then
        LoadBufferQueue_crawl items LoadSamples bufferLoopItem fuel
          (nextItem items bufferLoopItem b) (dataPosInt - (items b).mSampleLen) size lastSample
      else do
        let remaining := min size ((items b).mSampleLen - dataPosInt)
        let loaded ← LoadSamples b remaining dataPosInt
        match loaded[remaining - 1]? with
        | none => throw LoadError.outOfBounds
        | some lastSample1 =>
          if size - remaining = 0 then pure (loaded, lastSample1, 0)
          else do
            let r ← LoadBufferQueue_crawl items LoadSamples bufferLoopItem fuel
              (nextItem items bufferLoopItem b) 0 (size - remaining) lastSample1
            pure (loaded ++ r.1, r.2.1, r.2.2)

/-- The function `LoadBufferQueue(buffer, bufferLoopItem, dataPosInt, srcChannel,
srcStep, voiceSamples)` for a destination of `size` samples: the samples written.
`LoadSamples b count offset` is the load from the item at address `b`. -/
def LoadBufferQueue (items : Nat → VoiceBufferItem)
    (LoadSamples : Nat → Nat → Nat → Load (List ℚ)) (buffer bufferLoopItem : Option Nat)
    (dataPosInt size fuel : Nat) : Load (List ℚ) := do
  let r ← LoadBufferQueue_crawl items LoadSamples bufferLoopItem fuel buffer dataPosInt size 0
  pure (r.1 ++ List.replicate r.2.2 r.2.1)

/-- The position that the specification reads for a looping static buffer:
`p` below `loopEnd`, and `((p - loopStart) mod (loopEnd - loopStart)) + loopStart`
from `loopEnd` on. -/
def loopWrap (loopStart loopEnd p : Nat) : Nat :=
  if p < loopEnd then p else (p - loopStart) % (loopEnd - loopStart) + loopStart

/-- The sample at offset `offset` of the concatenation of the queue items' sample
data from the item `buffer` on, following `mNext` and continuing at the loop item
after the last item; `none` when the queue ends before. `sampleOf b k` is sample
`k` of the item at address `b`; at most `fuel` items are visited. -/
def queueSampleAt (items : Nat → VoiceBufferItem) (sampleOf : Nat → Nat → ℚ)
    (bufferLoopItem : Option Nat) : Nat → Option Nat → Nat → Option ℚ
  | 0, _, _ => none
  | _ + 1, none, _ => none
  | fuel + 1, some b, offset =>
    if offset < (items b).mSampleLen then some (sampleOf b offset)
    else queueSampleAt items sampleOf bufferLoopItem fuel (nextItem items bufferLoopItem b)
      (offset - (items b).mSampleLen)

/-- The sample at offset `offset` of the concatenated queue; with items of positive
length, `offset + 1` items reach it. -/
def queueSample (items : Nat → VoiceBufferItem) (sampleOf : Nat → Nat → ℚ)
    (bufferLoopItem buffer : Option Nat) (offset : Nat) : Option ℚ :=
  queueSampleAt items sampleOf bufferLoopItem (offset + 1) buffer offset

/-- An example looping static buffer item: eight samples, looping over the first
four. -/
def exampleLoopItem : VoiceBufferItem :=
  { mNext := none, mSampleLen := 8, mLoopStart := 0, mLoopEnd := 4 }

/-- The samples of the example buffers: `10, 11, ..., 17`. -/
def exampleSamples : List ℚ := [10, 11, 12, 13, 14, 15, 16, 17]

/-- Example queue items: item 1 (3 samples) is followed by item 2 (2 samples), which
ends the queue; sample `k` of item `b` is `10 b + k`. -/
def exampleQueueItems : Nat → VoiceBufferItem :=
  fun b =>
    if b = 1 then { mNext := some 2, mSampleLen := 3, mLoopStart := 0, mLoopEnd := 3 }
    else { mNext := none, mSampleLen := 2, mLoopStart := 0, mLoopEnd := 2 }

/-! ## Distance compensation: `ApplyDistanceComp` (`alc/alu.cpp`) -/

/-- The structure `DistanceComp::ChanData`: the gain and the samples of the delay
buffer that `Buffer` views. -/
structure ChanData where
  Gain : ℚ
  Buffer : List ℚ
  deriving DecidableEq

/-- The algorithm `std::ranges::rotate(r, middle)` with `middle` at index `k`: the
elements from `middle` on come first. The subrange it returns begins at index
`r.size() - k`. -/
def ranges_rotate {α : Type} (r : List α) (k : Nat) : List α := r.drop k ++ r.take k

/-- The algorithm `std::ranges::swap_ranges(r1, r2)`: the first
`min(r1.size(), r2.size())` elements are exchanged; both returned iterators are at
that index. -/
def ranges_swap_ranges {α : Type} (r1 r2 : List α) : List α × List α :=
  let n := min r1.length r2.length
  (r2.take n ++ r1.drop n, r1.take n ++ r2.drop n)

/-- The lambda of `ApplyDistanceComp` for one channel: the channel data (with the
delay buffer's new content) and the channel's line afterwards. -/
def ApplyDistanceComp_channel (SamplesToDo : Nat) (distcomp : ChanData) (chanbuffer : List ℚ) :
    ChanData × List ℚ :=
  let gain := distcomp.Gain
  let distbuf := distcomp.Buffer
  let base := distbuf.length
  if base < 1 then (distcomp, chanbuffer)
  else
    let inout := chanbuffer.take SamplesToDo
    let r : List ℚ × List ℚ :=
      if SamplesToDo ≥ base then
        let inout_start := inout.length - base
        let rotated := ranges_rotate inout inout_start
        let delay_end := inout.length - inout_start
        let swapped := ranges_swap_ranges (rotated.take delay_end) distbuf
        (swapped.1 ++ rotated.drop delay_end, swapped.2)
      else
        let swapped := ranges_swap_ranges inout distbuf
        let delay_start := min inout.length distbuf.length
        (swapped.1, ranges_rotate swapped.2 delay_start)
    ({ distcomp with Buffer := r.2 }, r.1.map (fun s => s * gain) ++ chanbuffer.drop SamplesToDo)

/-- The function `ApplyDistanceComp(Samples, SamplesToDo, chandata)`: the lambda is
applied to the pairs of channel data and line, in order, while both ranges last
(`std::ranges::mismatch` with a predicate that is always true). -/
def ApplyDistanceComp : List (List ℚ) → Nat → List ChanData → List (List ℚ) × List ChanData
  | [], _, chandata => ([], chandata)
  | chanbuffer :: Samples, _, [] => (chanbuffer :: Samples, [])
  | chanbuffer :: Samples, SamplesToDo, distcomp :: chandata =>
    let r := ApplyDistanceComp_channel SamplesToDo distcomp chanbuffer
    let rs := ApplyDistanceComp Samples SamplesToDo chandata
    (r.2 :: rs.1, r.1 :: rs.2)

/-! ## Chunk sizes of the resampling loop: `calc_buffer_sizes` in `Voice::mix` -/

/-- The lambda `calc_buffer_sizes` of `Voice::mix` with the captured `fracPos` and
`increment` made explicit: `(dstBufferSize, srcBufferSize)`. `ResBufSize` (the size
of `DeviceBase::mResampleData`) and `MaxResamplerEdge` are constants declared outside
the embedded sources; `dataSize64` is computed in `uint64_t`, the rest in `uint`. -/
def calc_buffer_sizes (ResBufSize MaxResamplerEdge fracPos increment dstBufferSize : Nat) :
    Nat × Nat :=
  let srcSizeMax := usub ResBufSize MaxResamplerEdge
  let ext : Nat := if increment ≤ MixerFracOne then 1 else 0
  let dataSize64 := usub dstBufferSize ext
  let dataSize64_1 := ((dataSize64 * increment + fracPos) % SizeRange) >>> MixerFracBits
  let dataSize64_2 := (dataSize64_1 + uadd ext MaxResamplerEdge) % SizeRange
  if dataSize64_2 ≤ srcSizeMax then (dstBufferSize, dataSize64_2 % UIntRange)
  else
    let dataSize64_3 := usub srcSizeMax MaxResamplerEdge
    let dataSize64_4 := zsub ((dataSize64_3 <<< MixerFracBits) % SizeRange) fracPos / increment
    if dataSize64_4 < dstBufferSize then
      ((dataSize64_4 % UIntRange) &&& 4294967292, srcSizeMax)
    else (dstBufferSize, srcSizeMax)

/-! ## Device clock of `DeviceBase::renderSamples` (`alc/alu.cpp`) -/

/-- The loop `for(uint samplesLoaded{0};samplesLoaded < samplesToLoad;)` of
`Voice::mix` for one channel, reduced to its counters: each iteration takes
`(dstBufferSize, srcBufferSize)` from `calc_buffer_sizes(samplesToLoad -
samplesLoaded)`, adds `dstBufferSize` to `samplesLoaded` and, when more samples are
to be loaded, advances `fracPos` and `intPos`. The result lists the sizes of the
iterations; `none` stands for running out of fuel, one unit of which is used per
iteration. The arguments after the fuel are `samplesLoaded`, `intPos` and `fracPos`. -/
def loadLoop (ResBufSize MaxResamplerEdge increment samplesToLoad : Nat) :
    Nat → Nat → Int → Nat → Option (List (Nat × Nat))
  | 0, _, _, _ => none
  | fuel + 1, samplesLoaded, intPos, fracPos =>
    if samplesLoaded < samplesToLoad then
      let sizes := calc_buffer_sizes ResBufSize MaxResamplerEdge fracPos increment
        (usub samplesToLoad samplesLoaded)
      let samplesLoaded1 := uadd samplesLoaded sizes.1
      if samplesLoaded1 < samplesToLoad then
        let fracPos1 := uadd fracPos (umul sizes.1 increment)
        let srcOffset := fracPos1 >>> MixerFracBits
        (loadLoop ResBufSize MaxResamplerEdge increment samplesToLoad fuel samplesLoaded1
          (toInt32 (intPos + toInt32 (srcOffset : Int))) (fracPos1 &&& MixerFracMask)).map
          (fun chunks => sizes :: chunks)
      else
        (loadLoop ResBufSize MaxResamplerEdge increment samplesToLoad fuel samplesLoaded1
          intPos fracPos).map (fun chunks => sizes :: chunks)
    else some []

/-! ## Effect-slot updates: `CalcEffectSlotParams` (`alc/alu.cpp`) -/

/-- A published `EffectSlotProps` object as far as the slot ordering is concerned:
its `Target`; the other fields (`Gain`, `AuxSendAuto`, `Type`, `Props`, `State`) are
kept abstract as `props`. -/
structure EffectSlotProps (Props : Type) where
  Target : Option SlotPtr
  props : Props

/-- The part of an `EffectSlot` that `CalcEffectSlotParams` works on: the pending
update `Update` (the address of an `EffectSlotProps`, `none` for null), the current
`Target`, and the remaining fields (gain, effect type and properties, reverb
values, effect state) kept abstract as `params`. -/
structure EffectSlotUpdate (Params : Type) where
  Update : Option Nat
  Target : Option SlotPtr
  params : Params

/-- The function `CalcEffectSlotParams(slot, sorted_slots, context)`: the return
value, the slot, the sorted array and the context afterwards. `propsAt` reads the
property object at an address. `apply` stands for the statements after the test of
the target, other than `slot->Target = props->Target`: the copies into the other
slot fields, the hand-over of the effect state with its release event, the return
of the property object to the free list and `state->update`; they work on the
other slot fields and on the context, and touch neither `Update`, `Target` nor the
sorted array. -/
def CalcEffectSlotParams {Props Params Context : Type}
    (propsAt : Nat → EffectSlotProps Props)
    (apply : Nat → EffectSlotProps Props → Params → Context → Params × Context)
    (slot : EffectSlotUpdate Params) (sorted_slots : List (Option SlotPtr))
    (context : Context) :
    Bool × EffectSlotUpdate Params × List (Option SlotPtr) × Context :=
  match slot.Update with
  | none => (false, slot, sorted_slots, context)
  | some p =>
    let props := propsAt p
    let sorted_slots1 :=
      if slot.Target ≠ props.Target then sorted_slots.set 0 none else sorted_slots
    let r := apply p props slot.params context
    (true, { Update := none, Target := props.Target, params := r.1 }, sorted_slots1, r.2)

/-- The loop `for(auto *slot : slots) force |= CalcEffectSlotParams(slot,
sorted_slot_base, ctx)` of `ProcessParamUpdates`: the slots (by address), the sorted
array, the context and `force` afterwards. -/
def updateEffectSlots {Props Params Context : Type}
    (propsAt : Nat → EffectSlotProps Props)
    (apply : Nat → EffectSlotProps Props → Params → Context → Params × Context) :
    List SlotPtr → (SlotPtr → EffectSlotUpdate Params) → List (Option SlotPtr) → Context →
      Bool → (SlotPtr → EffectSlotUpdate Params) × List (Option SlotPtr) × Context × Bool
  | [], slots, sorted_slots, context, force => (slots, sorted_slots, context, force)
  | slot :: rest, slots, sorted_slots, context, force =>
    let r := CalcEffectSlotParams propsAt apply (slots slot) sorted_slots context
    updateEffectSlots propsAt apply rest
      (fun s => if s = slot then r.2.1 else slots s) r.2.2.1 r.2.2.2 (force || r.1)

/-- The content of `sorted_slots` after one block of `ProcessContexts`: the slot
updates of `ProcessParamUpdates`, then the sort of the "Process effects" step with
the targets that the slots have by then. -/
def blockSortedSlots {Props Params Context : Type}
    (partition : (SlotPtr → Bool) → List SlotPtr → List SlotPtr × List SlotPtr)
    (propsAt : Nat → EffectSlotProps Props)
    (apply : Nat → EffectSlotProps Props → Params → Context → Params × Context)
    (auxslots : List SlotPtr) (slots : SlotPtr → EffectSlotUpdate Params)
    (sorted_slots : List (Option SlotPtr)) (context : Context) (force : Bool) :
    List (Option SlotPtr) :=
  let r := updateEffectSlots propsAt apply auxslots slots sorted_slots context force
  ProcessContexts_sorted_slots partition (fun s => (r.1 s).Target) auxslots r.2.1

/-- Example slots: slot 1 targets slot 2 and has a pending update (object 5) with
the same target; slot 2 has no target and no update. -/
def exampleSlotUpdates : SlotPtr → EffectSlotUpdate Nat :=
  fun s => if s = 1 then { Update := some 5, Target := some 2, params := 0 }
    else { Update := none, Target := none, params := 0 }

/-- Example property objects: object 5 has target 2, object 6 has no target. -/
def exampleSlotProps : Nat → EffectSlotProps Nat :=
  fun p => if p = 5 then { Target := some 2, props := 1 } else { Target := none, props := 2 }

/-! ## Ambisonic upsampling: `UpsampleBFormatTransform` (`alc/alu.cpp`) -/

/-- The call `std::ranges::transform(rotator[k], output[i], output[i].begin(), ...)`
with the lambda `rot*a + dst`, on rows of `MaxAmbiChannels` elements. A matrix of
`std::array<float,MaxAmbiChannels>` rows is a function of row and column index whose
entries at indices below `MaxAmbiChannels` are the array elements. -/
def upsampleRow (MaxAmbiChannels : Nat) (rotator : Nat → Nat → ℚ) (a : ℚ) (i k : Nat)
    (output : Nat → Nat → ℚ) : Nat → Nat → ℚ :=
  fun y x => if y = i ∧ x < MaxAmbiChannels then rotator k x * a + output y x else output y x

/-- The function `UpsampleBFormatTransform(output, upsampler, rotator, ambi_order)`:
the content of `output` afterwards; `none` stands for an access outside an array
(a row `output[i]` or `rotator[k]`, or an element `upsampler[i][k]`, at an index
that is not below `MaxAmbiChannels`). `upsampler_size` is `upsampler.size()`. The
constant `MaxAmbiChannels` and the function `AmbiChannelsFromOrder` are declared
outside the embedded sources and are parameters. -/
def UpsampleBFormatTransform (MaxAmbiChannels : Nat) (AmbiChannelsFromOrder : Nat → Nat)
    (output : Nat → Nat → ℚ) (upsampler_size : Nat) (upsampler : Nat → Nat → ℚ)
    (rotator : Nat → Nat → ℚ) (ambi_order : Nat) : Option (Nat → Nat → ℚ) :=
  let num_chans := AmbiChannelsFromOrder ambi_order
  let output0 : Nat → Nat → ℚ := fun y x =>
    if y < upsampler_size ∧ y < MaxAmbiChannels ∧ x < MaxAmbiChannels then 0 else output y x
  (List.range upsampler_size).foldlM (fun out i =>
    (List.range num_chans).foldlM (fun out1 k =>
      if i < MaxAmbiChannels ∧ k < MaxAmbiChannels then
        some (upsampleRow MaxAmbiChannels rotator (upsampler i k) i k out1)
      else none) out) output0

/-- The matrix product that the specification gives for `UpsampleBFormatTransform`:
entry `(i, j)` is the sum over `k < (ambi_order + 1)^2` of
`upsampler[i][k] * rotator[k][j]`. -/
def upsampleProduct (upsampler rotator : Nat → Nat → ℚ) (ambi_order : Nat) (i j : Nat) : ℚ :=
  ∑ k ∈ Finset.range ((ambi_order + 1) ^ 2), upsampler i k * rotator k j

/-- Example targets with a cycle and an orphan: slots 1 and 2 target each other,
slot 3 targets slot 9 (which is not active), slot 4 has no target. -/
def cycleTarget : SlotPtr → Option SlotPtr :=
  fun s => if s = 1 then some 2 else if s = 2 then some 1 else if s = 3 then some 9 else none

/-- An MSADPCM buffer whose scale grows: one channel, one block of 10 samples (11
bytes): block predictor 0, initial scale `0x7FFF`, both history samples 0, and
eight nibbles of value 8 (adaption 768, which triples the scale). -/
def msadpcmGrowingScale : List Nat :=
  [0, 0xFF, 0x7F, 0x00, 0x00, 0x00, 0x00, 0x88, 0x88, 0x88, 0x88]

/-! ## Azimuth scaling: `ScaleAzimuthFront3` (`alc/alu.cpp`) -/

/-- The value of the `float` literal `0.866025403785f`: the binary32 value nearest to
`0.866025403785` is `14529495 / 2^24 = 0.866025388240814...`, the largest binary32
value below `cos(pi/6) = 0.866025403784438...`. -/
def cos30_binary32 : ℚ := 14529495 / 16777216

/-- The function `ScaleAzimuthFront3(pos)`, over any ordered field in place of
`float` (the rationals to compute with, the reals for the geometry), `pos` being
`(pos[0], pos[1], pos[2])`. The library functions `std::sqrt` and `std::copysign`
are parameters. So is the bound `cos30` of the test `z > 0.866025403785f`, which the
source gives as `Z > cos(pi/6)`: it is `cos30_binary32` where the values are
binary32 values, and `cos(pi/6)` over the reals; the two tests agree on every
binary32 value of `z` (`cos30_binary32_test_rounded`). -/
def ScaleAzimuthFront3 {K : Type} [LinearOrderedField K] (sqrt : K → K)
    (copysign : K → K → K) (cos30 : K) (pos : K × K × K) : K × K × K :=
  if pos.2.2 < 0 then
    let len2d := sqrt (pos.1 * pos.1 + pos.2.2 * pos.2.2)
    let x := pos.1 / len2d
    let z := -pos.2.2 / len2d
    if z > cos30 then
      let x1 := x * 3 - x * x * x * 4
      let z1 := z * z * z * 4 - z * 3
      (x1 * len2d, pos.2.1, -z1 * len2d)
    else (copysign len2d pos.1, pos.2.1, 0)
  else pos

/-! ## Ambisonic rotator: `CalcRotatorSize`, `RotatorCoeffs`, `AmbiRotator` (`alc/alu.cpp`)

The `int` values of this code are functions of the loop variable `l`; for
`l < 23170` all of them are below `2^31` in size, and they are integers here. The
conversions to `size_t` and the `size_t` arithmetic wrap at `2^64`, as in the code.
`float` values are rationals, `std::sqrt` and the constant `sqrt2_v<float>` are
parameters. -/

/-- Conversion of a signed integer to `size_t`. -/
def toSize (v : Int) : Nat := (v % 18446744073709551616).toNat

/-- Addition of `size_t` values. -/
def zadd (a b : Nat) : Nat := (a + b) % SizeRange

/-- Multiplication of `size_t` values. -/
def zmul (a b : Nat) : Nat := (a * b) % SizeRange

/-- The function `CalcRotatorSize(l)`. -/
def CalcRotatorSize : Nat → Nat
  | 0 => 0
  | l + 1 =>
    if l + 1 ≥ 2 then
      zadd (zmul (zadd (zmul (l + 1) 2) 1) (zadd (zmul (l + 1) 2) 1)) (CalcRotatorSize l)
    else 0

/-- The structure `RotatorCoeffs::CoeffValues`. -/
structure CoeffValues where
  u : ℚ
  v : ℚ
  w : ℚ

/-- The values `lo, lo+1, ..., hi` of a loop `for(x = lo; x <= hi; ++x)` over `int`. -/
def intRange (lo hi : Int) : List Int :=
  (List.range (hi + 1 - lo).toNat).map (fun (k : Nat) => lo + (k : Int))

/-- The body of the innermost loop of the constructor `RotatorCoeffs()`: the values
written through `coeffs` for `(l, m, n)`. -/
def RotatorCoeffs_entry (sqrt : ℚ → ℚ) (l m n : Int) : CoeffValues :=
  let denom : ℚ := ((if |n| = l then (2 * l) * (2 * l - 1) else (l * l - n * n) : Int) : ℚ)
  if m = 0 then
    { u := sqrt (((l * l : Int) : ℚ) / denom)
      v := sqrt ((((l - 1) * l : Int) : ℚ) / denom) * (-1)
      w := 0 }
  else
    let abs_m : Int := |m|
    { u := sqrt (((l * l - m * m : Int) : ℚ) / denom)
      v := sqrt ((((l + abs_m - 1) * (l + abs_m) : Int) : ℚ) / denom) * (1 / 2)
      w := sqrt ((((l - abs_m - 1) * (l - abs_m) : Int) : ℚ) / denom) * (-(1 / 2)) }

/-- The values the constructor `RotatorCoeffs()` writes through its iterator, in the
order of the writes: `l` from 2 to `MaxAmbiOrder`, `n` from `-l` to `l`, `m` from
`-l` to `l`. -/
def RotatorCoeffs_written (sqrt : ℚ → ℚ) (MaxAmbiOrder : Nat) : List CoeffValues :=
  (intRange 2 MaxAmbiOrder).flatMap (fun l =>
    (intRange (-l) l).flatMap (fun n =>
      (intRange (-l) l).map (fun m => RotatorCoeffs_entry sqrt l m n)))

/-- The array `RotatorCoeffArray.mCoeffs` after the constructor `RotatorCoeffs()`:
`CalcRotatorSize(MaxAmbiOrder)` elements, zero-initialised and then written from
the first element on; `none` when the constructor writes behind the array. The
constant `MaxAmbiOrder` is a parameter. -/
def RotatorCoeffs (sqrt : ℚ → ℚ) (MaxAmbiOrder : Nat) : Option (List CoeffValues) :=
  if (RotatorCoeffs_written sqrt MaxAmbiOrder).length ≤ CalcRotatorSize MaxAmbiOrder then
    some (RotatorCoeffs_written sqrt MaxAmbiOrder ++
      List.replicate
        (CalcRotatorSize MaxAmbiOrder - (RotatorCoeffs_written sqrt MaxAmbiOrder).length)
        { u := 0, v := 0, w := 0 })
  else none

/-- The type `AmbiRotateMatrix`, a square array of `float`: `R r c` is `R[r][c]`,
and `none` where there is no such cell to access. -/
abbrev AmbiRotateMatrix : Type := Nat → Nat → Option ℚ

/-- The lambda `P` of `AmbiRotator`; `none` when it accesses a cell that is not
there. -/
def P (i l a n : Int) (last_band : Nat) (R : AmbiRotateMatrix) : Option ℚ := do
  let ri1 ← R (toSize (1 + 2)) (toSize (i + 2))
  let rim1 ← R (toSize (-1 + 2)) (toSize (i + 2))
  let ri0 ← R (toSize (0 + 2)) (toSize (i + 2))
  let y := zadd last_band (toSize (a + l - 1))
  if n = -l then do
    let r0 ← R last_band y
    let r1 ← R (zadd last_band (zmul (toSize (l - 1)) 2)) y
    pure (ri1 * r0 + rim1 * r1)
  else if n = l then do
    let r1 ← R (zadd last_band (zmul (toSize (l - 1)) 2)) y
    let r0 ← R last_band y
    pure (ri1 * r1 - rim1 * r0)
  else do
    let r ← R (zadd last_band (toSize (l - 1 + n))) y
    pure (ri0 * r)

/-- The lambda `U` of `AmbiRotator`. -/
def U (l m n : Int) (last_band : Nat) (R : AmbiRotateMatrix) : Option ℚ :=
  P 0 l m n last_band R

/-- The lambda `V` of `AmbiRotator`; `sqrt2` is the constant `sqrt2_v<float>`. -/
def V (sqrt2 : ℚ) (l m n : Int) (last_band : Nat) (R : AmbiRotateMatrix) : Option ℚ :=
  if m > 0 then do
    let d := decide (m = 1)
    let p0 ← P 1 l (m - 1) n last_band R
    let p1 ← P (-1) l (-m + 1) n last_band R
    pure (if d then p0 * sqrt2 else p0 - p1)
  else do
    let d := decide (m = -1)
    let p0 ← P 1 l (m + 1) n last_band R
    let p1 ← P (-1) l (-m - 1) n last_band R
    pure (if d then p1 * sqrt2 else p0 + p1)

/-- The lambda `W` of `AmbiRotator`; `none` also when `assert(m != 0)` fails. -/
def W (l m n : Int) (last_band : Nat) (R : AmbiRotateMatrix) : Option ℚ :=
  if m = 0 then none
  else if m > 0 then do
    let p0 ← P 1 l (m + 1) n last_band R
    let p1 ← P (-1) l (-m - 1) n last_band R
    pure (p0 + p1)
  else do
    let p0 ← P 1 l (m - 1) n last_band R
    let p1 ← P (-1) l (-m + 1) n last_band R
    pure (p0 - p1)

/-- The value `r` that the innermost loop of `AmbiRotator` computes for `(l, m, n)`
from the coefficients `c` under the iterator (Eq. 8.1). -/
def AmbiRotator_entry (sqrt2 : ℚ) (c : CoeffValues) (l m n : Int) (last_band : Nat)
    (matrix : AmbiRotateMatrix) : Option ℚ := do
  let r : ℚ := 0
  let r ← if c.u ≠ 0 then (U l m n last_band matrix).map (fun t => r + c.u * t) else some r
  let r ← if c.v ≠ 0 then (V sqrt2 l m n last_band matrix).map (fun t => r + c.v * t)
    else some r
  let r ← if c.w ≠ 0 then (W l m n last_band matrix).map (fun t => r + c.w * t) else some r
  pure r

/-- The assignment `matrix[y][x] = r`; `none` when there is no such cell. -/
def matrixSet (matrix : AmbiRotateMatrix) (y x : Nat) (r : ℚ) : Option AmbiRotateMatrix :=
  if (matrix y x).isSome then
    some (fun i j => if i = y ∧ j = x then some r else matrix i j)
  else none

/-- One round of the loop over `m` in `AmbiRotator`, on the state
`(matrix, coeffs, x)`; the iterator `coeffs` is an index into `RotatorCoeffArray`,
and reading behind the array gives `none`. -/
def AmbiRotator_m (RotatorCoeffArray : List CoeffValues) (sqrt2 : ℚ) (l n : Int)
    (last_band y : Nat) (st : AmbiRotateMatrix × Nat × Nat) (m : Int) :
    Option (AmbiRotateMatrix × Nat × Nat) :=
  match RotatorCoeffArray[st.2.1]? with
  | none => none
  | some c => do
    let r ← AmbiRotator_entry sqrt2 c l m n last_band st.1
    let matrix ← matrixSet st.1 y st.2.2 r
    pure (matrix, st.2.1 + 1, zadd st.2.2 1)

/-- One round of the loop over `n` in `AmbiRotator`, on the state
`(matrix, coeffs, y)`. -/
def AmbiRotator_n (RotatorCoeffArray : List CoeffValues) (sqrt2 : ℚ) (l : Int)
    (last_band band_idx : Nat) (st : AmbiRotateMatrix × Nat × Nat) (n : Int) :
    Option (AmbiRotateMatrix × Nat × Nat) := do
  let res ← (intRange (-l) l).foldlM
    (AmbiRotator_m RotatorCoeffArray sqrt2 l n last_band st.2.2) (st.1, st.2.1, band_idx)
  pure (res.1, res.2.1, zadd st.2.2 1)

/-- One round of the loop over `l` in `AmbiRotator`, on the state
`(matrix, coeffs, band_idx, last_band)`. -/
def AmbiRotator_l (RotatorCoeffArray : List CoeffValues) (sqrt2 : ℚ)
    (st : AmbiRotateMatrix × Nat × Nat × Nat) (l : Int) :
    Option (AmbiRotateMatrix × Nat × Nat × Nat) := do
  let res ← (intRange (-l) l).foldlM
    (AmbiRotator_n RotatorCoeffArray sqrt2 l st.2.2.2 st.2.2.1) (st.1, st.2.1, st.2.2.1)
  pure (res.1, res.2.1, zadd st.2.2.1 (zadd (zmul (toUInt l) 2) 1), st.2.2.1)

/-- The function `AmbiRotator(matrix, order)`: the matrix it leaves and the position
of the iterator `coeffs` at the end (0 when the function returns before it creates
the iterator); `none` when an access leaves its array or the assertion fails. -/
def AmbiRotator (RotatorCoeffArray : List CoeffValues) (sqrt2 : ℚ)
    (matrix : AmbiRotateMatrix) (order : Int) : Option (AmbiRotateMatrix × Nat) :=
  if order < 2 then some (matrix, 0)
  else
    ((intRange 2 order).foldlM (AmbiRotator_l RotatorCoeffArray sqrt2)
      (matrix, 0, 4, 1)).map (fun st => (st.1, st.2.1))

/-- A matrix of which only the first-order block (rows and columns 1 to 3) and the
block of the previous band (rows and columns `last_band` to `last_band + 2*(l-1)`)
can be accessed, with the values `data` there. -/
def previousBandOnly (data : Nat → Nat → ℚ) (last_band : Nat) (l : Int) : AmbiRotateMatrix :=
  fun r c =>
    if (1 ≤ r ∧ r ≤ 3 ∧ 1 ≤ c ∧ c ≤ 3) ∨
        (last_band ≤ r ∧ (r : Int) ≤ last_band + 2 * (l - 1) ∧
          last_band ≤ c ∧ (c : Int) ≤ last_band + 2 * (l - 1)) then
      some (data r c)
    else none

/-- A square matrix of `size` rows and columns with the values `data`. -/
def squareMatrix (data : Nat → Nat → ℚ) (size : Nat) : AmbiRotateMatrix :=
  fun r c => if r < size ∧ c < size then some (data r c) else none

/-! # Verified properties -/

/-! ## Mix driver loops -/

theorem usub_of_le {a b : Nat} (hab : b ≤ a) (ha : a < 2 ^ 32) : usub a b = a - b := by
  unfold usub UIntRange
  have hb : b < 2 ^ 32 := lt_of_le_of_lt hab ha
  rw [Nat.mod_eq_of_lt hb]
  omega

theorem ceil_div_step {r B : Nat} (hB : 0 < B) (hr : B ≤ r) :
    (r + B - 1) / B = (r - B + B - 1) / B + 1 := by
  have h : r + B - 1 = (r - B + B - 1) + B := by omega
  rw [h, Nat.add_div_right _ hB]

theorem ceil_div_small {r B : Nat} (hr0 : 0 < r) (hr : r ≤ B) : (r + B - 1) / B = 1 := by
  apply Nat.div_eq_of_lt_le <;> omega

theorem renderSamplesLoop_spec {σ : Type} (B N : Nat) (write : σ → Nat → Nat → σ)
    (hB : 0 < B) (hN : N < 2 ^ 32) :
    ∀ (fuel total : Nat) (out : σ), total ≤ N → (N - total + B - 1) / B ≤ fuel →
      ∃ out' calls, renderSamplesLoop B write N fuel total out = some (out', calls) ∧
        calls.length = (N - total + B - 1) / B ∧ calls.sum = N - total ∧
        ∀ i, i < calls.length →
          calls[i]? = some (renderSamples B (N - total - (calls.take i).sum)) := by
  intro fuel
  induction fuel with
  | zero =>
    intro total out ht hf
    have h0 : (N - total + B - 1) / B = 0 := Nat.le_zero.mp hf
    have hlt : N - total + B - 1 < B := by
      rcases Nat.div_eq_zero_iff hB |>.mp h0 with h
      exact h
    have hEQ : N - total = 0 := by omega
    refine ⟨out, [], ?_, ?_, ?_, ?_⟩
    · simp [renderSamplesLoop, usub_of_le ht hN, hEQ]
    · simp [h0]
    · simp [hEQ]
    · intro i hi; simp at hi
  | succ fuel ih =>
    intro total out ht hf
    by_cases hEQ : N - total = 0
    · refine ⟨out, [], ?_, ?_, ?_, ?_⟩
      · simp [renderSamplesLoop, usub_of_le ht hN, hEQ]
      · simp [hEQ, Nat.div_eq_of_lt (show B - 1 < B by omega)]
      · simp [hEQ]
      · intro i hi; simp at hi
    · have hs : renderSamples B (N - total) ≤ N - total := by unfold renderSamples; omega
      have hs0 : 0 < renderSamples B (N - total) := by unfold renderSamples; omega
      have hsB : renderSamples B (N - total) ≤ B := by unfold renderSamples; omega
      have hadd : uadd total (renderSamples B (N - total)) = total + renderSamples B (N - total) := by
        unfold uadd UIntRange; apply Nat.mod_eq_of_lt; omega
      have hceil : (N - total + B - 1) / B =
          (N - (total + renderSamples B (N - total)) + B - 1) / B + 1 := by
        by_cases hc : B ≤ N - total
        · have : renderSamples B (N - total) = B := by unfold renderSamples; omega
          rw [this, ceil_div_step hB hc]
          congr 2; omega
        · have : renderSamples B (N - total) = N - total := by unfold renderSamples; omega
          rw [this, ceil_div_small (by omega) (by omega)]
          have : N - (total + (N - total)) + B - 1 = B - 1 := by omega
          rw [this, Nat.div_eq_of_lt (by omega)]
      obtain ⟨out', calls, hrun, hlen, hsum, hidx⟩ :=
        ih (total + renderSamples B (N - total))
          (write out total (renderSamples B (N - total))) (by omega) (by omega)
      refine ⟨out', renderSamples B (N - total) :: calls, ?_, ?_, ?_, ?_⟩
      · simp [renderSamplesLoop, usub_of_le ht hN, hEQ, hadd, hrun]
      · simp [hlen, hceil]
      · simp [hsum]; omega
      · intro i hi
        cases i with
        | zero => simp
        | succ j =>
          have hj : j < calls.length := by simpa using hi
          have := hidx j hj
          simp only [List.getElem?_cons_succ, List.take_succ_cons, List.sum_cons]
          rw [this]
          congr 2; omega

/-- C1: for every frame count `N` (an `unsigned int`) and positive `BufferLineSize`,
the planar and the interleaved `renderSamples` loops terminate once the fuel covers
`ceil(N / BufferLineSize)` iterations; every inner `renderSamples(todo)` call returns
`min(todo, BufferLineSize)` where `todo` is `N` minus the frames already produced,
the loop runs `ceil(N / BufferLineSize)` times and the returned frame counts sum to
exactly `N`. -/
theorem renderSamples_loops_total {σ : Type} (B N fuel frameStep : Nat)
    (writePlanar : σ → Nat → Nat → σ) (writeInterleaved : σ → Nat → Nat → Nat → σ)
    (outBuffers : σ) (outBuffer : Option σ)
    (hB : 0 < B) (hN : N < 2 ^ 32) (hfuel : (N + B - 1) / B ≤ fuel) :
    (∀ todo, renderSamples B todo = min todo B) ∧
    (∃ out calls, renderSamplesPlanar B writePlanar outBuffers N fuel = some (out, calls) ∧
      calls.length = (N + B - 1) / B ∧ calls.sum = N ∧
      ∀ i, i < calls.length →
        calls[i]? = some (renderSamples B (N - (calls.take i).sum))) ∧
    (∃ out calls, renderSamplesInterleaved B writeInterleaved outBuffer N frameStep fuel
        = some (out, calls) ∧
      calls.length = (N + B - 1) / B ∧ calls.sum = N ∧
      ∀ i, i < calls.length →
        calls[i]? = some (renderSamples B (N - (calls.take i).sum))) := by
  refine ⟨fun todo => rfl, ?_, ?_⟩
  · obtain ⟨out, calls, h1, h2, h3, h4⟩ :=
      renderSamplesLoop_spec B N writePlanar hB hN fuel 0 outBuffers (Nat.zero_le _)
        (by simpa using hfuel)
    exact ⟨out, calls, h1, by simpa using h2, by simpa using h3, by simpa using h4⟩
  · obtain ⟨out, calls, h1, h2, h3, h4⟩ :=
      renderSamplesLoop_spec B N
        (fun (o : Option σ) total samplesToDo =>
          match o with
          | some buf => some (writeInterleaved buf total samplesToDo frameStep)
          | none => none)
        hB hN fuel 0 outBuffer (Nat.zero_le _) (by simpa using hfuel)
    exact ⟨out, calls, h1, by simpa using h2, by simpa using h3, by simpa using h4⟩

/-- Witness for C1: `BufferLineSize = 4`, `N = 10`, three iterations. -/
theorem renderSamples_loops_total_witness :
    0 < 4 ∧ 10 < 2 ^ 32 ∧ (10 + 4 - 1) / 4 ≤ 3 ∧
    ∃ out calls, renderSamplesPlanar 4 (fun (l : List (Nat × Nat)) total n => l ++ [(total, n)])
        [] 10 3 = some (out, calls) ∧ calls.length = (10 + 4 - 1) / 4 ∧ calls.sum = 10 :=
  ⟨by decide, by decide, by decide,
    by
      obtain ⟨out, calls, h1, h2, h3, _⟩ :=
        (renderSamples_loops_total 4 10 3 1
          (fun (l : List (Nat × Nat)) total n => l ++ [(total, n)])
          (fun (l : List (Nat × Nat)) total n _ => l ++ [(total, n)]) [] none
          (by decide) (by decide) (by decide)).2.1
      exact ⟨out, calls, h1, h2, h3⟩⟩

/-! ## Effect-slot ordering -/

theorem partition_copy_eq (pred : SlotPtr → Bool) :
    ∀ (l front back : List SlotPtr),
      partition_copy pred l front back =
        (front ++ l.filter pred, (l.filter (fun s => !pred s)).reverse ++ back)
  | [], front, back => by simp [partition_copy]
  | s :: rest, front, back => by
    by_cases h : pred s = true
    · simp [partition_copy, h, partition_copy_eq pred rest]
    · simp [partition_copy, h, partition_copy_eq pred rest]

theorem SortInv.disjoint {Target : SlotPtr → Option SlotPtr}
    {auxslots pre unproc proc : List SlotPtr}
    (inv : SortInv Target auxslots pre unproc proc) {a : SlotPtr}
    (ha : a ∈ pre) (ha' : a ∈ unproc ++ proc) : False := by
  rcases inv.suf_tgt a ha' with h | ⟨t, ht, h⟩
  · exact inv.pre_has a ha h
  · exact inv.pre_not a ha t ht h

theorem SortInv.init (Target : SlotPtr → Option SlotPtr) (auxslots : List SlotPtr) :
    SortInv Target auxslots (partition_copy (has_target Target) auxslots.reverse [] []).1
      (partition_copy (has_target Target) auxslots.reverse [] []).2 [] := by
  rw [partition_copy_eq]
  have hnull : ∀ b ∈ (List.filter (fun s => !has_target Target s) auxslots.reverse).reverse,
      Target b = none := by
    intro b hb
    simp [has_target] at hb
    exact hb.2
  refine ⟨?_, ?_, ?_, ?_, ?_, ?_⟩
  · simp only [List.nil_append, List.append_nil]
    have h1 : (List.filter (has_target Target) auxslots.reverse ++
        (List.filter (fun s => !has_target Target s) auxslots.reverse).reverse).Perm
        (List.filter (has_target Target) auxslots.reverse ++
        (List.filter (fun s => !has_target Target s) auxslots.reverse)) :=
      List.Perm.append_left _ (List.reverse_perm _)
    exact h1.trans ((List.filter_append_perm _ _).trans (List.reverse_perm _))
  · intro s hs
    simp [has_target] at hs
    intro h; rw [h] at hs; simp at hs
  · intro s _ t ht; simp at ht
  · intro s hs
    left
    simp only [List.nil_append, List.append_nil] at hs
    exact hnull s hs
  · simp only [List.nil_append, List.append_nil]
    apply List.pairwise_of_forall_mem_list
    intro a _ b hb
    rw [hnull b hb]; simp
  · simp only [List.nil_append, List.append_nil]
    apply List.pairwise_of_forall_mem_list
    intro a _ b hb _
    exact hnull b hb

theorem SortInv.step {Target : SlotPtr → Option SlotPtr}
    {auxslots pre u proc a b : List SlotPtr} {t : SlotPtr}
    (inv : SortInv Target auxslots pre (u ++ [t]) proc)
    (hperm : (a ++ b).Perm pre)
    (ha : ∀ s ∈ a, Target s ≠ some t) (hb : ∀ s ∈ b, Target s = some t) :
    SortInv Target auxslots a (b ++ u) (t :: proc) := by
  have hsub_a : ∀ s ∈ a, s ∈ pre := fun s hs => hperm.subset (by simp [hs])
  have hsub_b : ∀ s ∈ b, s ∈ pre := fun s hs => hperm.subset (by simp [hs])
  have hsuf : b ++ u ++ t :: proc = b ++ (u ++ [t] ++ proc) := by simp
  have hmem_proc : ∀ x ∈ proc, x ∈ u ++ [t] ++ proc := fun x hx => by simp [hx]
  refine ⟨?_, ?_, ?_, ?_, ?_, ?_⟩
  · have h1 : (a ++ (b ++ u) ++ t :: proc) = (a ++ b) ++ (u ++ [t] ++ proc) := by simp
    have h2 : (pre ++ (u ++ [t]) ++ proc) = pre ++ (u ++ [t] ++ proc) := by simp
    rw [h1]
    exact (List.Perm.append_right _ hperm).trans (h2 ▸ inv.perm)
  · exact fun s hs => inv.pre_has s (hsub_a s hs)
  · intro s hs x hx
    rcases List.mem_cons.mp hx with rfl | hx
    · exact ha s hs
    · exact inv.pre_not s (hsub_a s hs) x hx
  · intro s hs
    rw [hsuf] at hs
    rcases List.mem_append.mp hs with hs | hs
    · exact Or.inr ⟨t, by simp, hb s hs⟩
    · rcases inv.suf_tgt s hs with h | ⟨x, hx, h⟩
      · exact Or.inl h
      · exact Or.inr ⟨x, by simp [hx], h⟩
  · rw [hsuf, List.pairwise_append]
    refine ⟨?_, inv.ord, ?_⟩
    · apply List.pairwise_of_forall_mem_list
      intro x hx y hy h
      rw [hb y hy] at h
      have : x = t := by simpa using h.symm
      subst this
      exact inv.disjoint (hsub_b _ hx) (by simp)
    · intro x hx y hy h
      rcases inv.suf_tgt y hy with h' | ⟨z, hz, h'⟩
      · rw [h'] at h; simp at h
      · rw [h'] at h
        have : z = x := by simpa using h
        subst this
        exact inv.disjoint (hsub_b _ hx) (hmem_proc _ hz)
  · rw [hsuf, List.pairwise_append]
    refine ⟨?_, inv.nl, ?_⟩
    · apply List.pairwise_of_forall_mem_list
      intro x hx y _ h
      exact absurd h (inv.pre_has x (hsub_b x hx))
    · intro x hx y _ h
      exact absurd h (inv.pre_has x (hsub_b x hx))

theorem SortInv.pre_empty {Target : SlotPtr → Option SlotPtr} {auxslots pre proc : List SlotPtr}
    (rank : SlotPtr → Nat)
    (hrank : ∀ s ∈ auxslots, ∀ t, Target s = some t → rank t < rank s)
    (hclosed : ∀ s ∈ auxslots, ∀ t, Target s = some t → t ∈ auxslots)
    (inv : SortInv Target auxslots pre [] proc) : pre = [] := by
  have key : ∀ r s, rank s = r → s ∈ pre → False := by
    intro r
    induction r using Nat.strong_induction_on with
    | _ r ih =>
      intro s hr hs
      have hsaux : s ∈ auxslots := inv.perm.subset (by simp [hs])
      cases hT : Target s with
      | none => exact inv.pre_has s hs hT
      | some t =>
        have htaux : t ∈ auxslots := hclosed s hsaux t hT
        have ht : t ∈ pre ++ [] ++ proc := inv.perm.symm.subset htaux
        simp only [List.append_nil, List.mem_append] at ht
        rcases ht with ht | ht
        · exact ih (rank t) (hr ▸ hrank s hsaux t hT) t rfl ht
        · exact inv.pre_not s hs t ht hT
  cases pre with
  | nil => rfl
  | cons s rest => exact (key _ s rfl (by simp)).elim

theorem SortInv.final {Target : SlotPtr → Option SlotPtr}
    {auxslots pre unproc proc : List SlotPtr} (rank : SlotPtr → Nat)
    (hrank : ∀ s ∈ auxslots, ∀ t, Target s = some t → rank t < rank s)
    (hclosed : ∀ s ∈ auxslots, ∀ t, Target s = some t → t ∈ auxslots)
    (inv : SortInv Target auxslots pre unproc proc)
    (hend : pre.length ≤ 1 ∨ unproc = []) :
    (pre ++ unproc ++ proc).Perm auxslots ∧
    (pre ++ unproc ++ proc).Pairwise (fun a b => Target b ≠ some a) ∧
    (pre ++ unproc ++ proc).Pairwise (fun a b => Target a = none → Target b = none) := by
  have hpre : pre.length ≤ 1 := by
    rcases hend with h | h
    · exact h
    · subst h
      rw [inv.pre_empty rank hrank hclosed]; simp
  have hpw : ∀ (R : SlotPtr → SlotPtr → Prop), pre.Pairwise R := by
    intro R
    match pre, hpre with
    | [], _ => exact List.Pairwise.nil
    | [x], _ => exact List.pairwise_singleton R x
    | _ :: _ :: _, h => simp at h
  refine ⟨inv.perm, ?_, ?_⟩
  · rw [List.append_assoc, List.pairwise_append]
    refine ⟨hpw _, inv.ord, ?_⟩
    intro x hx y hy h
    rcases inv.suf_tgt y hy with h' | ⟨z, hz, h'⟩
    · rw [h'] at h; simp at h
    · rw [h'] at h
      have : z = x := by simpa using h
      subst this
      exact inv.disjoint hx (by simp [hz])
  · rw [List.append_assoc, List.pairwise_append]
    refine ⟨hpw _, inv.nl, ?_⟩
    intro x hx y _ h
    exact absurd h (inv.pre_has x hx)

theorem sortLoop_spec
    {partition : (SlotPtr → Bool) → List SlotPtr → List SlotPtr × List SlotPtr}
    {Target : SlotPtr → Option SlotPtr} {auxslots : List SlotPtr}
    (hpart : IsStdPartition partition) (rank : SlotPtr → Nat)
    (hrank : ∀ s ∈ auxslots, ∀ t, Target s = some t → rank t < rank s)
    (hclosed : ∀ s ∈ auxslots, ∀ t, Target s = some t → t ∈ auxslots) :
    ∀ (n : Nat) (pre unproc proc : List SlotPtr), n = pre.length + unproc.length →
      SortInv Target auxslots pre unproc proc →
      (sortLoop partition Target n (pre ++ unproc ++ proc) pre.length).Perm auxslots ∧
      (sortLoop partition Target n (pre ++ unproc ++ proc) pre.length).Pairwise
        (fun a b => Target b ≠ some a) ∧
      (sortLoop partition Target n (pre ++ unproc ++ proc) pre.length).Pairwise
        (fun a b => Target a = none → Target b = none) := by
  intro n
  induction n with
  | zero =>
    intro pre unproc proc hn inv
    have hu : unproc = [] := List.length_eq_zero.mp (by omega)
    simp only [sortLoop]
    exact inv.final rank hrank hclosed (Or.inr hu)
  | succ m ih =>
    intro pre unproc proc hn inv
    simp only [sortLoop]
    by_cases hsp : pre.length > 1
    · rw [if_pos hsp]
      by_cases hbrk : m + 1 = pre.length
      · rw [if_pos hbrk]
        have hu : unproc = [] := List.length_eq_zero.mp (by omega)
        exact inv.final rank hrank hclosed (Or.inr hu)
      · rw [if_neg hbrk]
        rcases List.eq_nil_or_concat unproc with hu | ⟨u, t, hu⟩
        · subst hu; simp at hn; omega
        · rw [List.concat_eq_append] at hu
          subst hu
          have hlen : m = pre.length + u.length := by simp at hn; omega
          have hget : (pre ++ (u ++ [t]) ++ proc)[m]? = some t := by
            rw [List.append_assoc, List.getElem?_append_right (by omega),
              List.append_assoc, List.getElem?_append_right (by omega)]
            have : m - pre.length - u.length = 0 := by omega
            simp [this]
          have htake : (pre ++ (u ++ [t]) ++ proc).take pre.length = pre := by
            rw [List.append_assoc, List.take_left]
          have hdrop : (pre ++ (u ++ [t]) ++ proc).drop pre.length = u ++ [t] ++ proc := by
            rw [List.append_assoc, List.drop_left]
          rw [hget, htake, hdrop]
          obtain ⟨hp1, hp2, hp3⟩ := hpart (fun slot => Target slot != some t) pre
          have inv' := inv.step hp1
            (fun s hs => by simpa using hp2 s hs)
            (fun s hs => by simpa using hp3 s hs)
          have := ih _ _ _ (by
            have := hp1.length_eq
            simp at this ⊢; omega) inv'
          have hshape : (partition (fun slot => Target slot != some t) pre).1 ++
              (partition (fun slot => Target slot != some t) pre).2 ++ (u ++ [t] ++ proc) =
              (partition (fun slot => Target slot != some t) pre).1 ++
              ((partition (fun slot => Target slot != some t) pre).2 ++ u) ++ t :: proc := by
            simp
          rw [hshape]
          exact this
    · rw [if_neg hsp]
      exact inv.final rank hrank hclosed (Or.inl (by omega))

theorem sortSlots_spec
    {partition : (SlotPtr → Bool) → List SlotPtr → List SlotPtr × List SlotPtr}
    {Target : SlotPtr → Option SlotPtr} {auxslots : List SlotPtr}
    (hpart : IsStdPartition partition) (rank : SlotPtr → Nat)
    (hrank : ∀ s ∈ auxslots, ∀ t, Target s = some t → rank t < rank s)
    (hclosed : ∀ s ∈ auxslots, ∀ t, Target s = some t → t ∈ auxslots) :
    (sortSlots partition Target auxslots).Perm auxslots ∧
    (sortSlots partition Target auxslots).Pairwise (fun a b => Target b ≠ some a) ∧
    (sortSlots partition Target auxslots).Pairwise
      (fun a b => Target a = none → Target b = none) := by
  have inv := SortInv.init Target auxslots
  have h := sortLoop_spec hpart rank hrank hclosed _ _ _ [] rfl inv
  simp only [List.append_nil] at h
  simpa [sortSlots] using h

theorem sortSlots_pair (partition : (SlotPtr → Bool) → List SlotPtr → List SlotPtr × List SlotPtr)
    (Target : SlotPtr → Option SlotPtr) (A B : SlotPtr)
    (hA : Target A = some B) (hB : Target B = none) :
    sortSlots partition Target [A, B] = [A, B] ∧ sortSlots partition Target [B, A] = [A, B] := by
  constructor <;>
    simp [sortSlots, partition_copy, has_target, hA, hB, sortLoop]

theorem getElem?_lt_of_pairwise {R : SlotPtr → SlotPtr → Prop} {l : List SlotPtr}
    (h : l.Pairwise R) {i j : Nat} {a b : SlotPtr} (hi : l[i]? = some a) (hj : l[j]? = some b)
    (hij : i < j) : R a b := by
  rw [List.pairwise_iff_getElem] at h
  obtain ⟨hi', hia⟩ := List.getElem?_eq_some_iff.mp hi
  obtain ⟨hj', hjb⟩ := List.getElem?_eq_some_iff.mp hj
  have := h i j hi' hj' hij
  rwa [hia, hjb] at this

theorem stablePartition_isStdPartition : IsStdPartition stablePartition := by
  intro pred range
  refine ⟨?_, ?_, ?_⟩
  · exact List.filter_append_perm pred range
  · intro s hs
    simp [stablePartition] at hs
    exact hs.2
  · intro s hs
    simp [stablePartition] at hs
    exact hs.2

/-- C2: for a non-empty active slot list whose Target links are acyclic (witnessed by
a rank that decreases along every link) and stay inside the list (so that some slot
has no target), and for any `std::partition` meeting the standard's contract, the
sort run by `ProcessContexts` when `sorted_slots[0]` is null leaves every slot with a
target at a smaller index than its target and every slot without target behind all
slots with one; for slots `A` (Target = `B`) and `B` (Target = null), in either
order, the result is `[A, B]`. -/
theorem sorted_slots_targets_later
    (partition : (SlotPtr → Bool) → List SlotPtr → List SlotPtr × List SlotPtr)
    (Target : SlotPtr → Option SlotPtr) (auxslots : List SlotPtr)
    (sorted_slots : List (Option SlotPtr)) (rank : SlotPtr → Nat)
    (hpart : IsStdPartition partition)
    (hne : auxslots ≠ [])
    (hrank : ∀ s ∈ auxslots, ∀ t, Target s = some t → rank t < rank s)
    (hclosed : ∀ s ∈ auxslots, ∀ t, Target s = some t → t ∈ auxslots)
    (hfirst : sorted_slots[0]? = some none) :
    (∀ (i j : Nat) (s t : SlotPtr),
      (ProcessContexts_sorted_slots partition Target auxslots sorted_slots)[i]? = some (some s) →
      (ProcessContexts_sorted_slots partition Target auxslots sorted_slots)[j]? = some (some t) →
      Target s = some t → i < j) ∧
    (∀ (i j : Nat) (s t : SlotPtr),
      (ProcessContexts_sorted_slots partition Target auxslots sorted_slots)[i]? = some (some s) →
      (ProcessContexts_sorted_slots partition Target auxslots sorted_slots)[j]? = some (some t) →
      Target s = none → Target t ≠ none → j < i) ∧
    (∀ (A B : SlotPtr), Target A = some B → Target B = none →
      ProcessContexts_sorted_slots partition Target [A, B] [none, none] = [some A, some B] ∧
      ProcessContexts_sorted_slots partition Target [B, A] [none, none] = [some A, some B]) := by
  have hrun : ProcessContexts_sorted_slots partition Target auxslots sorted_slots =
      (sortSlots partition Target auxslots).map some := by
    unfold ProcessContexts_sorted_slots
    have : auxslots.isEmpty = false := by
      cases auxslots with
      | nil => exact absurd rfl hne
      | cons _ _ => rfl
    rw [this]
    match sorted_slots, hfirst with
    | none :: _, _ => simp
    | some _ :: _, h => simp at h
    | [], h => simp at h
  obtain ⟨hperm, hord, hnl⟩ := sortSlots_spec hpart rank hrank hclosed
  have hget : ∀ (i : Nat) (s : SlotPtr),
      ((sortSlots partition Target auxslots).map some)[i]? = some (some s) →
      (sortSlots partition Target auxslots)[i]? = some s := by
    intro i s h
    rw [List.getElem?_map] at h
    cases hx : (sortSlots partition Target auxslots)[i]? with
    | none => rw [hx] at h; simp at h
    | some x => rw [hx] at h; simpa using h
  refine ⟨?_, ?_, ?_⟩
  · intro i j s t hi hj hst
    rw [hrun] at hi hj
    have hi' := hget i s hi
    have hj' := hget j t hj
    by_contra hcon
    rcases lt_or_eq_of_le (not_lt.mp hcon) with hlt | heq
    · exact getElem?_lt_of_pairwise hord hj' hi' hlt hst
    · subst heq
      have hs : s = t := by rw [hi'] at hj'; simpa using hj'
      subst hs
      have hmem : s ∈ auxslots := hperm.subset (List.mem_iff_getElem?.mpr ⟨_, hi'⟩)
      exact Nat.lt_irrefl _ (hrank s hmem s hst)
  · intro i j s t hi hj hs ht
    rw [hrun] at hi hj
    have hi' := hget i s hi
    have hj' := hget j t hj
    by_contra hcon
    rcases lt_or_eq_of_le (not_lt.mp hcon) with hlt | heq
    · exact ht (getElem?_lt_of_pairwise hnl hi' hj' hlt hs)
    · subst heq
      have hst : s = t := by rw [hi'] at hj'; simpa using hj'
      subst hst
      exact ht hs
  · intro A B hA hB
    obtain ⟨h1, h2⟩ := sortSlots_pair partition Target A B hA hB
    simp [ProcessContexts_sorted_slots, h1, h2]


/-- Witness for C2: the chain 3 -> 1 -> 2 -> device, listed as `[1, 2, 3]`, with the
order-preserving partition. -/
theorem sorted_slots_targets_later_witness :
    IsStdPartition stablePartition ∧ ([1, 2, 3] : List SlotPtr) ≠ [] ∧
    (∀ s ∈ ([1, 2, 3] : List SlotPtr), ∀ t, chainTarget s = some t →
      chainRank t < chainRank s) ∧
    (∀ s ∈ ([1, 2, 3] : List SlotPtr), ∀ t, chainTarget s = some t →
      t ∈ ([1, 2, 3] : List SlotPtr)) ∧
    ([none, none, none] : List (Option SlotPtr))[0]? = some none ∧
    (∀ (i j : Nat) (s t : SlotPtr),
      (ProcessContexts_sorted_slots stablePartition chainTarget [1, 2, 3]
        [none, none, none])[i]? = some (some s) →
      (ProcessContexts_sorted_slots stablePartition chainTarget [1, 2, 3]
        [none, none, none])[j]? = some (some t) →
      chainTarget s = some t → i < j) := by
  have h1 : ∀ s ∈ ([1, 2, 3] : List SlotPtr), ∀ t, chainTarget s = some t →
      chainRank t < chainRank s := by
    intro s hs t h
    simp only [List.mem_cons, List.mem_singleton, List.not_mem_nil, or_false] at hs
    rcases hs with rfl | rfl | rfl <;> simp [chainTarget] at h <;> subst h <;> decide
  have h2 : ∀ s ∈ ([1, 2, 3] : List SlotPtr), ∀ t, chainTarget s = some t →
      t ∈ ([1, 2, 3] : List SlotPtr) := by
    intro s hs t h
    simp only [List.mem_cons, List.mem_singleton, List.not_mem_nil, or_false] at hs
    rcases hs with rfl | rfl | rfl <;> simp [chainTarget] at h <;> subst h <;> decide
  exact ⟨stablePartition_isStdPartition, by decide, h1, h2, by decide,
    (sorted_slots_targets_later stablePartition chainTarget [1, 2, 3] [none, none, none]
      chainRank stablePartition_isStdPartition (by decide) h1 h2 (by decide)).1⟩

/-! ## ADPCM loaders: starting in the middle of a block -/


theorem Load.map_bind {α β γ : Type} (f : β → γ) (x : Load α) (g : α → Load β) :
    Except.map f (x >>= g) = x >>= fun a => Except.map f (g a) := by
  cases x <;> rfl

theorem IMA4_decode_run_append (nibbleData : List Nat) (srcStep : Nat) :
    ∀ (a b : Nat) (state : Int × Int) (off : Nat),
      IMA4_decode_run nibbleData srcStep (a + b) state off =
        (do
          let r1 ← IMA4_decode_run nibbleData srcStep a state off
          let r2 ← IMA4_decode_run nibbleData srcStep b r1.1 (off + a)
          pure (r2.1, r1.2 ++ r2.2)) := by
  intro a
  induction a with
  | zero =>
    intro b state off
    simp only [Nat.zero_add, IMA4_decode_run, Nat.add_zero, pure_bind, List.nil_append]
    cases IMA4_decode_run nibbleData srcStep b state off <;> rfl
  | succ a ih =>
    intro b state off
    have h : a + 1 + b = (a + b) + 1 := by omega
    rw [h]
    simp only [IMA4_decode_run]
    cases h1 : IMA4_decode_nibble nibbleData srcStep state off with
    | error e => rfl
    | ok st1 =>
      simp only [bind, Except.bind]
      rw [ih b st1 (off + 1)]
      simp only [bind, Except.bind]
      cases h2 : IMA4_decode_run nibbleData srcStep a st1 (off + 1) with
      | error e => rfl
      | ok r1 =>
        simp only [pure, Except.pure]
        have : off + 1 + a = off + (a + 1) := by omega
        rw [this]
        cases h3 : IMA4_decode_run nibbleData srcStep b r1.1 (off + (a + 1)) with
        | error e => rfl
        | ok r2 => simp

theorem IMA4_decode_run_length (nibbleData : List Nat) (srcStep : Nat) :
    ∀ (k : Nat) (state : Int × Int) (off : Nat) (r : (Int × Int) × List Int),
      IMA4_decode_run nibbleData srcStep k state off = Except.ok r → r.2.length = k := by
  intro k
  induction k with
  | zero =>
    intro state off r h
    simp only [IMA4_decode_run, pure, Except.pure] at h
    cases h; rfl
  | succ k ih =>
    intro state off r h
    simp only [IMA4_decode_run, bind, Except.bind] at h
    cases h1 : IMA4_decode_nibble nibbleData srcStep state off with
    | error e => rw [h1] at h; cases h
    | ok st1 =>
      rw [h1] at h
      simp only at h
      cases h2 : IMA4_decode_run nibbleData srcStep k st1 (off + 1) with
      | error e => rw [h2] at h; cases h
      | ok r1 =>
        rw [h2] at h
        simp only [pure, Except.pure] at h
        cases h
        simp [ih st1 (off + 1) r1 h2]

theorem Load.map_id_fun {α : Type} (x : Load (List α)) : Except.map (List.drop 0) x = x := by
  cases x <;> rfl

theorem IMA4_blocks_skip (srcChan srcStep spb fuel : Nat) (src : List Nat) (skip n : Nat)
    (hskip : skip < spb) (hn : 0 < n) :
    LoadSamples_IMA4_blocks srcChan srcStep spb fuel src skip n =
      Except.map (List.drop skip)
        (LoadSamples_IMA4_blocks srcChan srcStep spb fuel src 0 (skip + n)) := by
  by_cases h0 : skip = 0
  · subst h0
    rw [Nat.zero_add, Load.map_id_fun]
  obtain ⟨n', rfl⟩ : ∃ n', n = n' + 1 := ⟨n - 1, by omega⟩
  have hsn : skip + (n' + 1) = (skip + n') + 1 := by omega
  rw [hsn]
  cases fuel with
  | zero => rfl
  | succ fuel =>
    simp only [LoadSamples_IMA4_blocks]
    cases hh : IMA4_block_header srcChan srcStep (((spb - 1) / 2 + 4) * srcStep) src with
    | error e => rfl
    | ok header =>
      simp only [bind, Except.bind, if_neg h0, if_true]
      have hrem : ¬ (n' + 1 = 0) := by omega
      have hrem' : ¬ (skip + n' = 0) := by omega
      rw [if_neg hrem, if_neg hrem']
      have hcount : min (skip + n') (spb - (0 + 1)) =
          (skip - 1) + min (n' + 1) (spb - (skip - 1 + 1)) := by omega
      rw [hcount]
      have hz : IMA4_decode_run header.2.1 srcStep 0 header.1 0 = Except.ok (header.1, []) := rfl
      rw [hz]
      simp only []
      rw [IMA4_decode_run_append]
      simp only [bind, Except.bind, pure, Except.pure, Nat.zero_add]
      cases h1 : IMA4_decode_run header.2.1 srcStep (skip - 1) header.1 0 with
      | error e => rfl
      | ok r1 =>
        simp only []
        cases h2 : IMA4_decode_run header.2.1 srcStep (min (n' + 1) (spb - (skip - 1 + 1)))
            r1.1 (skip - 1) with
        | error e => rfl
        | ok r2 =>
          simp only []
          have hrest : skip + n' - (skip - 1 + min (n' + 1) (spb - (skip - 1 + 1))) =
              n' + 1 - min (n' + 1) (spb - (skip - 1 + 1)) := by omega
          rw [hrest]
          cases h3 : LoadSamples_IMA4_blocks srcChan srcStep spb fuel header.2.2 0
              (n' + 1 - min (n' + 1) (spb - (skip - 1 + 1))) with
          | error e => rfl
          | ok rest =>
            simp only [Except.map]
            have hlen := IMA4_decode_run_length _ _ _ _ _ _ h1
            congr 1
            have hsk : skip = (sampleToFloat header.1.1 ::
                List.map sampleToFloat r1.2).length := by simp [hlen]; omega
            simp only [List.nil_append, List.map_append, List.singleton_append,
              List.cons_append, List.append_assoc]
            conv_rhs => rw [hsk]
            rw [← List.cons_append, List.drop_left]

theorem Load.bind_ne_outOfFuel {α β : Type} {x : Load α} {f : α → Load β}
    (hx : x ≠ Except.error LoadError.outOfFuel)
    (hf : ∀ a, x = Except.ok a → f a ≠ Except.error LoadError.outOfFuel) :
    (x >>= f) ≠ Except.error LoadError.outOfFuel := by
  cases x with
  | error e => intro h; simp only [bind, Except.bind] at h; cases h; exact hx rfl
  | ok a => intro h; simp only [bind, Except.bind] at h; exact hf a rfl h

theorem spanAt_ne_outOfFuel (src : List Nat) (i : Nat) :
    spanAt src i ≠ Except.error LoadError.outOfFuel := by
  unfold spanAt
  cases src[i]? <;> simp [pure, Except.pure, throw, throwThe, MonadExceptOf.throw]

theorem subspan_ne_outOfFuel (src : List Nat) (k : Nat) :
    subspan src k ≠ Except.error LoadError.outOfFuel := by
  unfold subspan
  split <;> simp [pure, Except.pure, throw, throwThe, MonadExceptOf.throw]

theorem tableAt_ne_outOfFuel (table : List Int) (i : Nat) :
    tableAt table i ≠ Except.error LoadError.outOfFuel := by
  unfold tableAt
  cases table[i]? <;> simp [pure, Except.pure, throw, throwThe, MonadExceptOf.throw]

theorem pure_ne_outOfFuel {α : Type} (a : α) :
    (pure a : Load α) ≠ Except.error LoadError.outOfFuel := by
  simp [pure, Except.pure]

theorem IMA4_block_header_ne_outOfFuel (srcChan srcStep blockBytes : Nat) (src : List Nat) :
    IMA4_block_header srcChan srcStep blockBytes src ≠ Except.error LoadError.outOfFuel := by
  unfold IMA4_block_header
  refine Load.bind_ne_outOfFuel (spanAt_ne_outOfFuel _ _) fun _ _ => ?_
  refine Load.bind_ne_outOfFuel (spanAt_ne_outOfFuel _ _) fun _ _ => ?_
  refine Load.bind_ne_outOfFuel (spanAt_ne_outOfFuel _ _) fun _ _ => ?_
  refine Load.bind_ne_outOfFuel (spanAt_ne_outOfFuel _ _) fun _ _ => ?_
  refine Load.bind_ne_outOfFuel (subspan_ne_outOfFuel _ _) fun _ _ => ?_
  refine Load.bind_ne_outOfFuel (subspan_ne_outOfFuel _ _) fun _ _ => ?_
  exact pure_ne_outOfFuel _

theorem IMA4_decode_nibble_ne_outOfFuel (nibbleData : List Nat) (srcStep : Nat)
    (state : Int × Int) (off : Nat) :
    IMA4_decode_nibble nibbleData srcStep state off ≠ Except.error LoadError.outOfFuel := by
  unfold IMA4_decode_nibble
  refine Load.bind_ne_outOfFuel (spanAt_ne_outOfFuel _ _) fun _ _ => ?_
  refine Load.bind_ne_outOfFuel (tableAt_ne_outOfFuel _ _) fun _ _ => ?_
  refine Load.bind_ne_outOfFuel (tableAt_ne_outOfFuel _ _) fun _ _ => ?_
  refine Load.bind_ne_outOfFuel (tableAt_ne_outOfFuel _ _) fun _ _ => ?_
  exact pure_ne_outOfFuel _

theorem IMA4_decode_run_ne_outOfFuel (nibbleData : List Nat) (srcStep : Nat) :
    ∀ (k : Nat) (state : Int × Int) (off : Nat),
      IMA4_decode_run nibbleData srcStep k state off ≠ Except.error LoadError.outOfFuel := by
  intro k
  induction k with
  | zero => intro state off; exact pure_ne_outOfFuel _
  | succ k ih =>
    intro state off
    simp only [IMA4_decode_run]
    refine Load.bind_ne_outOfFuel (IMA4_decode_nibble_ne_outOfFuel _ _ _ _) fun _ _ => ?_
    refine Load.bind_ne_outOfFuel (ih _ _) fun _ _ => ?_
    exact pure_ne_outOfFuel _

theorem IMA4_blocks_ne_outOfFuel (srcChan srcStep spb : Nat) :
    ∀ (fuel : Nat) (src : List Nat) (skip n : Nat), skip < spb → n ≤ fuel →
      LoadSamples_IMA4_blocks srcChan srcStep spb fuel src skip n ≠
        Except.error LoadError.outOfFuel := by
  intro fuel
  induction fuel with
  | zero =>
    intro src skip n _ hn
    have : n = 0 := by omega
    subst this
    simp [LoadSamples_IMA4_blocks, pure, Except.pure]
  | succ fuel ih =>
    intro src skip n hskip hn
    cases n with
    | zero => simp [LoadSamples_IMA4_blocks, pure, Except.pure]
    | succ n =>
      simp only [LoadSamples_IMA4_blocks]
      refine Load.bind_ne_outOfFuel (IMA4_block_header_ne_outOfFuel _ _ _ _) fun header _ => ?_
      by_cases h0 : skip = 0
      · simp only [h0, if_true]
        by_cases hrem : n = 0
        · rw [if_pos hrem]; exact pure_ne_outOfFuel _
        · rw [if_neg hrem]
          refine Load.bind_ne_outOfFuel (IMA4_decode_run_ne_outOfFuel _ _ _ _ _) fun _ _ => ?_
          refine Load.bind_ne_outOfFuel (IMA4_decode_run_ne_outOfFuel _ _ _ _ _) fun _ _ => ?_
          refine Load.bind_ne_outOfFuel (ih _ _ _ (by omega) (by omega)) fun _ _ => ?_
          exact pure_ne_outOfFuel _
      · simp only [h0, if_false]
        rw [if_neg (by omega)]
        refine Load.bind_ne_outOfFuel (IMA4_decode_run_ne_outOfFuel _ _ _ _ _) fun _ _ => ?_
        refine Load.bind_ne_outOfFuel (IMA4_decode_run_ne_outOfFuel _ _ _ _ _) fun _ _ => ?_
        refine Load.bind_ne_outOfFuel (ih _ _ _ (by omega) ?_) fun _ _ => ?_
        · have : 1 ≤ (n + 1) ⊓ (spb - (skip - 1 + 1)) := by
            apply le_min <;> omega
          omega
        · exact pure_ne_outOfFuel _

theorem Load.bind_eq_ok {α β : Type} {x : Load α} {f : α → Load β} {b : β}
    (h : (x >>= f) = Except.ok b) : ∃ a, x = Except.ok a ∧ f a = Except.ok b := by
  cases x with
  | error e => cases h
  | ok a => exact ⟨a, rfl, h⟩

theorem IMA4_blocks_length (srcChan srcStep spb : Nat) :
    ∀ (fuel : Nat) (src : List Nat) (skip n : Nat) (r : List ℚ),
      LoadSamples_IMA4_blocks srcChan srcStep spb fuel src skip n = Except.ok r →
      r.length = n := by
  intro fuel
  induction fuel with
  | zero =>
    intro src skip n r h
    cases n with
    | zero => simp only [LoadSamples_IMA4_blocks, pure, Except.pure] at h; cases h; rfl
    | succ n => simp [LoadSamples_IMA4_blocks, throw, throwThe, MonadExceptOf.throw] at h
  | succ fuel ih =>
    intro src skip n r h
    cases n with
    | zero => simp only [LoadSamples_IMA4_blocks, pure, Except.pure] at h; cases h; rfl
    | succ n =>
      simp only [LoadSamples_IMA4_blocks] at h
      obtain ⟨header, _, h⟩ := Load.bind_eq_ok h
      by_cases h0 : skip = 0
      · simp only [h0, if_true] at h
        by_cases hrem : n = 0
        · rw [if_pos hrem] at h
          cases h
          simp [hrem]
        · rw [if_neg hrem] at h
          obtain ⟨r1, _, h⟩ := Load.bind_eq_ok h
          obtain ⟨r2, h2, h⟩ := Load.bind_eq_ok h
          obtain ⟨rest, h3, h⟩ := Load.bind_eq_ok h
          cases h
          have hl2 := IMA4_decode_run_length _ _ _ _ _ _ h2
          have hl3 := ih _ _ _ _ h3
          simp [hl2, hl3]
      · simp only [h0, if_false] at h
        rw [if_neg (by omega)] at h
        obtain ⟨r1, _, h⟩ := Load.bind_eq_ok h
        obtain ⟨r2, h2, h⟩ := Load.bind_eq_ok h
        obtain ⟨rest, h3, h⟩ := Load.bind_eq_ok h
        cases h
        have hl2 := IMA4_decode_run_length _ _ _ _ _ _ h2
        have hl3 := ih _ _ _ _ h3
        simp [hl2, hl3]

/-- C3: for every IMA4 buffer, channel, `samplesPerBlock > 1`, start offset `srcOffset`
and output length `n`: whenever decoding `srcOffset mod samplesPerBlock + n` samples
from the first sample of the containing block stays inside the buffer,
`LoadSamples<IMA4Data>` started at `srcOffset` produces those samples without the
first `srcOffset mod samplesPerBlock` of them; for a non-empty output the two results
agree outright (the same samples, or the same failure); a result has `n` samples, and
fuel `n` is enough for the block loop to finish. -/
theorem LoadSamples_IMA4_mid_block (fuel n : Nat) (src : List Nat)
    (srcChan srcOffset srcStep samplesPerBlock : Nat) (hspb : 1 < samplesPerBlock) :
    (0 < n →
      LoadSamples_IMA4 fuel n src srcChan srcOffset srcStep samplesPerBlock =
        Except.map (List.drop (srcOffset % samplesPerBlock))
          (LoadSamples_IMA4 fuel (srcOffset % samplesPerBlock + n) src srcChan
            (srcOffset - srcOffset % samplesPerBlock) srcStep samplesPerBlock)) ∧
    (∀ r, LoadSamples_IMA4 fuel (srcOffset % samplesPerBlock + n) src srcChan
        (srcOffset - srcOffset % samplesPerBlock) srcStep samplesPerBlock = Except.ok r →
      LoadSamples_IMA4 fuel n src srcChan srcOffset srcStep samplesPerBlock =
        Except.ok (r.drop (srcOffset % samplesPerBlock))) ∧
    (∀ r, LoadSamples_IMA4 fuel n src srcChan srcOffset srcStep samplesPerBlock =
      Except.ok r → r.length = n) ∧
    (n ≤ fuel → LoadSamples_IMA4 fuel n src srcChan srcOffset srcStep samplesPerBlock ≠
      Except.error LoadError.outOfFuel) := by
  have hpos : 0 < samplesPerBlock := by omega
  have hsk : srcOffset % samplesPerBlock < samplesPerBlock := Nat.mod_lt _ hpos
  have hblk : srcOffset - srcOffset % samplesPerBlock =
      samplesPerBlock * (srcOffset / samplesPerBlock) := by
    have := Nat.div_add_mod srcOffset samplesPerBlock
    omega
  have hdiv : (srcOffset - srcOffset % samplesPerBlock) / samplesPerBlock =
      srcOffset / samplesPerBlock := by
    rw [hblk, Nat.mul_div_cancel_left _ hpos]
  have hmod : (srcOffset - srcOffset % samplesPerBlock) % samplesPerBlock = 0 := by
    rw [hblk, Nat.mul_mod_right]
  have heq : 0 < n →
      LoadSamples_IMA4 fuel n src srcChan srcOffset srcStep samplesPerBlock =
        Except.map (List.drop (srcOffset % samplesPerBlock))
          (LoadSamples_IMA4 fuel (srcOffset % samplesPerBlock + n) src srcChan
            (srcOffset - srcOffset % samplesPerBlock) srcStep samplesPerBlock) := by
    intro hn
    unfold LoadSamples_IMA4
    rw [hdiv, hmod]
    simp only []
    cases hs : subspan src (srcOffset / samplesPerBlock * (((samplesPerBlock - 1) / 2 + 4) * srcStep)) with
    | error e => rfl
    | ok src1 =>
      simp only [bind, Except.bind]
      exact IMA4_blocks_skip _ _ _ _ _ _ _ hsk hn
  refine ⟨heq, ?_, ?_, ?_⟩
  · intro r hr
    by_cases hn : 0 < n
    · rw [heq hn, hr]; rfl
    · have hn0 : n = 0 := by omega
      subst hn0
      unfold LoadSamples_IMA4 at hr ⊢
      rw [hdiv, hmod] at hr
      obtain ⟨src1, hs, hr⟩ := Load.bind_eq_ok hr
      have hlen := IMA4_blocks_length _ _ _ _ _ _ _ _ hr
      simp only [] at hs ⊢
      rw [hs]
      have hnil : r.drop (srcOffset % samplesPerBlock) = [] := by
        apply List.drop_eq_nil_of_le; omega
      rw [hnil]
      cases fuel <;> simp [LoadSamples_IMA4_blocks, bind, Except.bind, pure, Except.pure]
  · intro r h
    unfold LoadSamples_IMA4 at h
    obtain ⟨src1, _, h⟩ := Load.bind_eq_ok h
    exact IMA4_blocks_length _ _ _ _ _ _ _ _ h
  · intro hf
    unfold LoadSamples_IMA4
    exact Load.bind_ne_outOfFuel (subspan_ne_outOfFuel _ _)
      fun _ _ => IMA4_blocks_ne_outOfFuel _ _ _ _ _ _ _ hsk hf

/-- Witness for C3: a mono buffer of two 9-sample blocks, three samples from offset 5. -/
theorem LoadSamples_IMA4_mid_block_witness :
    1 < 9 ∧ 0 < 3 ∧
    LoadSamples_IMA4 2 3 ima4Example 0 5 1 9 =
      Except.map (List.drop (5 % 9)) (LoadSamples_IMA4 2 (5 % 9 + 3) ima4Example 0 (5 - 5 % 9) 1 9) ∧
    LoadSamples_IMA4 2 3 ima4Example 0 5 1 9 =
      Except.ok [sampleToFloat 3, sampleToFloat 34, sampleToFloat 38] :=
  ⟨by decide, by decide,
    (LoadSamples_IMA4_mid_block 2 3 ima4Example 0 5 1 9 (by decide)).1 (by decide), rfl⟩



theorem MSADPCM_decode_run_append (nibbleData : List Nat) (coeffs : Int × Int) (srcStep : Nat) :
    ∀ (a b : Nat) (state : Int × Int × Int) (off : Nat),
      MSADPCM_decode_run nibbleData coeffs srcStep (a + b) state off =
        (do
          let r1 ← MSADPCM_decode_run nibbleData coeffs srcStep a state off
          let r2 ← MSADPCM_decode_run nibbleData coeffs srcStep b r1.1 (off + a * srcStep)
          pure (r2.1, r1.2 ++ r2.2)) := by
  intro a
  induction a with
  | zero =>
    intro b state off
    simp only [Nat.zero_add, MSADPCM_decode_run, Nat.zero_mul, Nat.add_zero, pure_bind,
      List.nil_append]
    cases MSADPCM_decode_run nibbleData coeffs srcStep b state off <;> rfl
  | succ a ih =>
    intro b state off
    have h : a + 1 + b = (a + b) + 1 := by omega
    rw [h]
    simp only [MSADPCM_decode_run]
    cases h1 : MSADPCM_decode_nibble nibbleData coeffs state off with
    | error e => rfl
    | ok st1 =>
      simp only [bind, Except.bind]
      rw [ih b st1 (off + srcStep)]
      simp only [bind, Except.bind]
      cases h2 : MSADPCM_decode_run nibbleData coeffs srcStep a st1 (off + srcStep) with
      | error e => rfl
      | ok r1 =>
        simp only [pure, Except.pure]
        have : off + srcStep + a * srcStep = off + (a + 1) * srcStep := by
          rw [Nat.add_mul, Nat.one_mul]; omega
        rw [this]
        cases h3 : MSADPCM_decode_run nibbleData coeffs srcStep b r1.1
            (off + (a + 1) * srcStep) with
        | error e => rfl
        | ok r2 => simp

theorem MSADPCM_decode_run_length (nibbleData : List Nat) (coeffs : Int × Int) (srcStep : Nat) :
    ∀ (k : Nat) (state : Int × Int × Int) (off : Nat) (r : (Int × Int × Int) × List Int),
      MSADPCM_decode_run nibbleData coeffs srcStep k state off = Except.ok r →
      r.2.length = k := by
  intro k
  induction k with
  | zero =>
    intro state off r h
    simp only [MSADPCM_decode_run, pure, Except.pure] at h
    cases h; rfl
  | succ k ih =>
    intro state off r h
    simp only [MSADPCM_decode_run] at h
    obtain ⟨st1, _, h⟩ := Load.bind_eq_ok h
    obtain ⟨r1, h2, h⟩ := Load.bind_eq_ok h
    cases h
    simp [ih _ _ _ h2]

theorem MSADPCM_blocks_skip (srcChan srcStep spb fuel : Nat) (src : List Nat) (skip n : Nat)
    (hskip : skip < spb) (hn : 0 < n) :
    LoadSamples_MSADPCM_blocks srcChan srcStep spb fuel src skip n =
      Except.map (List.drop skip)
        (LoadSamples_MSADPCM_blocks srcChan srcStep spb fuel src 0 (skip + n)) := by
  by_cases h0 : skip = 0
  · subst h0
    rw [Nat.zero_add, Load.map_id_fun]
  obtain ⟨n', rfl⟩ : ∃ n', n = n' + 1 := ⟨n - 1, by omega⟩
  have hsn : skip + (n' + 1) = (skip + n') + 1 := by omega
  rw [hsn]
  cases fuel with
  | zero => rfl
  | succ fuel =>
    simp only [LoadSamples_MSADPCM_blocks]
    cases hh : MSADPCM_block_header srcChan srcStep (((spb - 2) / 2 + 7) * srcStep) src with
    | error e => rfl
    | ok header =>
      have hc : ¬ (skip = 0 ∧ n' + 1 < 2) := fun h => h0 h.1
      simp only [bind, Except.bind, if_neg hc, if_neg h0, if_true, true_and, false_and, if_false]
      have hlt : ¬ (skip + n' + 1 < 2) := by omega
      rw [if_neg hlt]
      have hz : ∀ off, MSADPCM_decode_run header.2.2.1 header.1 srcStep 0 header.2.1 off =
          Except.ok (header.2.1, []) := fun _ => rfl
      by_cases h1 : skip = 1
      · subst h1
        simp only [if_true, List.length_singleton, List.length_cons, List.length_nil,
          Nat.zero_mul, Nat.add_zero]
        have e1 : n' + 1 - (0 + 1) = n' := by omega
        have e2 : 1 + n' + 1 - (0 + 1 + 1) = n' := by omega
        rw [e1, e2]
        by_cases hrem : n' = 0
        · rw [if_pos hrem, if_pos hrem]; rfl
        · rw [if_neg hrem, if_neg hrem, hz]
          simp only []
          cases h2 : MSADPCM_decode_run header.2.2.1 header.1 srcStep (min n' (spb - (0 + 2)))
              header.2.1 srcChan with
          | error e => rfl
          | ok r2 =>
            simp only []
            cases h3 : LoadSamples_MSADPCM_blocks srcChan srcStep spb fuel header.2.2.2 0
                (n' - min n' (spb - (0 + 2))) with
            | error e => rfl
            | ok rest => rfl
      · simp only [if_neg h1, List.length_nil, List.length_cons, Nat.zero_mul, Nat.add_zero]
        have hrem : ¬ (n' + 1 - 0 = 0) := by omega
        have hrem' : ¬ (skip + n' + 1 - (0 + 1 + 1) = 0) := by omega
        rw [if_neg hrem, if_neg hrem', hz]
        simp only []
        have hcount : min (skip + n' + 1 - (0 + 1 + 1)) (spb - (0 + 2)) =
            (skip - 2) + min (n' + 1 - 0) (spb - (skip - 2 + 2)) := by omega
        rw [hcount, MSADPCM_decode_run_append]
        simp only [bind, Except.bind, pure, Except.pure]
        cases h2 : MSADPCM_decode_run header.2.2.1 header.1 srcStep (skip - 2)
            header.2.1 srcChan with
        | error e => rfl
        | ok r1 =>
          simp only []
          cases h3 : MSADPCM_decode_run header.2.2.1 header.1 srcStep
              (min (n' + 1 - 0) (spb - (skip - 2 + 2))) r1.1 (srcChan + (skip - 2) * srcStep) with
          | error e => rfl
          | ok r2 =>
            simp only []
            have hrest : skip + n' + 1 - (0 + 1 + 1) -
                (skip - 2 + min (n' + 1 - 0) (spb - (skip - 2 + 2))) =
                n' + 1 - 0 - min (n' + 1 - 0) (spb - (skip - 2 + 2)) := by omega
            rw [hrest]
            cases h4 : LoadSamples_MSADPCM_blocks srcChan srcStep spb fuel header.2.2.2 0
                (n' + 1 - 0 - min (n' + 1 - 0) (spb - (skip - 2 + 2))) with
            | error e => rfl
            | ok rest =>
              simp only [Except.map]
              have hlen := MSADPCM_decode_run_length _ _ _ _ _ _ _ h2
              congr 1
              have hsk : skip = (sampleToFloat header.2.1.2.1 :: sampleToFloat header.2.1.1 ::
                  List.map sampleToFloat r1.2).length := by simp [hlen]; omega
              simp only [List.nil_append, List.map_append, List.singleton_append,
                List.cons_append, List.append_assoc]
              conv_rhs => rw [hsk]
              rw [← List.cons_append, ← List.cons_append, List.drop_left]

theorem checkedInt_ne_outOfFuel (v : Int) :
    checkedInt v ≠ Except.error LoadError.outOfFuel := by
  unfold checkedInt
  split <;> simp [pure, Except.pure, throw, throwThe, MonadExceptOf.throw]

theorem MSADPCM_block_header_ne_outOfFuel (srcChan srcStep blockBytes : Nat) (src : List Nat) :
    MSADPCM_block_header srcChan srcStep blockBytes src ≠
      Except.error LoadError.outOfFuel := by
  unfold MSADPCM_block_header
  refine Load.bind_ne_outOfFuel (spanAt_ne_outOfFuel _ _) fun _ _ => ?_
  refine Load.bind_ne_outOfFuel (spanAt_ne_outOfFuel _ _) fun _ _ => ?_
  refine Load.bind_ne_outOfFuel (spanAt_ne_outOfFuel _ _) fun _ _ => ?_
  refine Load.bind_ne_outOfFuel (spanAt_ne_outOfFuel _ _) fun _ _ => ?_
  refine Load.bind_ne_outOfFuel (spanAt_ne_outOfFuel _ _) fun _ _ => ?_
  refine Load.bind_ne_outOfFuel (spanAt_ne_outOfFuel _ _) fun _ _ => ?_
  refine Load.bind_ne_outOfFuel (spanAt_ne_outOfFuel _ _) fun _ _ => ?_
  refine Load.bind_ne_outOfFuel (subspan_ne_outOfFuel _ _) fun _ _ => ?_
  refine Load.bind_ne_outOfFuel (subspan_ne_outOfFuel _ _) fun _ _ => ?_
  refine Load.bind_ne_outOfFuel ?_ fun _ _ => pure_ne_outOfFuel _
  unfold coeffsAt
  split <;> simp [pure, Except.pure, throw, throwThe, MonadExceptOf.throw]

theorem MSADPCM_decode_nibble_ne_outOfFuel (nibbleData : List Nat) (coeffs : Int × Int)
    (state : Int × Int × Int) (off : Nat) :
    MSADPCM_decode_nibble nibbleData coeffs state off ≠ Except.error LoadError.outOfFuel := by
  unfold MSADPCM_decode_nibble
  refine Load.bind_ne_outOfFuel (spanAt_ne_outOfFuel _ _) fun _ _ => ?_
  refine Load.bind_ne_outOfFuel (checkedInt_ne_outOfFuel _) fun _ _ => ?_
  refine Load.bind_ne_outOfFuel (checkedInt_ne_outOfFuel _) fun _ _ => ?_
  refine Load.bind_ne_outOfFuel (checkedInt_ne_outOfFuel _) fun _ _ => ?_
  refine Load.bind_ne_outOfFuel (tableAt_ne_outOfFuel _ _) fun _ _ => ?_
  refine Load.bind_ne_outOfFuel (checkedInt_ne_outOfFuel _) fun _ _ => ?_
  exact pure_ne_outOfFuel _

theorem MSADPCM_decode_run_ne_outOfFuel (nibbleData : List Nat) (coeffs : Int × Int)
    (srcStep : Nat) :
    ∀ (k : Nat) (state : Int × Int × Int) (off : Nat),
      MSADPCM_decode_run nibbleData coeffs srcStep k state off ≠
        Except.error LoadError.outOfFuel := by
  intro k
  induction k with
  | zero => intro state off; exact pure_ne_outOfFuel _
  | succ k ih =>
    intro state off
    simp only [MSADPCM_decode_run]
    refine Load.bind_ne_outOfFuel (MSADPCM_decode_nibble_ne_outOfFuel _ _ _ _) fun _ _ => ?_
    refine Load.bind_ne_outOfFuel (ih _ _) fun _ _ => ?_
    exact pure_ne_outOfFuel _

theorem MSADPCM_blocks_ne_outOfFuel (srcChan srcStep spb : Nat) :
    ∀ (fuel : Nat) (src : List Nat) (skip n : Nat), skip < spb → n ≤ fuel →
      LoadSamples_MSADPCM_blocks srcChan srcStep spb fuel src skip n ≠
        Except.error LoadError.outOfFuel := by
  intro fuel
  induction fuel with
  | zero =>
    intro src skip n _ hn
    have : n = 0 := by omega
    subst this
    simp [LoadSamples_MSADPCM_blocks, pure, Except.pure]
  | succ fuel ih =>
    intro src skip n hskip hn
    cases n with
    | zero => simp [LoadSamples_MSADPCM_blocks, pure, Except.pure]
    | succ n =>
      simp only [LoadSamples_MSADPCM_blocks]
      refine Load.bind_ne_outOfFuel (MSADPCM_block_header_ne_outOfFuel _ _ _ _)
        fun header _ => ?_
      by_cases hc : skip = 0 ∧ n + 1 < 2
      · rw [if_pos hc]; exact pure_ne_outOfFuel _
      · rw [if_neg hc]
        by_cases hrem : n + 1 - (if skip = 0 then [sampleToFloat header.2.1.2.1,
            sampleToFloat header.2.1.1] else if skip = 1 then [sampleToFloat header.2.1.1]
            else ([] : List ℚ)).length = 0
        · rw [if_pos hrem]; exact pure_ne_outOfFuel _
        · rw [if_neg hrem]
          refine Load.bind_ne_outOfFuel (MSADPCM_decode_run_ne_outOfFuel _ _ _ _ _ _)
            fun _ _ => ?_
          refine Load.bind_ne_outOfFuel (MSADPCM_decode_run_ne_outOfFuel _ _ _ _ _ _)
            fun _ _ => ?_
          refine Load.bind_ne_outOfFuel (ih _ _ _ (by omega) ?_) fun _ _ => pure_ne_outOfFuel _
          by_cases h0 : skip = 0
          · simp only [h0, if_true, List.length_cons, List.length_nil] at hrem ⊢
            omega
          · by_cases h1 : skip = 1
            · simp only [h1, if_true, List.length_cons, List.length_nil] at hrem ⊢
              simp only [Nat.one_ne_zero, if_false, List.length_cons, List.length_nil] at hrem ⊢
              omega
            · simp only [h0, h1, if_false, List.length_nil] at hrem ⊢
              have : 1 ≤ (n + 1 - 0) ⊓ (spb - (skip - 2 + 2)) := by
                apply le_min <;> omega
              omega

theorem MSADPCM_blocks_length (srcChan srcStep spb : Nat) :
    ∀ (fuel : Nat) (src : List Nat) (skip n : Nat) (r : List ℚ),
      LoadSamples_MSADPCM_blocks srcChan srcStep spb fuel src skip n = Except.ok r →
      r.length = n := by
  intro fuel
  induction fuel with
  | zero =>
    intro src skip n r h
    cases n with
    | zero => simp only [LoadSamples_MSADPCM_blocks, pure, Except.pure] at h; cases h; rfl
    | succ n => simp [LoadSamples_MSADPCM_blocks, throw, throwThe, MonadExceptOf.throw] at h
  | succ fuel ih =>
    intro src skip n r h
    cases n with
    | zero => simp only [LoadSamples_MSADPCM_blocks, pure, Except.pure] at h; cases h; rfl
    | succ n =>
      simp only [LoadSamples_MSADPCM_blocks] at h
      obtain ⟨header, _, h⟩ := Load.bind_eq_ok h
      by_cases hc : skip = 0 ∧ n + 1 < 2
      · rw [if_pos hc] at h
        cases h
        simp; omega
      · rw [if_neg hc] at h
        by_cases hrem : n + 1 - (if skip = 0 then [sampleToFloat header.2.1.2.1,
            sampleToFloat header.2.1.1] else if skip = 1 then [sampleToFloat header.2.1.1]
            else ([] : List ℚ)).length = 0
        · rw [if_pos hrem] at h
          cases h
          by_cases h0 : skip = 0
          · simp only [h0, if_true, List.length_cons, List.length_nil] at hrem ⊢
            omega
          · by_cases h1 : skip = 1
            · simp only [h1, if_true, List.length_cons, List.length_nil] at hrem ⊢
              simp only [Nat.one_ne_zero, if_false, List.length_cons, List.length_nil] at hrem ⊢
              omega
            · simp only [h0, h1, if_false, List.length_nil] at hrem ⊢
              omega
        · rw [if_neg hrem] at h
          obtain ⟨r1, _, h⟩ := Load.bind_eq_ok h
          obtain ⟨r2, h2, h⟩ := Load.bind_eq_ok h
          obtain ⟨rest, h3, h⟩ := Load.bind_eq_ok h
          cases h
          have hl2 := MSADPCM_decode_run_length _ _ _ _ _ _ _ h2
          have hl3 := ih _ _ _ _ h3
          simp only [List.length_append, List.length_map, hl2, hl3]
          by_cases h0 : skip = 0
          · simp only [h0, if_true, List.length_cons, List.length_nil] at hrem ⊢
            omega
          · by_cases h1 : skip = 1
            · simp only [h1, if_true, List.length_cons, List.length_nil] at hrem ⊢
              simp only [Nat.one_ne_zero, if_false, List.length_cons, List.length_nil] at hrem ⊢
              omega
            · simp only [h0, h1, if_false, List.length_nil] at hrem ⊢
              omega

/-- C4: for every MSADPCM buffer, channel, `samplesPerBlock > 2`, start offset
`srcOffset` and output length `n`: whenever decoding `srcOffset mod samplesPerBlock + n`
samples from the first sample of the containing block stays inside the buffer and the
`int` range, `LoadSamples<MSADPCMData>` started at `srcOffset` produces those samples
without the first `srcOffset mod samplesPerBlock` of them, whether that skip is 0, 1
or at least 2 (the two header history samples come first, the older one before the
newer); for a non-empty output the two results agree outright; a result has `n`
samples, and fuel `n` is enough for the block loop to finish. -/
theorem LoadSamples_MSADPCM_mid_block (fuel n : Nat) (src : List Nat)
    (srcChan srcOffset srcStep samplesPerBlock : Nat) (hspb : 2 < samplesPerBlock) :
    (0 < n →
      LoadSamples_MSADPCM fuel n src srcChan srcOffset srcStep samplesPerBlock =
        Except.map (List.drop (srcOffset % samplesPerBlock))
          (LoadSamples_MSADPCM fuel (srcOffset % samplesPerBlock + n) src srcChan
            (srcOffset - srcOffset % samplesPerBlock) srcStep samplesPerBlock)) ∧
    (∀ r, LoadSamples_MSADPCM fuel (srcOffset % samplesPerBlock + n) src srcChan
        (srcOffset - srcOffset % samplesPerBlock) srcStep samplesPerBlock = Except.ok r →
      LoadSamples_MSADPCM fuel n src srcChan srcOffset srcStep samplesPerBlock =
        Except.ok (r.drop (srcOffset % samplesPerBlock))) ∧
    (∀ r, LoadSamples_MSADPCM fuel n src srcChan srcOffset srcStep samplesPerBlock =
      Except.ok r → r.length = n) ∧
    (n ≤ fuel → LoadSamples_MSADPCM fuel n src srcChan srcOffset srcStep samplesPerBlock ≠
      Except.error LoadError.outOfFuel) := by
  have hpos : 0 < samplesPerBlock := by omega
  have hsk : srcOffset % samplesPerBlock < samplesPerBlock := Nat.mod_lt _ hpos
  have hblk : srcOffset - srcOffset % samplesPerBlock =
      samplesPerBlock * (srcOffset / samplesPerBlock) := by
    have := Nat.div_add_mod srcOffset samplesPerBlock
    omega
  have hdiv : (srcOffset - srcOffset % samplesPerBlock) / samplesPerBlock =
      srcOffset / samplesPerBlock := by
    rw [hblk, Nat.mul_div_cancel_left _ hpos]
  have hmod : (srcOffset - srcOffset % samplesPerBlock) % samplesPerBlock = 0 := by
    rw [hblk, Nat.mul_mod_right]
  have heq : 0 < n →
      LoadSamples_MSADPCM fuel n src srcChan srcOffset srcStep samplesPerBlock =
        Except.map (List.drop (srcOffset % samplesPerBlock))
          (LoadSamples_MSADPCM fuel (srcOffset % samplesPerBlock + n) src srcChan
            (srcOffset - srcOffset % samplesPerBlock) srcStep samplesPerBlock) := by
    intro hn
    unfold LoadSamples_MSADPCM
    rw [hdiv, hmod]
    simp only []
    cases hs : subspan src (srcOffset / samplesPerBlock * (((samplesPerBlock - 2) / 2 + 7) * srcStep)) with
    | error e => rfl
    | ok src1 =>
      simp only [bind, Except.bind]
      exact MSADPCM_blocks_skip _ _ _ _ _ _ _ hsk hn
  refine ⟨heq, ?_, ?_, ?_⟩
  · intro r hr
    by_cases hn : 0 < n
    · rw [heq hn, hr]; rfl
    · have hn0 : n = 0 := by omega
      subst hn0
      unfold LoadSamples_MSADPCM at hr ⊢
      rw [hdiv, hmod] at hr
      obtain ⟨src1, hs, hr⟩ := Load.bind_eq_ok hr
      have hlen := MSADPCM_blocks_length _ _ _ _ _ _ _ _ hr
      simp only [] at hs ⊢
      rw [hs]
      have hnil : r.drop (srcOffset % samplesPerBlock) = [] := by
        apply List.drop_eq_nil_of_le; omega
      rw [hnil]
      cases fuel <;> simp [LoadSamples_MSADPCM_blocks, bind, Except.bind, pure, Except.pure]
  · intro r h
    unfold LoadSamples_MSADPCM at h
    obtain ⟨src1, _, h⟩ := Load.bind_eq_ok h
    exact MSADPCM_blocks_length _ _ _ _ _ _ _ _ h
  · intro hf
    unfold LoadSamples_MSADPCM
    exact Load.bind_ne_outOfFuel (subspan_ne_outOfFuel _ _)
      fun _ _ => MSADPCM_blocks_ne_outOfFuel _ _ _ _ _ _ _ hsk hf

/-- Witness for C4: a mono buffer of two 6-sample blocks, four samples from offset 3
(skip of 3), which run into the header samples of the second block; and the first
two samples of the buffer, the header's older history sample (16) before the newer
one (32). -/
theorem LoadSamples_MSADPCM_mid_block_witness :
    2 < 6 ∧ 0 < 4 ∧
    LoadSamples_MSADPCM 3 4 msadpcmExample 0 3 1 6 =
      Except.map (List.drop (3 % 6))
        (LoadSamples_MSADPCM 3 (3 % 6 + 4) msadpcmExample 0 (3 - 3 % 6) 1 6) ∧
    LoadSamples_MSADPCM 3 4 msadpcmExample 0 3 1 6 =
      Except.ok [sampleToFloat 128, sampleToFloat 80, sampleToFloat (-196), sampleToFloat 88] ∧
    LoadSamples_MSADPCM 3 2 msadpcmExample 0 0 1 6 =
      Except.ok [sampleToFloat 16, sampleToFloat 32] :=
  ⟨by decide, by decide,
    (LoadSamples_MSADPCM_mid_block 3 4 msadpcmExample 0 3 1 6 (by decide)).1 (by decide),
    rfl, rfl⟩

/-! ## Voice step and sample conversion -/

theorem fastf2i_sub_le (x : ℚ) : (fastf2i x : ℚ) - x ≤ 1 / 2 := by
  have h1 := Int.self_sub_floor x
  have h2 := Int.fract_nonneg x
  have h3 := Int.fract_lt_one x
  unfold fastf2i
  split_ifs with a b c
  · linarith
  · push_cast; linarith
  · linarith
  · have : Int.fract x = 1 / 2 := le_antisymm (not_lt.mp b) (not_lt.mp a)
    push_cast; linarith

theorem sub_fastf2i_le (x : ℚ) : x - (fastf2i x : ℚ) ≤ 1 / 2 := by
  have h1 := Int.self_sub_floor x
  have h2 := Int.fract_nonneg x
  have h3 := Int.fract_lt_one x
  unfold fastf2i
  split_ifs with a b c
  · linarith
  · push_cast; linarith
  · have : Int.fract x = 1 / 2 := le_antisymm (not_lt.mp b) (not_lt.mp a)
    linarith
  · push_cast; linarith

theorem fastf2i_intCast (k : Int) : fastf2i (k : ℚ) = k := by
  unfold fastf2i
  simp

theorem fastf2i_le_of_le {x : ℚ} {k : Int} (h : x ≤ (k : ℚ)) : fastf2i x ≤ k := by
  have h1 := fastf2i_sub_le x
  have h2 : (fastf2i x : ℚ) < (k : ℚ) + 1 := by linarith
  have h3 : fastf2i x < k + 1 := by exact_mod_cast h2
  omega

theorem le_fastf2i_of_le {x : ℚ} {k : Int} (h : (k : ℚ) ≤ x) : k ≤ fastf2i x := by
  have h1 := sub_fastf2i_le x
  have h2 : (k : ℚ) - 1 < (fastf2i x : ℚ) := by linarith
  have h3 : k - 1 < fastf2i x := by exact_mod_cast h2
  omega

theorem clamp_bounds {lo hi : ℚ} (h : lo ≤ hi) (v : ℚ) :
    lo ≤ clamp v lo hi ∧ clamp v lo hi ≤ hi := by
  unfold clamp
  split_ifs with a b
  · exact ⟨le_refl _, h⟩
  · exact ⟨h, le_refl _⟩
  · exact ⟨not_lt.mp a, not_lt.mp b⟩

theorem clamp_of_mem {lo hi v : ℚ} (h1 : lo ≤ v) (h2 : v ≤ hi) : clamp v lo hi = v := by
  unfold clamp
  rw [if_neg (not_lt.mpr h1), if_neg (not_lt.mpr h2)]

theorem clamp_of_ge {lo hi v : ℚ} (h : lo ≤ hi) (h2 : hi ≤ v) : clamp v lo hi = hi := by
  unfold clamp
  rw [if_neg (not_lt.mpr (le_trans h h2))]
  split_ifs with b
  · rfl
  · exact le_antisymm (not_lt.mp b) h2

theorem clamp_of_le {lo hi v : ℚ} (h : lo ≤ hi) (h2 : v ≤ lo) : clamp v lo hi = lo := by
  unfold clamp
  split_ifs with a b
  · rfl
  · exact absurd (lt_of_lt_of_le b h2) (not_lt.mpr h)
  · exact le_antisymm h2 (not_lt.mp a)

/-- C5: for every finite non-negative pitch ratio `P` (the float value both functions
compute from pitch, voice frequency and device rate), `CalcNonAttnSourceParams` and
`CalcAttnSourceParams` set the same `mStep`: `MaxPitch << MixerFracBits` when
`P > MaxPitch`, and otherwise `max(round(P * MixerFracOne), 1)` with the rounded value
within one half of `P * MixerFracOne`; hence `1 <= mStep <= MaxPitch * MixerFracOne`,
which is `255 * 4096`. -/
theorem mStep_clamped (P : ℚ) (hP : 0 ≤ P) :
    CalcNonAttnSourceParams_mStep P = CalcAttnSourceParams_mStep P ∧
    ((MaxPitch : ℚ) < P → CalcNonAttnSourceParams_mStep P = MaxPitch <<< MixerFracBits) ∧
    (P ≤ (MaxPitch : ℚ) →
      CalcNonAttnSourceParams_mStep P = max (fastf2i (P * (MixerFracOne : ℚ))).toNat 1 ∧
      |(fastf2i (P * (MixerFracOne : ℚ)) : ℚ) - P * (MixerFracOne : ℚ)| ≤ 1 / 2) ∧
    1 ≤ CalcNonAttnSourceParams_mStep P ∧
    CalcNonAttnSourceParams_mStep P ≤ MaxPitch * MixerFracOne ∧
    MaxPitch * MixerFracOne = 255 * 4096 := by
  have hone' : MixerFracOne = 4096 := by decide
  have hone : (MixerFracOne : ℚ) = 4096 := by rw [hone']; norm_num
  have hmax : (MaxPitch : ℚ) = 255 := by norm_num [MaxPitch]
  have hshift : MaxPitch <<< MixerFracBits = 1044480 := by decide
  have hprod : MaxPitch * MixerFracOne = 1044480 := by decide
  have hlow : (0 : Int) ≤ fastf2i (P * (MixerFracOne : ℚ)) := by
    apply le_fastf2i_of_le
    rw [hone]; push_cast; positivity
  have hu : fastf2u (P * (MixerFracOne : ℚ)) = (fastf2i (P * (MixerFracOne : ℚ))).toNat ∨
      (MaxPitch : ℚ) < P := by
    by_cases h : (MaxPitch : ℚ) < P
    · exact Or.inr h
    · left
      have hhi : fastf2i (P * (MixerFracOne : ℚ)) ≤ 1044480 := by
        apply fastf2i_le_of_le
        rw [hone]; rw [hmax] at h; push_cast; linarith
      unfold fastf2u toUInt
      rw [Int.emod_eq_of_lt hlow (by omega)]
  refine ⟨rfl, ?_, ?_, ?_, ?_, hprod ▸ rfl⟩
  · intro h
    simp only [CalcNonAttnSourceParams_mStep, CalcStep]
    rw [if_pos h]
  · intro h
    refine ⟨?_, ?_⟩
    · simp only [CalcNonAttnSourceParams_mStep, CalcStep]
      rw [if_neg (not_lt.mpr h)]
      rcases hu with hu | hu
      · rw [hu]
      · exact absurd hu (not_lt.mpr h)
    · rw [abs_le]
      constructor
      · have := sub_fastf2i_le (P * (MixerFracOne : ℚ)); linarith
      · exact fastf2i_sub_le _
  · simp only [CalcNonAttnSourceParams_mStep, CalcStep]
    split_ifs with h
    · rw [hshift]; omega
    · exact le_max_right _ _
  · simp only [CalcNonAttnSourceParams_mStep, CalcStep]
    rw [hprod]
    split_ifs with h
    · rw [hshift]
    · rcases hu with hu | hu
      · rw [hu]
        have hhi : fastf2i (P * (MixerFracOne : ℚ)) ≤ 1044480 := by
          apply fastf2i_le_of_le
          rw [hone]; rw [hmax] at h; push_cast; linarith
        apply max_le
        · omega
        · omega
      · exact absurd hu h


/-- Witness for C5: pitch ratio 3/2 gives step 6144. -/
theorem mStep_clamped_witness :
    (0 : ℚ) ≤ 3 / 2 ∧ 1 ≤ CalcNonAttnSourceParams_mStep (3 / 2) ∧
    CalcNonAttnSourceParams_mStep (3 / 2) ≤ MaxPitch * MixerFracOne :=
  ⟨by norm_num, (mStep_clamped (3 / 2) (by norm_num)).2.2.2.1,
    (mStep_clamped (3 / 2) (by norm_num)).2.2.2.2.1⟩

theorem SampleConv_int16_eq (val : ℚ) :
    SampleConv_int16 val = fastf2i (clamp (val * 32768) (-32768) 32767) ∧
    -32768 ≤ SampleConv_int16 val ∧ SampleConv_int16 val ≤ 32767 := by
  obtain ⟨hlo, hhi⟩ := clamp_bounds (show (-32768 : ℚ) ≤ 32767 by norm_num) (val * 32768)
  have h1 : (-32768 : Int) ≤ fastf2i (clamp (val * 32768) (-32768) 32767) :=
    le_fastf2i_of_le (by push_cast; exact hlo)
  have h2 : fastf2i (clamp (val * 32768) (-32768) 32767) ≤ (32767 : Int) :=
    fastf2i_le_of_le (by push_cast; exact hhi)
  have : SampleConv_int16 val = fastf2i (clamp (val * 32768) (-32768) 32767) := by
    unfold SampleConv_int16 toInt16
    omega
  rw [this]
  exact ⟨rfl, h1, h2⟩

theorem SampleConv_int8_eq (val : ℚ) :
    SampleConv_int8 val = fastf2i (clamp (val * 128) (-128) 127) ∧
    -128 ≤ SampleConv_int8 val ∧ SampleConv_int8 val ≤ 127 := by
  obtain ⟨hlo, hhi⟩ := clamp_bounds (show (-128 : ℚ) ≤ 127 by norm_num) (val * 128)
  have h1 : (-128 : Int) ≤ fastf2i (clamp (val * 128) (-128) 127) :=
    le_fastf2i_of_le (by push_cast; exact hlo)
  have h2 : fastf2i (clamp (val * 128) (-128) 127) ≤ (127 : Int) :=
    fastf2i_le_of_le (by push_cast; exact hhi)
  have : SampleConv_int8 val = fastf2i (clamp (val * 128) (-128) 127) := by
    unfold SampleConv_int8 toInt8
    omega
  rw [this]
  exact ⟨rfl, h1, h2⟩

theorem SampleConv_int32_range (val : ℚ) :
    -2147483648 ≤ SampleConv_int32 val ∧ SampleConv_int32 val ≤ 2147483520 := by
  obtain ⟨hlo, hhi⟩ :=
    clamp_bounds (show (-2147483648 : ℚ) ≤ 2147483520 by norm_num) (val * 2147483648)
  exact ⟨le_fastf2i_of_le (by push_cast; exact hlo), fastf2i_le_of_le (by push_cast; exact hhi)⟩

theorem SampleConv_int16_roundtrip (k : Int) (h1 : -32768 ≤ k) (h2 : k ≤ 32767) :
    SampleConv_int16 ((k : ℚ) / 32768) = k := by
  rw [(SampleConv_int16_eq _).1]
  have : (k : ℚ) / 32768 * 32768 = (k : ℚ) := by field_simp
  rw [this, clamp_of_mem (by exact_mod_cast h1) (by exact_mod_cast h2), fastf2i_intCast]

theorem SampleConv_int8_roundtrip (k : Int) (h1 : -128 ≤ k) (h2 : k ≤ 127) :
    SampleConv_int8 ((k : ℚ) / 128) = k := by
  rw [(SampleConv_int8_eq _).1]
  have : (k : ℚ) / 128 * 128 = (k : ℚ) := by field_simp
  rw [this, clamp_of_mem (by exact_mod_cast h1) (by exact_mod_cast h2), fastf2i_intCast]

theorem SampleConv_uint16_eq (val : ℚ) :
    (SampleConv_uint16 val : Int) = SampleConv_int16 val + 32768 := by
  obtain ⟨_, h1, h2⟩ := SampleConv_int16_eq val
  unfold SampleConv_uint16
  omega

theorem SampleConv_uint8_eq (val : ℚ) :
    (SampleConv_uint8 val : Int) = SampleConv_int8 val + 128 := by
  obtain ⟨_, h1, h2⟩ := SampleConv_int8_eq val
  unfold SampleConv_uint8
  omega

theorem SampleConv_uint32_eq (val : ℚ) :
    (SampleConv_uint32 val : Int) = SampleConv_int32 val + 2147483648 := by
  obtain ⟨h1, h2⟩ := SampleConv_int32_range val
  unfold SampleConv_uint32 toUInt
  omega

/-- C6: sample-format round trip. For every signed 16-bit `k`,
`SampleConv<int16_t>(k / 32768) = k`; for every signed 8-bit `k`,
`SampleConv<int8_t>(k / 128) = k`; the unsigned variants return the signed result
offset by 32768 and 128, so an unsigned sample `u` mapped to `(u - bias) / scale`
converts back to `u`. -/
theorem SampleConv_roundtrip :
    (∀ k : Int, -32768 ≤ k → k ≤ 32767 → SampleConv_int16 ((k : ℚ) / 32768) = k) ∧
    (∀ k : Int, -128 ≤ k → k ≤ 127 → SampleConv_int8 ((k : ℚ) / 128) = k) ∧
    (∀ val : ℚ, (SampleConv_uint16 val : Int) = SampleConv_int16 val + 32768) ∧
    (∀ val : ℚ, (SampleConv_uint8 val : Int) = SampleConv_int8 val + 128) ∧
    (∀ u : Nat, u < 65536 → SampleConv_uint16 (((u : ℚ) - 32768) / 32768) = u) ∧
    (∀ u : Nat, u < 256 → SampleConv_uint8 (((u : ℚ) - 128) / 128) = u) := by
  refine ⟨SampleConv_int16_roundtrip, SampleConv_int8_roundtrip, SampleConv_uint16_eq,
    SampleConv_uint8_eq, ?_, ?_⟩
  · intro u hu
    have h := SampleConv_uint16_eq (((u : ℚ) - 32768) / 32768)
    have hk : ((u : ℚ) - 32768) / 32768 = (((u : Int) - 32768 : Int) : ℚ) / 32768 := by
      push_cast; rfl
    rw [hk, SampleConv_int16_roundtrip _ (by omega) (by omega)] at h
    rw [hk]
    omega
  · intro u hu
    have h := SampleConv_uint8_eq (((u : ℚ) - 128) / 128)
    have hk : ((u : ℚ) - 128) / 128 = (((u : Int) - 128 : Int) : ℚ) / 128 := by
      push_cast; rfl
    rw [hk, SampleConv_int8_roundtrip _ (by omega) (by omega)] at h
    rw [hk]
    omega

/-- Witness for C6: the 16-bit sample -12345 and the unsigned 8-bit sample 200. -/
theorem SampleConv_roundtrip_witness :
    SampleConv_int16 (((-12345 : Int) : ℚ) / 32768) = -12345 ∧
    SampleConv_uint8 ((((200 : Nat) : ℚ) - 128) / 128) = 200 :=
  ⟨SampleConv_roundtrip.1 (-12345) (by decide) (by decide),
    SampleConv_roundtrip.2.2.2.2.2 200 (by decide)⟩

/-- C7: for every finite `val`, `SampleConv` saturates to the format's range: the
16-bit, 8-bit and 32-bit conversions equal the rounding (`fastf2i`, within one half
of its argument) of `val` scaled and clamped to `[-32768, 32767]`, `[-128, 127]` and
`[-2^31, 2147483520]`, with no wrap-around in the narrowing casts; `val >= 1` gives
the maxima 32767, 127, 2147483520 and `val <= -1` the minima. -/
theorem SampleConv_saturates (val : ℚ) :
    (SampleConv_int16 val = fastf2i (clamp (val * 32768) (-32768) 32767) ∧
      SampleConv_int8 val = fastf2i (clamp (val * 128) (-128) 127) ∧
      SampleConv_int32 val = fastf2i (clamp (val * 2147483648) (-2147483648) 2147483520)) ∧
    (∀ x : ℚ, |(fastf2i x : ℚ) - x| ≤ 1 / 2) ∧
    (-32768 ≤ SampleConv_int16 val ∧ SampleConv_int16 val ≤ 32767 ∧
      -128 ≤ SampleConv_int8 val ∧ SampleConv_int8 val ≤ 127 ∧
      -2147483648 ≤ SampleConv_int32 val ∧ SampleConv_int32 val ≤ 2147483520) ∧
    (1 ≤ val → SampleConv_int16 val = 32767 ∧ SampleConv_int8 val = 127 ∧
      SampleConv_int32 val = 2147483520) ∧
    (val ≤ -1 → SampleConv_int16 val = -32768 ∧ SampleConv_int8 val = -128 ∧
      SampleConv_int32 val = -2147483648) := by
  obtain ⟨e16, l16, u16⟩ := SampleConv_int16_eq val
  obtain ⟨e8, l8, u8⟩ := SampleConv_int8_eq val
  obtain ⟨l32, u32⟩ := SampleConv_int32_range val
  refine ⟨⟨e16, e8, rfl⟩, ?_, ⟨l16, u16, l8, u8, l32, u32⟩, ?_, ?_⟩
  · intro x
    rw [abs_le]
    constructor
    · have := sub_fastf2i_le x; linarith
    · exact fastf2i_sub_le x
  · intro h
    refine ⟨?_, ?_, ?_⟩
    · rw [e16, clamp_of_ge (by norm_num) (by linarith)]
      exact_mod_cast fastf2i_intCast 32767
    · rw [e8, clamp_of_ge (by norm_num) (by linarith)]
      exact_mod_cast fastf2i_intCast 127
    · unfold SampleConv_int32
      rw [clamp_of_ge (by norm_num) (by linarith)]
      exact_mod_cast fastf2i_intCast 2147483520
  · intro h
    refine ⟨?_, ?_, ?_⟩
    · rw [e16, clamp_of_le (by norm_num) (by linarith)]
      exact_mod_cast fastf2i_intCast (-32768)
    · rw [e8, clamp_of_le (by norm_num) (by linarith)]
      exact_mod_cast fastf2i_intCast (-128)
    · unfold SampleConv_int32
      rw [clamp_of_le (by norm_num) (by linarith)]
      exact_mod_cast fastf2i_intCast (-2147483648)


/-- Witness for C7: the input 2 saturates at the 16-bit maximum. -/
theorem SampleConv_saturates_witness :
    (1 : ℚ) ≤ 2 ∧ SampleConv_int16 2 = 32767 :=
  ⟨by norm_num, ((SampleConv_saturates 2).2.2.2.1 (by norm_num)).1⟩

/-! ## Interleaved output -/

theorem addr_inj {FS c c' i i' : Nat} (hc : c < FS) (hc' : c' < FS)
    (h : c + i * FS = c' + i' * FS) : c = c' ∧ i = i' := by
  have hFS : 0 < FS := by omega
  have h1 : (c + i * FS) % FS = c := by
    rw [Nat.add_mul_mod_self_right, Nat.mod_eq_of_lt hc]
  have h2 : (c' + i' * FS) % FS = c' := by
    rw [Nat.add_mul_mod_self_right, Nat.mod_eq_of_lt hc']
  have hcc : c = c' := by rw [← h1, ← h2, h]
  subst hcc
  exact ⟨rfl, Nat.eq_of_mul_eq_mul_right hFS (Nat.add_left_cancel h)⟩

theorem Write_advance_other {τ : Type} (conv : ℚ → τ) (FS : Nat) :
    ∀ (l : List ℚ) (mem : Nat → τ) (out j : Nat),
      (∀ k, k < l.length → j ≠ out + (k + 1) * FS) →
      Write_advance conv FS mem out l j = mem j := by
  intro l
  induction l with
  | nil => intro mem out j _; rfl
  | cons s rest ih =>
    intro mem out j h
    simp only [Write_advance]
    rw [ih]
    · have h0 := h 0 (by simp)
      simp only [Nat.zero_add, Nat.one_mul] at h0
      simp [store, h0]
    · intro k hk
      have := h (k + 1) (by simpa using hk)
      intro hj
      apply this
      rw [hj, Nat.add_mul (k + 1) 1 FS]
      omega

theorem Write_advance_at {τ : Type} (conv : ℚ → τ) (FS : Nat) (hFS : 0 < FS) :
    ∀ (l : List ℚ) (mem : Nat → τ) (out k : Nat) (s : ℚ), l[k]? = some s →
      Write_advance conv FS mem out l (out + (k + 1) * FS) = conv s := by
  intro l
  induction l with
  | nil => intro mem out k s h; simp at h
  | cons x rest ih =>
    intro mem out k s h
    simp only [Write_advance]
    cases k with
    | zero =>
      simp only [List.getElem?_cons_zero, Option.some.injEq] at h
      subst h
      rw [Write_advance_other]
      · simp [store]
      · intro k _ hj
        have : 0 < (k + 1) * FS := Nat.mul_pos (by omega) hFS
        omega
    | succ k =>
      simp only [List.getElem?_cons_succ] at h
      have := ih (store mem (out + FS) (conv x)) (out + FS) k s h
      have e : out + (k + 1 + 1) * FS = out + FS + (k + 1) * FS := by
        rw [Nat.add_mul (k + 1) 1 FS]; omega
      rw [e]
      exact this

theorem Write_channels_other {τ : Type} (conv : ℚ → τ) (N FS : Nat) :
    ∀ (bufs : List (List ℚ)) (mem : Nat → τ) (outbase j : Nat),
      (∀ c i, c < bufs.length → i < N → j ≠ outbase + c + i * FS) → 0 < N →
      Write_channels conv N FS mem outbase bufs j = mem j := by
  intro bufs
  induction bufs with
  | nil => intro mem outbase j _ _; rfl
  | cons b rest ih =>
    intro mem outbase j h hN
    simp only [Write_channels]
    rw [ih]
    · rw [Write_advance_other]
      · have h0 := h 0 0 (by simp) hN
        simp only [Nat.add_zero, Nat.zero_mul] at h0
        simp [store, h0]
      · intro k hk
        have hk' : k + 1 < N := by
          simp only [List.length_drop, List.length_take] at hk
          omega
        have := h 0 (k + 1) (by simp) hk'
        simpa using this
    · intro c i hc hi
      have := h (c + 1) i (by simpa using hc) hi
      intro hj
      apply this
      omega
    · exact hN

theorem Write_channels_at {τ : Type} (conv : ℚ → τ) (N FS : Nat) (hN : 0 < N) :
    ∀ (bufs : List (List ℚ)) (mem : Nat → τ) (outbase c i : Nat) (srcbuf : List ℚ) (s : ℚ),
      bufs.length ≤ FS → bufs[c]? = some srcbuf → srcbuf[i]? = some s → i < N →
      Write_channels conv N FS mem outbase bufs (outbase + c + i * FS) = conv s := by
  intro bufs
  induction bufs with
  | nil => intro mem outbase c i srcbuf s _ h; simp at h
  | cons b rest ih =>
    intro mem outbase c i srcbuf s hlen hline hs hi
    simp only [Write_channels]
    cases c with
    | zero =>
      simp only [List.getElem?_cons_zero, Option.some.injEq] at hline
      subst hline
      rw [Write_channels_other]
      · cases i with
        | zero =>
          rw [Write_advance_other]
          · have : b.headD 0 = s := by
              cases b with
              | nil => simp at hs
              | cons x xs => simpa using hs
            rw [this]; simp [store]
          · intro k _ hj
            have hFS : 0 < FS := by simp at hlen; omega
            have : 0 < (k + 1) * FS := Nat.mul_pos (by omega) hFS
            omega
        | succ i =>
          have hFS : 0 < FS := by simp at hlen; omega
          have hget : ((b.take N).drop 1)[i]? = some s := by
            rw [List.getElem?_drop, List.getElem?_take_of_lt (by omega)]
            rw [Nat.add_comm]; exact hs
          have := Write_advance_at conv FS hFS _ (store mem outbase (conv (b.headD 0)))
            outbase i s hget
          simpa using this
      · intro c' i' hc' _ hj
        simp only [List.length_cons] at hlen
        have e : 0 + i * FS = (c' + 1) + i' * FS := by omega
        have := (addr_inj (by omega) (by omega) e).1
        omega
      · exact hN
    | succ c =>
      simp only [List.getElem?_cons_succ] at hline
      simp only [List.length_cons] at hlen
      have := ih (Write_advance conv FS (store mem outbase (conv (b.headD 0))) outbase
        ((b.take N).drop 1)) (outbase + 1) c i srcbuf s (by omega) hline hs hi
      have e : outbase + (c + 1) + i * FS = outbase + 1 + c + i * FS := by omega
      rw [e]
      exact this

theorem Write_frame_addr (Offset i FS c : Nat) :
    (Offset + i) * FS + c = Offset * FS + c + i * FS := by
  rw [Nat.add_mul]; omega

/-- C8: for every sample type (its `SampleConv` being `conv`), channel count
`C = InBuffer.size()`, `FrameStep >= C`, `Offset` and `SamplesToDo >= 1` (not beyond
the buffer lines), interleaved `Write<T>` stores `SampleConv<T>(InBuffer[c][i])` at
output index `(Offset + i) * FrameStep + c` for every `c < C` and `i < SamplesToDo`,
and leaves every index below `Offset * FrameStep` as it was. -/
theorem Write_interleaved_stores {τ : Type} (conv : ℚ → τ) (InBuffer : List (List ℚ))
    (OutBuffer : Nat → τ) (Offset SamplesToDo FrameStep : Nat)
    (hFS : InBuffer.length ≤ FrameStep) (hN : 1 ≤ SamplesToDo)
    (hlines : ∀ srcbuf ∈ InBuffer, SamplesToDo ≤ srcbuf.length) :
    (∀ c i, c < InBuffer.length → i < SamplesToDo →
      ∃ srcbuf s, InBuffer[c]? = some srcbuf ∧ srcbuf[i]? = some s ∧
        Write conv InBuffer OutBuffer Offset SamplesToDo FrameStep
          ((Offset + i) * FrameStep + c) = conv s) ∧
    (∀ j, j < Offset * FrameStep →
      Write conv InBuffer OutBuffer Offset SamplesToDo FrameStep j = OutBuffer j) := by
  constructor
  · intro c i hc hi
    have hsrc : InBuffer[c]? = some InBuffer[c] := List.getElem?_eq_getElem hc
    have hlen : i < (InBuffer[c]).length :=
      lt_of_lt_of_le hi (hlines _ (List.getElem_mem hc))
    refine ⟨InBuffer[c], (InBuffer[c])[i], hsrc, List.getElem?_eq_getElem hlen, ?_⟩
    unfold Write
    rw [Write_frame_addr]
    exact Write_channels_at conv SamplesToDo FrameStep hN InBuffer _ _ c i _ _ hFS hsrc
      (List.getElem?_eq_getElem hlen) hi
  · intro j hj
    unfold Write
    rw [Write_channels_other]
    · split
      · simp only [fill]
        rw [if_neg (by omega)]
      · rfl
    · intro c i _ _; omega
    · exact hN

/-- Witness for C8: two channels, frame step 3, offset 4, the second frame's channel 1. -/
theorem Write_interleaved_stores_witness :
    ([[1, 1 / 2], [-1, 0]] : List (List ℚ)).length ≤ 3 ∧ 1 ≤ 2 ∧
    (∀ srcbuf ∈ ([[1, 1 / 2], [-1, 0]] : List (List ℚ)), 2 ≤ srcbuf.length) ∧
    ∃ srcbuf s, ([[1, 1 / 2], [-1, 0]] : List (List ℚ))[1]? = some srcbuf ∧
      srcbuf[1]? = some s ∧
      Write SampleConv_int16 [[1, 1 / 2], [-1, 0]] (fun _ => 7) 4 2 3 ((4 + 1) * 3 + 1) =
        SampleConv_int16 s :=
  ⟨by decide, by decide, by simp,
    (Write_interleaved_stores SampleConv_int16 [[1, 1 / 2], [-1, 0]] (fun _ => 7) 4 2 3
      (by decide) (by decide) (by simp)).1 1 1 (by decide) (by decide)⟩

theorem Write_extra_slot {τ : Type} (conv : ℚ → τ) (InBuffer : List (List ℚ))
    (OutBuffer : Nat → τ) (Offset SamplesToDo FrameStep : Nat)
    (hFS : InBuffer.length < FrameStep) (hN : 1 ≤ SamplesToDo) (c i : Nat)
    (hc : InBuffer.length ≤ c) (hc' : c < FrameStep) (hi : i < SamplesToDo) :
    Write conv InBuffer OutBuffer Offset SamplesToDo FrameStep
      ((Offset + i) * FrameStep + c) = conv 0 := by
  unfold Write
  rw [Write_channels_other]
  · rw [if_pos hFS]
    simp only [fill]
    have h1 : (i + 1) * FrameStep ≤ SamplesToDo * FrameStep :=
      Nat.mul_le_mul_right _ (by omega)
    have h2 : (Offset + SamplesToDo) * FrameStep = Offset * FrameStep + SamplesToDo * FrameStep :=
      Nat.add_mul _ _ _
    have h3 : (Offset + i) * FrameStep = Offset * FrameStep + i * FrameStep := Nat.add_mul _ _ _
    have h4 : (i + 1) * FrameStep = i * FrameStep + FrameStep := by
      rw [Nat.add_mul, Nat.one_mul]
    rw [if_pos (by omega)]
  · intro c' i' hc'' _ hj
    rw [Write_frame_addr] at hj
    have e : c + i * FrameStep = c' + i' * FrameStep := by omega
    have := (addr_inj hc' (by omega) e).1
    omega
  · exact hN

theorem SampleConv_zero :
    SampleConv_int8 0 = 0 ∧ SampleConv_int16 0 = 0 ∧ SampleConv_int32 0 = 0 ∧
    SampleConv_float 0 = 0 ∧ SampleConv_uint8 0 = 128 ∧ SampleConv_uint16 0 = 32768 ∧
    SampleConv_uint32 0 = 2147483648 := by
  have h8 : SampleConv_int8 0 = 0 := by
    have := SampleConv_int8_roundtrip 0 (by decide) (by decide)
    simpa using this
  have h16 : SampleConv_int16 0 = 0 := by
    have := SampleConv_int16_roundtrip 0 (by decide) (by decide)
    simpa using this
  have h32 : SampleConv_int32 0 = 0 := by
    unfold SampleConv_int32
    rw [zero_mul, clamp_of_mem (by norm_num) (by norm_num)]
    exact_mod_cast fastf2i_intCast 0
  refine ⟨h8, h16, h32, rfl, ?_, ?_, ?_⟩
  · have := SampleConv_uint8_eq 0
    rw [h8] at this; omega
  · have := SampleConv_uint16_eq 0
    rw [h16] at this; omega
  · have := SampleConv_uint32_eq 0
    rw [h32] at this; omega

/-- Counterexample to C9 as stated: with one silent channel written into frames of two
slots, `Write<uint8_t>` leaves the extra slot of the first frame (index 1) different
from zero; it holds 128. -/
theorem Write_extra_slots_not_zero :
    Write SampleConv_uint8 [List.replicate 1024 0] (fun _ => 0) 0 1 2 1 ≠ 0 := by
  have h := Write_extra_slot SampleConv_uint8 [List.replicate 1024 0] (fun _ => 0) 0 1 2
    (by decide) (by decide) 1 0 (by decide) (by decide) (by decide)
  rw [SampleConv_zero.2.2.2.2.1] at h
  intro hne
  have h2 : (128 : Nat) = 0 := h.symm.trans hne
  exact absurd h2 (by decide)

/-- C9, amended: when `FrameStep` exceeds the channel count `C`, interleaved `Write<T>`
leaves the extra slots `c` in `[C, FrameStep)` of every written frame equal to
`SampleConv<T>(0.0f)`, the format's silence value: 0 for s8, s16, s32 and float,
and 128, 32768, 2147483648 for u8, u16, u32. -/
theorem Write_extra_slots_silent {τ : Type} (conv : ℚ → τ) (InBuffer : List (List ℚ))
    (OutBuffer : Nat → τ) (Offset SamplesToDo FrameStep : Nat)
    (hFS : InBuffer.length < FrameStep) (hN : 1 ≤ SamplesToDo) :
    (∀ c i, InBuffer.length ≤ c → c < FrameStep → i < SamplesToDo →
      Write conv InBuffer OutBuffer Offset SamplesToDo FrameStep
        ((Offset + i) * FrameStep + c) = conv 0) ∧
    SampleConv_int8 0 = 0 ∧ SampleConv_int16 0 = 0 ∧ SampleConv_int32 0 = 0 ∧
    SampleConv_float 0 = 0 ∧ SampleConv_uint8 0 = 128 ∧ SampleConv_uint16 0 = 32768 ∧
    SampleConv_uint32 0 = 2147483648 :=
  by
  refine ⟨?_, SampleConv_zero⟩
  intro c i hc hc' hi
  exact Write_extra_slot conv InBuffer OutBuffer Offset SamplesToDo FrameStep hFS hN c i
    hc hc' hi

/-- Witness for C9: two channels in frames of 4, the last slot of the second frame. -/
theorem Write_extra_slots_silent_witness :
    ([[1, 1 / 2], [-1, 0]] : List (List ℚ)).length < 4 ∧ 1 ≤ 2 ∧
    Write SampleConv_uint16 [[1, 1 / 2], [-1, 0]] (fun _ => 7) 4 2 4 ((4 + 1) * 4 + 3) =
      SampleConv_uint16 0 :=
  ⟨by decide, by decide,
    (Write_extra_slots_silent SampleConv_uint16 [[1, 1 / 2], [-1, 0]] (fun _ => 7) 4 2 4
      (by decide) (by decide)).1 3 1 (by decide) (by decide) (by decide)⟩


/-! ## Voice changes: Reset and Stop -/

/-- C10: `ProcessVoiceChanges` on a Reset or Stop record always completes; if the
record has a voice, its current and loop buffers become null, its source id 0, and
its play state Stopping when it was Playing and unchanged otherwise, no other voice
changing; a source-state event with the record's source id and state is appended to
the ring exactly when the record is a Reset (even without a voice) or its voice's
previous source id was nonzero, and in addition the SourceState bit is enabled and
the ring has space; otherwise the ring is untouched. -/
theorem processVoiceChange_reset_stop (enabledevt : AsyncEnableBits → Bool) (ctx : ContextBase)
    (cur : VoiceChange)
    (hstate : cur.mState = VChangeState.Reset ∨ cur.mState = VChangeState.Stop) :
    ∃ ctx', processVoiceChange enabledevt ctx cur = some ctx' ∧
      (∀ p, cur.mVoice = some p →
        (ctx'.voices p).mCurrentBuffer = none ∧ (ctx'.voices p).mLoopBuffer = none ∧
        (ctx'.voices p).mSourceID = 0 ∧
        (ctx'.voices p).mPlayState =
          (if (ctx.voices p).mPlayState = PlayState.Playing then PlayState.Stopping
            else (ctx.voices p).mPlayState)) ∧
      (∀ q, cur.mVoice ≠ some q → ctx'.voices q = ctx.voices q) ∧
      (((cur.mState = VChangeState.Reset ∨
            ∃ p, cur.mVoice = some p ∧ (ctx.voices p).mSourceID ≠ 0) ∧
          enabledevt AsyncEnableBits.SourceState = true ∧ ctx.mAsyncEvents.writeSpace ≠ 0) →
        ctx'.mAsyncEvents.written = ctx.mAsyncEvents.written ++
          [AsyncEvent.SourceState cur.mSourceID
            (some (if cur.mState = VChangeState.Reset then AsyncSrcState.Reset
              else AsyncSrcState.Stop))] ∧
        ctx'.mAsyncEvents.writeSpace = ctx.mAsyncEvents.writeSpace - 1) ∧
      (¬ ((cur.mState = VChangeState.Reset ∨
            ∃ p, cur.mVoice = some p ∧ (ctx.voices p).mSourceID ≠ 0) ∧
          enabledevt AsyncEnableBits.SourceState = true ∧ ctx.mAsyncEvents.writeSpace ≠ 0) →
        ctx'.mAsyncEvents = ctx.mAsyncEvents) := by
  obtain ⟨mVoice, mOldVoice, mSourceID, mState⟩ := cur
  simp only at hstate
  rcases hstate with rfl | rfl <;> cases mVoice with
  | none =>
    by_cases he : enabledevt AsyncEnableBits.SourceState = true <;>
    by_cases hw : ctx.mAsyncEvents.writeSpace = 0 <;>
    simp [processVoiceChange, applyVoiceChange, SendSourceStateEvent, he, hw]
  | some p =>
    by_cases he : enabledevt AsyncEnableBits.SourceState = true <;>
    by_cases hw : ctx.mAsyncEvents.writeSpace = 0 <;>
    by_cases hid : (ctx.voices p).mSourceID = 0 <;>
    by_cases hps : (ctx.voices p).mPlayState = PlayState.Playing <;>
    simp [processVoiceChange, applyVoiceChange, SendSourceStateEvent, setVoice,
      casPlayingToStopping, he, hw, hid, hps] <;>
    (intro q hq hqp; exact absurd hqp.symm hq)


/-- Witness for C10: a Stop record for a playing voice with source id 5. -/
theorem processVoiceChange_reset_stop_witness :
    (VChangeState.Stop = VChangeState.Reset ∨ VChangeState.Stop = VChangeState.Stop) ∧
    ∃ ctx', processVoiceChange (fun _ => true) exampleContext
        { mVoice := some 3, mOldVoice := none, mSourceID := 5, mState := VChangeState.Stop }
        = some ctx' ∧
      (ctx'.voices 3).mSourceID = 0 ∧ (ctx'.voices 3).mPlayState = PlayState.Stopping := by
  refine ⟨Or.inr rfl, ?_⟩
  obtain ⟨ctx', h1, h2, _⟩ := processVoiceChange_reset_stop (fun _ => true) exampleContext
    { mVoice := some 3, mOldVoice := none, mSourceID := 5, mState := VChangeState.Stop }
    (Or.inr rfl)
  obtain ⟨_, _, h3, h4⟩ := h2 3 rfl
  exact ⟨ctx', h1, h3, by rw [h4]; rfl⟩

/-- With a single pending record, `ProcessVoiceChanges` is the loop body on that
record followed by the update of `mCurrentVoiceChange`. -/
theorem ProcessVoiceChanges_single (ctx : ContextBase) (cur : VoiceChange)
    (h : ctx.voiceChanges.drop (ctx.mCurrentVoiceChange + 1) = [cur]) :
    ProcessVoiceChanges ctx =
      (processVoiceChange ctx.mEnabledEvts ctx cur).map
        (fun c => { c with mCurrentVoiceChange := ctx.voiceChanges.length - 1 }) := by
  unfold ProcessVoiceChanges
  rw [h]
  simp only [List.isEmpty_cons, processVoiceChangeList]
  cases processVoiceChange ctx.mEnabledEvts ctx cur <;> rfl

/-! ## Voice changes: Play, Restart and Pause -/

/-- C11: `ProcessVoiceChanges` on a Play record with a voice completes and leaves
that voice in state Playing. An old voice, if present, has its current and loop
buffers null and its source id 0 afterwards, and (being another object than the
voice) is Stopping when it was Playing and unchanged in play state otherwise; no
other voice changes. A source-state event with the record's source id and state
Play is appended to the ring exactly when there is no old voice or the old voice
was not Playing (the compare-exchange fails), and in addition the SourceState bit
is enabled and the ring has space; otherwise the ring is untouched. -/
theorem processVoiceChange_play (enabledevt : AsyncEnableBits → Bool) (ctx : ContextBase)
    (cur : VoiceChange) (p : Nat)
    (hstate : cur.mState = VChangeState.Play) (hvoice : cur.mVoice = some p) :
    ∃ ctx', processVoiceChange enabledevt ctx cur = some ctx' ∧
      (ctx'.voices p).mPlayState = PlayState.Playing ∧
      (∀ q, cur.mOldVoice = some q →
        (ctx'.voices q).mCurrentBuffer = none ∧ (ctx'.voices q).mLoopBuffer = none ∧
        (ctx'.voices q).mSourceID = 0 ∧
        (q ≠ p → (ctx'.voices q).mPlayState =
          (if (ctx.voices q).mPlayState = PlayState.Playing then PlayState.Stopping
            else (ctx.voices q).mPlayState))) ∧
      (cur.mOldVoice ≠ some p →
        (ctx'.voices p).mCurrentBuffer = (ctx.voices p).mCurrentBuffer ∧
        (ctx'.voices p).mLoopBuffer = (ctx.voices p).mLoopBuffer ∧
        (ctx'.voices p).mSourceID = (ctx.voices p).mSourceID) ∧
      (∀ r, r ≠ p → cur.mOldVoice ≠ some r → ctx'.voices r = ctx.voices r) ∧
      (((cur.mOldVoice = none ∨
            ∃ q, cur.mOldVoice = some q ∧ (ctx.voices q).mPlayState ≠ PlayState.Playing) ∧
          enabledevt AsyncEnableBits.SourceState = true ∧ ctx.mAsyncEvents.writeSpace ≠ 0) →
        ctx'.mAsyncEvents.written = ctx.mAsyncEvents.written ++
          [AsyncEvent.SourceState cur.mSourceID (some AsyncSrcState.Play)] ∧
        ctx'.mAsyncEvents.writeSpace = ctx.mAsyncEvents.writeSpace - 1) ∧
      (¬ ((cur.mOldVoice = none ∨
            ∃ q, cur.mOldVoice = some q ∧ (ctx.voices q).mPlayState ≠ PlayState.Playing) ∧
          enabledevt AsyncEnableBits.SourceState = true ∧ ctx.mAsyncEvents.writeSpace ≠ 0) →
        ctx'.mAsyncEvents = ctx.mAsyncEvents) := by
  obtain ⟨mVoice, mOldVoice, mSourceID, mState⟩ := cur
  simp only at hstate hvoice
  subst hstate hvoice
  cases mOldVoice with
  | none =>
    by_cases he : enabledevt AsyncEnableBits.SourceState = true <;>
    by_cases hw : ctx.mAsyncEvents.writeSpace = 0 <;>
    simp [processVoiceChange, applyVoiceChange, SendSourceStateEvent, setVoice, he, hw] <;>
    (intro r hr; simp [hr])
  | some q =>
    by_cases hqp : q = p
    · subst hqp
      by_cases he : enabledevt AsyncEnableBits.SourceState = true <;>
      by_cases hw : ctx.mAsyncEvents.writeSpace = 0 <;>
      by_cases hps : (ctx.voices q).mPlayState = PlayState.Playing <;>
      simp [processVoiceChange, applyVoiceChange, SendSourceStateEvent, setVoice,
        casPlayingToStopping, he, hw, hps] <;>
      (intro r hr _; simp [hr])
    · have hpq : ¬ p = q := fun h => hqp h.symm
      by_cases he : enabledevt AsyncEnableBits.SourceState = true <;>
      by_cases hw : ctx.mAsyncEvents.writeSpace = 0 <;>
      by_cases hps : (ctx.voices q).mPlayState = PlayState.Playing <;>
      simp [processVoiceChange, applyVoiceChange, SendSourceStateEvent, setVoice,
        casPlayingToStopping, he, hw, hps, hqp, hpq] <;>
      (intro r hr hr'; simp [hr]; intro h; exact absurd h.symm hr')

/-- Witness for C11: a Play record for voice 3 with the playing voice 4 as old voice;
no event is sent. -/
theorem processVoiceChange_play_witness :
    VChangeState.Play = VChangeState.Play ∧ (some 3 : Option Nat) = some 3 ∧
    ∃ ctx', processVoiceChange (fun _ => true) exampleContext
        { mVoice := some 3, mOldVoice := some 4, mSourceID := 5, mState := VChangeState.Play }
        = some ctx' ∧
      (ctx'.voices 3).mPlayState = PlayState.Playing ∧ (ctx'.voices 4).mSourceID = 0 ∧
      (ctx'.voices 4).mPlayState = PlayState.Stopping ∧
      ctx'.mAsyncEvents = exampleContext.mAsyncEvents := by
  refine ⟨rfl, rfl, ?_⟩
  obtain ⟨ctx', h1, h2, h3, _, _, _, h7⟩ := processVoiceChange_play (fun _ => true)
    exampleContext
    { mVoice := some 3, mOldVoice := some 4, mSourceID := 5, mState := VChangeState.Play } 3
    rfl rfl
  obtain ⟨_, _, h4, h5⟩ := h3 4 rfl
  refine ⟨ctx', h1, h2, h4, ?_, h7 ?_⟩
  · rw [h5 (by decide)]; rfl
  · rintro ⟨h | ⟨q, hq, hne⟩, _⟩
    · cases h
    · exact hne rfl

/-- C12: `ProcessVoiceChanges` on a Restart record (with an old voice and a voice)
completes and leaves the event ring untouched. The old voice has null buffers and
source id 0 afterwards. If its source id was nonzero, the voice's play state is
Playing when the old voice was Playing and Stopped otherwise, and the old voice
(being another object than the voice) is Stopping when it was Playing and unchanged
in play state otherwise. If its source id was zero, no play state changes and the
voice, when another object, is untouched. No other voice changes. -/
theorem processVoiceChange_restart (enabledevt : AsyncEnableBits → Bool) (ctx : ContextBase)
    (cur : VoiceChange) (p q : Nat)
    (hstate : cur.mState = VChangeState.Restart) (hold : cur.mOldVoice = some q)
    (hvoice : cur.mVoice = some p) :
    ∃ ctx', processVoiceChange enabledevt ctx cur = some ctx' ∧
      ctx'.mAsyncEvents = ctx.mAsyncEvents ∧
      ((ctx'.voices q).mCurrentBuffer = none ∧ (ctx'.voices q).mLoopBuffer = none ∧
        (ctx'.voices q).mSourceID = 0) ∧
      ((ctx.voices q).mSourceID ≠ 0 →
        (ctx'.voices p).mPlayState =
          (if (ctx.voices q).mPlayState = PlayState.Playing then PlayState.Playing
            else PlayState.Stopped) ∧
        (q ≠ p → (ctx'.voices q).mPlayState =
          (if (ctx.voices q).mPlayState = PlayState.Playing then PlayState.Stopping
            else (ctx.voices q).mPlayState))) ∧
      ((ctx.voices q).mSourceID = 0 →
        (ctx'.voices p).mPlayState = (ctx.voices p).mPlayState ∧
        (ctx'.voices q).mPlayState = (ctx.voices q).mPlayState ∧
        (q ≠ p → ctx'.voices p = ctx.voices p)) ∧
      (∀ r, r ≠ p → r ≠ q → ctx'.voices r = ctx.voices r) := by
  obtain ⟨mVoice, mOldVoice, mSourceID, mState⟩ := cur
  simp only at hstate hvoice hold
  subst hstate hvoice hold
  by_cases hqp : q = p
  · subst hqp
    by_cases hid : (ctx.voices q).mSourceID = 0 <;>
    by_cases hps : (ctx.voices q).mPlayState = PlayState.Playing <;>
    simp [processVoiceChange, applyVoiceChange, setVoice, casPlayingToStopping, hid, hps] <;>
    (intro r hr; simp [hr])
  · have hpq : ¬ p = q := fun h => hqp h.symm
    by_cases hid : (ctx.voices q).mSourceID = 0 <;>
    by_cases hps : (ctx.voices q).mPlayState = PlayState.Playing <;>
    simp [processVoiceChange, applyVoiceChange, setVoice, casPlayingToStopping, hid, hps,
      hpq, hqp] <;>
    (intro r hr hr'; simp [hr, hr'])

/-- Witness for C12: a Restart record moving the playing source 5 from voice 4 to
voice 3. -/
theorem processVoiceChange_restart_witness :
    VChangeState.Restart = VChangeState.Restart ∧ (some 4 : Option Nat) = some 4 ∧
    (some 3 : Option Nat) = some 3 ∧
    ∃ ctx', processVoiceChange (fun _ => true) exampleContext
        { mVoice := some 3, mOldVoice := some 4, mSourceID := 5,
          mState := VChangeState.Restart } = some ctx' ∧
      ctx'.mAsyncEvents = exampleContext.mAsyncEvents ∧
      (ctx'.voices 4).mSourceID = 0 ∧ (ctx'.voices 3).mPlayState = PlayState.Playing ∧
      (ctx'.voices 4).mPlayState = PlayState.Stopping := by
  refine ⟨rfl, rfl, rfl, ?_⟩
  obtain ⟨ctx', h1, h2, ⟨_, _, h3⟩, h4, _⟩ := processVoiceChange_restart (fun _ => true)
    exampleContext
    { mVoice := some 3, mOldVoice := some 4, mSourceID := 5, mState := VChangeState.Restart }
    3 4 rfl rfl rfl
  obtain ⟨h5, h6⟩ := h4 (by decide)
  refine ⟨ctx', h1, h2, h3, ?_, ?_⟩
  · rw [h5]; rfl
  · rw [h6 (by decide)]; rfl

/-- C13: `ProcessVoiceChanges` on a Pause record with a voice completes; the voice's
play state becomes Stopping when it was Playing and is unchanged otherwise, its
source id and buffers are untouched and no other voice changes. A source-state
event with the record's source id and state Pause is appended to the ring exactly
when the voice was Playing (the compare-exchange succeeded), the SourceState bit is
enabled and the ring has space; otherwise the ring is untouched. -/
theorem processVoiceChange_pause (enabledevt : AsyncEnableBits → Bool) (ctx : ContextBase)
    (cur : VoiceChange) (p : Nat)
    (hstate : cur.mState = VChangeState.Pause) (hvoice : cur.mVoice = some p) :
    ∃ ctx', processVoiceChange enabledevt ctx cur = some ctx' ∧
      (ctx'.voices p).mPlayState =
        (if (ctx.voices p).mPlayState = PlayState.Playing then PlayState.Stopping
          else (ctx.voices p).mPlayState) ∧
      ((ctx'.voices p).mSourceID = (ctx.voices p).mSourceID ∧
        (ctx'.voices p).mCurrentBuffer = (ctx.voices p).mCurrentBuffer ∧
        (ctx'.voices p).mLoopBuffer = (ctx.voices p).mLoopBuffer) ∧
      (∀ r, r ≠ p → ctx'.voices r = ctx.voices r) ∧
      (((ctx.voices p).mPlayState = PlayState.Playing ∧
          enabledevt AsyncEnableBits.SourceState = true ∧ ctx.mAsyncEvents.writeSpace ≠ 0) →
        ctx'.mAsyncEvents.written = ctx.mAsyncEvents.written ++
          [AsyncEvent.SourceState cur.mSourceID (some AsyncSrcState.Pause)] ∧
        ctx'.mAsyncEvents.writeSpace = ctx.mAsyncEvents.writeSpace - 1) ∧
      (¬ ((ctx.voices p).mPlayState = PlayState.Playing ∧
          enabledevt AsyncEnableBits.SourceState = true ∧ ctx.mAsyncEvents.writeSpace ≠ 0) →
        ctx'.mAsyncEvents = ctx.mAsyncEvents) := by
  obtain ⟨mVoice, mOldVoice, mSourceID, mState⟩ := cur
  simp only at hstate hvoice
  subst hstate hvoice
  by_cases he : enabledevt AsyncEnableBits.SourceState = true <;>
  by_cases hw : ctx.mAsyncEvents.writeSpace = 0 <;>
  by_cases hps : (ctx.voices p).mPlayState = PlayState.Playing <;>
  simp [processVoiceChange, applyVoiceChange, SendSourceStateEvent, setVoice,
    casPlayingToStopping, he, hw, hps] <;>
  (intro r hr; simp [hr])

/-- Witness for C13: a Pause record for the playing voice 3 of source 5; the event is
sent. -/
theorem processVoiceChange_pause_witness :
    VChangeState.Pause = VChangeState.Pause ∧ (some 3 : Option Nat) = some 3 ∧
    ∃ ctx', processVoiceChange (fun _ => true) exampleContext
        { mVoice := some 3, mOldVoice := none, mSourceID := 5, mState := VChangeState.Pause }
        = some ctx' ∧
      (ctx'.voices 3).mPlayState = PlayState.Stopping ∧ (ctx'.voices 3).mSourceID = 5 ∧
      ctx'.mAsyncEvents.written = [AsyncEvent.SourceState 5 (some AsyncSrcState.Pause)] := by
  refine ⟨rfl, rfl, ?_⟩
  obtain ⟨ctx', h1, h2, ⟨h3, _⟩, _, h5, _⟩ := processVoiceChange_pause (fun _ => true)
    exampleContext
    { mVoice := some 3, mOldVoice := none, mSourceID := 5, mState := VChangeState.Pause } 3
    rfl rfl
  refine ⟨ctx', h1, ?_, ?_, ?_⟩
  · rw [h2]; rfl
  · rw [h3]; rfl
  · rw [(h5 ⟨rfl, rfl, by decide⟩).1]; rfl

/-! ## Voice position and buffer bookkeeping -/

theorem toInt32_range (v : Int) : -2147483648 ≤ toInt32 v ∧ toInt32 v < 2147483648 := by
  unfold toInt32; omega

theorem toInt32_of_range {v : Int} (h1 : -2147483648 ≤ v) (h2 : v < 2147483648) :
    toInt32 v = v := by
  unfold toInt32; omega

theorem toUInt_of_nonneg {v : Int} (h1 : 0 ≤ v) (h2 : v < 4294967296) :
    (toUInt v : Int) = v := by
  unfold toUInt; omega

theorem uadd_of_lt {a b : Nat} (h : a + b < 4294967296) : uadd a b = a + b := by
  unfold uadd UIntRange
  exact Nat.mod_eq_of_lt h

theorem advancePosition_range (DataPosInt : Int) (DataPosFrac increment samplesToMix : Nat) :
    -2147483648 ≤ (advancePosition DataPosInt DataPosFrac increment samplesToMix).1 ∧
    (advancePosition DataPosInt DataPosFrac increment samplesToMix).1 < 2147483648 := by
  unfold advancePosition
  exact toInt32_range _

/-- For a playing voice with a step that is mixed in this update, `Voice::mix` is the
position update followed by the buffer update and the final stores and events
(given that the loop-disabling check and the callback loading do not apply). -/
theorem Voice_mix_playing (ctx : ContextBase) (p : Nat) (fields : VoiceMixFields)
    (items : Nat → VoiceBufferItem) (deviceTime : Int)
    (mSampleRate SamplesToDo callbackBlocksLoaded fuel OutPos : Nat)
    (hstep : 1 ≤ fields.mStep)
    (hstart : delayedStart fields.mStartTime deviceTime mSampleRate SamplesToDo = some OutPos)
    (hloop : fields.VoiceIsStatic = false ∨ (ctx.voices p).mLoopBuffer = none)
    (hcallback : fields.VoiceIsStatic = true ∨ fields.VoiceIsCallback = false) :
    Voice_mix PlayState.Playing ctx p fields items deviceTime mSampleRate SamplesToDo
      callbackBlocksLoaded fuel =
    (updateBuffers items fields fields.mNumCallbackBlocks (ctx.voices p).mCurrentBuffer
      (ctx.voices p).mLoopBuffer
      (advancePosition fields.mPosition fields.mPositionFrac fields.mStep
        (usub SamplesToDo OutPos)).1 fuel).map
      (storeAndSignal ctx p fields
        (advancePosition fields.mPosition fields.mPositionFrac fields.mStep
          (usub SamplesToDo OutPos)).2) := by
  have hinc : ¬ fields.mStep < 1 := by omega
  have h1 : ¬ (fields.VoiceIsStatic = true ∧ (ctx.voices p).mLoopBuffer.isSome = true) := by
    rintro ⟨hs, hl⟩
    rcases hloop with h | h
    · rw [h] at hs; cases hs
    · rw [h] at hl; cases hl
  have h2 : ¬ ((ctx.voices p).mCurrentBuffer.isSome = true ∧ ¬ fields.VoiceIsStatic = true ∧
      fields.VoiceIsCallback = true) := by
    rintro ⟨_, hs, hc⟩
    rcases hcallback with h | h
    · exact hs h
    · rw [h] at hc; cases hc
  simp only [Voice_mix, if_neg hinc, if_neg h1, hstart, if_neg h2, bind, Except.bind, pure,
    Except.pure]
  simp only [reduceCtorEq, and_false, if_false]
  cases updateBuffers items fields fields.mNumCallbackBlocks (ctx.voices p).mCurrentBuffer
    (ctx.voices p).mLoopBuffer
    (advancePosition fields.mPosition fields.mPositionFrac fields.mStep
      (usub SamplesToDo OutPos)).1 fuel <;> rfl

/-- The final stores and events of `Voice::mix` when no buffer is left. -/
theorem storeAndSignal_none (ctx : ContextBase) (p : Nat) (fields : VoiceMixFields)
    (frac : Nat) (pos : Int) (done n1 n2 : Nat) :
    ((storeAndSignal ctx p fields frac (none, pos, done, n1, n2)).1.voices p).mCurrentBuffer
      = none ∧
    ((storeAndSignal ctx p fields frac (none, pos, done, n1, n2)).1.voices p).mLoopBuffer
      = none ∧
    ((storeAndSignal ctx p fields frac (none, pos, done, n1, n2)).1.voices p).mSourceID = 0 ∧
    ((storeAndSignal ctx p fields frac (none, pos, done, n1, n2)).1.voices p).mPlayState =
      PlayState.Stopping ∧
    (storeAndSignal ctx p fields frac (none, pos, done, n1, n2)).2.mPosition = pos ∧
    (storeAndSignal ctx p fields frac (none, pos, done, n1, n2)).1.mAsyncEvents.written =
      ctx.mAsyncEvents.written ++
        (if 0 < done ∧ ctx.mEnabledEvts AsyncEnableBits.BufferCompleted = true ∧
            ctx.mAsyncEvents.writeSpace ≠ 0
          then [AsyncEvent.BufferComplete (ctx.voices p).mSourceID done] else []) ++
        (if ctx.mEnabledEvts AsyncEnableBits.SourceState = true ∧
            (if 0 < done ∧ ctx.mEnabledEvts AsyncEnableBits.BufferCompleted = true
              then ctx.mAsyncEvents.writeSpace - 1 else ctx.mAsyncEvents.writeSpace) ≠ 0
          then [AsyncEvent.SourceState (ctx.voices p).mSourceID (some AsyncSrcState.Stop)]
          else []) := by
  by_cases hk0 : 0 < done <;>
  by_cases heb : ctx.mEnabledEvts AsyncEnableBits.BufferCompleted = true <;>
  by_cases hes : ctx.mEnabledEvts AsyncEnableBits.SourceState = true <;>
  by_cases hw : ctx.mAsyncEvents.writeSpace = 0 <;>
  by_cases hw1 : ctx.mAsyncEvents.writeSpace - 1 = 0 <;>
  simp [storeAndSignal, SendSourceStoppedEvent, sendBufferCompleteEvent, setVoice, hk0, heb,
    hes, hw, hw1]

/-- The final stores and events of `Voice::mix` when a buffer is left. -/
theorem storeAndSignal_some (ctx : ContextBase) (p : Nat) (fields : VoiceMixFields)
    (frac : Nat) (f : Nat) (pos : Int) (done n1 n2 : Nat) :
    ((storeAndSignal ctx p fields frac (some f, pos, done, n1, n2)).1.voices p).mCurrentBuffer
      = some f ∧
    ((storeAndSignal ctx p fields frac (some f, pos, done, n1, n2)).1.voices p).mSourceID
      = (ctx.voices p).mSourceID ∧
    ((storeAndSignal ctx p fields frac (some f, pos, done, n1, n2)).1.voices p).mPlayState
      = (ctx.voices p).mPlayState ∧
    (storeAndSignal ctx p fields frac (some f, pos, done, n1, n2)).2.mPosition = pos ∧
    (storeAndSignal ctx p fields frac (some f, pos, done, n1, n2)).1.mAsyncEvents.written =
      ctx.mAsyncEvents.written ++
        (if 0 < done ∧ ctx.mEnabledEvts AsyncEnableBits.BufferCompleted = true ∧
            ctx.mAsyncEvents.writeSpace ≠ 0
          then [AsyncEvent.BufferComplete (ctx.voices p).mSourceID done] else []) := by
  by_cases hk0 : 0 < done <;>
  by_cases heb : ctx.mEnabledEvts AsyncEnableBits.BufferCompleted = true <;>
  by_cases hw : ctx.mAsyncEvents.writeSpace = 0 <;>
  simp [storeAndSignal, sendBufferCompleteEvent, setVoice, hk0, heb, hw]

/-- The guard `DataPosInt > 0` of the buffer update at a buffer without samples: a
playing static non-looping voice of source 5 at the start of an empty buffer, step
1, one sample mixed. The advanced position 0 is not below the buffer's `mSampleLen`
of 0, yet after `Voice::mix` the voice still has its buffer and source id and is
Playing, and no event was written. C14 is about a position that crosses the end of
a buffer with samples. -/
theorem Voice_mix_static_end_at_zero :
    exampleStartFields.VoiceIsStatic = true ∧
    (exampleMixContext.voices 0).mCurrentBuffer = some 1 ∧
    (exampleMixContext.voices 0).mLoopBuffer = none ∧
    (exampleMixContext.voices 0).mPlayState = PlayState.Playing ∧
    1 ≤ exampleStartFields.mStep ∧
    delayedStart exampleStartFields.mStartTime 0 48000 1 = some 0 ∧
    ((exampleEmptyItems 1).mSampleLen : Int) ≤
      (advancePosition exampleStartFields.mPosition exampleStartFields.mPositionFrac
        exampleStartFields.mStep (usub 1 0)).1 ∧
    ∃ ctx' fields',
      Voice_mix PlayState.Playing exampleMixContext 0 exampleStartFields exampleEmptyItems 0
        48000 1 0 8 = Except.ok (ctx', fields') ∧
      (ctx'.voices 0).mCurrentBuffer = some 1 ∧ (ctx'.voices 0).mSourceID = 5 ∧
      (ctx'.voices 0).mPlayState = PlayState.Playing ∧
      ctx'.mAsyncEvents.written = [] := by
  refine ⟨rfl, rfl, rfl, rfl, by decide, by decide, by decide, ?_⟩
  rw [Voice_mix_playing exampleMixContext 0 exampleStartFields exampleEmptyItems 0 48000 1 0 8
    0 (by decide) (by decide) (Or.inr rfl) (Or.inl rfl)]
  have hadv : advancePosition exampleStartFields.mPosition exampleStartFields.mPositionFrac
      exampleStartFields.mStep (usub 1 0) = (0, 1) := by decide
  rw [hadv]
  have hupd : updateBuffers exampleEmptyItems exampleStartFields
      exampleStartFields.mNumCallbackBlocks (exampleMixContext.voices 0).mCurrentBuffer
      (exampleMixContext.voices 0).mLoopBuffer ((0, 1) : Int × Nat).1 8 =
      Except.ok (some 1, 0, 0, 0, 0) := rfl
  rw [hupd]
  obtain ⟨h1, h2, h3, _, h5⟩ := storeAndSignal_some exampleMixContext 0 exampleStartFields
    ((0, 1) : Int × Nat).2 1 0 0 0 0
  generalize hS : storeAndSignal exampleMixContext 0 exampleStartFields ((0, 1) : Int × Nat).2
    (some 1, 0, 0, 0, 0) = S at h1 h2 h3 h5
  refine ⟨S.1, S.2, ?_, h1, ?_, ?_, ?_⟩
  · show Except.ok (storeAndSignal exampleMixContext 0 exampleStartFields
      ((0, 1) : Int × Nat).2 (some 1, 0, 0, 0, 0)) = _
    rw [hS]
  · rw [h2]; rfl
  · rw [h3]; rfl
  · rw [h5]; rfl

/-- C14: for a Playing static non-looping voice with step at least 1 that is mixed
in this update, whose position after advancing by `step * samplesToMix` reaches or
passes the `mSampleLen` of its buffer: `Voice::mix` completes, the current and loop
buffers are null, the source id is 0, the play state is Stopping, the stored
position is the advanced one, and the ring has gained exactly one source-state event
with state Stop and the voice's previous source id when the SourceState bit is
enabled and the ring has space, and nothing otherwise. The buffer holds at least one
sample, so that the position that reaches its end is positive, as the guard
`DataPosInt > 0` of the buffer update asks (a positive advanced position is enough). -/
theorem Voice_mix_static_end (ctx : ContextBase) (p : Nat) (fields : VoiceMixFields)
    (items : Nat → VoiceBufferItem) (deviceTime : Int)
    (mSampleRate SamplesToDo callbackBlocksLoaded fuel b OutPos : Nat)
    (hstatic : fields.VoiceIsStatic = true)
    (hcur : (ctx.voices p).mCurrentBuffer = some b)
    (hloop : (ctx.voices p).mLoopBuffer = none)
    (hstep : 1 ≤ fields.mStep)
    (hstart : delayedStart fields.mStartTime deviceTime mSampleRate SamplesToDo = some OutPos)
    (hlen : 0 < (items b).mSampleLen ∨
      0 < (advancePosition fields.mPosition fields.mPositionFrac fields.mStep
        (usub SamplesToDo OutPos)).1)
    (hend : ((items b).mSampleLen : Int) ≤
      (advancePosition fields.mPosition fields.mPositionFrac fields.mStep
        (usub SamplesToDo OutPos)).1) :
    ∃ ctx' fields',
      Voice_mix PlayState.Playing ctx p fields items deviceTime mSampleRate SamplesToDo
        callbackBlocksLoaded fuel = Except.ok (ctx', fields') ∧
      (ctx'.voices p).mCurrentBuffer = none ∧ (ctx'.voices p).mLoopBuffer = none ∧
      (ctx'.voices p).mSourceID = 0 ∧ (ctx'.voices p).mPlayState = PlayState.Stopping ∧
      fields'.mPosition = (advancePosition fields.mPosition fields.mPositionFrac fields.mStep
        (usub SamplesToDo OutPos)).1 ∧
      ctx'.mAsyncEvents.written = ctx.mAsyncEvents.written ++
        (if ctx.mEnabledEvts AsyncEnableBits.SourceState = true ∧
            ctx.mAsyncEvents.writeSpace ≠ 0
          then [AsyncEvent.SourceState (ctx.voices p).mSourceID (some AsyncSrcState.Stop)]
          else []) := by
  rw [Voice_mix_playing ctx p fields items deviceTime mSampleRate SamplesToDo
    callbackBlocksLoaded fuel OutPos hstep hstart (Or.inr hloop) (Or.inl hstatic)]
  obtain ⟨hlo, hhi⟩ := advancePosition_range fields.mPosition fields.mPositionFrac fields.mStep
    (usub SamplesToDo OutPos)
  generalize advancePosition fields.mPosition fields.mPositionFrac fields.mStep
    (usub SamplesToDo OutPos) = adv at hlen hend hlo hhi
  have hpos : 0 < adv.1 := by
    rcases hlen with h | h
    · have h1 : (0 : Int) < ((items b).mSampleLen : Int) := by exact_mod_cast h
      linarith
    · exact h
  have hu : (toUInt adv.1 : Int) = adv.1 := toUInt_of_nonneg (by omega) (by omega)
  have hge : toUInt adv.1 ≥ (items b).mSampleLen := by omega
  have hupd : updateBuffers items fields fields.mNumCallbackBlocks (some b) none adv.1 fuel =
      Except.ok (none, adv.1, 0, fields.mNumCallbackBlocks, fields.mCallbackBlockBase) := by
    simp only [updateBuffers, hpos, hstatic, if_true, hge]
    rfl
  rw [hcur, hloop, hupd]
  obtain ⟨h1, h2, h3, h4, h5, h6⟩ := storeAndSignal_none ctx p fields adv.2 adv.1 0
    fields.mNumCallbackBlocks fields.mCallbackBlockBase
  generalize hS : storeAndSignal ctx p fields adv.2
    (none, adv.1, 0, fields.mNumCallbackBlocks, fields.mCallbackBlockBase) = S
    at h1 h2 h3 h4 h5 h6
  refine ⟨S.1, S.2, ?_, h1, h2, h3, h4, h5, ?_⟩
  · show Except.ok (storeAndSignal ctx p fields adv.2
      (none, adv.1, 0, fields.mNumCallbackBlocks, fields.mCallbackBlockBase)) = _
    rw [hS]
  · rw [h6]
    simp

/-- Witness for C14: source 5 at sample 90 of a 100-sample static buffer, two samples
per output sample, five samples mixed: the position reaches 100, the voice is
Stopping and the ring holds the Stop event of source 5. -/
theorem Voice_mix_static_end_witness :
    exampleStaticFields.VoiceIsStatic = true ∧
    (exampleMixContext.voices 0).mCurrentBuffer = some 1 ∧
    (exampleMixContext.voices 0).mLoopBuffer = none ∧
    1 ≤ exampleStaticFields.mStep ∧
    delayedStart exampleStaticFields.mStartTime 0 48000 5 = some 0 ∧
    0 < (exampleItems 1).mSampleLen ∧
    ((exampleItems 1).mSampleLen : Int) ≤
      (advancePosition exampleStaticFields.mPosition exampleStaticFields.mPositionFrac
        exampleStaticFields.mStep (usub 5 0)).1 ∧
    ∃ ctx' fields',
      Voice_mix PlayState.Playing exampleMixContext 0 exampleStaticFields exampleItems 0
        48000 5 0 8 = Except.ok (ctx', fields') ∧
      (ctx'.voices 0).mCurrentBuffer = none ∧ (ctx'.voices 0).mSourceID = 0 ∧
      (ctx'.voices 0).mPlayState = PlayState.Stopping ∧ fields'.mPosition = 100 ∧
      ctx'.mAsyncEvents.written = [AsyncEvent.SourceState 5 (some AsyncSrcState.Stop)] := by
  refine ⟨rfl, rfl, rfl, by decide, by decide, by decide, by decide, ?_⟩
  obtain ⟨ctx', fields', h0, h1, _, h3, h4, h5, h6⟩ :=
    Voice_mix_static_end exampleMixContext 0 exampleStaticFields exampleItems 0 48000 5 0 8 1 0
      rfl rfl rfl (by decide) (by decide) (Or.inl (by decide)) (by decide)
  refine ⟨ctx', fields', h0, h1, h3, h4, ?_, ?_⟩
  · rw [h5]; decide
  · rw [h6]; rfl

/-- The streaming loop of `Voice::mix` on a queue of items of positive length, with
fuel above the position: it completes having crossed `k` items, all present, and
stops in front of an item longer than the remaining position or at the end of the
queue. -/
theorem streamAdvance_spec (items : Nat → VoiceBufferItem) (loopItem : Option Nat)
    (hlen : ∀ b, 0 < (items b).mSampleLen) :
    ∀ (fuel b : Nat) (pos : Int) (done : Nat), 0 ≤ pos → pos < 2147483648 →
      pos < (fuel : Int) → (done : Int) + pos < 4294967296 →
      ∃ k final pos',
        streamAdvance items loopItem fuel b pos done = Except.ok (final, pos', done + k) ∧
        final = itemAfter items loopItem (some b) k ∧
        pos' = pos - (crossedLen items loopItem (some b) k : Int) ∧ 0 ≤ pos' ∧
        (∀ j, j < k → itemAfter items loopItem (some b) j ≠ none) ∧
        (final = none ∨ ∃ f, final = some f ∧ pos' < ((items f).mSampleLen : Int)) := by
  intro fuel
  induction fuel with
  | zero => intro b pos done h0 _ hf _; omega
  | succ fuel ih =>
    intro b pos done h0 h31 hf hd
    have hu : (toUInt pos : Int) = pos := toUInt_of_nonneg h0 (by omega)
    simp only [streamAdvance]
    by_cases hgt : (items b).mSampleLen > toUInt pos
    · rw [if_pos hgt]
      refine ⟨0, some b, pos, rfl, rfl, by simp [crossedLen], h0, ?_, Or.inr ⟨b, rfl, by omega⟩⟩
      intro j hj; omega
    · rw [if_neg hgt]
      have hle : ((items b).mSampleLen : Int) ≤ pos := by omega
      have hl := hlen b
      have h1 : toInt32 ((items b).mSampleLen : Int) = ((items b).mSampleLen : Int) :=
        toInt32_of_range (by omega) (by omega)
      have h2 : toInt32 (pos - ((items b).mSampleLen : Int)) = pos - ((items b).mSampleLen : Int) :=
        toInt32_of_range (by omega) (by omega)
      have h3 : uadd done 1 = done + 1 := uadd_of_lt (by omega)
      rw [h1, h2, h3]
      cases hn : nextItem items loopItem b with
      | none =>
        refine ⟨1, none, pos - ((items b).mSampleLen : Int), rfl, ?_, ?_, by omega, ?_, Or.inl rfl⟩
        · simp [itemAfter, hn]
        · simp [crossedLen]
        · intro j hj
          have : j = 0 := by omega
          subst this
          simp [itemAfter]
      | some n =>
        obtain ⟨k, final, pos', hrun, hfin, hpos, hnn, hwalk, hstop⟩ :=
          ih n (pos - ((items b).mSampleLen : Int)) (done + 1) (by omega) (by omega) (by omega)
            (by push_cast; omega)
        refine ⟨k + 1, final, pos', ?_, ?_, ?_, hnn, ?_, hstop⟩
        · have e : done + 1 + k = done + (k + 1) := by omega
          rw [e] at hrun
          exact hrun
        · simp [itemAfter, hn, hfin]
        · simp only [crossedLen, hn]
          rw [hpos]; push_cast; omega
        · intro j hj
          cases j with
          | zero => simp [itemAfter]
          | succ j =>
            simp only [itemAfter, hn]
            exact hwalk j (by omega)

/-- The buffer update of `Voice::mix` for a streaming voice with a positive advanced
position, on items of positive length and with enough fuel. -/
theorem updateBuffers_streaming (items : Nat → VoiceBufferItem) (fields : VoiceMixFields)
    (n : Nat) (cur loopItem : Option Nat) (pos : Int) (fuel : Nat)
    (hstatic : fields.VoiceIsStatic = false) (hcallback : fields.VoiceIsCallback = false)
    (hlen : ∀ item, 0 < (items item).mSampleLen)
    (hpos : 0 < pos) (h31 : pos < 2147483648) (hfuel : pos < (fuel : Int)) :
    ∃ k final pos',
      updateBuffers items fields n cur loopItem pos fuel =
        Except.ok (final, pos', k, n, fields.mCallbackBlockBase) ∧
      final = itemAfter items loopItem cur k ∧
      pos' = pos - (crossedLen items loopItem cur k : Int) ∧ 0 ≤ pos' ∧
      (∀ j, j < k → itemAfter items loopItem cur j ≠ none) ∧
      (final = none ∨ ∃ f, final = some f ∧ pos' < ((items f).mSampleLen : Int)) := by
  cases cur with
  | none =>
    refine ⟨0, none, pos, rfl, rfl, by simp [crossedLen], by omega, ?_, Or.inl rfl⟩
    intro j hj; omega
  | some b =>
    obtain ⟨k, final, pos', hrun, hfin, hp', hnn, hwalk, hstop⟩ :=
      streamAdvance_spec items loopItem hlen fuel b pos 0 (by omega) h31 hfuel
        (by push_cast; omega)
    rw [Nat.zero_add] at hrun
    refine ⟨k, final, pos', ?_, hfin, hp', hnn, hwalk, hstop⟩
    simp only [updateBuffers, hpos, hstatic, hcallback, if_true, hrun, bind, Except.bind]
    rfl

/-- C15: for a Playing streaming (queued) voice that is mixed in this update, whose
buffers all have positive length and whose advanced position is positive,
`Voice::mix` completes (given fuel above the advanced position) with a count
`buffers_done` such that: the first `buffers_done` items of the queue from the
current one on (continuing at the loop item after the last) exist and are the ones
crossed; the new current item is the one after them; the stored position is the
advanced position minus their lengths, is not negative and is smaller than the
length of the new current item unless no item remains; and the ring has gained one
buffer-completed event with the voice's source id and count `buffers_done`
exactly when `buffers_done > 0`, the BufferCompleted bit is enabled and the ring
has space (followed by the source-stopped event when no item remains, the
SourceState bit is enabled and the ring still has space). -/
theorem Voice_mix_streaming (ctx : ContextBase) (p : Nat) (fields : VoiceMixFields)
    (items : Nat → VoiceBufferItem) (deviceTime : Int)
    (mSampleRate SamplesToDo callbackBlocksLoaded fuel OutPos : Nat)
    (hstatic : fields.VoiceIsStatic = false) (hcallback : fields.VoiceIsCallback = false)
    (hlen : ∀ item, 0 < (items item).mSampleLen)
    (hstep : 1 ≤ fields.mStep)
    (hstart : delayedStart fields.mStartTime deviceTime mSampleRate SamplesToDo = some OutPos)
    (hpos : 0 < (advancePosition fields.mPosition fields.mPositionFrac fields.mStep
      (usub SamplesToDo OutPos)).1)
    (hfuel : (advancePosition fields.mPosition fields.mPositionFrac fields.mStep
      (usub SamplesToDo OutPos)).1 < (fuel : Int)) :
    ∃ ctx' fields' buffers_done,
      Voice_mix PlayState.Playing ctx p fields items deviceTime mSampleRate SamplesToDo
        callbackBlocksLoaded fuel = Except.ok (ctx', fields') ∧
      (∀ j, j < buffers_done →
        itemAfter items (ctx.voices p).mLoopBuffer (ctx.voices p).mCurrentBuffer j ≠ none) ∧
      (ctx'.voices p).mCurrentBuffer =
        itemAfter items (ctx.voices p).mLoopBuffer (ctx.voices p).mCurrentBuffer
          buffers_done ∧
      fields'.mPosition =
        (advancePosition fields.mPosition fields.mPositionFrac fields.mStep
          (usub SamplesToDo OutPos)).1 -
        (crossedLen items (ctx.voices p).mLoopBuffer (ctx.voices p).mCurrentBuffer
          buffers_done : Int) ∧
      0 ≤ fields'.mPosition ∧
      ((ctx'.voices p).mCurrentBuffer = none ∨
        ∃ f, (ctx'.voices p).mCurrentBuffer = some f ∧
          fields'.mPosition < ((items f).mSampleLen : Int)) ∧
      ctx'.mAsyncEvents.written = ctx.mAsyncEvents.written ++
        (if 0 < buffers_done ∧ ctx.mEnabledEvts AsyncEnableBits.BufferCompleted = true ∧
            ctx.mAsyncEvents.writeSpace ≠ 0
          then [AsyncEvent.BufferComplete (ctx.voices p).mSourceID buffers_done] else []) ++
        (if (ctx'.voices p).mCurrentBuffer = none ∧
            ctx.mEnabledEvts AsyncEnableBits.SourceState = true ∧
            (if 0 < buffers_done ∧ ctx.mEnabledEvts AsyncEnableBits.BufferCompleted = true
              then ctx.mAsyncEvents.writeSpace - 1 else ctx.mAsyncEvents.writeSpace) ≠ 0
          then [AsyncEvent.SourceState (ctx.voices p).mSourceID (some AsyncSrcState.Stop)]
          else []) := by
  rw [Voice_mix_playing ctx p fields items deviceTime mSampleRate SamplesToDo
    callbackBlocksLoaded fuel OutPos hstep hstart (Or.inl hstatic) (Or.inr hcallback)]
  obtain ⟨hlo, hhi⟩ := advancePosition_range fields.mPosition fields.mPositionFrac fields.mStep
    (usub SamplesToDo OutPos)
  generalize advancePosition fields.mPosition fields.mPositionFrac fields.mStep
    (usub SamplesToDo OutPos) = adv at hpos hfuel hlo hhi
  obtain ⟨k, final, pos', hupd, hfin, hp', hnn, hwalk, hstop⟩ :=
    updateBuffers_streaming items fields fields.mNumCallbackBlocks (ctx.voices p).mCurrentBuffer
      (ctx.voices p).mLoopBuffer adv.1 fuel hstatic hcallback hlen hpos hhi hfuel
  rw [hupd]
  cases final with
  | none =>
    obtain ⟨h1, _, _, _, h5, h6⟩ := storeAndSignal_none ctx p fields adv.2 pos' k
      fields.mNumCallbackBlocks fields.mCallbackBlockBase
    generalize hS : storeAndSignal ctx p fields adv.2
      (none, pos', k, fields.mNumCallbackBlocks, fields.mCallbackBlockBase) = S at h1 h5 h6
    refine ⟨S.1, S.2, k, ?_, hwalk, ?_, ?_, ?_, Or.inl h1, ?_⟩
    · show Except.ok (storeAndSignal ctx p fields adv.2
        (none, pos', k, fields.mNumCallbackBlocks, fields.mCallbackBlockBase)) = _
      rw [hS]
    · rw [h1, hfin]
    · rw [h5, hp']
    · rw [h5]; exact hnn
    · rw [h6]
      simp [h1]
  | some f =>
    obtain ⟨f', hf', hlt⟩ : ∃ f', some f = some f' ∧ pos' < ((items f').mSampleLen : Int) := by
      rcases hstop with h | h
      · cases h
      · exact h
    cases hf'
    obtain ⟨h1, _, _, h5, h6⟩ := storeAndSignal_some ctx p fields adv.2 f pos' k
      fields.mNumCallbackBlocks fields.mCallbackBlockBase
    generalize hS : storeAndSignal ctx p fields adv.2
      (some f, pos', k, fields.mNumCallbackBlocks, fields.mCallbackBlockBase) = S at h1 h5 h6
    refine ⟨S.1, S.2, k, ?_, hwalk, ?_, ?_, ?_, Or.inr ⟨f, h1, by rw [h5]; exact hlt⟩, ?_⟩
    · show Except.ok (storeAndSignal ctx p fields adv.2
        (some f, pos', k, fields.mNumCallbackBlocks, fields.mCallbackBlockBase)) = _
      rw [hS]
    · rw [h1, hfin]
    · rw [h5, hp']
    · rw [h5]; exact hnn
    · rw [h6]
      simp [h1]

/-- The example items all have positive length. -/
theorem exampleItems_positive : ∀ item, 0 < (exampleItems item).mSampleLen := by
  intro item
  unfold exampleItems
  split_ifs <;> decide

/-- Witness for C15: source 5 at sample 90 of a 100-sample item followed by a
20-sample item, two samples per output sample, twelve samples mixed: the advanced
position is 114. -/
theorem Voice_mix_streaming_witness :
    exampleStreamFields.VoiceIsStatic = false ∧ exampleStreamFields.VoiceIsCallback = false ∧
    (∀ item, 0 < (exampleItems item).mSampleLen) ∧
    1 ≤ exampleStreamFields.mStep ∧
    delayedStart exampleStreamFields.mStartTime 0 48000 12 = some 0 ∧
    (advancePosition exampleStreamFields.mPosition exampleStreamFields.mPositionFrac
      exampleStreamFields.mStep (usub 12 0)).1 = 114 ∧
    ∃ ctx' fields' buffers_done,
      Voice_mix PlayState.Playing exampleMixContext 0 exampleStreamFields exampleItems 0
        48000 12 0 200 = Except.ok (ctx', fields') ∧
      (ctx'.voices 0).mCurrentBuffer = itemAfter exampleItems none (some 1) buffers_done ∧
      fields'.mPosition = 114 - (crossedLen exampleItems none (some 1) buffers_done : Int) ∧
      0 ≤ fields'.mPosition := by
  refine ⟨rfl, rfl, exampleItems_positive, by decide, by decide, by decide, ?_⟩
  obtain ⟨ctx', fields', k, h0, _, h2, h3, h4, _⟩ :=
    Voice_mix_streaming exampleMixContext 0 exampleStreamFields exampleItems 0 48000 12 0 200 0
      rfl rfl exampleItems_positive (by decide) (by decide) (by decide) (by decide)
  exact ⟨ctx', fields', k, h0, h2, h3, h4⟩

/-! ## Distance attenuation and gain -/

theorem lerpf_same (a mu : ℚ) : lerpf a a mu = a := by
  unfold lerpf; ring

/-- At the reference distance every model attenuates from the reference distance. -/
theorem AttenDistance_at_ref (model : DistanceModel) (props : VoiceProps) :
    AttenDistance model props.RefDistance props = props.RefDistance := by
  have hcl : (if ¬ (props.RefDistance ≤ props.MaxDistance) then props.RefDistance
      else clamp props.RefDistance props.RefDistance props.MaxDistance) = props.RefDistance := by
    by_cases h : props.RefDistance ≤ props.MaxDistance
    · rw [if_neg (not_not.mpr h)]
      unfold clamp
      rw [if_neg (lt_irrefl _), if_neg (not_lt.mpr h)]
    · rw [if_pos h]
  cases model <;> first | rfl | exact hcl

/-- C16: for every rolloff factor, every send rolloff and every distance model
(Inverse, Linear, Exponent, their clamped variants, and Disable), when the source
distance equals `RefDistance` the multiplier `DryAttnBase` computed by
`CalcAttnSourceParams` is exactly 1, the dry gain stays `props.Gain`, and every
send's gain stays `props.Gain`, its distance multiplier being 1. Arithmetic is
exact; `pow` is any power function with `pow(1, y) = 1`. -/
theorem distanceAttenuation_at_ref (pow : ℚ → ℚ → ℚ) (hpow : ∀ y, pow 1 y = 1)
    (model : DistanceModel) (props : VoiceProps) (RoomRolloff : List ℚ) :
    (distanceAttenuation pow model (AttenDistance model props.RefDistance props) props
      RoomRolloff).DryAttnBase = 1 ∧
    (distanceAttenuation pow model (AttenDistance model props.RefDistance props) props
      RoomRolloff).DryGainBase = props.Gain ∧
    (distanceAttenuation pow model (AttenDistance model props.RefDistance props) props
      RoomRolloff).WetGainBase = RoomRolloff.map (fun _ => props.Gain) := by
  rw [AttenDistance_at_ref]
  have hinv : ∀ h : props.RefDistance > 0,
      (if props.RefDistance > 0 then
        (if lerpf props.RefDistance props.RefDistance props.RolloffFactor > 0 then
          ({ DryAttnBase := props.RefDistance /
                lerpf props.RefDistance props.RefDistance props.RolloffFactor,
             DryGainBase := props.Gain * (props.RefDistance /
                lerpf props.RefDistance props.RefDistance props.RolloffFactor),
             WetGainBase := RoomRolloff.map (fun rolloff =>
                if lerpf props.RefDistance props.RefDistance rolloff > 0 then
                  props.Gain * (props.RefDistance /
                    lerpf props.RefDistance props.RefDistance rolloff)
                else props.Gain) } : DistanceGains)
        else { DryAttnBase := 1, DryGainBase := props.Gain,
               WetGainBase := RoomRolloff.map (fun rolloff =>
                if lerpf props.RefDistance props.RefDistance rolloff > 0 then
                  props.Gain * (props.RefDistance /
                    lerpf props.RefDistance props.RefDistance rolloff)
                else props.Gain) })
      else { DryAttnBase := 1, DryGainBase := props.Gain,
             WetGainBase := RoomRolloff.map (fun _ => props.Gain) }) =
      { DryAttnBase := 1, DryGainBase := props.Gain,
        WetGainBase := RoomRolloff.map (fun _ => props.Gain) } := by
    intro h
    have hne : props.RefDistance ≠ 0 := ne_of_gt h
    simp only [lerpf_same, h, if_true, div_self hne, mul_one]
  cases model
  case Disable => exact ⟨rfl, rfl, rfl⟩
  case Inverse =>
    simp only [distanceAttenuation]
    by_cases h : props.RefDistance > 0
    · rw [hinv h]; exact ⟨rfl, rfl, rfl⟩
    · rw [if_neg h]; exact ⟨rfl, rfl, rfl⟩
  case InverseClamped =>
    simp only [distanceAttenuation]
    by_cases h : props.RefDistance > 0
    · rw [hinv h]; exact ⟨rfl, rfl, rfl⟩
    · rw [if_neg h]; exact ⟨rfl, rfl, rfl⟩
  case Linear =>
    simp only [distanceAttenuation]
    by_cases h : props.MaxDistance = props.RefDistance
    · simp [h]
    · simp [h]
  case LinearClamped =>
    simp only [distanceAttenuation]
    by_cases h : props.MaxDistance = props.RefDistance
    · simp [h]
    · simp [h]
  case Exponent =>
    simp only [distanceAttenuation]
    by_cases h : props.RefDistance > 0
    · have hne : props.RefDistance ≠ 0 := ne_of_gt h
      simp [h, div_self hne, hpow]
    · simp [h]
  case ExponentClamped =>
    simp only [distanceAttenuation]
    by_cases h : props.RefDistance > 0
    · have hne : props.RefDistance ≠ 0 := ne_of_gt h
      simp [h, div_self hne, hpow]
    · simp [h]

theorem examplePow_one (y : ℚ) : examplePow 1 y = 1 := by
  unfold examplePow
  exact one_zpow _

/-- Witness for C16: the exponent model with rolloff 1 and two sends. -/
theorem distanceAttenuation_at_ref_witness :
    (∀ y, examplePow 1 y = 1) ∧
    (distanceAttenuation examplePow DistanceModel.Exponent
      (AttenDistance DistanceModel.Exponent exampleProps.RefDistance exampleProps) exampleProps
      [1, 3]).DryAttnBase = 1 :=
  ⟨examplePow_one,
    (distanceAttenuation_at_ref examplePow examplePow_one DistanceModel.Exponent exampleProps
      [1, 3]).1⟩

/-- C17: with an inverse distance model (clamped or not), `RefDistance > 0` and
`lerpf(RefDistance, AttenDistance, RolloffFactor) > 0`, the distance stage of
`CalcAttnSourceParams` sets `DryAttnBase` to
`RefDistance / (RefDistance + RolloffFactor * (AttenDistance - RefDistance))` and
multiplies the dry gain `props.Gain` by it. In particular with `RefDistance = 1`,
`RolloffFactor = 1`, distance 2 (not clamped away), a non-directional source,
`Direct.Gain = 1` and gain limits that do not bind at half the source gain, the final
`DryGain.Base` is `min(GainMixMax, props.Gain * 0.5 * context gain)`. -/
theorem CalcAttnSourceParams_inverse_gain (pow : ℚ → ℚ → ℚ) (GainMixMax : ℚ)
    (props : VoiceProps) (params : ContextParams) (Distance Angle : ℚ)
    (RoomRolloff : List ℚ)
    (hmodel : selectDistanceModel props params = DistanceModel.Inverse ∨
      selectDistanceModel props params = DistanceModel.InverseClamped) :
    (0 < props.RefDistance →
      0 < lerpf props.RefDistance
        (AttenDistance (selectDistanceModel props params) Distance props)
        props.RolloffFactor →
      (distanceAttenuation pow (selectDistanceModel props params)
        (AttenDistance (selectDistanceModel props params) Distance props) props
        RoomRolloff).DryAttnBase =
        props.RefDistance / (props.RefDistance + props.RolloffFactor *
          (AttenDistance (selectDistanceModel props params) Distance props -
            props.RefDistance)) ∧
      (distanceAttenuation pow (selectDistanceModel props params)
        (AttenDistance (selectDistanceModel props params) Distance props) props
        RoomRolloff).DryGainBase =
        props.Gain * (props.RefDistance / (props.RefDistance + props.RolloffFactor *
          (AttenDistance (selectDistanceModel props params) Distance props -
            props.RefDistance)))) ∧
    (props.RefDistance = 1 → props.RolloffFactor = 1 → Distance = 2 →
      (selectDistanceModel props params = DistanceModel.InverseClamped →
        2 ≤ props.MaxDistance) →
      props.DirectGain = 1 →
      min props.MinGain props.MaxGain ≤ props.Gain * (1 / 2) →
      props.Gain * (1 / 2) ≤ props.MaxGain →
      CalcAttnSourceParams_DryGainBase pow GainMixMax props params Distance false Angle
        RoomRolloff = min GainMixMax (props.Gain * (1 / 2) * params.Gain)) := by
  have hfactor : ∀ att : ℚ, 0 < props.RefDistance →
      0 < lerpf props.RefDistance att props.RolloffFactor →
      distanceAttenuation pow (selectDistanceModel props params) att props RoomRolloff =
        { DryAttnBase := props.RefDistance / lerpf props.RefDistance att props.RolloffFactor,
          DryGainBase := props.Gain *
            (props.RefDistance / lerpf props.RefDistance att props.RolloffFactor),
          WetGainBase := RoomRolloff.map (fun rolloff =>
            if lerpf props.RefDistance att rolloff > 0 then
              props.Gain * (props.RefDistance / lerpf props.RefDistance att rolloff)
            else props.Gain) } := by
    intro att href hdist
    rcases hmodel with h | h <;> rw [h] <;>
    simp only [distanceAttenuation, gt_iff_lt, href, hdist, if_true]
  have hlerp : ∀ att : ℚ, lerpf props.RefDistance att props.RolloffFactor =
      props.RefDistance + props.RolloffFactor * (att - props.RefDistance) := by
    intro att; unfold lerpf; ring
  refine ⟨?_, ?_⟩
  · intro href hdist
    rw [hfactor _ href hdist, hlerp]
    exact ⟨rfl, rfl⟩
  · intro href hroll hD hmax hdirect hmin hmaxg
    have hatt : AttenDistance (selectDistanceModel props params) Distance props = 2 := by
      rcases hmodel with h | h
      · rw [h]; simp only [AttenDistance]; exact hD
      · have hM := hmax h
        rw [h]; simp only [AttenDistance]
        rw [if_neg (by rw [href]; intro hc; exact hc (by linarith))]
        unfold clamp
        rw [hD, href, if_neg (by norm_num), if_neg (not_lt.mpr hM)]
    have hl : lerpf props.RefDistance 2 props.RolloffFactor = 2 := by
      rw [hlerp, href, hroll]; norm_num
    have hgain : (distanceAttenuation pow (selectDistanceModel props params) 2 props
        RoomRolloff).DryGainBase = props.Gain * (1 / 2) := by
      rw [hfactor 2 (by rw [href]; norm_num) (by rw [hl]; norm_num), hl, href]
    simp only [CalcAttnSourceParams_DryGainBase, hatt, hgain, applyCone, applyGainLimits]
    rw [if_neg (by simp)]
    unfold clamp
    rw [if_neg (not_lt.mpr hmin), if_neg (not_lt.mpr hmaxg), hdirect, mul_one]

/-- Witness for C17: source gain 1/2 at distance 2 with the inverse model gives a dry
gain of `min(GainMixMax, 1/2 * 1/2 * 1)`. -/
theorem CalcAttnSourceParams_inverse_gain_witness :
    (selectDistanceModel exampleProps exampleParams = DistanceModel.Inverse ∨
      selectDistanceModel exampleProps exampleParams = DistanceModel.InverseClamped) ∧
    CalcAttnSourceParams_DryGainBase examplePow 1000 exampleProps exampleParams 2 false 0
      [1, 3] = min 1000 (exampleProps.Gain * (1 / 2) * exampleParams.Gain) :=
  ⟨Or.inl rfl,
    (CalcAttnSourceParams_inverse_gain examplePow 1000 exampleProps exampleParams 2 0 [1, 3]
      (Or.inl rfl)).2 rfl rfl rfl (fun h => absurd h (by decide)) rfl
      (by norm_num [exampleProps]) (by norm_num [exampleProps])⟩

/-- C18: the attenuation distance of `CalcAttnSourceParams` is the raw source
distance for the Inverse, Linear, Exponent and Disable models; for the three
clamped models it is `clamp(Distance, RefDistance, MaxDistance)` when
`RefDistance <= MaxDistance` and `RefDistance` when `RefDistance > MaxDistance`, and
so lies between `RefDistance` and `max(RefDistance, MaxDistance)`. -/
theorem AttenDistance_spec (model : DistanceModel) (Distance : ℚ) (props : VoiceProps) :
    ((model = DistanceModel.Inverse ∨ model = DistanceModel.Linear ∨
        model = DistanceModel.Exponent ∨ model = DistanceModel.Disable) →
      AttenDistance model Distance props = Distance) ∧
    ((model = DistanceModel.InverseClamped ∨ model = DistanceModel.LinearClamped ∨
        model = DistanceModel.ExponentClamped) →
      (props.RefDistance ≤ props.MaxDistance →
        AttenDistance model Distance props =
          clamp Distance props.RefDistance props.MaxDistance) ∧
      (props.MaxDistance < props.RefDistance →
        AttenDistance model Distance props = props.RefDistance) ∧
      props.RefDistance ≤ AttenDistance model Distance props ∧
      AttenDistance model Distance props ≤ max props.RefDistance props.MaxDistance) := by
  have hcl : ∀ m, (m = DistanceModel.InverseClamped ∨ m = DistanceModel.LinearClamped ∨
      m = DistanceModel.ExponentClamped) →
      AttenDistance m Distance props =
        if ¬ (props.RefDistance ≤ props.MaxDistance) then props.RefDistance
        else clamp Distance props.RefDistance props.MaxDistance := by
    intro m hm
    rcases hm with h | h | h <;> rw [h] <;> rfl
  refine ⟨?_, ?_⟩
  · intro h
    rcases h with h | h | h | h <;> rw [h] <;> rfl
  · intro h
    rw [hcl model h]
    by_cases hle : props.RefDistance ≤ props.MaxDistance
    · rw [if_neg (not_not.mpr hle)]
      refine ⟨fun _ => rfl, fun hlt => absurd hle (not_le.mpr hlt), ?_, ?_⟩
      · exact (clamp_bounds hle Distance).1
      · exact le_trans (clamp_bounds hle Distance).2 (le_max_right _ _)
    · rw [if_pos hle]
      exact ⟨fun h' => absurd h' hle, fun _ => rfl, le_refl _, le_max_left _ _⟩

/-- Witness for C18: with the clamped inverse model, reference distance 1 and maximal
distance 10, a source at distance 25 attenuates as from distance 10. -/
theorem AttenDistance_spec_witness :
    AttenDistance DistanceModel.InverseClamped 25 exampleProps = 10 := by
  have h := ((AttenDistance_spec DistanceModel.InverseClamped 25 exampleProps).2
    (Or.inl rfl)).1 (by norm_num [exampleProps])
  rw [h]
  norm_num [clamp, exampleProps]

/-! ## Doppler shift and the resulting step -/

/-- C19, amended: over real arithmetic (the exact arithmetic of
`CalcAttnSourceParams_Pitch`), for a positive doppler factor and projected
velocities `vss` and `vls` both below the speed of sound `c`,
`CalcAttnSourceParams` multiplies the pitch by `(c - vls) / (c - vss)`; with the
source and listener velocities exchanged (so that `vss` and `vls` trade places) it
multiplies the pitch by exactly the reciprocal, and the two multipliers have
product 1. -/
theorem CalcAttnSourceParams_Pitch_symmetry (props : VoiceProps) (params : ContextParams)
    (velocityDot lvelocityDot : ℚ)
    (hfactor : 0 < props.DopplerFactor * params.DopplerFactor)
    (hvss : velocityDot * -(props.DopplerFactor * params.DopplerFactor) < params.SpeedOfSound)
    (hvls : lvelocityDot * -(props.DopplerFactor * params.DopplerFactor) <
      params.SpeedOfSound) :
    CalcAttnSourceParams_Pitch props params velocityDot lvelocityDot =
      PitchValue.finite (props.Pitch *
        ((params.SpeedOfSound - lvelocityDot * -(props.DopplerFactor * params.DopplerFactor)) /
          (params.SpeedOfSound -
            velocityDot * -(props.DopplerFactor * params.DopplerFactor)))) ∧
    CalcAttnSourceParams_Pitch props params lvelocityDot velocityDot =
      PitchValue.finite (props.Pitch *
        ((params.SpeedOfSound - lvelocityDot * -(props.DopplerFactor * params.DopplerFactor)) /
          (params.SpeedOfSound -
            velocityDot * -(props.DopplerFactor * params.DopplerFactor)))⁻¹) ∧
    ((params.SpeedOfSound - lvelocityDot * -(props.DopplerFactor * params.DopplerFactor)) /
        (params.SpeedOfSound - velocityDot * -(props.DopplerFactor * params.DopplerFactor))) *
      ((params.SpeedOfSound - velocityDot * -(props.DopplerFactor * params.DopplerFactor)) /
        (params.SpeedOfSound - lvelocityDot * -(props.DopplerFactor * params.DopplerFactor)))
      = 1 := by
  refine ⟨?_, ?_, ?_⟩
  · simp only [CalcAttnSourceParams_Pitch, gt_iff_lt, hfactor, if_true, hvls, hvss,
      not_true_eq_false, if_false]
  · simp only [CalcAttnSourceParams_Pitch, gt_iff_lt, hfactor, if_true, hvls, hvss,
      not_true_eq_false, if_false, inv_div]
  · have h1 : params.SpeedOfSound -
        lvelocityDot * -(props.DopplerFactor * params.DopplerFactor) ≠ 0 := by
      apply ne_of_gt; linarith
    have h2 : params.SpeedOfSound -
        velocityDot * -(props.DopplerFactor * params.DopplerFactor) ≠ 0 := by
      apply ne_of_gt; linarith
    rw [div_mul_div_comm, mul_comm, div_self (mul_ne_zero h2 h1)]

/-- Witness for C19: the source approaches at 43 and the listener recedes at 143 with
the speed of sound 343: the multiplier is `200/300`. -/
theorem CalcAttnSourceParams_Pitch_symmetry_witness :
    0 < exampleProps.DopplerFactor * exampleParams.DopplerFactor ∧
    (-43 : ℚ) * -(exampleProps.DopplerFactor * exampleParams.DopplerFactor) <
      exampleParams.SpeedOfSound ∧
    (-143 : ℚ) * -(exampleProps.DopplerFactor * exampleParams.DopplerFactor) <
      exampleParams.SpeedOfSound ∧
    CalcAttnSourceParams_Pitch exampleProps exampleParams (-43) (-143) =
      PitchValue.finite (exampleProps.Pitch *
        ((exampleParams.SpeedOfSound -
            (-143) * -(exampleProps.DopplerFactor * exampleParams.DopplerFactor)) /
          (exampleParams.SpeedOfSound -
            (-43) * -(exampleProps.DopplerFactor * exampleParams.DopplerFactor)))) :=
  ⟨by norm_num [exampleProps, exampleParams], by norm_num [exampleProps, exampleParams],
    by norm_num [exampleProps, exampleParams],
    (CalcAttnSourceParams_Pitch_symmetry exampleProps exampleParams (-43) (-143)
      (by norm_num [exampleProps, exampleParams]) (by norm_num [exampleProps, exampleParams])
      (by norm_num [exampleProps, exampleParams])).1⟩

/-! ## Rounding to `float` -/

theorem nearestEven_eq (q : ℚ) (n : Int) (h : |q - (n : ℚ)| < 1 / 2) : nearestEven q = n := by
  obtain ⟨h1, h2⟩ := abs_lt.mp h
  unfold nearestEven
  by_cases hq : (n : ℚ) ≤ q
  · have hf : Int.floor q = n := Int.floor_eq_iff.mpr ⟨hq, by linarith⟩
    have hr : Int.fract q = q - n := by rw [Int.fract, hf]
    rw [if_pos (by rw [hr]; linarith), hf]
  · have hf : Int.floor q = n - 1 :=
      Int.floor_eq_iff.mpr ⟨by push_cast; linarith, by push_cast; linarith⟩
    have hr : Int.fract q = q - (n - 1) := by rw [Int.fract, hf]; push_cast; ring
    rw [if_neg (by rw [hr]; linarith), if_pos (by rw [hr]; linarith), hf]
    ring

theorem roundBinary32_eq (q : ℚ) (e n : Int) (h1 : (2 : ℚ) ^ e ≤ |q|)
    (h2 : |q| < (2 : ℚ) ^ (e + 1)) (he : -126 ≤ e)
    (hn : |q / 2 ^ (e - 23) - (n : ℚ)| < 1 / 2) :
    roundBinary32 q = (n : ℚ) * 2 ^ (e - 23) := by
  have hpos : (0 : ℚ) < |q| := lt_of_lt_of_le (zpow_pos (by norm_num) e) h1
  have hlog : Int.log 2 |q| = e := by
    apply le_antisymm
    · have := (Int.lt_zpow_iff_log_lt (by norm_num : 1 < 2) hpos).mp
        (by exact_mod_cast h2 : |q| < ((2 : ℕ) : ℚ) ^ (e + 1))
      omega
    · exact (Int.zpow_le_iff_le_log (by norm_num : 1 < 2) hpos).mp
        (by exact_mod_cast h1 : ((2 : ℕ) : ℚ) ^ e ≤ |q|)
  unfold roundBinary32
  simp only []
  rw [hlog, max_eq_left he, nearestEven_eq _ n hn]

theorem roundBinary32_zero : roundBinary32 0 = 0 := by
  unfold roundBinary32
  simp only []
  have h : nearestEven (0 / 2 ^ (max (Int.log 2 |(0 : ℚ)|) (-126) - 23)) = 0 := by
    rw [zero_div]
    exact nearestEven_eq 0 0 (by norm_num)
  rw [h]
  norm_num

theorem nearestEven_le (q : ℚ) (N : Int) (h : q ≤ (N : ℚ)) : nearestEven q ≤ N := by
  have hfl : Int.floor q ≤ N := Int.floor_le_iff.mpr (by linarith)
  rcases lt_or_eq_of_le hfl with h1 | h1
  · unfold nearestEven
    split_ifs <;> omega
  · have hq : q = (N : ℚ) := le_antisymm h (by rw [← h1]; exact Int.floor_le q)
    rw [hq, nearestEven_eq (N : ℚ) N (by norm_num)]

/-- Every value of `roundBinary32` above 1/2 is a multiple of `2^-24`. -/
theorem roundBinary32_grid (q : ℚ) :
    roundBinary32 q ≤ 1 / 2 ∨ ∃ k : ℤ, roundBinary32 q = (k : ℚ) / 16777216 := by
  unfold roundBinary32
  simp only []
  generalize he : max (Int.log 2 |q|) (-126) = e
  rcases le_or_lt (-1) e with h | h
  · right
    obtain ⟨d, hd⟩ := Int.eq_ofNat_of_zero_le (by omega : 0 ≤ e + 1)
    refine ⟨nearestEven (q / 2 ^ (e - 23)) * 2 ^ d, ?_⟩
    have e1 : e - 23 = (d : Int) + (-24) := by omega
    rw [e1, zpow_add₀ (by norm_num : (2 : ℚ) ≠ 0), zpow_natCast]
    push_cast
    norm_num
    ring
  · left
    have hlog : Int.log 2 |q| + 1 ≤ e + 1 := by
      have := le_max_left (Int.log 2 |q|) (-126)
      rw [he] at this
      omega
    have hq : |q| < (2 : ℚ) ^ (e + 1) := by
      have h1 := Int.lt_zpow_succ_log_self (by norm_num : 1 < 2) |q|
      have h2 : ((2 : ℕ) : ℚ) ^ (Int.log 2 |q| + 1) ≤ ((2 : ℕ) : ℚ) ^ (e + 1) :=
        zpow_le_zpow_right₀ (by norm_num) hlog
      have h3 := lt_of_lt_of_le h1 h2
      exact_mod_cast h3
    have hulp : (0 : ℚ) < 2 ^ (e - 23) := zpow_pos (by norm_num) _
    have hdiv : q / 2 ^ (e - 23) ≤ ((16777216 : Int) : ℚ) := by
      rw [div_le_iff₀ hulp]
      have e1 : (2 : ℚ) ^ (e + 1) = 16777216 * 2 ^ (e - 23) := by
        have : e + 1 = 24 + (e - 23) := by ring
        rw [this, zpow_add₀ (by norm_num : (2 : ℚ) ≠ 0)]
        norm_num
      have := le_abs_self q
      push_cast
      linarith
    have hn := nearestEven_le _ _ hdiv
    have hn1 : (nearestEven (q / 2 ^ (e - 23)) : ℚ) ≤ 16777216 := by exact_mod_cast hn
    have hle : (2 : ℚ) ^ (e + 1) ≤ 2 ^ (-1 : Int) :=
      zpow_le_zpow_right₀ (by norm_num) (by omega)
    have e1 : (2 : ℚ) ^ (e + 1) = 16777216 * 2 ^ (e - 23) := by
      have : e + 1 = 24 + (e - 23) := by ring
      rw [this, zpow_add₀ (by norm_num : (2 : ℚ) ≠ 0)]
      norm_num
    have e2 : (2 : ℚ) ^ (-1 : Int) = 1 / 2 := by norm_num
    calc (nearestEven (q / 2 ^ (e - 23)) : ℚ) * 2 ^ (e - 23)
        ≤ 16777216 * 2 ^ (e - 23) := mul_le_mul_of_nonneg_right hn1 (le_of_lt hulp)
      _ = 2 ^ (e + 1) := e1.symm
      _ ≤ 1 / 2 := by rw [← e2]; exact hle

/-! ## Doppler shift in `float` arithmetic -/

theorem CalcAttnSourceParams_Pitch_rounded_id (props : VoiceProps) (params : ContextParams)
    (velocityDot lvelocityDot : ℚ) :
    CalcAttnSourceParams_Pitch_rounded (fun x => x) props params velocityDot lvelocityDot =
      CalcAttnSourceParams_Pitch props params velocityDot lvelocityDot := rfl

/-- Counterexample to C19 as stated, in the `float` arithmetic of the source: speed
of sound 343, doppler factor 1, pitch 1. With `vss = 10` and `vls = 0` the pitch
multiplier is the `float` quotient of 343 by 333, `8640518 / 2^23`, and not
`343/333`; with the velocities exchanged it is the `float` quotient of 333 by 343,
`16288084 / 2^24`. The two are not reciprocal: their product is
`17592185373439 / 2^44`. In exact arithmetic the two multipliers are `343/333` and
`333/343`. -/
theorem CalcAttnSourceParams_Pitch_rounded_not_reciprocal :
    CalcAttnSourceParams_Pitch_rounded roundBinary32 exampleProps exampleParams (-10) 0 =
      PitchValue.finite (8640518 / 8388608) ∧
    CalcAttnSourceParams_Pitch_rounded roundBinary32 exampleProps exampleParams 0 (-10) =
      PitchValue.finite (16288084 / 16777216) ∧
    (8640518 / 8388608 : ℚ) ≠ 343 / 333 ∧
    (8640518 / 8388608 : ℚ) * (16288084 / 16777216) = 17592185373439 / 17592186044416 ∧
    (8640518 / 8388608 : ℚ) * (16288084 / 16777216) ≠ 1 ∧
    CalcAttnSourceParams_Pitch exampleProps exampleParams (-10) 0 =
      PitchValue.finite (343 / 333) ∧
    CalcAttnSourceParams_Pitch exampleProps exampleParams 0 (-10) =
      PitchValue.finite (333 / 343) := by
  have hr1 : roundBinary32 1 = 1 := by
    rw [roundBinary32_eq 1 0 8388608 (by norm_num) (by norm_num) (by norm_num)
      (by norm_num [abs_lt])]
    norm_num
  have hr10 : roundBinary32 10 = 10 := by
    rw [roundBinary32_eq 10 3 10485760 (by norm_num) (by norm_num) (by norm_num)
      (by norm_num [abs_lt])]
    norm_num
  have hr343 : roundBinary32 343 = 343 := by
    rw [roundBinary32_eq 343 8 11239424 (by norm_num) (by norm_num) (by norm_num)
      (by norm_num [abs_lt])]
    norm_num
  have hr333 : roundBinary32 333 = 333 := by
    rw [roundBinary32_eq 333 8 10911744 (by norm_num) (by norm_num) (by norm_num)
      (by norm_num [abs_lt])]
    norm_num
  have hq1 : roundBinary32 (343 / 333) = 4320259 / 4194304 := by
    rw [roundBinary32_eq _ 0 8640518 (by norm_num [abs_of_pos]) (by norm_num [abs_of_pos])
      (by norm_num) (by norm_num [abs_lt])]
    norm_num
  have hq1r : roundBinary32 (4320259 / 4194304) = 4320259 / 4194304 := by
    rw [roundBinary32_eq _ 0 8640518 (by norm_num [abs_of_pos]) (by norm_num [abs_of_pos])
      (by norm_num) (by norm_num [abs_lt])]
    norm_num
  have hq2 : roundBinary32 (333 / 343) = 4072021 / 4194304 := by
    rw [roundBinary32_eq _ (-1) 16288084 (by norm_num [abs_of_pos])
      (by norm_num [abs_of_pos]) (by norm_num) (by norm_num [abs_lt])]
    norm_num
  have hq2r : roundBinary32 (4072021 / 4194304) = 4072021 / 4194304 := by
    rw [roundBinary32_eq _ (-1) 16288084 (by norm_num [abs_of_pos])
      (by norm_num [abs_of_pos]) (by norm_num) (by norm_num [abs_lt])]
    norm_num
  refine ⟨?_, ?_, by norm_num, by norm_num, by norm_num, ?_, ?_⟩
  · simp only [CalcAttnSourceParams_Pitch_rounded, exampleProps, exampleParams]
    norm_num [hr1, hr10, hr343, hr333, hq1, hq1r, roundBinary32_zero]
  · simp only [CalcAttnSourceParams_Pitch_rounded, exampleProps, exampleParams]
    norm_num [hr1, hr10, hr343, hr333, hq2, hq2r, roundBinary32_zero]
  · simp only [CalcAttnSourceParams_Pitch, exampleProps, exampleParams]
    norm_num
  · simp only [CalcAttnSourceParams_Pitch, exampleProps, exampleParams]
    norm_num

theorem CalcStep_zero : CalcStep 0 = 1 := by
  have h : fastf2i (((0 : Int) : ℚ)) = 0 := fastf2i_intCast 0
  have h0 : ¬ ((0 : ℚ) > (MaxPitch : ℚ)) := by
    simp [MaxPitch]
  unfold CalcStep
  rw [if_neg h0, zero_mul]
  unfold fastf2u
  rw [show (0 : ℚ) = ((0 : Int) : ℚ) by norm_num, h]
  rfl

/-- With a step of 0, `Voice::mix` returns at once for a voice that is not stopping,
changing nothing: the voice is skipped. -/
theorem Voice_mix_step_zero (ctx : ContextBase) (p : Nat) (fields : VoiceMixFields)
    (items : Nat → VoiceBufferItem) (deviceTime : Int)
    (mSampleRate SamplesToDo callbackBlocksLoaded fuel : Nat)
    (hstep : fields.mStep = 0) :
    Voice_mix PlayState.Playing ctx p fields items deviceTime mSampleRate SamplesToDo
      callbackBlocksLoaded fuel = Except.ok (ctx, fields) := by
  simp [Voice_mix, hstep]
  rfl

/-- Counterexample to C20 as stated: doppler factor 1, speed of sound 343 and a
listener velocity along `ToSource` giving `vls = 343`. The pitch is forced to 0, but
the step from it is 1, not 0, and a playing static voice given this step is mixed:
after five samples its position fraction has advanced from 0 to 5. -/
theorem CalcAttnSourceParams_step_at_sound_speed :
    0 < exampleProps.DopplerFactor * exampleParams.DopplerFactor ∧
    ¬ ((-343 : ℚ) * -(exampleProps.DopplerFactor * exampleParams.DopplerFactor) <
      exampleParams.SpeedOfSound) ∧
    CalcAttnSourceParams_Pitch exampleProps exampleParams 0 (-343) = PitchValue.finite 0 ∧
    CalcAttnSourceParams_step (CalcAttnSourceParams_Pitch exampleProps exampleParams 0 (-343))
      1 = some 1 ∧
    ∃ ctx' fields',
      Voice_mix PlayState.Playing exampleMixContext 0 exampleStartFields exampleItems 0
        48000 5 0 8 = Except.ok (ctx', fields') ∧
      exampleStartFields.mStep = 1 ∧ exampleStartFields.mPositionFrac = 0 ∧
      fields'.mPositionFrac = 5 := by
  have hP : CalcAttnSourceParams_Pitch exampleProps exampleParams 0 (-343) =
      PitchValue.finite 0 := by
    simp [CalcAttnSourceParams_Pitch, exampleProps, exampleParams]
  refine ⟨by norm_num [exampleProps, exampleParams], by norm_num [exampleProps, exampleParams],
    hP, ?_, ?_⟩
  · rw [hP]
    simp only [CalcAttnSourceParams_step, CalcAttnSourceParams_mStep, zero_mul, CalcStep_zero]
  · exact ⟨_, _, rfl, rfl, rfl, rfl⟩

/-- C20, amended: when the doppler factor is positive and the listener's projected
velocity `vls` is equal to or above the speed of sound, `CalcAttnSourceParams`
forces the pitch to 0 and the resulting step `mStep` is 1, the smallest step, for
every frequency ratio; `Voice::mix` skips a voice only for a step below 1, so a
playing voice with this step is not skipped: it goes through the position update
with increment 1, the buffer update and the final stores. -/
theorem CalcAttnSourceParams_step_doppler_extreme (props : VoiceProps) (params : ContextParams)
    (velocityDot lvelocityDot freqScale : ℚ)
    (hfactor : 0 < props.DopplerFactor * params.DopplerFactor)
    (hvls : ¬ (lvelocityDot * -(props.DopplerFactor * params.DopplerFactor) <
      params.SpeedOfSound)) :
    CalcAttnSourceParams_Pitch props params velocityDot lvelocityDot = PitchValue.finite 0 ∧
    CalcAttnSourceParams_step
      (CalcAttnSourceParams_Pitch props params velocityDot lvelocityDot) freqScale = some 1 ∧
    ∀ (ctx : ContextBase) (p : Nat) (fields : VoiceMixFields) (items : Nat → VoiceBufferItem)
      (deviceTime : Int) (mSampleRate SamplesToDo callbackBlocksLoaded fuel OutPos : Nat),
      some fields.mStep = CalcAttnSourceParams_step
        (CalcAttnSourceParams_Pitch props params velocityDot lvelocityDot) freqScale →
      delayedStart fields.mStartTime deviceTime mSampleRate SamplesToDo = some OutPos →
      (fields.VoiceIsStatic = false ∨ (ctx.voices p).mLoopBuffer = none) →
      (fields.VoiceIsStatic = true ∨ fields.VoiceIsCallback = false) →
      Voice_mix PlayState.Playing ctx p fields items deviceTime mSampleRate SamplesToDo
        callbackBlocksLoaded fuel =
      (updateBuffers items fields fields.mNumCallbackBlocks (ctx.voices p).mCurrentBuffer
        (ctx.voices p).mLoopBuffer
        (advancePosition fields.mPosition fields.mPositionFrac 1
          (usub SamplesToDo OutPos)).1 fuel).map
        (storeAndSignal ctx p fields
          (advancePosition fields.mPosition fields.mPositionFrac 1
            (usub SamplesToDo OutPos)).2) := by
  have hP : CalcAttnSourceParams_Pitch props params velocityDot lvelocityDot =
      PitchValue.finite 0 := by
    simp only [CalcAttnSourceParams_Pitch, gt_iff_lt, hfactor, if_true, hvls,
      not_false_eq_true]
  have hS : CalcAttnSourceParams_step
      (CalcAttnSourceParams_Pitch props params velocityDot lvelocityDot) freqScale = some 1 := by
    rw [hP]
    simp only [CalcAttnSourceParams_step, CalcAttnSourceParams_mStep, zero_mul, CalcStep_zero]
  refine ⟨hP, hS, ?_⟩
  intro ctx p fields items deviceTime mSampleRate SamplesToDo callbackBlocksLoaded fuel OutPos
    hstep hstart hloop hcallback
  rw [hS] at hstep
  have hstep1 : fields.mStep = 1 := Option.some.inj hstep
  have h := Voice_mix_playing ctx p fields items deviceTime mSampleRate SamplesToDo
    callbackBlocksLoaded fuel OutPos (by omega) hstart hloop hcallback
  rw [hstep1] at h
  exact h

/-- Witness for C20: the listener recedes at the speed of sound 343 with doppler
factor 1; the step is 1 for equal buffer and device rates. -/
theorem CalcAttnSourceParams_step_doppler_extreme_witness :
    0 < exampleProps.DopplerFactor * exampleParams.DopplerFactor ∧
    ¬ ((-343 : ℚ) * -(exampleProps.DopplerFactor * exampleParams.DopplerFactor) <
      exampleParams.SpeedOfSound) ∧
    CalcAttnSourceParams_step (CalcAttnSourceParams_Pitch exampleProps exampleParams 0 (-343))
      1 = some 1 :=
  ⟨by norm_num [exampleProps, exampleParams], by norm_num [exampleProps, exampleParams],
    (CalcAttnSourceParams_step_doppler_extreme exampleProps exampleParams 0 (-343) 1
      (by norm_num [exampleProps, exampleParams])
      (by norm_num [exampleProps, exampleParams])).2.1⟩

/-! ## Gain caps and the cone stage -/

theorem mem_zipWith_exists {α β γ : Type} (f : α → β → γ) :
    ∀ (l₁ : List α) (l₂ : List β) (g : γ), g ∈ List.zipWith f l₁ l₂ →
      ∃ a ∈ l₁, ∃ b ∈ l₂, g = f a b := by
  intro l₁
  induction l₁ with
  | nil => intro l₂ g h; simp at h
  | cons a l₁ ih =>
    intro l₂ g h
    cases l₂ with
    | nil => simp at h
    | cons b l₂ =>
      simp only [List.zipWith_cons_cons, List.mem_cons] at h
      rcases h with h | h
      · exact ⟨a, List.mem_cons_self _ _, b, List.mem_cons_self _ _, h⟩
      · obtain ⟨a', ha, b', hb, hg⟩ := ih l₂ g h
        exact ⟨a', List.mem_cons_of_mem _ ha, b', List.mem_cons_of_mem _ hb, hg⟩

/-- The gain triplets before the decay block are capped: the dry and every send
`Base` is at most `GainMixMax`. -/
theorem limitedGains_le (pow : ℚ → ℚ → ℚ) (GainMixMax : ℚ) (props : VoiceProps)
    (gprops : VoiceGainProps) (params : ContextParams) (Distance : ℚ) (directional : Bool)
    (Angle : ℚ) :
    (CalcAttnSourceParams_limitedGains pow GainMixMax props gprops params Distance directional
      Angle).DryGain.Base ≤ GainMixMax ∧
    ∀ g ∈ (CalcAttnSourceParams_limitedGains pow GainMixMax props gprops params Distance
      directional Angle).WetGain, g.Base ≤ GainMixMax := by
  refine ⟨?_, ?_⟩
  · simp only [CalcAttnSourceParams_limitedGains, applyGainLimits]
    exact min_le_left _ _
  · intro g hg
    simp only [CalcAttnSourceParams_limitedGains] at hg
    obtain ⟨a, _, b, _, rfl⟩ := mem_zipWith_exists _ _ _ g hg
    simp only [sendGain]
    exact min_le_left _ _

/-- The decay gain of one send keeps a capped `Base` capped when it lies in `[0, 1]`. -/
theorem sendDecay_le (pow : ℚ → ℚ → ℚ) (GainMixMax ReverbDecayGain SpeedOfSoundMetersPerSec : ℚ)
    (DryAttnBase distance_meters absorb : ℚ) (wetgain : GainTriplet) (send : SendData)
    (hmax : 0 ≤ GainMixMax) (hbase : wetgain.Base ≤ GainMixMax)
    (hgain : ∀ slot, send.Slot = some slot → slot.DecayTime > 0 →
      0 ≤ pow ReverbDecayGain (distance_meters / (slot.DecayTime * SpeedOfSoundMetersPerSec)) *
          (1 - DryAttnBase) + DryAttnBase ∧
      pow ReverbDecayGain (distance_meters / (slot.DecayTime * SpeedOfSoundMetersPerSec)) *
          (1 - DryAttnBase) + DryAttnBase ≤ 1) :
    (sendDecay pow ReverbDecayGain SpeedOfSoundMetersPerSec DryAttnBase distance_meters absorb
      wetgain send).Base ≤ GainMixMax := by
  unfold sendDecay
  cases hs : send.Slot with
  | none => exact hbase
  | some slot =>
    simp only
    by_cases hd : slot.DecayTime > 0
    · rw [if_neg (not_not.mpr hd)]
      obtain ⟨h0, h1⟩ := hgain slot hs hd
      simp only
      by_cases hb : 0 ≤ wetgain.Base
      · calc wetgain.Base * _ ≤ wetgain.Base * 1 := mul_le_mul_of_nonneg_left h1 hb
          _ = wetgain.Base := mul_one _
          _ ≤ GainMixMax := hbase
      · have hb' : wetgain.Base ≤ 0 := le_of_lt (not_le.mp hb)
        exact le_trans (mul_nonpos_of_nonpos_of_nonneg hb' h0) hmax
    · rw [if_pos hd]
      exact hbase

theorem decay_gain_bounds {p a : ℚ} (hp0 : 0 ≤ p) (hp1 : p ≤ 1) (ha0 : 0 ≤ a) (ha1 : a ≤ 1) :
    0 ≤ p * (1 - a) + a ∧ p * (1 - a) + a ≤ 1 := by
  constructor
  · have : 0 ≤ p * (1 - a) := mul_nonneg hp0 (by linarith)
    linarith
  · have : p * (1 - a) ≤ 1 * (1 - a) := mul_le_mul_of_nonneg_right hp1 (by linarith)
    linarith

/-- Counterexample to C21 as stated: linear model with reference distance 2, maximal
distance 1 and a source at distance 3 (`DryAttnBase` is 2), one send of gain 1 into
a slot with decay time 1, listener gain 1000, `GainMixMax = 1000`,
`ReverbDecayGain = 1/1000`, and units that make the decay exponent exactly 1. The
send's `Base` is capped to 1000 and then multiplied by the decay gain `1.999`:
`CalcAttnSourceParams` hands 1999 to `CalcPanningAndFilters`. -/
theorem CalcAttnSourceParams_gains_above_max :
    ((CalcAttnSourceParams_gains examplePow 1000 (1 / 1000) (3433 / 10) exampleLinearProps
      exampleGainProps exampleLoudParams
      { MetersPerUnit := 3433 / 10, AirAbsorptionGainHF := 1 } 3 false 0).WetGain.map
        (fun g => g.Base)) = [1999] ∧ (1000 : ℚ) < 1999 := by
  refine ⟨?_, by norm_num⟩
  have hfloor : Int.floor ((3 - 2 : ℚ) * 1 * (3433 / 10) / (1 * (3433 / 10))) = 1 := by
    norm_num
  simp only [CalcAttnSourceParams_gains, CalcAttnSourceParams_limitedGains, decayStage,
    selectDistanceModel, exampleLoudParams, exampleParams, exampleLinearProps, exampleProps,
    exampleGainProps, AttenDistance, distanceAttenuation, RoomRolloff, coneStage, sendGain,
    sendDecay, List.map, List.zipWith, examplePow, hfloor, clamp, applyGainLimits]
  norm_num

theorem decayStage_dry_base (pow : ℚ → ℚ → ℚ) (ReverbDecayGain SpeedOfSoundMetersPerSec : ℚ)
    (props : VoiceProps) (gprops : VoiceGainProps) (cparams : ContextGainParams)
    (Distance DryAttnBase : ℚ) (gains : SourceGains) :
    (decayStage pow ReverbDecayGain SpeedOfSoundMetersPerSec props gprops cparams Distance
      DryAttnBase gains).DryGain.Base = gains.DryGain.Base := by
  simp only [decayStage]
  by_cases hD : Distance > props.RefDistance
  · rw [if_pos hD]
    by_cases ha : (Distance - props.RefDistance) * props.RolloffFactor * cparams.MetersPerUnit *
        gprops.AirAbsorptionFactor > floatEpsilon
    · rw [if_pos ha]
    · rw [if_neg ha]
  · rw [if_neg hD]

theorem examplePow_unit {x y : ℚ} (hx0 : 0 ≤ x) (hx1 : x ≤ 1) (hy : 0 ≤ y) :
    0 ≤ examplePow x y ∧ examplePow x y ≤ 1 := by
  unfold examplePow
  have hf : 0 ≤ Int.floor y := Int.floor_nonneg.mpr hy
  obtain ⟨n, hn⟩ := Int.eq_ofNat_of_zero_le hf
  rw [hn, zpow_natCast]
  exact ⟨pow_nonneg hx0 n, pow_le_one₀ hx0 hx1⟩

/-- C21, amended: on both paths the direct-path `Base` gain and every send's `Base`
gain computed by the gain stage are at most `GainMixMax`; the attenuated path hands
on the direct-path `Base` unchanged, and multiplies a send's `Base` by the decay
gain after the cap, so that the send gains handed to `CalcPanningAndFilters` are at
most `GainMixMax` when that gain lies in `[0, 1]`: when `GainMixMax >= 0`,
`0 <= DryAttnBase <= 1`, the distance in metres is not negative, the speed
constant is positive and `pow(ReverbDecayGain, y)` lies in `[0, 1]` for `y >= 0`. -/
theorem SourceGains_capped (pow : ℚ → ℚ → ℚ)
    (GainMixMax ReverbDecayGain SpeedOfSoundMetersPerSec : ℚ) (props : VoiceProps)
    (gprops : VoiceGainProps) (params : ContextParams) (cparams : ContextGainParams)
    (Distance : ℚ) (directional : Bool) (Angle : ℚ) :
    (CalcNonAttnSourceParams_gains GainMixMax props gprops params).DryGain.Base ≤ GainMixMax ∧
    (∀ g ∈ (CalcNonAttnSourceParams_gains GainMixMax props gprops params).WetGain,
      g.Base ≤ GainMixMax) ∧
    (CalcAttnSourceParams_gains pow GainMixMax ReverbDecayGain SpeedOfSoundMetersPerSec props
      gprops params cparams Distance directional Angle).DryGain.Base ≤ GainMixMax ∧
    (∀ g ∈ (CalcAttnSourceParams_limitedGains pow GainMixMax props gprops params Distance
      directional Angle).WetGain, g.Base ≤ GainMixMax) ∧
    (0 ≤ GainMixMax →
      (0 ≤ (distanceAttenuation pow (selectDistanceModel props params)
          (AttenDistance (selectDistanceModel props params) Distance props) props
          (RoomRolloff gprops)).DryAttnBase ∧
        (distanceAttenuation pow (selectDistanceModel props params)
          (AttenDistance (selectDistanceModel props params) Distance props) props
          (RoomRolloff gprops)).DryAttnBase ≤ 1) →
      0 ≤ (Distance - props.RefDistance) * props.RolloffFactor * cparams.MetersPerUnit →
      0 < SpeedOfSoundMetersPerSec →
      (∀ y, 0 ≤ y → 0 ≤ pow ReverbDecayGain y ∧ pow ReverbDecayGain y ≤ 1) →
      ∀ g ∈ (CalcAttnSourceParams_gains pow GainMixMax ReverbDecayGain SpeedOfSoundMetersPerSec
        props gprops params cparams Distance directional Angle).WetGain,
        g.Base ≤ GainMixMax) := by
  obtain ⟨hdry, hwet⟩ := limitedGains_le pow GainMixMax props gprops params Distance
    directional Angle
  refine ⟨?_, ?_, ?_, hwet, ?_⟩
  · simp only [CalcNonAttnSourceParams_gains]
    exact min_le_left _ _
  · intro g hg
    simp only [CalcNonAttnSourceParams_gains, List.mem_map] at hg
    obtain ⟨send, _, rfl⟩ := hg
    exact min_le_left _ _
  · simp only [CalcAttnSourceParams_gains]
    rw [decayStage_dry_base]
    exact hdry
  · intro hmax hattn hmeters hspeed hpow g hg
    simp only [CalcAttnSourceParams_gains, decayStage] at hg
    by_cases hD : Distance > props.RefDistance
    · rw [if_pos hD] at hg
      by_cases hauto : gprops.WetGainAuto = true
      · simp only [hauto, if_true] at hg
        obtain ⟨w, hw, send, _, rfl⟩ := mem_zipWith_exists _ _ _ g hg
        apply sendDecay_le pow GainMixMax ReverbDecayGain SpeedOfSoundMetersPerSec _ _ _ w send
          hmax (hwet w hw)
        intro slot _ hdecay
        have hfact : 0 ≤ (Distance - props.RefDistance) * props.RolloffFactor *
            cparams.MetersPerUnit / (slot.DecayTime * SpeedOfSoundMetersPerSec) :=
          div_nonneg hmeters (le_of_lt (mul_pos hdecay hspeed))
        obtain ⟨hp0, hp1⟩ := hpow _ hfact
        exact decay_gain_bounds hp0 hp1 hattn.1 hattn.2
      · simp only [hauto] at hg
        exact hwet g hg
    · rw [if_neg hD] at hg
      exact hwet g hg

/-- Witness for C21: the inverse model at distance 2 (`DryAttnBase` is 1/2) with one
send into a slot with decay time 1. -/
theorem SourceGains_capped_witness :
    ∀ g ∈ (CalcAttnSourceParams_gains examplePow 1000 (1 / 1000) (3433 / 10) exampleProps
      exampleGainProps exampleLoudParams
      { MetersPerUnit := 1, AirAbsorptionGainHF := 1 } 2 false 0).WetGain,
      g.Base ≤ 1000 := by
  have hattn : (distanceAttenuation examplePow (selectDistanceModel exampleProps exampleLoudParams)
      (AttenDistance (selectDistanceModel exampleProps exampleLoudParams) 2 exampleProps)
      exampleProps (RoomRolloff exampleGainProps)).DryAttnBase = 1 / 2 := by
    simp only [selectDistanceModel, exampleLoudParams, exampleParams, exampleProps,
      AttenDistance, distanceAttenuation, lerpf]
    norm_num
  exact (SourceGains_capped examplePow 1000 (1 / 1000) (3433 / 10) exampleProps
    exampleGainProps exampleLoudParams { MetersPerUnit := 1, AirAbsorptionGainHF := 1 } 2
    false 0).2.2.2.2 (by norm_num) (by rw [hattn]; norm_num)
    (by norm_num [exampleProps]) (by norm_num)
    (fun y hy => examplePow_unit (by norm_num) (by norm_num) hy)

theorem distanceAttenuation_wet_length (pow : ℚ → ℚ → ℚ) (model : DistanceModel)
    (AttenDistance : ℚ) (props : VoiceProps) (RoomRolloff : List ℚ) :
    (distanceAttenuation pow model AttenDistance props RoomRolloff).WetGainBase.length =
      RoomRolloff.length := by
  unfold distanceAttenuation
  cases model <;> simp only [] <;> (repeat' split) <;> simp only [List.length_map]

theorem RoomRolloff_length (gprops : VoiceGainProps) :
    (RoomRolloff gprops).length = gprops.Send.length := by
  unfold RoomRolloff
  rw [List.length_map]

theorem eq_singleton_of_getElem {α : Type} {l : List α} {x : α} (h1 : l.length = 1)
    (h0 : l[0]? = some x) : l = [x] := by
  match l, h1, h0 with
  | [y], _, h0 =>
    rw [List.getElem?_cons_zero] at h0
    cases h0
    rfl

/-- C22: for a source with non-zero direction and `InnerAngle < 360`, the cone gain
is `OuterGain` when the angle is at least `OuterAngle`, the interpolation
`lerpf(1, OuterGain, (Angle - InnerAngle)/(OuterAngle - InnerAngle))` when the
angle is at least `InnerAngle` and below `OuterAngle`, and 1 otherwise, the HF cone
gain having the same shape with `OuterGainHF`. The dry `Base` is always multiplied
by the cone gain; the dry `HF` by the HF cone gain only with `DryGainHFAuto`; the
factor on the send `Base` gains is the cone gain only with `WetGainAuto`, and the
factor on the send `HF` gains is the HF cone gain only with `WetGainHFAuto`, the
factors being 1 otherwise. A non-directional source or `InnerAngle >= 360` applies
no cone factor. In the triplets that `CalcAttnSourceParams` computes, the dry gains
carry the cone factors, there is one send triplet for each of the sends, and the
triplet of send `i` is made from the send's gain after the distance stage times
`WetCone` (inside the gain clamp), and from `send.GainHF` times `WetConeHF`. -/
theorem coneStage_spec (props : VoiceProps) (gprops : VoiceGainProps) (directional : Bool)
    (Angle DryGainBase : ℚ) :
    (props.OuterAngle ≤ Angle →
      coneGains props gprops Angle = (props.OuterGain, gprops.OuterGainHF)) ∧
    (props.InnerAngle ≤ Angle → Angle < props.OuterAngle →
      coneGains props gprops Angle =
        (lerpf 1 props.OuterGain
            ((Angle - props.InnerAngle) / (props.OuterAngle - props.InnerAngle)),
          lerpf 1 gprops.OuterGainHF
            ((Angle - props.InnerAngle) / (props.OuterAngle - props.InnerAngle)))) ∧
    (Angle < props.InnerAngle → Angle < props.OuterAngle →
      coneGains props gprops Angle = (1, 1)) ∧
    (directional = true → props.InnerAngle < 360 →
      coneStage props gprops directional Angle DryGainBase =
        { DryGainBase := DryGainBase * (coneGains props gprops Angle).1,
          DryGainHF := if gprops.DryGainHFAuto = true then (coneGains props gprops Angle).2
            else 1,
          WetCone := if gprops.WetGainAuto = true then (coneGains props gprops Angle).1 else 1,
          WetConeHF := if gprops.WetGainHFAuto = true then (coneGains props gprops Angle).2
            else 1 }) ∧
    ((directional = false ∨ 360 ≤ props.InnerAngle) →
      coneStage props gprops directional Angle DryGainBase =
        { DryGainBase := DryGainBase, DryGainHF := 1, WetCone := 1, WetConeHF := 1 }) ∧
    (∀ (pow : ℚ → ℚ → ℚ) (GainMixMax : ℚ) (params : ContextParams) (Distance : ℚ),
      (CalcAttnSourceParams_limitedGains pow GainMixMax props gprops params Distance
          directional Angle).DryGain.HF =
        (coneStage props gprops directional Angle
          (distanceAttenuation pow (selectDistanceModel props params)
            (AttenDistance (selectDistanceModel props params) Distance props) props
            (RoomRolloff gprops)).DryGainBase).DryGainHF * gprops.DirectGainHF ∧
      (CalcAttnSourceParams_limitedGains pow GainMixMax props gprops params Distance
          directional Angle).DryGain.Base =
        applyGainLimits GainMixMax props params
          (coneStage props gprops directional Angle
            (distanceAttenuation pow (selectDistanceModel props params)
              (AttenDistance (selectDistanceModel props params) Distance props) props
              (RoomRolloff gprops)).DryGainBase).DryGainBase ∧
      (CalcAttnSourceParams_limitedGains pow GainMixMax props gprops params Distance
          directional Angle).WetGain.length = gprops.Send.length ∧
      (distanceAttenuation pow (selectDistanceModel props params)
        (AttenDistance (selectDistanceModel props params) Distance props) props
        (RoomRolloff gprops)).WetGainBase.length = gprops.Send.length ∧
      ∀ (i : Nat) (send : SendData) (wetgainBase : ℚ), gprops.Send[i]? = some send →
        (distanceAttenuation pow (selectDistanceModel props params)
          (AttenDistance (selectDistanceModel props params) Distance props) props
          (RoomRolloff gprops)).WetGainBase[i]? = some wetgainBase →
        (CalcAttnSourceParams_limitedGains pow GainMixMax props gprops params Distance
            directional Angle).WetGain[i]? =
          some
            { Base := min GainMixMax
                (clamp (wetgainBase *
                    (coneStage props gprops directional Angle
                      (distanceAttenuation pow (selectDistanceModel props params)
                        (AttenDistance (selectDistanceModel props params) Distance props)
                        props (RoomRolloff gprops)).DryGainBase).WetCone)
                  (min props.MinGain props.MaxGain) props.MaxGain * send.Gain *
                  params.Gain),
              HF := send.GainHF *
                (coneStage props gprops directional Angle
                  (distanceAttenuation pow (selectDistanceModel props params)
                    (AttenDistance (selectDistanceModel props params) Distance props) props
                    (RoomRolloff gprops)).DryGainBase).WetConeHF,
              LF := send.GainLF }) := by
  refine ⟨?_, ?_, ?_, ?_, ?_, ?_⟩
  · intro h
    unfold coneGains
    rw [if_pos h]
  · intro h1 h2
    unfold coneGains
    rw [if_neg (not_le.mpr h2), if_pos h1]
  · intro h1 h2
    unfold coneGains
    rw [if_neg (not_le.mpr h2), if_neg (not_le.mpr h1)]
  · intro hd hi
    unfold coneStage
    rw [if_pos ⟨hd, hi⟩]
    simp only [one_mul]
  · intro h
    unfold coneStage
    rw [if_neg]
    rintro ⟨hd, hi⟩
    rcases h with h | h
    · rw [h] at hd; cases hd
    · exact absurd hi (not_lt.mpr h)
  · intro pow GainMixMax params Distance
    have hlen : (distanceAttenuation pow (selectDistanceModel props params)
        (AttenDistance (selectDistanceModel props params) Distance props) props
        (RoomRolloff gprops)).WetGainBase.length = gprops.Send.length := by
      rw [distanceAttenuation_wet_length, RoomRolloff_length]
    refine ⟨rfl, rfl, ?_, hlen, ?_⟩
    · simp only [CalcAttnSourceParams_limitedGains, List.length_zipWith, hlen, min_self]
    · intro i send wetgainBase hs hw
      simp only [CalcAttnSourceParams_limitedGains, List.getElem?_zipWith, hs, hw, sendGain]

/-- Witness for C22: a cone of 90 to 180 degrees with outer gain 0 and outer HF gain
1/2, seen at 135 degrees: the cone gain is 1/2 and the HF cone gain 3/4. At distance
2 in the inverse model the one send has the gain 1/2 after the distance stage: its
triplet has `Base` 1/4 and `HF` 3/4, and `Base` 1/2 when `WetGainAuto` is off. -/
theorem coneStage_spec_witness :
    exampleProps.InnerAngle ≤ 135 ∧ (135 : ℚ) < exampleProps.OuterAngle ∧
    exampleProps.InnerAngle < 360 ∧
    coneStage exampleProps exampleGainProps true 135 1 =
      { DryGainBase := 1 / 2, DryGainHF := 3 / 4, WetCone := 1 / 2, WetConeHF := 3 / 4 } ∧
    (CalcAttnSourceParams_limitedGains examplePow 1000 exampleProps exampleGainProps
        exampleParams 2 true 135).WetGain = [{ Base := 1 / 4, HF := 3 / 4, LF := 1 }] ∧
    (CalcAttnSourceParams_limitedGains examplePow 1000 exampleProps
        { exampleGainProps with WetGainAuto := false }
        exampleParams 2 true 135).WetGain = [{ Base := 1 / 2, HF := 3 / 4, LF := 1 }] := by
  have h1 : exampleProps.InnerAngle ≤ 135 := by norm_num [exampleProps]
  have h2 : (135 : ℚ) < exampleProps.OuterAngle := by norm_num [exampleProps]
  have h3 : exampleProps.InnerAngle < 360 := by norm_num [exampleProps]
  have hcone : ∀ g : VoiceGainProps, g.OuterGainHF = 1 / 2 →
      coneGains exampleProps g 135 = (1 / 2, 3 / 4) := by
    intro g hg
    rw [(coneStage_spec exampleProps g true 135 1).2.1 h1 h2, hg]
    simp only [exampleProps, lerpf]
    norm_num
  have hwet : ∀ g : VoiceGainProps, g.Send = exampleGainProps.Send →
      g.RoomRolloffFactor = 0 →
      (distanceAttenuation examplePow (selectDistanceModel exampleProps exampleParams)
        (AttenDistance (selectDistanceModel exampleProps exampleParams) 2 exampleProps)
        exampleProps (RoomRolloff g)).WetGainBase[0]? = some (1 / 2) := by
    intro g hg hr
    simp only [selectDistanceModel, exampleParams, exampleProps, AttenDistance,
      distanceAttenuation, RoomRolloff, hg, hr, exampleGainProps, lerpf]
    norm_num
  refine ⟨h1, h2, h3, ?_, ?_, ?_⟩
  · rw [(coneStage_spec exampleProps exampleGainProps true 135 1).2.2.2.1 rfl h3,
      hcone exampleGainProps rfl]
    simp only [exampleGainProps]
    norm_num
  · obtain ⟨_, _, hlen, _, hidx⟩ :=
      (coneStage_spec exampleProps exampleGainProps true 135 1).2.2.2.2.2 examplePow 1000
        exampleParams 2
    apply eq_singleton_of_getElem (by rw [hlen]; rfl)
    rw [hidx 0 _ (1 / 2) rfl (hwet exampleGainProps rfl rfl),
      (coneStage_spec exampleProps exampleGainProps true 135 _).2.2.2.1 rfl h3,
      hcone exampleGainProps rfl]
    simp only [exampleGainProps, exampleProps, exampleParams, clamp]
    norm_num
  · obtain ⟨_, _, hlen, _, hidx⟩ :=
      (coneStage_spec exampleProps { exampleGainProps with WetGainAuto := false } true 135
        1).2.2.2.2.2 examplePow 1000 exampleParams 2
    apply eq_singleton_of_getElem (by rw [hlen]; rfl)
    rw [hidx 0 _ (1 / 2) rfl (hwet { exampleGainProps with WetGainAuto := false } rfl rfl),
      (coneStage_spec exampleProps { exampleGainProps with WetGainAuto := false } true 135
        _).2.2.2.1 rfl h3,
      hcone { exampleGainProps with WetGainAuto := false } rfl]
    simp only [exampleGainProps, exampleProps, exampleParams, clamp]
    norm_num

/-! ## Device disconnection -/

theorem stopVoices_spec : ∀ (span : List Nat) (ctx : ContextBase),
    (∀ p, p ∈ span → (stopVoices ctx span).voices p = stopVoice (ctx.voices p)) ∧
    (∀ p, p ∉ span → (stopVoices ctx span).voices p = ctx.voices p) ∧
    (stopVoices ctx span).mAsyncEvents = ctx.mAsyncEvents ∧
    (stopVoices ctx span).voiceChanges = ctx.voiceChanges ∧
    (stopVoices ctx span).mCurrentVoiceChange = ctx.mCurrentVoiceChange ∧
    (stopVoices ctx span).mEnabledEvts = ctx.mEnabledEvts := by
  intro span
  induction span with
  | nil => intro ctx; simp [stopVoices]
  | cons q rest ih =>
    intro ctx
    obtain ⟨h1, h2, h3, h4, h5, h6⟩ := ih (setVoice ctx q (stopVoice (ctx.voices q)))
    simp only [stopVoices]
    refine ⟨?_, ?_, h3, h4, h5, h6⟩
    · intro p hp
      by_cases hpr : p ∈ rest
      · rw [h1 p hpr]
        by_cases hpq : p = q
        · subst hpq
          simp [setVoice, stopVoice]
        · simp [setVoice, hpq]
      · rw [h2 p hpr]
        have hpq : p = q := by
          rcases List.mem_cons.mp hp with h | h
          · exact h
          · exact absurd h hpr
        simp [setVoice, hpq]
    · intro p hp
      have hpq : ¬ p = q := fun h => hp (h ▸ List.mem_cons_self _ _)
      have hpr : p ∉ rest := fun h => hp (List.mem_cons_of_mem _ h)
      rw [h2 p hpr]
      simp [setVoice, hpq]

theorem applyVoiceChange_events (ctx : ContextBase) (cur : VoiceChange) (ctx1 : ContextBase)
    (sendevt : Bool) (h : applyVoiceChange ctx cur = some (ctx1, sendevt)) :
    ctx1.mAsyncEvents = ctx.mAsyncEvents := by
  obtain ⟨mVoice, mOldVoice, mSourceID, mState⟩ := cur
  cases mState <;> cases mVoice <;> cases mOldVoice <;>
    simp only [applyVoiceChange, Option.some.injEq, Prod.mk.injEq, reduceCtorEq] at h <;>
    first
    | (obtain ⟨h1, _⟩ := h; subst h1; rfl)
    | (split_ifs at h <;>
        (simp only [Option.some.injEq, Prod.mk.injEq] at h; obtain ⟨h1, _⟩ := h; subst h1; rfl))

theorem processVoiceChange_events (enabledevt : AsyncEnableBits → Bool) (ctx : ContextBase)
    (cur : VoiceChange) (ctx' : ContextBase)
    (h : processVoiceChange enabledevt ctx cur = some ctx') :
    ∃ evts : List AsyncEvent, (∀ e ∈ evts, ∃ id st, e = AsyncEvent.SourceState id st) ∧
      ctx'.mAsyncEvents.written = ctx.mAsyncEvents.written ++ evts := by
  unfold processVoiceChange at h
  cases ha : applyVoiceChange ctx cur with
  | none => rw [ha] at h; cases h
  | some r =>
    obtain ⟨ctx1, sendevt⟩ := r
    rw [ha] at h
    have hev := applyVoiceChange_events ctx cur ctx1 sendevt ha
    simp only at h
    split_ifs at h
    · cases h
      unfold SendSourceStateEvent
      split_ifs
      · exact ⟨[], by simp, by rw [hev]; simp⟩
      · have hst : ∃ st, ctx1.mAsyncEvents.written ++
            [AsyncEvent.SourceState cur.mSourceID
              (match cur.mState with
                | VChangeState.Reset => some AsyncSrcState.Reset
                | VChangeState.Stop => some AsyncSrcState.Stop
                | VChangeState.Play => some AsyncSrcState.Play
                | VChangeState.Pause => some AsyncSrcState.Pause
                | VChangeState.Restart => none)] =
            ctx1.mAsyncEvents.written ++ [AsyncEvent.SourceState cur.mSourceID st] := ⟨_, rfl⟩
        obtain ⟨st, hst⟩ := hst
        refine ⟨[AsyncEvent.SourceState cur.mSourceID st], ?_, ?_⟩
        · intro e he
          exact ⟨_, _, List.mem_singleton.mp he⟩
        · rw [← hev]
          exact hst
    · cases h
      exact ⟨[], by simp, by rw [hev]; simp⟩

theorem processVoiceChangeList_events (enabledevt : AsyncEnableBits → Bool) :
    ∀ (pending : List VoiceChange) (ctx ctx' : ContextBase),
      processVoiceChangeList enabledevt ctx pending = some ctx' →
      ∃ evts : List AsyncEvent, (∀ e ∈ evts, ∃ id st, e = AsyncEvent.SourceState id st) ∧
        ctx'.mAsyncEvents.written = ctx.mAsyncEvents.written ++ evts := by
  intro pending
  induction pending with
  | nil =>
    intro ctx ctx' h
    simp only [processVoiceChangeList, Option.some.injEq] at h
    subst h
    exact ⟨[], by simp, by simp⟩
  | cons cur rest ih =>
    intro ctx ctx' h
    simp only [processVoiceChangeList] at h
    cases hc : processVoiceChange enabledevt ctx cur with
    | none => rw [hc] at h; cases h
    | some ctx1 =>
      rw [hc] at h
      obtain ⟨e1, he1, hw1⟩ := processVoiceChange_events enabledevt ctx cur ctx1 hc
      obtain ⟨e2, he2, hw2⟩ := ih ctx1 ctx' h
      refine ⟨e1 ++ e2, ?_, ?_⟩
      · intro e he
        rcases List.mem_append.mp he with h' | h'
        · exact he1 e h'
        · exact he2 e h'
      · rw [hw2, hw1, List.append_assoc]

/-- The events that `ProcessVoiceChanges` adds to the ring are source-state events. -/
theorem ProcessVoiceChanges_events (ctx ctx' : ContextBase)
    (h : ProcessVoiceChanges ctx = some ctx') :
    ∃ evts : List AsyncEvent, (∀ e ∈ evts, ∃ id st, e = AsyncEvent.SourceState id st) ∧
      ctx'.mAsyncEvents.written = ctx.mAsyncEvents.written ++ evts := by
  unfold ProcessVoiceChanges at h
  simp only at h
  split_ifs at h
  · cases h
    exact ⟨[], by simp, by simp⟩
  · cases hl : processVoiceChangeList ctx.mEnabledEvts ctx
      (List.drop (ctx.mCurrentVoiceChange + 1) ctx.voiceChanges) with
    | none => rw [hl] at h; cases h
    | some ctx1 =>
      rw [hl] at h
      cases h
      obtain ⟨evts, h1, h2⟩ := processVoiceChangeList_events _ _ _ _ hl
      exact ⟨evts, h1, h2⟩

theorem disconnectContexts_forall₂ (msg : String) :
    ∀ (ctxs ctxs' : List DeviceContext), disconnectContexts msg ctxs = some ctxs' →
      List.Forall₂ (fun c c' => disconnectContext msg c = some c') ctxs ctxs' := by
  intro ctxs
  induction ctxs with
  | nil =>
    intro ctxs' h
    simp only [disconnectContexts, Option.some.injEq] at h
    subst h
    exact List.Forall₂.nil
  | cons c rest ih =>
    intro ctxs' h
    simp only [disconnectContexts] at h
    cases hc : disconnectContext msg c with
    | none => rw [hc] at h; cases h
    | some c1 =>
      rw [hc] at h
      cases hr : disconnectContexts msg rest with
      | none => rw [hr] at h; cases h
      | some rest1 =>
        rw [hr] at h
        cases h
        exact List.Forall₂.cons hc (ih rest1 hr)

theorem disconnectContexts_total (msg : String) :
    ∀ (ctxs : List DeviceContext),
      (∀ c ∈ ctxs, disconnectContext msg c ≠ none) →
      ∃ ctxs', disconnectContexts msg ctxs = some ctxs' := by
  intro ctxs
  induction ctxs with
  | nil => intro _; exact ⟨[], rfl⟩
  | cons c rest ih =>
    intro h
    obtain ⟨rest1, hr⟩ := ih (fun c' hc' => h c' (List.mem_cons_of_mem _ hc'))
    cases hc : disconnectContext msg c with
    | none => exact absurd hc (h c (List.mem_cons_self _ _))
    | some c1 => exact ⟨c1 :: rest1, by simp only [disconnectContexts, hc, hr]⟩

/-- C23: `doDisconnect` is idempotent. A call that finds `Connected` false returns the
device as it is: no event, no change to any context or voice. A call that finds
`Connected` true completes unless `ProcessVoiceChanges` dereferences a null voice,
sets `Connected` to false, and handles the contexts one by one, keeping their
number and order: each ring gains exactly one disconnect event with the message
when it has space (and besides it only the source-state events of
`ProcessVoiceChanges`, in the contexts that do not stop their voices); in a context
with `mStopVoicesOnDisconnect` every voice of the span is Stopped with source id 0
and null buffers and nothing else changes; in a context without it the voices are
those that `ProcessVoiceChanges` leaves. Calling it again changes nothing. -/
theorem doDisconnect_idempotent (dev : DeviceBase) (msg : String) :
    (dev.Connected = false → doDisconnect dev msg = some dev) ∧
    (dev.Connected = true →
      ((∀ c ∈ dev.mContexts, c.mStopVoicesOnDisconnect = false →
          ProcessVoiceChanges { c.base with
            mAsyncEvents := ringWrite c.base.mAsyncEvents (AsyncEvent.Disconnect msg) } ≠ none) →
        ∃ dev', doDisconnect dev msg = some dev') ∧
      ∀ dev', doDisconnect dev msg = some dev' →
        dev'.Connected = false ∧
        (∀ msg', doDisconnect dev' msg' = some dev') ∧
        List.Forall₂ (fun c c' =>
          c'.mStopVoicesOnDisconnect = c.mStopVoicesOnDisconnect ∧
          c'.voicesSpan = c.voicesSpan ∧
          (c.mStopVoicesOnDisconnect = true →
            c'.base.mAsyncEvents = ringWrite c.base.mAsyncEvents (AsyncEvent.Disconnect msg) ∧
            (∀ p, p ∈ c.voicesSpan →
              (c'.base.voices p).mPlayState = PlayState.Stopped ∧
              (c'.base.voices p).mSourceID = 0 ∧
              (c'.base.voices p).mCurrentBuffer = none ∧
              (c'.base.voices p).mLoopBuffer = none ∧
              (c'.base.voices p).mPendingChange = (c.base.voices p).mPendingChange) ∧
            (∀ p, p ∉ c.voicesSpan → c'.base.voices p = c.base.voices p) ∧
            c'.base.voiceChanges = c.base.voiceChanges ∧
            c'.base.mCurrentVoiceChange = c.base.mCurrentVoiceChange ∧
            c'.base.mEnabledEvts = c.base.mEnabledEvts) ∧
          (c.mStopVoicesOnDisconnect = false →
            ProcessVoiceChanges { c.base with
              mAsyncEvents := ringWrite c.base.mAsyncEvents (AsyncEvent.Disconnect msg) } =
              some c'.base ∧
            ∃ evts : List AsyncEvent,
              (∀ e ∈ evts, ∃ id st, e = AsyncEvent.SourceState id st) ∧
              c'.base.mAsyncEvents.written =
                c.base.mAsyncEvents.written ++
                  (if c.base.mAsyncEvents.writeSpace = 0 then []
                    else [AsyncEvent.Disconnect msg]) ++ evts))
          dev.mContexts dev'.mContexts) := by
  refine ⟨?_, ?_⟩
  · intro h
    obtain ⟨Connected, mContexts⟩ := dev
    simp only at h
    subst h
    simp [doDisconnect]
  · intro hconn
    refine ⟨?_, ?_⟩
    · intro htotal
      have hne : ∀ c ∈ dev.mContexts, disconnectContext msg c ≠ none := by
        intro c hc
        unfold disconnectContext
        by_cases hs : c.mStopVoicesOnDisconnect = true
        · simp [hs]
        · have hs' : c.mStopVoicesOnDisconnect = false := by
            cases h : c.mStopVoicesOnDisconnect
            · rfl
            · exact absurd h hs
          have := htotal c hc hs'
          simp only [hs, not_false_eq_true, if_true]
          cases hp : ProcessVoiceChanges { c.base with
            mAsyncEvents := ringWrite c.base.mAsyncEvents (AsyncEvent.Disconnect msg) } with
          | none => exact absurd hp this
          | some b => simp
      obtain ⟨ctxs', hc⟩ := disconnectContexts_total msg dev.mContexts hne
      exact ⟨{ Connected := false, mContexts := ctxs' }, by simp [doDisconnect, hconn, hc]⟩
    · intro dev' h
      unfold doDisconnect at h
      rw [if_pos hconn] at h
      cases hc : disconnectContexts msg dev.mContexts with
      | none => rw [hc] at h; cases h
      | some ctxs' =>
        rw [hc] at h
        cases h
        refine ⟨rfl, ?_, ?_⟩
        · intro msg'
          simp [doDisconnect]
        · have hall := disconnectContexts_forall₂ msg dev.mContexts ctxs' hc
          refine List.Forall₂.imp ?_ hall
          intro c c' hcc
          unfold disconnectContext at hcc
          by_cases hs : c.mStopVoicesOnDisconnect = true
          · rw [if_neg (not_not.mpr hs)] at hcc
            simp only [Option.some.injEq] at hcc
            subst hcc
            obtain ⟨h1, h2, h3, h4, h5, h6⟩ := stopVoices_spec c.voicesSpan
              { c.base with
                mAsyncEvents := ringWrite c.base.mAsyncEvents (AsyncEvent.Disconnect msg) }
            refine ⟨rfl, rfl, ?_, ?_⟩
            · intro _
              refine ⟨h3, ?_, h2, h4, h5, h6⟩
              intro p hp
              rw [h1 p hp]
              exact ⟨rfl, rfl, rfl, rfl, rfl⟩
            · intro hf
              rw [hs] at hf
              cases hf
          · rw [if_pos hs] at hcc
            cases hp : ProcessVoiceChanges { c.base with
              mAsyncEvents := ringWrite c.base.mAsyncEvents (AsyncEvent.Disconnect msg) } with
            | none => rw [hp] at hcc; cases hcc
            | some b =>
              rw [hp] at hcc
              simp only [Option.some.injEq] at hcc
              subst hcc
              refine ⟨rfl, rfl, fun ht => absurd ht hs, ?_⟩
              intro _
              refine ⟨rfl, ?_⟩
              obtain ⟨evts, hev, hw⟩ := ProcessVoiceChanges_events _ b hp
              refine ⟨evts, hev, ?_⟩
              rw [hw]
              simp only [ringWrite]
              split_ifs <;> simp

/-- Witness for C23: the example device is disconnected, and a second call leaves it
as the first one did. -/
theorem doDisconnect_idempotent_witness :
    exampleDevice.Connected = true ∧
    ∃ dev', doDisconnect exampleDevice "lost" = some dev' ∧ dev'.Connected = false ∧
      doDisconnect dev' "again" = some dev' := by
  refine ⟨rfl, ?_⟩
  obtain ⟨htotal, hspec⟩ := (doDisconnect_idempotent exampleDevice "lost").2 rfl
  obtain ⟨dev', hdev⟩ := htotal (by
    intro c hc hf
    simp only [exampleDevice, List.mem_cons, List.mem_singleton, List.not_mem_nil,
      or_false] at hc
    rcases hc with rfl | rfl
    · cases hf
    · simp [ProcessVoiceChanges, exampleContext])
  obtain ⟨h1, h2, _⟩ := hspec dev' hdev
  exact ⟨dev', hdev, h1, h2 "again"⟩

/-! ## Dithering -/

theorem fastf2i_eq_of_near (x : ℚ) (z : Int) (h1 : (z : ℚ) - 1 / 2 < x)
    (h2 : x < (z : ℚ) + 1 / 2) : fastf2i x = z := by
  have ha := fastf2i_sub_le x
  have hb := sub_fastf2i_le x
  have h3 : ((fastf2i x : Int) : ℚ) < (z : ℚ) + 1 := by linarith
  have h4 : (z : ℚ) - 1 < ((fastf2i x : Int) : ℚ) := by linarith
  have h5 : fastf2i x < z + 1 := by exact_mod_cast h3
  have h6 : z - 1 < fastf2i x := by exact_mod_cast h4
  omega

theorem iterate_one_eq {α : Type} (f : α → α) (x : α) : f^[1] x = f x := rfl

theorem iterate_two_eq {α : Type} (f : α → α) (x : α) : f^[2] x = f (f x) := rfl

theorem iterate_shift_two {α : Type} (f : α → α) (m : Nat) (x : α) :
    f^[m + 2] x = f^[m] (f (f x)) := rfl

theorem ditherSamples_spec (quant_scale : ℚ) :
    ∀ (samples : List ℚ) (seed : Nat),
      (ditherSamples quant_scale seed samples).1.length = samples.length ∧
      (ditherSamples quant_scale seed samples).2 = dither_rng^[2 * samples.length] seed ∧
      ∀ i (hi : i < samples.length),
        (ditherSamples quant_scale seed samples).1[i]? =
          some (fast_roundf (samples[i] * quant_scale +
            (((dither_rng^[2 * i + 1] seed : Nat) : ℚ) * invRNGRange -
              ((dither_rng^[2 * i + 2] seed : Nat) : ℚ) * invRNGRange)) * (1 / quant_scale)) := by
  intro samples
  induction samples with
  | nil =>
    intro seed
    exact ⟨by simp [ditherSamples], by simp [ditherSamples],
      fun i hi => absurd hi (Nat.not_lt_zero i)⟩
  | cons s rest ih =>
    intro seed
    obtain ⟨h1, h2, h3⟩ := ih (dither_rng (dither_rng seed))
    simp only [ditherSamples, dither_sample]
    refine ⟨by simp [h1], ?_, ?_⟩
    · rw [h2, List.length_cons, Nat.mul_succ, iterate_shift_two]
    · intro i hi
      cases i with
      | zero =>
        rw [List.getElem?_cons_zero, List.getElem_cons_zero, Nat.mul_zero, Nat.zero_add,
          Nat.zero_add, iterate_one_eq, iterate_two_eq]
      | succ j =>
        have hj : j < rest.length := Nat.lt_of_succ_lt_succ hi
        rw [List.getElem?_cons_succ, List.getElem_cons_succ, h3 j hj,
          show 2 * (j + 1) + 1 = (2 * j + 1) + 2 by omega,
          show 2 * (j + 1) + 2 = (2 * j + 2) + 2 by omega,
          iterate_shift_two dither_rng (2 * j + 1) seed,
          iterate_shift_two dither_rng (2 * j + 2) seed]

/-- The value that `ApplyDither` stores for a sample, from the two generator values
used for it. -/
theorem dither_value_eq (quant_scale sample : ℚ) (rng0 rng1 : Nat) :
    fast_roundf (sample * quant_scale +
        ((rng0 : ℚ) * invRNGRange - (rng1 : ℚ) * invRNGRange)) * (1 / quant_scale) =
      fast_roundf (sample * quant_scale + ((rng0 : ℚ) - (rng1 : ℚ)) / (2 ^ 32 - 1)) /
        quant_scale := by
  have h : (rng0 : ℚ) * invRNGRange - (rng1 : ℚ) * invRNGRange =
      ((rng0 : ℚ) - (rng1 : ℚ)) / (2 ^ 32 - 1) := by
    unfold invRNGRange
    norm_num
    ring
  rw [h, mul_one_div]

theorem ditherLines_spec (quant_scale : ℚ) (SamplesToDo : Nat) :
    ∀ (Samples : List (List ℚ)) (seed : Nat),
      (∀ inout ∈ Samples, SamplesToDo ≤ inout.length) →
      (ditherLines quant_scale SamplesToDo seed Samples).1.length = Samples.length ∧
      (ditherLines quant_scale SamplesToDo seed Samples).2 =
        dither_rng^[2 * (Samples.length * SamplesToDo)] seed ∧
      ∀ c inout, Samples[c]? = some inout →
        ∃ out, (ditherLines quant_scale SamplesToDo seed Samples).1[c]? = some out ∧
          out.length = inout.length ∧
          (∀ i sample, i < SamplesToDo → inout[i]? = some sample →
            out[i]? = some (fast_roundf (sample * quant_scale +
              (((dither_rng^[2 * (c * SamplesToDo + i) + 1] seed : Nat) : ℚ) -
                ((dither_rng^[2 * (c * SamplesToDo + i) + 2] seed : Nat) : ℚ)) /
                  (2 ^ 32 - 1)) / quant_scale)) ∧
          (∀ i, SamplesToDo ≤ i → out[i]? = inout[i]?) := by
  intro Samples
  induction Samples with
  | nil =>
    intro seed _
    refine ⟨rfl, ?_, ?_⟩
    · simp only [ditherLines, List.length_nil, Nat.zero_mul, Nat.mul_zero,
        Function.iterate_zero, id_eq]
    · intro c inout hc
      simp at hc
  | cons first rest ih =>
    intro seed hlen
    have hfirst : SamplesToDo ≤ first.length := hlen first (List.mem_cons_self _ _)
    obtain ⟨d1, d2, d3⟩ := ditherSamples_spec quant_scale (first.take SamplesToDo) seed
    have htake : (first.take SamplesToDo).length = SamplesToDo := by
      rw [List.length_take]; omega
    rw [htake] at d1 d2
    obtain ⟨h1, h2, h3⟩ := ih (ditherSamples quant_scale seed (first.take SamplesToDo)).2
      (fun l hl => hlen l (List.mem_cons_of_mem _ hl))
    simp only [ditherLines]
    refine ⟨by simp [h1], ?_, ?_⟩
    · have e : 2 * (rest.length * SamplesToDo) + 2 * SamplesToDo =
          2 * ((rest.length + 1) * SamplesToDo) := by ring
      rw [h2, d2, ← Function.iterate_add_apply, List.length_cons, e]
    · intro c inout hc
      cases c with
      | zero =>
        simp only [List.getElem?_cons_zero, Option.some.injEq] at hc
        subst hc
        refine ⟨(ditherSamples quant_scale seed (first.take SamplesToDo)).1 ++
          first.drop SamplesToDo, List.getElem?_cons_zero, ?_, ?_, ?_⟩
        · simp only [List.length_append, d1, List.length_drop]
          omega
        · intro i sample hi hs
          rw [List.getElem?_append_left (by rw [d1]; exact hi)]
          have hi' : i < (first.take SamplesToDo).length := by rw [htake]; exact hi
          rw [d3 i hi', dither_value_eq]
          have hget : (first.take SamplesToDo)[i] = sample := by
            have := List.getElem?_take_of_lt (l := first) hi
            rw [hs] at this
            rw [List.getElem?_eq_getElem hi'] at this
            exact Option.some.inj this
          rw [hget]
          simp only [Nat.zero_mul, Nat.zero_add]
        · intro i hi
          rw [List.getElem?_append_right (by rw [d1]; exact hi), d1, List.getElem?_drop]
          congr 1
          omega
      | succ c =>
        simp only [List.getElem?_cons_succ] at hc
        obtain ⟨out, ho1, ho2, ho3, ho4⟩ := h3 c inout hc
        refine ⟨out, by simpa using ho1, ho2, ?_, ho4⟩
        intro i sample hi hs
        rw [ho3 i sample hi hs, d2, ← Function.iterate_add_apply, ← Function.iterate_add_apply]
        have e1 : 2 * (c * SamplesToDo + i) + 1 + 2 * SamplesToDo =
            2 * ((c + 1) * SamplesToDo + i) + 1 := by ring
        have e2 : 2 * (c * SamplesToDo + i) + 2 + 2 * SamplesToDo =
            2 * ((c + 1) * SamplesToDo + i) + 2 := by ring
        rw [e1, e2]

/-- The scale of the noise in exact arithmetic: for one sample `2163567 / 2^48`,
`quant_scale = 32768` and seed 639307556 the two generator values are 904622559 and
3053187990. With the scale `1 / (2^32 - 1)` of `ApplyDither` the exact sum before
rounding is below `-1/2` (by less than `10^-13`) and rounds to `-1`; with the scale
`1 / 2^32` it is above `-1/2` and rounds to 0. The two scales differ by a relative
`2^-32`, which the `float` cast and addition of the source do not resolve: there the
sum is exactly `-1/2`. -/
theorem ApplyDither_noise_scale :
    ApplyDither [[2163567 / 281474976710656]] 639307556 32768 1 =
      ([[-1 / 32768]], 3053187990) ∧
    dither_rng 639307556 = 904622559 ∧ dither_rng 904622559 = 3053187990 ∧
    fast_roundf ((2163567 / 281474976710656 : ℚ) * 32768 +
      (((904622559 : Nat) : ℚ) - ((3053187990 : Nat) : ℚ)) / 2 ^ 32) / 32768 = 0 := by
  have hr0 : dither_rng 639307556 = 904622559 := by decide
  have hr1 : dither_rng 904622559 = 3053187990 := by decide
  have hcode : fastf2i ((2163567 / 281474976710656 : ℚ) * 32768 +
      (((904622559 : Nat) : ℚ) * invRNGRange - ((3053187990 : Nat) : ℚ) * invRNGRange)) = -1 := by
    apply fastf2i_eq_of_near <;> (unfold invRNGRange; norm_num)
  have hclaim : fastf2i ((2163567 / 281474976710656 : ℚ) * 32768 +
      (((904622559 : Nat) : ℚ) - ((3053187990 : Nat) : ℚ)) / 2 ^ 32) = 0 := by
    apply fastf2i_eq_of_near <;> norm_num
  refine ⟨?_, hr0, hr1, ?_⟩
  · simp only [ApplyDither, ditherLines, List.take, ditherSamples, dither_sample, hr0, hr1,
      fast_roundf, hcode, List.drop, List.append_nil]
    norm_num
  · simp only [fast_roundf, hclaim]
    norm_num

/-- In exact arithmetic, `ApplyDither` replaces each sample `s` of the first
`SamplesToDo` samples of every line, line by line and sample by sample, with
`round(s * quant_scale + (rng0 - rng1) / (2^32 - 1)) / quant_scale`, where `rng0`
and `rng1` are the next two values of the generator
`seed <- (seed * 96314165 + 907633515) mod 2^32` (sample `i` of line `c` uses values
number `2 (c SamplesToDo + i) + 1` and `+ 2`), leaves the rest of each line as it
was, and stores the final seed back; as a function of seed and inputs, the same
seed and inputs give the same output. The roundings of the `float` and `double`
operations are not part of this model. -/
theorem ApplyDither_spec (Samples : List (List ℚ)) (dither_seed : Nat) (quant_scale : ℚ)
    (SamplesToDo : Nat) (hlen : ∀ inout ∈ Samples, SamplesToDo ≤ inout.length) :
    (∀ seed, dither_rng seed = (seed * 96314165 + 907633515) % 2 ^ 32) ∧
    (ApplyDither Samples dither_seed quant_scale SamplesToDo).1.length = Samples.length ∧
    (ApplyDither Samples dither_seed quant_scale SamplesToDo).2 =
      dither_rng^[2 * (Samples.length * SamplesToDo)] dither_seed ∧
    ∀ c inout, Samples[c]? = some inout →
      ∃ out, (ApplyDither Samples dither_seed quant_scale SamplesToDo).1[c]? = some out ∧
        out.length = inout.length ∧
        (∀ i sample, i < SamplesToDo → inout[i]? = some sample →
          out[i]? = some (fast_roundf (sample * quant_scale +
            (((dither_rng^[2 * (c * SamplesToDo + i) + 1] dither_seed : Nat) : ℚ) -
              ((dither_rng^[2 * (c * SamplesToDo + i) + 2] dither_seed : Nat) : ℚ)) /
                (2 ^ 32 - 1)) / quant_scale)) ∧
        (∀ i, SamplesToDo ≤ i → out[i]? = inout[i]?) := by
  refine ⟨?_, ditherLines_spec quant_scale SamplesToDo Samples dither_seed hlen⟩
  intro seed
  simp only [dither_rng, uadd, umul, UIntRange]
  omega

/-- Example for `ApplyDither_spec`: two lines of two samples, all of them dithered,
starting from seed 22222. -/
theorem ApplyDither_spec_witness :
    (∀ inout ∈ ([[1 / 2, 0], [0, -1 / 4]] : List (List ℚ)), 2 ≤ inout.length) ∧
    (ApplyDither [[1 / 2, 0], [0, -1 / 4]] 22222 32768 2).2 = dither_rng^[8] 22222 := by
  have h : ∀ inout ∈ ([[1 / 2, 0], [0, -1 / 4]] : List (List ℚ)), 2 ≤ inout.length := by
    intro inout hin
    simp only [List.mem_cons, List.mem_singleton, List.not_mem_nil, or_false] at hin
    rcases hin with rfl | rfl <;> simp
  exact ⟨h, (ApplyDither_spec [[1 / 2, 0], [0, -1 / 4]] 22222 32768 2 h).2.2.1⟩

/-! ## Property hand-off -/

/-- C25: modelled sequentially, when a voice's `mUpdate` holds a published property
object `P`, `CalcSourceParams` leaves `mUpdate` null, makes `voice.mProps` equal to
the `VoiceProps` fields of `P`, and pushes `P` onto the context's free voice-props
list (`P` is the new head, its `next` the old head, its fields and every other
object untouched); when `mUpdate` is null and `force` is false, it changes nothing
on the voice, nor on the context. -/
theorem CalcSourceParams_update {Props State : Type} (mode : Props → SourceModeProps)
    (calcNonAttn calcAttn : Props → State → State)
    (voice : ParamVoice Props State) (context : ParamContext Props) (force : Bool) :
    (∀ P, voice.mUpdate = some P →
      (CalcSourceParams mode calcNonAttn calcAttn voice context force).1.mUpdate = none ∧
      (CalcSourceParams mode calcNonAttn calcAttn voice context force).1.mProps =
        (context.items P).props ∧
      (CalcSourceParams mode calcNonAttn calcAttn voice context force).2.mFreeVoiceProps =
        some P ∧
      ((CalcSourceParams mode calcNonAttn calcAttn voice context force).2.items P).next =
        context.mFreeVoiceProps ∧
      ((CalcSourceParams mode calcNonAttn calcAttn voice context force).2.items P).props =
        (context.items P).props ∧
      ∀ a, a ≠ P →
        (CalcSourceParams mode calcNonAttn calcAttn voice context force).2.items a =
          context.items a) ∧
    (voice.mUpdate = none → force = false →
      CalcSourceParams mode calcNonAttn calcAttn voice context force = (voice, context)) := by
  have hsel : ∀ v : ParamVoice Props State,
      (CalcSourceParams_select mode calcNonAttn calcAttn v).mUpdate = v.mUpdate ∧
      (CalcSourceParams_select mode calcNonAttn calcAttn v).mProps = v.mProps := by
    intro v
    simp only [CalcSourceParams_select]
    split_ifs <;> exact ⟨rfl, rfl⟩
  refine ⟨?_, ?_⟩
  · intro P hP
    have hv : CalcSourceParams mode calcNonAttn calcAttn voice context force =
        (CalcSourceParams_select mode calcNonAttn calcAttn
          { voice with mUpdate := none, mProps := (context.items P).props },
          AtomicReplaceHead context P) := by
      simp only [CalcSourceParams, hP]
    rw [hv]
    refine ⟨(hsel _).1, (hsel _).2, rfl, ?_, ?_, ?_⟩
    · simp [AtomicReplaceHead]
    · simp [AtomicReplaceHead]
    · intro a ha
      simp [AtomicReplaceHead, ha]
  · intro hnone hforce
    simp only [CalcSourceParams, hnone, hforce, if_true]

/-- Witness for C25: the published object 7 is consumed and heads the free list in
front of object 9. -/
theorem CalcSourceParams_update_witness :
    exampleParamVoice.mUpdate = some 7 ∧
    (CalcSourceParams exampleMode (fun _ s => s + 1) (fun _ s => s + 2) exampleParamVoice
      exampleParamContext false).1.mProps = 7 ∧
    (CalcSourceParams exampleMode (fun _ s => s + 1) (fun _ s => s + 2) exampleParamVoice
      exampleParamContext false).2.mFreeVoiceProps = some 7 :=
  ⟨rfl,
    ((CalcSourceParams_update exampleMode (fun _ s => s + 1) (fun _ s => s + 2)
      exampleParamVoice exampleParamContext false).1 7 rfl).2.1,
    ((CalcSourceParams_update exampleMode (fun _ s => s + 1) (fun _ s => s + 2)
      exampleParamVoice exampleParamContext false).1 7 rfl).2.2.1⟩

/-! ## Resampler option -/

/-- The table lookup of `Voice::InitMixer` for a string that matches the name of an
entry, under a comparison that is an equivalence separating the known names. -/
theorem ResamplerList_find (case_compare : String → String → Int)
    (hsymm : ∀ a b, case_compare a b = 0 → case_compare b a = 0)
    (htrans : ∀ a b c, case_compare a b = 0 → case_compare b c = 0 → case_compare a c = 0)
    (hdist : ∀ a ∈ resamplerNames, ∀ b ∈ resamplerNames, case_compare a b = 0 → a = b)
    (x : String) (e : String × Resampler) (he : e ∈ ResamplerList)
    (hx : case_compare x e.1 = 0) :
    ∃ e', ResamplerList.find? (fun entry => decide (case_compare x entry.1 = 0)) = some e' ∧
      e'.2 = e.2 := by
  have hfun : ∀ a ∈ ResamplerList, ∀ b ∈ ResamplerList, a.1 = b.1 → a.2 = b.2 := by decide
  have hname : ∀ a ∈ ResamplerList, a.1 ∈ resamplerNames := by decide
  cases hf : ResamplerList.find? (fun entry => decide (case_compare x entry.1 = 0)) with
  | none =>
    have := List.find?_eq_none.mp hf e he
    simp only [decide_eq_true_eq] at this
    exact absurd hx this
  | some e' =>
    have hmem : e' ∈ ResamplerList := List.mem_of_find?_eq_some hf
    have hp := List.find?_some hf
    simp only [decide_eq_true_eq] at hp
    have h1 : case_compare e'.1 e.1 = 0 := htrans _ _ _ (hsymm _ _ hp) hx
    have h2 : e'.1 = e.1 := hdist _ (hname e' hmem) _ (hname e he) h1
    exact ⟨e', rfl, hfun e' hmem e he h2⟩

/-- C26: let the comparison `al::case_compare` be an equivalence (in its result 0)
under which the eleven known names and the four deprecated aliases are pairwise
different, as matching up to case is. `Voice::InitMixer` with a resampler option
that matches none of these names leaves `ResamplerDefault` unchanged; an option
that matches the name of a table entry sets it to that entry's resampler; `cubic`
gives Spline, `sinc4` and `sinc8` give Gaussian and `bsinc` gives BSinc12; without
an option `ResamplerDefault` is unchanged. -/
theorem Voice_InitMixer_resampler (case_compare : String → String → Int)
    (hrefl : ∀ a, case_compare a a = 0)
    (hsymm : ∀ a b, case_compare a b = 0 → case_compare b a = 0)
    (htrans : ∀ a b c, case_compare a b = 0 → case_compare b c = 0 → case_compare a c = 0)
    (hdist : ∀ a ∈ resamplerNames, ∀ b ∈ resamplerNames, case_compare a b = 0 → a = b)
    (ResamplerDefault : Resampler) (opt : String) :
    ((∀ n ∈ resamplerNames, case_compare opt n ≠ 0) →
      Voice_InitMixer case_compare ResamplerDefault (some opt) = ResamplerDefault) ∧
    (∀ e ∈ ResamplerList, case_compare opt e.1 = 0 →
      Voice_InitMixer case_compare ResamplerDefault (some opt) = e.2) ∧
    (case_compare opt "cubic" = 0 →
      Voice_InitMixer case_compare ResamplerDefault (some opt) = Resampler.Spline) ∧
    (case_compare opt "sinc4" = 0 ∨ case_compare opt "sinc8" = 0 →
      Voice_InitMixer case_compare ResamplerDefault (some opt) = Resampler.Gaussian) ∧
    (case_compare opt "bsinc" = 0 →
      Voice_InitMixer case_compare ResamplerDefault (some opt) = Resampler.BSinc12) ∧
    Voice_InitMixer case_compare ResamplerDefault none = ResamplerDefault := by
  have hsep : ∀ n ∈ resamplerNames, ∀ m ∈ resamplerNames, n ≠ m →
      case_compare opt n = 0 → case_compare opt m ≠ 0 := by
    intro n hn m hm hnm h1 h2
    exact hnm (hdist n hn m hm (htrans _ _ _ (hsymm _ _ h1) h2))
  have hfind := ResamplerList_find case_compare hsymm htrans hdist
  have hname : ∀ a ∈ ResamplerList, a.1 ∈ resamplerNames := by decide
  have halias : ∀ a ∈ ResamplerList, a.1 ≠ "cubic" ∧ a.1 ≠ "sinc4" ∧ a.1 ≠ "sinc8" ∧
      a.1 ≠ "bsinc" := by decide
  refine ⟨?_, ?_, ?_, ?_, ?_, rfl⟩
  · intro hnone
    have h1 := hnone "cubic" (by decide)
    have h2 := hnone "sinc4" (by decide)
    have h3 := hnone "sinc8" (by decide)
    have h4 := hnone "bsinc" (by decide)
    simp only [Voice_InitMixer, h1, h2, h3, h4, if_false, or_self]
    have hf : ResamplerList.find? (fun entry => decide (case_compare opt entry.1 = 0)) = none := by
      rw [List.find?_eq_none]
      intro e he
      simp only [decide_eq_true_eq]
      exact hnone e.1 (hname e he)
    rw [hf]
  · intro e he hx
    obtain ⟨ha1, ha2, ha3, ha4⟩ := halias e he
    have hn := hname e he
    have h1 := hsep e.1 hn "cubic" (by decide) ha1 hx
    have h2 := hsep e.1 hn "sinc4" (by decide) ha2 hx
    have h3 := hsep e.1 hn "sinc8" (by decide) ha3 hx
    have h4 := hsep e.1 hn "bsinc" (by decide) ha4 hx
    simp only [Voice_InitMixer, h1, h2, h3, h4, if_false, or_self]
    obtain ⟨e', hf, he'⟩ := hfind opt e he hx
    rw [hf]
    exact he'
  · intro hx
    simp only [Voice_InitMixer, hx, if_true]
    obtain ⟨e', hf, he'⟩ := hfind "spline" ("spline", Resampler.Spline) (by decide) (hrefl _)
    rw [hf]
    exact he'
  · intro hx
    have h1 : case_compare opt "cubic" ≠ 0 := by
      rcases hx with h | h
      · exact hsep "sinc4" (by decide) "cubic" (by decide) (by decide) h
      · exact hsep "sinc8" (by decide) "cubic" (by decide) (by decide) h
    simp only [Voice_InitMixer, h1, hx, if_false, if_true]
    obtain ⟨e', hf, he'⟩ := hfind "gaussian" ("gaussian", Resampler.Gaussian) (by decide)
      (hrefl _)
    rw [hf]
    exact he'
  · intro hx
    have h1 := hsep "bsinc" (by decide) "cubic" (by decide) (by decide) hx
    have h2 := hsep "bsinc" (by decide) "sinc4" (by decide) (by decide) hx
    have h3 := hsep "bsinc" (by decide) "sinc8" (by decide) (by decide) hx
    simp only [Voice_InitMixer, h1, h2, h3, hx, if_false, if_true, or_self]
    obtain ⟨e', hf, he'⟩ := hfind "bsinc12" ("bsinc12", Resampler.BSinc12) (by decide)
      (hrefl _)
    rw [hf]
    exact he'

theorem exampleCaseCompare_eq_zero (a b : String) :
    exampleCaseCompare a b = 0 ↔ a.toList.map Char.toLower = b.toList.map Char.toLower := by
  unfold exampleCaseCompare
  split_ifs with h
  · exact ⟨fun _ => h, fun _ => rfl⟩
  · exact ⟨fun h' => absurd h' (by decide), fun h' => absurd h' h⟩

/-- Witness for C26: with the comparison up to ASCII case, the option `BSinc` selects
BSinc12. -/
theorem Voice_InitMixer_resampler_witness :
    (∀ a, exampleCaseCompare a a = 0) ∧
    (∀ a b, exampleCaseCompare a b = 0 → exampleCaseCompare b a = 0) ∧
    (∀ a b c, exampleCaseCompare a b = 0 → exampleCaseCompare b c = 0 →
      exampleCaseCompare a c = 0) ∧
    (∀ a ∈ resamplerNames, ∀ b ∈ resamplerNames, exampleCaseCompare a b = 0 → a = b) ∧
    exampleCaseCompare "BSinc" "bsinc" = 0 ∧
    Voice_InitMixer exampleCaseCompare Resampler.Linear (some "BSinc") = Resampler.BSinc12 := by
  have hrefl : ∀ a, exampleCaseCompare a a = 0 := fun a =>
    (exampleCaseCompare_eq_zero a a).mpr rfl
  have hsymm : ∀ a b, exampleCaseCompare a b = 0 → exampleCaseCompare b a = 0 := fun a b h =>
    (exampleCaseCompare_eq_zero b a).mpr ((exampleCaseCompare_eq_zero a b).mp h).symm
  have htrans : ∀ a b c, exampleCaseCompare a b = 0 → exampleCaseCompare b c = 0 →
      exampleCaseCompare a c = 0 := fun a b c h1 h2 =>
    (exampleCaseCompare_eq_zero a c).mpr
      (((exampleCaseCompare_eq_zero a b).mp h1).trans ((exampleCaseCompare_eq_zero b c).mp h2))
  have hdist : ∀ a ∈ resamplerNames, ∀ b ∈ resamplerNames, exampleCaseCompare a b = 0 → a = b := by
    decide
  have hb : exampleCaseCompare "BSinc" "bsinc" = 0 := by decide
  exact ⟨hrefl, hsymm, htrans, hdist, hb,
    (Voice_InitMixer_resampler exampleCaseCompare hrefl hsymm htrans hdist Resampler.Linear
      "BSinc").2.2.2.2.1 hb⟩

/-! ## Buffer loading -/

theorem queueSampleAt_fuel (items : Nat → VoiceBufferItem) (sampleOf : Nat → Nat → ℚ)
    (loopItem : Option Nat) (hlen : ∀ b, 0 < (items b).mSampleLen) :
    ∀ (f1 f2 : Nat) (cur : Option Nat) (offset : Nat), offset < f1 → offset < f2 →
      queueSampleAt items sampleOf loopItem f1 cur offset =
        queueSampleAt items sampleOf loopItem f2 cur offset := by
  intro f1
  induction f1 with
  | zero => intro f2 cur offset h; omega
  | succ f1 ih =>
    intro f2 cur offset h1 h2
    cases f2 with
    | zero => omega
    | succ f2 =>
      cases cur with
      | none => rfl
      | some b =>
        simp only [queueSampleAt]
        split_ifs with h
        · rfl
        · have := hlen b
          exact ih f2 _ _ (by omega) (by omega)

theorem queueSample_none (items : Nat → VoiceBufferItem) (sampleOf : Nat → Nat → ℚ)
    (loopItem : Option Nat) (offset : Nat) :
    queueSample items sampleOf loopItem none offset = none := rfl

theorem queueSample_some (items : Nat → VoiceBufferItem) (sampleOf : Nat → Nat → ℚ)
    (loopItem : Option Nat) (hlen : ∀ b, 0 < (items b).mSampleLen) (b offset : Nat) :
    queueSample items sampleOf loopItem (some b) offset =
      if offset < (items b).mSampleLen then some (sampleOf b offset)
      else queueSample items sampleOf loopItem (nextItem items loopItem b)
        (offset - (items b).mSampleLen) := by
  unfold queueSample
  simp only [queueSampleAt]
  split_ifs with h
  · rfl
  · have := hlen b
    exact queueSampleAt_fuel items sampleOf loopItem hlen _ _ _ _ (by omega) (by omega)

theorem getElem?_range_map (f : Nat → ℚ) (n i : Nat) (hi : i < n) :
    ((List.range n).map f)[i]? = some (f i) := by
  rw [List.getElem?_map, List.getElem?_range hi]
  rfl

/-- The crawl of `LoadBufferQueue` over items of positive length, with a loader that
yields the items' samples and fuel above position plus size: it completes, the
samples loaded are those of the concatenated queue from the position on, places are
left only when the queue has ended, and `lastSample` is the last loaded sample if
there is one. -/
theorem LoadBufferQueue_crawl_spec (items : Nat → VoiceBufferItem) (sampleOf : Nat → Nat → ℚ)
    (LoadSamples : Nat → Nat → Nat → Load (List ℚ)) (loopItem : Option Nat)
    (hlen : ∀ b, 0 < (items b).mSampleLen)
    (hload : ∀ b count offset, 1 ≤ count → offset + count ≤ (items b).mSampleLen →
      LoadSamples b count offset =
        Except.ok ((List.range count).map (fun i => sampleOf b (offset + i)))) :
    ∀ (fuel : Nat) (buffer : Option Nat) (pos size : Nat) (last : ℚ), pos + size < fuel →
      ∃ loaded last1 left,
        LoadBufferQueue_crawl items LoadSamples loopItem fuel buffer pos size last =
          Except.ok (loaded, last1, left) ∧
        loaded.length + left = size ∧
        (∀ i, i < loaded.length →
          queueSample items sampleOf loopItem buffer (pos + i) = loaded[i]?) ∧
        (0 < left → queueSample items sampleOf loopItem buffer (pos + loaded.length) = none) ∧
        last1 = loaded.getLast?.getD last := by
  intro fuel
  induction fuel with
  | zero => intro buffer pos size last h; omega
  | succ fuel ih =>
    intro buffer pos size last hfuel
    cases buffer with
    | none =>
      refine ⟨[], last, size, rfl, by simp, ?_, ?_, rfl⟩
      · intro i hi; simp at hi
      · intro _; rfl
    | some b =>
      simp only [LoadBufferQueue_crawl]
      by_cases hs : size = 0
      · rw [if_pos hs]
        refine ⟨[], last, size, rfl, by simp, ?_, ?_, rfl⟩
        · intro i hi; simp at hi
        · intro h; omega
      · rw [if_neg hs]
        have hb := hlen b
        by_cases hskip : pos ≥ (items b).mSampleLen
        · rw [if_pos hskip]
          obtain ⟨loaded, last1, left, hrun, hsum, hget, hend, hlast⟩ :=
            ih (nextItem items loopItem b) (pos - (items b).mSampleLen) size last (by omega)
          refine ⟨loaded, last1, left, hrun, hsum, ?_, ?_, hlast⟩
          · intro i hi
            rw [queueSample_some items sampleOf loopItem hlen, if_neg (by omega), ← hget i hi]
            congr 1
            omega
          · intro h
            rw [queueSample_some items sampleOf loopItem hlen, if_neg (by omega), ← hend h]
            congr 1
            omega
        · rw [if_neg hskip]
          have hrem1 : 1 ≤ min size ((items b).mSampleLen - pos) := by
            rw [Nat.le_min]; omega
          have hrem2 : pos + min size ((items b).mSampleLen - pos) ≤ (items b).mSampleLen := by
            have := Nat.min_le_right size ((items b).mSampleLen - pos)
            omega
          rw [hload b _ pos hrem1 hrem2]
          generalize hR : min size ((items b).mSampleLen - pos) = remaining at hrem1 hrem2
          have hRle : remaining ≤ size := by rw [← hR]; exact Nat.min_le_left _ _
          simp only [bind, Except.bind]
          rw [getElem?_range_map _ remaining (remaining - 1) (by omega)]
          simp only
          have hown : ∀ i, i < remaining →
              queueSample items sampleOf loopItem (some b) (pos + i) =
                ((List.range remaining).map (fun i => sampleOf b (pos + i)))[i]? := by
            intro i hi
            rw [queueSample_some items sampleOf loopItem hlen, if_pos (by omega),
              getElem?_range_map _ remaining i hi]
          have hlastown : ((List.range remaining).map (fun i => sampleOf b (pos + i))).getLast? =
              some (sampleOf b (pos + (remaining - 1))) := by
            rw [List.getLast?_eq_getElem?, List.length_map, List.length_range,
              getElem?_range_map _ remaining (remaining - 1) (by omega)]
          by_cases hdone : size - remaining = 0
          · rw [if_pos hdone]
            refine ⟨_, _, 0, rfl, by simp; omega, ?_, ?_, ?_⟩
            · intro i hi
              rw [List.length_map, List.length_range] at hi
              exact hown i hi
            · intro h; omega
            · rw [hlastown]; rfl
          · rw [if_neg hdone]
            have hfull : remaining = (items b).mSampleLen - pos := by
              rw [← hR]
              apply Nat.min_eq_right
              rw [← hR] at hdone
              by_contra hc
              rw [Nat.min_eq_left (by omega)] at hdone
              omega
            obtain ⟨loaded, last1, left, hrun, hsum, hget, hend, hlast⟩ :=
              ih (nextItem items loopItem b) 0 (size - remaining)
                (sampleOf b (pos + (remaining - 1))) (by omega)
            rw [hrun]
            refine ⟨_, last1, left, rfl, ?_, ?_, ?_, ?_⟩
            · simp only [List.length_append, List.length_map, List.length_range]
              omega
            · intro i hi
              simp only [List.length_append, List.length_map, List.length_range] at hi
              by_cases hi' : i < remaining
              · rw [List.getElem?_append_left (by simpa using hi')]
                exact hown i hi'
              · rw [List.getElem?_append_right (by simpa using hi'), List.length_map,
                  List.length_range, queueSample_some items sampleOf loopItem hlen,
                  if_neg (by omega), ← hget (i - remaining) (by omega)]
                congr 1
                omega
            · intro h
              simp only [List.length_append, List.length_map, List.length_range]
              rw [queueSample_some items sampleOf loopItem hlen, if_neg (by omega), ← hend h]
              congr 1
              omega
            · rw [hlast, List.getLast?_append]
              cases hl : loaded.getLast? with
              | none => simp [hlastown]
              | some v => simp

/-- C28: for a queue of buffers with positive lengths and a loader that yields the
items' samples, `LoadBufferQueue` started at an item with offset `dataPosInt`
completes (given fuel above offset plus size) and fills the `size` output samples:
the first `m` of them are the samples at offsets `dataPosInt + i` of the
concatenation of the items' sample data, following `mNext` and continuing at the
loop item after the last item; `m` is below `size` only when the queue has ended
there, and the remaining outputs are then copies of the last loaded sample, or 0 if
none was loaded. -/
theorem LoadBufferQueue_spec (items : Nat → VoiceBufferItem) (sampleOf : Nat → Nat → ℚ)
    (LoadSamples : Nat → Nat → Nat → Load (List ℚ)) (buffer loopItem : Option Nat)
    (dataPosInt size fuel : Nat)
    (hlen : ∀ b, 0 < (items b).mSampleLen)
    (hload : ∀ b count offset, 1 ≤ count → offset + count ≤ (items b).mSampleLen →
      LoadSamples b count offset =
        Except.ok ((List.range count).map (fun i => sampleOf b (offset + i))))
    (hfuel : dataPosInt + size < fuel) :
    ∃ out m,
      LoadBufferQueue items LoadSamples buffer loopItem dataPosInt size fuel = Except.ok out ∧
      out.length = size ∧ m ≤ size ∧
      (∀ i, i < m → ∃ s, queueSample items sampleOf loopItem buffer (dataPosInt + i) = some s ∧
        out[i]? = some s) ∧
      (m < size → queueSample items sampleOf loopItem buffer (dataPosInt + m) = none) ∧
      (∀ i, m ≤ i → i < size →
        out[i]? = some (if m = 0 then 0 else (out[m - 1]?).getD 0)) := by
  obtain ⟨loaded, last1, left, hrun, hsum, hget, hend, hlast⟩ :=
    LoadBufferQueue_crawl_spec items sampleOf LoadSamples loopItem hlen hload fuel buffer
      dataPosInt size 0 hfuel
  refine ⟨loaded ++ List.replicate left last1, loaded.length, ?_, ?_, by omega, ?_, ?_, ?_⟩
  · simp only [LoadBufferQueue, hrun, bind, Except.bind]
    rfl
  · simp only [List.length_append, List.length_replicate]
    exact hsum
  · intro i hi
    refine ⟨loaded[i], ?_, ?_⟩
    · rw [hget i hi, List.getElem?_eq_getElem hi]
    · rw [List.getElem?_append_left hi, List.getElem?_eq_getElem hi]
  · intro h
    exact hend (by omega)
  · intro i h1 h2
    rw [List.getElem?_append_right h1, List.getElem?_replicate, if_pos (by omega), hlast]
    by_cases hm : loaded.length = 0
    · rw [if_pos hm]
      have : loaded = [] := List.length_eq_zero.mp hm
      subst this
      rfl
    · rw [if_neg hm, List.getElem?_append_left (by omega), List.getLast?_eq_getElem?]

theorem exampleQueueItems_positive : ∀ b, 0 < (exampleQueueItems b).mSampleLen := by
  intro b
  unfold exampleQueueItems
  split_ifs <;> decide

/-- Witness for C28: the queue of a 3-sample item and a 2-sample item without loop
item, read from offset 1 into seven places. -/
theorem LoadBufferQueue_spec_witness :
    (∀ b, 0 < (exampleQueueItems b).mSampleLen) ∧ 1 + 7 < 20 ∧
    ∃ out m,
      LoadBufferQueue exampleQueueItems
        (fun b count offset =>
          Except.ok ((List.range count).map (fun i => ((10 * b + (offset + i) : Nat) : ℚ))))
        (some 1) none 1 7 20 = Except.ok out ∧
      out.length = 7 ∧ m ≤ 7 := by
  refine ⟨exampleQueueItems_positive, by decide, ?_⟩
  obtain ⟨out, m, h1, h2, h3, _⟩ := LoadBufferQueue_spec exampleQueueItems
    (fun b k => ((10 * b + k : Nat) : ℚ))
    (fun b count offset =>
      Except.ok ((List.range count).map (fun i => ((10 * b + (offset + i) : Nat) : ℚ))))
    (some 1) none 1 7 20 exampleQueueItems_positive (fun _ _ _ _ _ => rfl) (by decide)
  exact ⟨out, m, h1, h2, h3⟩

theorem zsub_of_le {a b : Nat} (hab : b ≤ a) (ha : a < 2 ^ 64) : zsub a b = a - b := by
  unfold zsub SizeRange
  have hb : b < 2 ^ 64 := lt_of_le_of_lt hab ha
  rw [Nat.mod_eq_of_lt hb]
  have : a + 2 ^ 64 - b = (a - b) + 2 ^ 64 := by omega
  rw [this, Nat.add_mod_right, Nat.mod_eq_of_lt (by omega)]

/-- The repeat loop of `LoadBufferStatic` with a loader that yields the samples of the
loop: place `j` gets the sample at `loopStart + j mod loopSize`. -/
theorem LoadBufferStatic_repeat_spec (LoadSamples : Nat → Nat → Load (List ℚ))
    (sampleOf : Nat → ℚ) (loopStart loopSize : Nat) (hL : 0 < loopSize)
    (hload : ∀ count, 1 ≤ count → count ≤ loopSize →
      LoadSamples count loopStart =
        Except.ok ((List.range count).map (fun i => sampleOf (loopStart + i)))) :
    ∀ (fuel size : Nat), size < fuel →
      LoadBufferStatic_repeat LoadSamples loopStart loopSize fuel size =
        Except.ok ((List.range size).map (fun j => sampleOf (loopStart + j % loopSize))) := by
  intro fuel
  induction fuel with
  | zero => intro size h; omega
  | succ fuel ih =>
    intro size hfuel
    simp only [LoadBufferStatic_repeat]
    by_cases hs : min size loopSize = 0
    · rw [if_pos hs]
      have : size = 0 := by
        rcases Nat.min_eq_zero_iff.mp hs with h | h
        · exact h
        · omega
      subst this
      rfl
    · rw [if_neg hs]
      generalize hT : min size loopSize = toFill at hs
      have h1 : toFill ≤ size := by rw [← hT]; exact Nat.min_le_left _ _
      have h2 : toFill ≤ loopSize := by rw [← hT]; exact Nat.min_le_right _ _
      rw [hload toFill (by omega) h2, ih (size - toFill) (by omega)]
      simp only [bind, Except.bind, pure, Except.pure]
      congr 1
      apply List.ext_getElem?
      intro i
      by_cases hi : i < size
      · rw [getElem?_range_map _ size i hi]
        by_cases hi' : i < toFill
        · rw [List.getElem?_append_left (by simpa using hi'), getElem?_range_map _ toFill i hi',
            Nat.mod_eq_of_lt (by omega)]
        · rw [List.getElem?_append_right (by simpa using hi'), List.length_map,
            List.length_range, getElem?_range_map _ (size - toFill) (i - toFill) (by omega)]
          have hfull : toFill = loopSize := by
            rw [← hT]
            apply Nat.min_eq_right
            omega
          rw [hfull]
          congr 3
          have h3 : loopSize ≤ i := by omega
          conv_rhs => rw [← Nat.sub_add_cancel h3]
          rw [Nat.add_mod_right]
      · have hlen1 : ((List.range toFill).map (fun i => sampleOf (loopStart + i)) ++
            (List.range (size - toFill)).map
              (fun j => sampleOf (loopStart + j % loopSize))).length = size := by
          simp only [List.length_append, List.length_map, List.length_range]
          omega
        rw [List.getElem?_eq_none (by omega), List.getElem?_eq_none (by simp; omega)]

/-- For a looping static buffer with `loopEnd > loopStart`, a start position below
`loopEnd` and a loader that yields the samples below `loopEnd`, `LoadBufferStatic`
fills output sample `i` with the source sample at `loopWrap(dataPosInt + i)`; its
result rests on samples below `loopEnd` only. -/
theorem LoadBufferStatic_loop_spec (LoadSamples : Nat → Nat → Load (List ℚ))
    (sampleOf : Nat → ℚ) (buffer : VoiceBufferItem) (loopItem dataPosInt size fuel : Nat)
    (hloop : buffer.mLoopStart < buffer.mLoopEnd) (hend : buffer.mLoopEnd < 2 ^ 64)
    (hpos : dataPosInt < buffer.mLoopEnd) (hsize : 1 ≤ size) (hfuel : size < fuel)
    (hload : ∀ count offset, 1 ≤ count → offset + count ≤ buffer.mLoopEnd →
      LoadSamples count offset =
        Except.ok ((List.range count).map (fun i => sampleOf (offset + i)))) :
    LoadBufferStatic LoadSamples buffer (some loopItem) dataPosInt size fuel =
      Except.ok ((List.range size).map
        (fun i => sampleOf (loopWrap buffer.mLoopStart buffer.mLoopEnd (dataPosInt + i)))) := by
  have hz1 : zsub buffer.mLoopEnd dataPosInt = buffer.mLoopEnd - dataPosInt :=
    zsub_of_le (le_of_lt hpos) hend
  have hz2 : zsub buffer.mLoopEnd buffer.mLoopStart = buffer.mLoopEnd - buffer.mLoopStart :=
    zsub_of_le (le_of_lt hloop) hend
  simp only [LoadBufferStatic, gt_iff_lt, hloop, not_true_eq_false, if_false, hpos, if_true,
    hz1, hz2]
  generalize hR : min size (buffer.mLoopEnd - dataPosInt) = remaining
  have h1 : remaining ≤ size := by rw [← hR]; exact Nat.min_le_left _ _
  have h2 : remaining ≤ buffer.mLoopEnd - dataPosInt := by rw [← hR]; exact Nat.min_le_right _ _
  have h3 : 1 ≤ remaining := by rw [← hR, Nat.le_min]; omega
  rw [hload remaining dataPosInt h3 (by omega),
    LoadBufferStatic_repeat_spec LoadSamples sampleOf buffer.mLoopStart
      (buffer.mLoopEnd - buffer.mLoopStart) (by omega)
      (fun count hc1 hc2 => hload count buffer.mLoopStart hc1 (by omega)) fuel
      (size - remaining) (by omega)]
  simp only [bind, Except.bind, pure, Except.pure]
  congr 1
  apply List.ext_getElem?
  intro i
  by_cases hi : i < size
  · rw [getElem?_range_map _ size i hi]
    by_cases hi' : i < remaining
    · rw [List.getElem?_append_left (by simpa using hi'), getElem?_range_map _ remaining i hi']
      unfold loopWrap
      rw [if_pos (by omega)]
    · rw [List.getElem?_append_right (by simpa using hi'), List.length_map, List.length_range,
        getElem?_range_map _ (size - remaining) (i - remaining) (by omega)]
      have hfull : remaining = buffer.mLoopEnd - dataPosInt := by
        rw [← hR]
        apply Nat.min_eq_right
        omega
      unfold loopWrap
      rw [if_neg (by omega)]
      have e : dataPosInt + i - buffer.mLoopStart =
          (i - remaining) + (buffer.mLoopEnd - buffer.mLoopStart) := by omega
      rw [e, Nat.add_mod_right, Nat.add_comm]
  · rw [List.getElem?_eq_none (by simp; omega), List.getElem?_eq_none (by simp; omega)]

/-- C27 at a start position past the loop end: a looping static buffer of eight
samples `10, ..., 17` with the loop over `[0, 4)`, read from position 5 into four
places. `LoadBufferStatic` takes the count left in the loop from
`loopEnd - dataPosInt`, which wraps around, and loads the samples at positions 1 to
4: the fourth output is the sample at position 4 (the loop end), where the wrapped
positions 1, 2, 3, 0 give `11, 12, 13, 10`. -/
theorem LoadBufferStatic_past_loop_end :
    exampleLoopItem.mLoopStart < exampleLoopItem.mLoopEnd ∧
    LoadBufferStatic (fun count offset => LoadSamples_generic count exampleSamples 0 offset 1)
      exampleLoopItem (some 0) 5 4 8 = Except.ok [11, 12, 13, 14] ∧
    (List.range 4).map (fun i => exampleSamples[loopWrap 0 4 (5 + i)]?) =
      [some 11, some 12, some 13, some 10] ∧
    exampleSamples[4]? = some 14 ∧
    ([11, 12, 13, 14] : List ℚ) ≠ [11, 12, 13, 10] := by
  refine ⟨by decide, rfl, rfl, rfl, ?_⟩
  intro h
  have h2 := (List.cons.inj (List.cons.inj (List.cons.inj (List.cons.inj h).2).2).2).1
  norm_num at h2

/-! ## Distance compensation -/

/-- One channel of `ApplyDistanceComp` with a delay buffer of `B >= 1` samples is a
delay line with gain. -/
theorem ApplyDistanceComp_channel_spec (SamplesToDo : Nat) (distcomp : ChanData)
    (chanbuffer : List ℚ) (hN : SamplesToDo ≤ chanbuffer.length)
    (hB : 1 ≤ distcomp.Buffer.length) :
    ApplyDistanceComp_channel SamplesToDo distcomp chanbuffer =
      ({ Gain := distcomp.Gain,
         Buffer := (distcomp.Buffer ++ chanbuffer.take SamplesToDo).drop SamplesToDo },
       ((distcomp.Buffer ++ chanbuffer.take SamplesToDo).take SamplesToDo).map
          (fun s => s * distcomp.Gain) ++ chanbuffer.drop SamplesToDo) := by
  obtain ⟨gain, buf⟩ := distcomp
  simp only at hB
  have hlen : (chanbuffer.take SamplesToDo).length = SamplesToDo := by
    rw [List.length_take]; omega
  generalize hI : chanbuffer.take SamplesToDo = input at hlen
  simp only [ApplyDistanceComp_channel, hI]
  rw [if_neg (by omega)]
  by_cases hge : SamplesToDo ≥ buf.length
  · rw [if_pos hge]
    simp only [ranges_rotate, ranges_swap_ranges, hlen]
    have e1 : SamplesToDo - (SamplesToDo - buf.length) = buf.length := by omega
    rw [e1]
    have hd : (input.drop (SamplesToDo - buf.length)).length = buf.length := by
      rw [List.length_drop, hlen]; omega
    have ht : (List.drop (SamplesToDo - buf.length) input ++
        List.take (SamplesToDo - buf.length) input).take buf.length =
        input.drop (SamplesToDo - buf.length) := by
      rw [List.take_append_of_le_length (by omega), List.take_of_length_le (by omega)]
    have hdr : (List.drop (SamplesToDo - buf.length) input ++
        List.take (SamplesToDo - buf.length) input).drop buf.length =
        input.take (SamplesToDo - buf.length) := by
      rw [List.drop_append_of_le_length (by omega), List.drop_of_length_le (by omega),
        List.nil_append]
    rw [ht, hdr, hd, Nat.min_self]
    simp only [List.take_length, List.drop_length, List.append_nil]
    have h1 : (buf ++ input).drop SamplesToDo = input.drop (SamplesToDo - buf.length) := by
      rw [List.drop_append_eq_append_drop, List.drop_of_length_le hge, List.nil_append]
    have h2 : (buf ++ input).take SamplesToDo = buf ++ input.take (SamplesToDo - buf.length) := by
      rw [List.take_append_eq_append_take, List.take_of_length_le hge]
    have h5 : List.take buf.length (List.drop (SamplesToDo - buf.length) input) =
        List.drop (SamplesToDo - buf.length) input := List.take_of_length_le (by omega)
    have h6 : List.drop buf.length (List.drop (SamplesToDo - buf.length) input) = [] :=
      List.drop_of_length_le (by omega)
    rw [h1, h2, h5, h6, List.append_nil]
  · rw [if_neg hge]
    have hlt : SamplesToDo < buf.length := by omega
    simp only [ranges_rotate, ranges_swap_ranges, hlen]
    rw [Nat.min_eq_left (le_of_lt hlt)]
    have hi : input.take SamplesToDo = input := List.take_of_length_le (by omega)
    have hi2 : input.drop SamplesToDo = [] := List.drop_of_length_le (by omega)
    rw [hi, hi2]
    simp only [List.append_nil]
    have h1 : (buf ++ input).drop SamplesToDo = buf.drop SamplesToDo ++ input := by
      rw [List.drop_append_of_le_length (le_of_lt hlt)]
    have h2 : (buf ++ input).take SamplesToDo = buf.take SamplesToDo := by
      rw [List.take_append_of_le_length (le_of_lt hlt)]
    have h3 : (input ++ buf.drop SamplesToDo).drop SamplesToDo = buf.drop SamplesToDo := by
      rw [List.drop_append_of_le_length (by omega), hi2, List.nil_append]
    have h4 : (input ++ buf.drop SamplesToDo).take SamplesToDo = input := by
      rw [List.take_append_of_le_length (by omega), hi]
    rw [h1, h2, h3, h4]

theorem ApplyDistanceComp_getElem? (SamplesToDo : Nat) :
    ∀ (Samples : List (List ℚ)) (chandata : List ChanData) (c : Nat) (chanbuffer : List ℚ)
      (distcomp : ChanData), Samples[c]? = some chanbuffer → chandata[c]? = some distcomp →
      (ApplyDistanceComp Samples SamplesToDo chandata).1[c]? =
        some (ApplyDistanceComp_channel SamplesToDo distcomp chanbuffer).2 ∧
      (ApplyDistanceComp Samples SamplesToDo chandata).2[c]? =
        some (ApplyDistanceComp_channel SamplesToDo distcomp chanbuffer).1 := by
  intro Samples
  induction Samples with
  | nil => intro chandata c chanbuffer distcomp h; simp at h
  | cons first rest ih =>
    intro chandata c chanbuffer distcomp h1 h2
    cases chandata with
    | nil => simp at h2
    | cons d ds =>
      cases c with
      | zero =>
        simp only [List.getElem?_cons_zero, Option.some.injEq] at h1 h2
        subst h1 h2
        simp [ApplyDistanceComp]
      | succ c =>
        simp only [List.getElem?_cons_succ] at h1 h2
        simp only [ApplyDistanceComp, List.getElem?_cons_succ]
        exact ih ds c chanbuffer distcomp h1 h2

/-- C29: for each output channel with channel data, `ApplyDistanceComp` with
`SamplesToDo = N` (at most the line length) treats a delay buffer of length
`B >= 1` as a `B`-sample delay line with gain, for `N >= B` as for `N < B`: with
`S` the old delay buffer followed by the `N` input samples, the `N` output samples
are the first `N` elements of `S` times the gain, the rest of the line is
untouched, and the new delay buffer is `S` without its first `N` elements, that is
its last `B` elements in order; a channel with an empty delay buffer is left
unchanged. -/
theorem ApplyDistanceComp_delay_line (Samples : List (List ℚ)) (SamplesToDo : Nat)
    (chandata : List ChanData) (c : Nat) (chanbuffer : List ℚ) (distcomp : ChanData)
    (hline : Samples[c]? = some chanbuffer) (hchan : chandata[c]? = some distcomp)
    (hN : SamplesToDo ≤ chanbuffer.length) :
    ∃ out distcomp1,
      (ApplyDistanceComp Samples SamplesToDo chandata).1[c]? = some out ∧
      (ApplyDistanceComp Samples SamplesToDo chandata).2[c]? = some distcomp1 ∧
      (1 ≤ distcomp.Buffer.length →
        out.take SamplesToDo =
          ((distcomp.Buffer ++ chanbuffer.take SamplesToDo).take SamplesToDo).map
            (fun s => s * distcomp.Gain) ∧
        out.drop SamplesToDo = chanbuffer.drop SamplesToDo ∧
        distcomp1.Buffer = (distcomp.Buffer ++ chanbuffer.take SamplesToDo).drop SamplesToDo ∧
        distcomp1.Buffer.length = distcomp.Buffer.length ∧
        distcomp1.Gain = distcomp.Gain) ∧
      (distcomp.Buffer.length = 0 → out = chanbuffer ∧ distcomp1 = distcomp) := by
  obtain ⟨h1, h2⟩ := ApplyDistanceComp_getElem? SamplesToDo Samples chandata c chanbuffer
    distcomp hline hchan
  refine ⟨_, _, h1, h2, ?_, ?_⟩
  · intro hB
    rw [ApplyDistanceComp_channel_spec SamplesToDo distcomp chanbuffer hN hB]
    have hlen : (((distcomp.Buffer ++ chanbuffer.take SamplesToDo).take SamplesToDo).map
        (fun s => s * distcomp.Gain)).length = SamplesToDo := by
      rw [List.length_map, List.length_take, List.length_append, List.length_take]
      omega
    refine ⟨?_, ?_, rfl, ?_, rfl⟩
    · rw [List.take_append_of_le_length (by omega), List.take_of_length_le (by omega)]
    · rw [List.drop_append_of_le_length (by omega), List.drop_of_length_le (by omega),
        List.nil_append]
    · simp only [List.length_drop, List.length_append, List.length_take]
      omega
  · intro hB
    simp only [ApplyDistanceComp_channel]
    rw [if_pos (by omega)]
    exact ⟨rfl, rfl⟩

/-- Witness for C29: a delay buffer of two samples and gain 1/2, three input samples
in a line of four. -/
theorem ApplyDistanceComp_delay_line_witness :
    ([[1, 2, 3, 4]] : List (List ℚ))[0]? = some [1, 2, 3, 4] ∧
    ([{ Gain := 1 / 2, Buffer := [8, 6] }] : List ChanData)[0]? =
      some { Gain := 1 / 2, Buffer := [8, 6] } ∧
    3 ≤ ([1, 2, 3, 4] : List ℚ).length ∧
    ∃ out distcomp1,
      (ApplyDistanceComp [[1, 2, 3, 4]] 3 [{ Gain := 1 / 2, Buffer := [8, 6] }]).1[0]? =
        some out ∧
      (ApplyDistanceComp [[1, 2, 3, 4]] 3 [{ Gain := 1 / 2, Buffer := [8, 6] }]).2[0]? =
        some distcomp1 ∧
      out.take 3 = [8 * (1 / 2), 6 * (1 / 2), 1 * (1 / 2)] ∧ out.drop 3 = [4] ∧
      distcomp1.Buffer = [2, 3] := by
  refine ⟨rfl, rfl, by decide, ?_⟩
  obtain ⟨out, d1, h1, h2, h3, _⟩ := ApplyDistanceComp_delay_line [[1, 2, 3, 4]] 3
    [{ Gain := 1 / 2, Buffer := [8, 6] }] 0 [1, 2, 3, 4] { Gain := 1 / 2, Buffer := [8, 6] }
    rfl rfl (by decide)
  obtain ⟨h4, h5, h6, _, _⟩ := h3 (by decide)
  exact ⟨out, d1, h1, h2, h4, h5, h6⟩

/-! ## Chunk sizes of the resampling loop -/

theorem and_not_three (x : Nat) : 4 ∣ (x &&& 4294967292) ∧ (x &&& 4294967292) ≤ x := by
  refine ⟨?_, Nat.and_le_left⟩
  apply Nat.dvd_of_mod_eq_zero
  have h : (x &&& 4294967292) % 2 ^ 2 = (x &&& 4294967292) &&& (2 ^ 2 - 1) :=
    (Nat.and_pow_two_sub_one_eq_mod _ 2).symm
  have h2 : (x &&& 4294967292) % 4 = (x &&& 4294967292) &&& 3 := h
  rw [h2, Nat.land_assoc]
  have : (4294967292 &&& 3 : Nat) = 0 := by decide
  rw [this, Nat.and_zero]

/-- The value of `calc_buffer_sizes` without the wrap-arounds, which do not occur for
sizes in range. -/
theorem calc_buffer_sizes_eq (ResBufSize MaxResamplerEdge fracPos increment dstBufferSize : Nat)
    (hR : ResBufSize < 2 ^ 32) (hE : 2 * MaxResamplerEdge < ResBufSize)
    (hfrac : fracPos < MixerFracOne)
    (hinc2 : increment ≤ MaxPitch <<< MixerFracBits)
    (hd1 : 1 ≤ dstBufferSize) (hd2 : dstBufferSize < 2 ^ 32) :
    calc_buffer_sizes ResBufSize MaxResamplerEdge fracPos increment dstBufferSize =
      (let ext : Nat := if increment ≤ 4096 then 1 else 0
       let required := ((dstBufferSize - ext) * increment + fracPos) / 4096 + ext +
         MaxResamplerEdge
       let count := ((ResBufSize - MaxResamplerEdge - MaxResamplerEdge) * 4096 - fracPos) /
         increment
       if required ≤ ResBufSize - MaxResamplerEdge then (dstBufferSize, required)
       else if count < dstBufferSize then
         ((count % 4294967296) &&& 4294967292, ResBufSize - MaxResamplerEdge)
       else (dstBufferSize, ResBufSize - MaxResamplerEdge)) := by
  have hone : MixerFracOne = 4096 := by decide
  have hbits : MixerFracBits = 12 := rfl
  have hmax : MaxPitch <<< MixerFracBits = 1044480 := by decide
  rw [hone] at hfrac
  rw [hmax] at hinc2
  have hM : usub ResBufSize MaxResamplerEdge = ResBufSize - MaxResamplerEdge :=
    usub_of_le (by omega) hR
  have hME : usub (ResBufSize - MaxResamplerEdge) MaxResamplerEdge =
      ResBufSize - MaxResamplerEdge - MaxResamplerEdge := usub_of_le (by omega) (by omega)
  have hext : (if increment ≤ 4096 then (1 : Nat) else 0) ≤ 1 := by split_ifs <;> omega
  generalize hx : (if increment ≤ 4096 then (1 : Nat) else 0) = ext at hext
  have hsub : usub dstBufferSize ext = dstBufferSize - ext := usub_of_le (by omega) hd2
  have hadd : uadd ext MaxResamplerEdge = ext + MaxResamplerEdge := by
    unfold uadd UIntRange
    exact Nat.mod_eq_of_lt (by omega)
  have hprod : (dstBufferSize - ext) * increment ≤ 4294967296 * 1044480 :=
    Nat.mul_le_mul (by omega) hinc2
  have hA : ((dstBufferSize - ext) * increment + fracPos) % SizeRange =
      (dstBufferSize - ext) * increment + fracPos := by
    unfold SizeRange
    exact Nat.mod_eq_of_lt (by omega)
  have hdiv : ((dstBufferSize - ext) * increment + fracPos) / 4096 ≤ 1095216660480 := by
    omega
  have hB : (((dstBufferSize - ext) * increment + fracPos) / 4096 + (ext + MaxResamplerEdge))
      % SizeRange =
      ((dstBufferSize - ext) * increment + fracPos) / 4096 + ext + MaxResamplerEdge := by
    unfold SizeRange
    rw [Nat.mod_eq_of_lt (by omega)]
    omega
  have hshift : ((ResBufSize - MaxResamplerEdge - MaxResamplerEdge) <<< 12) % SizeRange =
      (ResBufSize - MaxResamplerEdge - MaxResamplerEdge) * 4096 := by
    unfold SizeRange
    rw [Nat.shiftLeft_eq, Nat.mod_eq_of_lt (by omega)]
  have hz : zsub ((ResBufSize - MaxResamplerEdge - MaxResamplerEdge) * 4096) fracPos =
      (ResBufSize - MaxResamplerEdge - MaxResamplerEdge) * 4096 - fracPos :=
    zsub_of_le (by omega) (by omega)
  simp only [calc_buffer_sizes, hone, hbits, hx, hM, hME, hsub, hadd, hA, hB, hshift, hz,
    Nat.shiftRight_eq_div_pow, UIntRange]
  norm_num
  split_ifs with h1
  · rw [Nat.mod_eq_of_lt (by omega)]
  · rfl
  · rfl

/-- C30: for every `fracPos < MixerFracOne`, `1 <= increment <= MaxPitch <<
MixerFracBits` and requested size `d >= 1` (an `unsigned int`), with a resample
buffer larger than two edges, `calc_buffer_sizes` returns `(dst, src)` with
`dst <= d` and `src <= srcSizeMax` such that the last source index needed for `dst`
outputs, `floor(((dst - 1) * increment + fracPos) / 2^MixerFracBits) +
MaxResamplerEdge`, is below `src`. When the required source count fits `srcSizeMax`,
`dst = d` and `src` is that count; when it exceeds `srcSizeMax`, `dst` is a multiple
of 4 (below `d`) and `src = srcSizeMax`. -/
theorem calc_buffer_sizes_spec (ResBufSize MaxResamplerEdge fracPos increment d : Nat)
    (hR : ResBufSize < 2 ^ 32) (hE : 2 * MaxResamplerEdge < ResBufSize)
    (hfrac : fracPos < MixerFracOne) (hinc1 : 1 ≤ increment)
    (hinc2 : increment ≤ MaxPitch <<< MixerFracBits)
    (hd1 : 1 ≤ d) (hd2 : d < 2 ^ 32) :
    (calc_buffer_sizes ResBufSize MaxResamplerEdge fracPos increment d).1 ≤ d ∧
    (calc_buffer_sizes ResBufSize MaxResamplerEdge fracPos increment d).2 ≤
      ResBufSize - MaxResamplerEdge ∧
    ((((calc_buffer_sizes ResBufSize MaxResamplerEdge fracPos increment d).1 : Int) - 1) *
        (increment : Int) + (fracPos : Int)) / 2 ^ MixerFracBits + (MaxResamplerEdge : Int) <
      ((calc_buffer_sizes ResBufSize MaxResamplerEdge fracPos increment d).2 : Int) ∧
    (((d - (if increment ≤ MixerFracOne then 1 else 0)) * increment + fracPos) /
          2 ^ MixerFracBits + (if increment ≤ MixerFracOne then 1 else 0) + MaxResamplerEdge ≤
        ResBufSize - MaxResamplerEdge →
      (calc_buffer_sizes ResBufSize MaxResamplerEdge fracPos increment d).1 = d ∧
      (calc_buffer_sizes ResBufSize MaxResamplerEdge fracPos increment d).2 =
        ((d - (if increment ≤ MixerFracOne then 1 else 0)) * increment + fracPos) /
          2 ^ MixerFracBits + (if increment ≤ MixerFracOne then 1 else 0) + MaxResamplerEdge) ∧
    (ResBufSize - MaxResamplerEdge <
        ((d - (if increment ≤ MixerFracOne then 1 else 0)) * increment + fracPos) /
          2 ^ MixerFracBits + (if increment ≤ MixerFracOne then 1 else 0) + MaxResamplerEdge →
      4 ∣ (calc_buffer_sizes ResBufSize MaxResamplerEdge fracPos increment d).1 ∧
      (calc_buffer_sizes ResBufSize MaxResamplerEdge fracPos increment d).1 < d ∧
      (calc_buffer_sizes ResBufSize MaxResamplerEdge fracPos increment d).2 =
        ResBufSize - MaxResamplerEdge) := by
  rw [calc_buffer_sizes_eq ResBufSize MaxResamplerEdge fracPos increment d hR hE hfrac hinc2
    hd1 hd2]
  have hone : MixerFracOne = 4096 := by decide
  have hbits : (2 : Nat) ^ MixerFracBits = 4096 := by decide
  have hbitsI : (2 : Int) ^ MixerFracBits = 4096 := by
    have : MixerFracBits = 12 := rfl
    rw [this]; norm_num
  rw [hone] at hfrac
  simp only [hone, hbits, hbitsI]
  have hext : (if increment ≤ 4096 then (1 : Nat) else 0) ≤ 1 := by split_ifs <;> omega
  have hextv : (increment ≤ 4096 ∧ (if increment ≤ 4096 then (1 : Nat) else 0) = 1) ∨
      (4096 < increment ∧ (if increment ≤ 4096 then (1 : Nat) else 0) = 0) := by
    split_ifs with h
    · exact Or.inl ⟨h, rfl⟩
    · exact Or.inr ⟨by omega, rfl⟩
  generalize (if increment ≤ 4096 then (1 : Nat) else 0) = ext at hext hextv
  -- the products, as opaque numbers with the facts the arithmetic needs
  have hstep : d * increment = (d - 1) * increment + increment := by
    conv_lhs => rw [← Nat.sub_add_cancel hd1]
    rw [Nat.add_mul, Nat.one_mul]
  have hprodext : (d - ext) * increment = d * increment - ext * increment := Nat.sub_mul _ _ _
  generalize hX : (ResBufSize - MaxResamplerEdge - MaxResamplerEdge) * 4096 - fracPos = X
  have hXv : X + fracPos = (ResBufSize - MaxResamplerEdge - MaxResamplerEdge) * 4096 := by
    rw [← hX]; omega
  have hc1 : X / increment * increment ≤ X := Nat.div_mul_le_self _ _
  generalize hC : X / increment = count at hc1
  by_cases hfit : ((d - ext) * increment + fracPos) / 4096 + ext + MaxResamplerEdge ≤
      ResBufSize - MaxResamplerEdge
  · rw [if_pos hfit]
    refine ⟨le_refl _, hfit, ?_, fun _ => ⟨rfl, rfl⟩, fun h => absurd hfit (not_le.mpr h)⟩
    have hcast : (((d : Int) - 1) * (increment : Int) + (fracPos : Int)) =
        (((d - 1) * increment + fracPos : Nat) : Int) := by
      push_cast [Nat.cast_sub hd1]
      ring
    rw [hcast]
    rcases hextv with ⟨hi, he⟩ | ⟨hi, he⟩
    · subst he
      generalize (d - 1) * increment + fracPos = Y
      omega
    · subst he
      rw [Nat.sub_zero, hstep]
      generalize (d - 1) * increment = Z
      omega
  · rw [if_neg hfit]
    have hlt : count < d := by
      by_contra hge
      have hge' : d ≤ count := by omega
      have h1 : d * increment ≤ count * increment := Nat.mul_le_mul_right _ hge'
      apply hfit
      rcases hextv with ⟨hi, he⟩ | ⟨hi, he⟩
      · subst he
        rw [hstep] at h1
        generalize (d - 1) * increment = Z at h1 ⊢
        generalize count * increment = W at h1 hc1
        omega
      · subst he
        rw [Nat.sub_zero]
        generalize d * increment = Z at h1 ⊢
        generalize count * increment = W at h1 hc1
        omega
    rw [if_pos hlt]
    obtain ⟨hdvd, hle⟩ := and_not_three (count % 4294967296)
    have hle2 : (count % 4294967296 &&& 4294967292) ≤ count :=
      le_trans hle (Nat.mod_le _ _)
    generalize (count % 4294967296 &&& 4294967292) = dst at hdvd hle2
    refine ⟨by omega, le_refl _, ?_, fun h => absurd h hfit,
      fun _ => ⟨hdvd, by omega, rfl⟩⟩
    simp only
    by_cases hdst : dst = 0
    · subst hdst
      have : ((0 : Nat) : Int) - 1 = -1 := by norm_num
      rw [this]
      have h2 : (-1 : Int) * (increment : Int) + (fracPos : Int) < 4096 := by omega
      have h3 : ((-1 : Int) * (increment : Int) + (fracPos : Int)) / 4096 ≤ 0 := by omega
      omega
    · have hdst1 : 1 ≤ dst := by omega
      have hcast : (((dst : Int) - 1) * (increment : Int) + (fracPos : Int)) =
          (((dst - 1) * increment + fracPos : Nat) : Int) := by
        push_cast [Nat.cast_sub hdst1]
        ring
      rw [hcast]
      have h1 : (dst - 1) * increment + increment ≤ count * increment := by
        have : (dst - 1 + 1) * increment ≤ count * increment :=
          Nat.mul_le_mul_right _ (by omega)
        rw [Nat.add_mul, Nat.one_mul] at this
        exact this
      generalize (dst - 1) * increment = Z at h1 ⊢
      generalize count * increment = W at h1 hc1
      omega

/-- Witness for C30: a resample buffer of 1072 samples with an edge of 24, a step of
two source samples per output sample and 1024 requested outputs: 512 outputs from
1048 source samples. -/
theorem calc_buffer_sizes_spec_witness :
    1072 < 2 ^ 32 ∧ 2 * 24 < 1072 ∧ 0 < MixerFracOne ∧ 1 ≤ 8192 ∧
    8192 ≤ MaxPitch <<< MixerFracBits ∧ 1 ≤ 1024 ∧ 1024 < 2 ^ 32 ∧
    calc_buffer_sizes 1072 24 0 8192 1024 = (512, 1048) ∧
    (calc_buffer_sizes 1072 24 0 8192 1024).1 ≤ 1024 ∧
    (calc_buffer_sizes 1072 24 0 8192 1024).2 ≤ 1072 - 24 :=
  ⟨by decide, by decide, by decide, by decide, by decide, by decide, by decide, by decide,
    (calc_buffer_sizes_spec 1072 24 0 8192 1024 (by decide) (by decide) (by decide)
      (by decide) (by decide) (by decide) (by decide)).1,
    (calc_buffer_sizes_spec 1072 24 0 8192 1024 (by decide) (by decide) (by decide)
      (by decide) (by decide) (by decide) (by decide)).2.1⟩

/-! ## Conservation of the fixed-point position -/

theorem umul_of_lt {a b : Nat} (h : a * b < 4294967296) : umul a b = a * b := by
  unfold umul UIntRange
  exact Nat.mod_eq_of_lt h

/-- The position advance of `Voice::mix` conserves the fixed-point position as long
as the `int` addition does not overflow (what holds of C31). With
`DataPosFrac < MixerFracOne`, `increment <= MaxPitch << MixerFracBits`,
`samplesToMix <= BufferLineSize` and the asserted
`(INT_MAX >> MixerFracBits) / MaxPitch > BufferLineSize`, the 32-bit product
`increment * samplesToMix` and the 32-bit sum `DataPosFrac + increment *
samplesToMix` do not wrap (the sum stays below `2^31`); and, `DataPosInt` being an
`int` to which the whole samples can be added without leaving the `int` range,
afterwards `DataPosInt' * 2^MixerFracBits + DataPosFrac' = DataPosInt *
2^MixerFracBits + DataPosFrac + increment * samplesToMix` and
`DataPosFrac' < MixerFracOne`. -/
theorem advancePosition_conserves (BufferLineSize : Nat) (DataPosInt : Int)
    (DataPosFrac increment samplesToMix : Nat)
    (hfrac : DataPosFrac < MixerFracOne)
    (hinc : increment ≤ MaxPitch <<< MixerFracBits)
    (hmix : samplesToMix ≤ BufferLineSize)
    (hassert : BufferLineSize < (2147483647 >>> MixerFracBits) / MaxPitch)
    (hlo : -2147483648 ≤ DataPosInt)
    (hhi : DataPosInt +
      (((DataPosFrac + increment * samplesToMix) / 2 ^ MixerFracBits : Nat) : Int) <
        2147483648) :
    DataPosFrac + increment * samplesToMix < 2 ^ 31 ∧
    umul increment samplesToMix = increment * samplesToMix ∧
    uadd DataPosFrac (umul increment samplesToMix) = DataPosFrac + increment * samplesToMix ∧
    (advancePosition DataPosInt DataPosFrac increment samplesToMix).1 * 2 ^ MixerFracBits +
        ((advancePosition DataPosInt DataPosFrac increment samplesToMix).2 : Int) =
      DataPosInt * 2 ^ MixerFracBits + (DataPosFrac : Int) +
        (increment : Int) * (samplesToMix : Int) ∧
    (advancePosition DataPosInt DataPosFrac increment samplesToMix).2 < MixerFracOne := by
  have hone : MixerFracOne = 4096 := by decide
  have hbits : MixerFracBits = 12 := rfl
  have hmax : MaxPitch <<< MixerFracBits = 1044480 := by decide
  have hlim : (2147483647 >>> MixerFracBits) / MaxPitch = 2056 := by decide
  have hmask : MixerFracMask = 2 ^ 12 - 1 := by decide
  rw [hone] at hfrac
  rw [hmax] at hinc
  rw [hlim] at hassert
  rw [hbits] at hhi
  have hprod : increment * samplesToMix ≤ 1044480 * 2055 :=
    Nat.mul_le_mul hinc (by omega)
  generalize hP : increment * samplesToMix = P at hprod hhi
  have hsum : DataPosFrac + P < 2 ^ 31 := by omega
  have hu : umul increment samplesToMix = P := by
    rw [umul_of_lt (by rw [hP]; omega), hP]
  have ha : uadd DataPosFrac (umul increment samplesToMix) = DataPosFrac + P := by
    rw [hu, uadd_of_lt (by omega)]
  refine ⟨hsum, hu, ha, ?_, ?_⟩
  · simp only [advancePosition]
    rw [ha, hbits, hmask, Nat.and_pow_two_sub_one_eq_mod, Nat.shiftRight_eq_div_pow]
    have hq : (((DataPosFrac + P) / 2 ^ 12 : Nat) : Int) < 524288 := by
      have : (DataPosFrac + P) / 2 ^ 12 < 524288 := by omega
      exact_mod_cast this
    have hq0 : (0 : Int) ≤ (((DataPosFrac + P) / 2 ^ 12 : Nat) : Int) := Int.natCast_nonneg _
    have hin : toInt32 (((DataPosFrac + P) / 2 ^ 12 : Nat) : Int) =
        (((DataPosFrac + P) / 2 ^ 12 : Nat) : Int) := toInt32_of_range (by omega) (by omega)
    have h1 : -2147483648 ≤ DataPosInt + (((DataPosFrac + P) / 2 ^ 12 : Nat) : Int) := by
      linarith
    rw [hin, toInt32_of_range h1 hhi]
    have hcast : ((increment : Int) * (samplesToMix : Int)) = (P : Int) := by
      rw [← hP]; push_cast; rfl
    rw [hcast]
    have hdm := Nat.div_add_mod (DataPosFrac + P) (2 ^ 12)
    have hdm' : ((2 ^ 12 : Nat) : Int) * (((DataPosFrac + P) / 2 ^ 12 : Nat) : Int) +
        (((DataPosFrac + P) % 2 ^ 12 : Nat) : Int) = ((DataPosFrac + P : Nat) : Int) := by
      exact_mod_cast hdm
    push_cast at hdm' ⊢
    linarith
  · simp only [advancePosition]
    rw [hone, hmask, Nat.and_pow_two_sub_one_eq_mod]
    exact Nat.mod_lt _ (by norm_num)

/-- Example of the conservation: a step of 1.5 source samples per output sample over
1024 samples, from position 10 + 2048/4096: the new position is 1546 + 2048/4096. -/
theorem advancePosition_conserves_witness :
    advancePosition 10 2048 6144 1024 = (1546, 2048) ∧
    2048 + 6144 * 1024 < 2 ^ 31 ∧
    (advancePosition 10 2048 6144 1024).1 * 2 ^ MixerFracBits +
        ((advancePosition 10 2048 6144 1024).2 : Int) =
      10 * 2 ^ MixerFracBits + ((2048 : Nat) : Int) + ((6144 : Nat) : Int) * ((1024 : Nat) : Int) :=
  ⟨by decide,
    (advancePosition_conserves 1024 10 2048 6144 1024 (by decide) (by decide) (by decide)
      (by decide) (by decide) (by decide)).1,
    (advancePosition_conserves 1024 10 2048 6144 1024 (by decide) (by decide) (by decide)
      (by decide) (by decide) (by decide)).2.2.2.1⟩

/-- The buffer update of `Voice::mix` leaves the position of a callback voice as it
is: only the static and the streaming branch take whole loops or buffers off
`DataPosInt`. -/
theorem updateBuffers_callback_position (items : Nat → VoiceBufferItem)
    (fields : VoiceMixFields) (numCallbackBlocks : Nat)
    (BufferListItem BufferLoopItem : Option Nat) (DataPosInt : Int) (fuel : Nat)
    (hstatic : fields.VoiceIsStatic = false) (hcallback : fields.VoiceIsCallback = true) :
    ∃ r, updateBuffers items fields numCallbackBlocks BufferListItem BufferLoopItem
      DataPosInt fuel = Except.ok r ∧ r.2.1 = DataPosInt := by
  unfold updateBuffers
  cases BufferListItem with
  | none => exact ⟨_, rfl, rfl⟩
  | some b =>
    simp only [hstatic, hcallback, Bool.false_eq_true, if_false, if_true]
    split
    · split
      · exact ⟨_, rfl, rfl⟩
      · exact ⟨_, rfl, rfl⟩
    · exact ⟨_, rfl, rfl⟩

/-- C31 at a callback voice that has consumed `2^31 - 1024` samples: a mix of 1024
samples at one sample per output sample adds 1024 to `DataPosInt = 2147482624`,
which leaves the range of `int` (`2147483648 > INT_MAX`); with the addition wrapped
to 32 bits the position becomes `-2147483648` and the fixed-point position is not
conserved. The position is reached by the mix before (from `2^31 - 2048`, the buffer
update of a callback voice does not reduce the position), and after the wrap the
guard `DataPosInt > 0` keeps the callback blocks from being consumed. -/
theorem advancePosition_int_overflow :
    advancePosition 2147482624 0 4096 1024 = (-2147483648, 0) ∧
    (2147483647 : Int) <
      2147482624 + (((0 + 4096 * 1024) >>> MixerFracBits : Nat) : Int) ∧
    (advancePosition 2147482624 0 4096 1024).1 * (2 ^ MixerFracBits : Int) +
        ((advancePosition 2147482624 0 4096 1024).2 : Int) ≠
      2147482624 * (2 ^ MixerFracBits : Int) + 0 + 4096 * 1024 ∧
    (Voice_mix PlayState.Playing exampleMixContext 0 exampleCallbackFields exampleItems 0
        48000 1024 2048 8).map (fun r => (r.2.mPosition, r.2.mPositionFrac,
          r.2.mNumCallbackBlocks, r.2.mCallbackBlockBase)) =
      Except.ok (2147482624, 0, 1024, 2147482624) ∧
    (Voice_mix PlayState.Playing exampleMixContext 0
        { exampleCallbackFields with mPosition := 2147482624,
                                     mCallbackBlockBase := 2147482624 }
        exampleItems 0 48000 1024 2048 8).map (fun r => (r.2.mPosition, r.2.mPositionFrac,
          r.2.mNumCallbackBlocks, r.2.mCallbackBlockBase)) =
      Except.ok (-2147483648, 0, 2048, 2147482624) := by
  refine ⟨by decide, by decide, by decide, ?_, ?_⟩
  · rfl
  · rfl

/-! ## Device clock -/

theorem and_not_three_ge {x : Nat} (h4 : 4 ≤ x) (hx : x < 2 ^ 32) :
    4 ≤ x &&& 4294967292 := by
  obtain ⟨hdvd, _⟩ := and_not_three x
  by_contra hlt
  have hzero : x &&& 4294967292 = 0 := by
    obtain ⟨k, hk⟩ := hdvd
    omega
  have hall : x &&& (4294967292 ||| 3) = x := by
    have h1 : (4294967292 ||| 3 : Nat) = 2 ^ 32 - 1 := by decide
    rw [h1, Nat.and_pow_two_sub_one_eq_mod, Nat.mod_eq_of_lt hx]
  rw [Nat.and_or_distrib_left, hzero, Nat.zero_or] at hall
  have h3 : x &&& 3 = x % 4 := Nat.and_pow_two_sub_one_eq_mod x 2
  omega

/-- The destination count of `calc_buffer_sizes` is at least 1 and at most the
requested count when the resample buffer holds `4 * MaxPitch + 1` samples between
its edges. -/
theorem calc_buffer_sizes_progress (ResBufSize MaxResamplerEdge fracPos increment d : Nat)
    (hR : ResBufSize < 2 ^ 32) (hE : 2 * MaxResamplerEdge < ResBufSize)
    (hfrac : fracPos < MixerFracOne) (hinc1 : 1 ≤ increment)
    (hinc2 : increment ≤ MaxPitch <<< MixerFracBits)
    (hd1 : 1 ≤ d) (hd2 : d < 2 ^ 32)
    (hroom : 4 * MaxPitch + 1 ≤ ResBufSize - MaxResamplerEdge - MaxResamplerEdge) :
    1 ≤ (calc_buffer_sizes ResBufSize MaxResamplerEdge fracPos increment d).1 ∧
    (calc_buffer_sizes ResBufSize MaxResamplerEdge fracPos increment d).1 ≤ d := by
  rw [calc_buffer_sizes_eq ResBufSize MaxResamplerEdge fracPos increment d hR hE hfrac hinc2
    hd1 hd2]
  have hone : MixerFracOne = 4096 := by decide
  have hmax : MaxPitch <<< MixerFracBits = 1044480 := by decide
  have hmp : MaxPitch = 255 := rfl
  rw [hone] at hfrac
  rw [hmax] at hinc2
  rw [hmp] at hroom
  simp only []
  by_cases hfit : ((d - if increment ≤ 4096 then 1 else 0) * increment + fracPos) / 4096 +
      (if increment ≤ 4096 then 1 else 0) + MaxResamplerEdge ≤ ResBufSize - MaxResamplerEdge
  · rw [if_pos hfit]
    exact ⟨hd1, le_refl _⟩
  · rw [if_neg hfit]
    generalize hM : ResBufSize - MaxResamplerEdge - MaxResamplerEdge = M at hroom
    have hMlt : M < 2 ^ 32 := by omega
    by_cases hcnt : (M * 4096 - fracPos) / increment < d
    · rw [if_pos hcnt]
      have hc4 : 4 ≤ (M * 4096 - fracPos) / increment := by
        rw [Nat.le_div_iff_mul_le (by omega)]
        have : 4 * increment ≤ 4 * 1044480 := Nat.mul_le_mul_left 4 hinc2
        omega
      have hclt : (M * 4096 - fracPos) / increment < 4294967296 := by omega
      rw [Nat.mod_eq_of_lt hclt]
      refine ⟨?_, ?_⟩
      · have := and_not_three_ge hc4 hclt
        show 1 ≤ ((M * 4096 - fracPos) / increment) &&& 4294967292
        omega
      · have := (and_not_three ((M * 4096 - fracPos) / increment)).2
        show ((M * 4096 - fracPos) / increment) &&& 4294967292 ≤ d
        omega
    · rw [if_neg hcnt]
      exact ⟨hd1, le_refl _⟩

theorem loadLoop_spec (ResBufSize MaxResamplerEdge increment samplesToLoad : Nat)
    (hR : ResBufSize < 2 ^ 32) (hE : 2 * MaxResamplerEdge < ResBufSize)
    (hinc1 : 1 ≤ increment) (hinc2 : increment ≤ MaxPitch <<< MixerFracBits)
    (hload : samplesToLoad < 2 ^ 32)
    (hroom : 4 * MaxPitch + 1 ≤ ResBufSize - MaxResamplerEdge - MaxResamplerEdge) :
    ∀ (fuel samplesLoaded : Nat) (intPos : Int) (fracPos : Nat),
      samplesLoaded ≤ samplesToLoad → fracPos < MixerFracOne →
      samplesToLoad - samplesLoaded < fuel →
      ∃ chunks, loadLoop ResBufSize MaxResamplerEdge increment samplesToLoad fuel
          samplesLoaded intPos fracPos = some chunks ∧
        chunks.length ≤ samplesToLoad - samplesLoaded ∧
        (∀ c ∈ chunks, 1 ≤ c.1) ∧
        (chunks.map (fun c => c.1)).sum = samplesToLoad - samplesLoaded := by
  intro fuel
  induction fuel with
  | zero => intro _ _ _ _ _ h; omega
  | succ fuel ih =>
    intro samplesLoaded intPos fracPos hle hfrac hfuel
    simp only [loadLoop]
    by_cases hlt : samplesLoaded < samplesToLoad
    · rw [if_pos hlt]
      have hsub : usub samplesToLoad samplesLoaded = samplesToLoad - samplesLoaded :=
        usub_of_le hle hload
      rw [hsub]
      obtain ⟨hp1, hp2⟩ := calc_buffer_sizes_progress ResBufSize MaxResamplerEdge fracPos
        increment (samplesToLoad - samplesLoaded) hR hE hfrac hinc1 hinc2 (by omega) (by omega)
        hroom
      generalize calc_buffer_sizes ResBufSize MaxResamplerEdge fracPos increment
        (samplesToLoad - samplesLoaded) = sizes at hp1 hp2
      have hadd : uadd samplesLoaded sizes.1 = samplesLoaded + sizes.1 :=
        uadd_of_lt (by omega)
      rw [hadd]
      have hmaskone : ∀ x : Nat, x &&& MixerFracMask < MixerFracOne := by
        intro x
        have h1 : MixerFracMask = 2 ^ 12 - 1 := by decide
        have h2 : MixerFracOne = 2 ^ 12 := by decide
        rw [h1, h2, Nat.and_pow_two_sub_one_eq_mod]
        exact Nat.mod_lt _ (by norm_num)
      by_cases hmore : samplesLoaded + sizes.1 < samplesToLoad
      · rw [if_pos hmore]
        obtain ⟨chunks, hc, hl, hpos, hs⟩ := ih (samplesLoaded + sizes.1)
          (toInt32 (intPos + toInt32
            ((uadd fracPos (umul sizes.1 increment) >>> MixerFracBits : Nat) : Int)))
          (uadd fracPos (umul sizes.1 increment) &&& MixerFracMask) (by omega)
          (hmaskone _) (by omega)
        rw [hc]
        refine ⟨sizes :: chunks, rfl, ?_, ?_, ?_⟩
        · simp only [List.length_cons]; omega
        · intro c hcm
          rcases List.mem_cons.mp hcm with rfl | h
          · exact hp1
          · exact hpos c h
        · simp only [List.map_cons, List.sum_cons, hs]; omega
      · rw [if_neg hmore]
        obtain ⟨chunks, hc, hl, hpos, hs⟩ := ih (samplesLoaded + sizes.1) intPos fracPos
          (by omega) hfrac (by omega)
        rw [hc]
        refine ⟨sizes :: chunks, rfl, ?_, ?_, ?_⟩
        · simp only [List.length_cons]; omega
        · intro c hcm
          rcases List.mem_cons.mp hcm with rfl | h
          · exact hp1
          · exact hpos c h
        · simp only [List.map_cons, List.sum_cons, hs]; omega
    · rw [if_neg hlt]
      exact ⟨[], rfl, by simp, by simp, by simp; omega⟩

/-- C38: in the load loop of `Voice::mix`, for every `fracPos < MixerFracOne`,
`1 <= increment <= MaxPitch << MixerFracBits` and remaining count `d >= 1` (an
`unsigned int`), and provided `srcSizeMax - MaxResamplerEdge >= 4 * MaxPitch + 1`,
`calc_buffer_sizes` returns `dst >= 1`; so `samplesLoaded` strictly increases in
each iteration and the loop ends after at most `samplesToLoad` iterations: with
fuel above `samplesToLoad` it completes, every iteration loads at least one sample
and the loaded counts add up to `samplesToLoad`. -/
theorem loadLoop_terminates (ResBufSize MaxResamplerEdge increment samplesToLoad fuel : Nat)
    (intPos : Int) (fracPos : Nat)
    (hR : ResBufSize < 2 ^ 32) (hE : 2 * MaxResamplerEdge < ResBufSize)
    (hfrac : fracPos < MixerFracOne) (hinc1 : 1 ≤ increment)
    (hinc2 : increment ≤ MaxPitch <<< MixerFracBits)
    (hload : samplesToLoad < 2 ^ 32)
    (hroom : 4 * MaxPitch + 1 ≤
      usub (usub ResBufSize MaxResamplerEdge) MaxResamplerEdge)
    (hfuel : samplesToLoad < fuel) :
    (∀ frac d, frac < MixerFracOne → 1 ≤ d → d < 2 ^ 32 →
      1 ≤ (calc_buffer_sizes ResBufSize MaxResamplerEdge frac increment d).1) ∧
    ∃ chunks, loadLoop ResBufSize MaxResamplerEdge increment samplesToLoad fuel 0 intPos
        fracPos = some chunks ∧
      chunks.length ≤ samplesToLoad ∧
      (∀ c ∈ chunks, 1 ≤ c.1) ∧
      (chunks.map (fun c => c.1)).sum = samplesToLoad := by
  have hroom' : 4 * MaxPitch + 1 ≤ ResBufSize - MaxResamplerEdge - MaxResamplerEdge := by
    rw [usub_of_le (by omega) hR, usub_of_le (by omega) (by omega)] at hroom
    exact hroom
  refine ⟨fun frac d hf hd1 hd2 => (calc_buffer_sizes_progress ResBufSize MaxResamplerEdge
    frac increment d hR hE hf hinc1 hinc2 hd1 hd2 hroom').1, ?_⟩
  exact loadLoop_spec ResBufSize MaxResamplerEdge increment samplesToLoad hR hE hinc1 hinc2
    hload hroom' fuel 0 intPos fracPos (Nat.zero_le _) hfrac (by omega)

/-- Witness for C38: a resample buffer of 1072 samples with an edge of 24 (1024
samples between the edges), a step of two source samples per output sample and
1024 samples to load: two iterations of 512 samples. -/
theorem loadLoop_terminates_witness :
    4 * MaxPitch + 1 ≤ usub (usub 1072 24) 24 ∧
    loadLoop 1072 24 8192 1024 3 0 0 0 = some [(512, 1048), (512, 1048)] ∧
    ∃ chunks, loadLoop 1072 24 8192 1024 1025 0 0 0 = some chunks ∧
      chunks.length ≤ 1024 ∧ (∀ c ∈ chunks, 1 ≤ c.1) ∧
      (chunks.map (fun c => c.1)).sum = 1024 :=
  ⟨by decide, by decide,
    (loadLoop_terminates 1072 24 8192 1024 1025 0 0 (by decide) (by decide) (by decide)
      (by decide) (by decide) (by decide) (by decide) (by decide)).2⟩

/-! ## Effect-slot updates and the sorted array -/

theorem updateEffectSlots_same_target {Props Params Context : Type}
    (propsAt : Nat → EffectSlotProps Props)
    (apply : Nat → EffectSlotProps Props → Params → Context → Params × Context) :
    ∀ (auxslots : List SlotPtr) (slots : SlotPtr → EffectSlotUpdate Params)
      (sorted_slots : List (Option SlotPtr)) (context : Context) (force : Bool),
      (∀ s ∈ auxslots, ∀ p, (slots s).Update = some p →
        (propsAt p).Target = (slots s).Target) →
      (updateEffectSlots propsAt apply auxslots slots sorted_slots context force).2.1 =
        sorted_slots ∧
      ∀ s, ((updateEffectSlots propsAt apply auxslots slots sorted_slots context force).1
        s).Target = (slots s).Target := by
  intro auxslots
  induction auxslots with
  | nil => intro slots sorted_slots context force _; exact ⟨rfl, fun _ => rfl⟩
  | cons slot rest ih =>
    intro slots sorted_slots context force h
    simp only [updateEffectSlots]
    have hslot := h slot (List.mem_cons_self _ _)
    have hcalc : (CalcEffectSlotParams propsAt apply (slots slot) sorted_slots context).2.2.1 =
          sorted_slots ∧
        (CalcEffectSlotParams propsAt apply (slots slot) sorted_slots context).2.1.Target =
          (slots slot).Target ∧
        (CalcEffectSlotParams propsAt apply (slots slot) sorted_slots context).2.1.Update =
          none := by
      unfold CalcEffectSlotParams
      cases hu : (slots slot).Update with
      | none => exact ⟨rfl, rfl, hu⟩
      | some p =>
        have ht := hslot p hu
        simp only []
        rw [if_neg (not_not.mpr ht.symm)]
        exact ⟨rfl, ht, trivial⟩
    obtain ⟨hc1, hc2, hc3⟩ := hcalc
    generalize CalcEffectSlotParams propsAt apply (slots slot) sorted_slots context = r
      at hc1 hc2 hc3
    have hrest : ∀ s ∈ rest, ∀ p,
        ((fun s => if s = slot then r.2.1 else slots s) s).Update = some p →
        (propsAt p).Target = ((fun s => if s = slot then r.2.1 else slots s) s).Target := by
      intro s hs p hp
      by_cases hsl : s = slot
      · simp only [if_pos hsl] at hp
        rw [hc3] at hp
        cases hp
      · simp only [if_neg hsl] at hp ⊢
        exact h s (List.mem_cons_of_mem _ hs) p hp
    obtain ⟨i1, i2⟩ := ih (fun s => if s = slot then r.2.1 else slots s) r.2.2.1 r.2.2.2
      (force || r.1) hrest
    refine ⟨by rw [i1, hc1], ?_⟩
    intro s
    rw [i2 s]
    by_cases hsl : s = slot
    · simp only [if_pos hsl]
      rw [hc2, hsl]
    · simp only [if_neg hsl]

/-- C33: `CalcEffectSlotParams` writes null to the first sorted-slot entry if and
only if the slot has a pending update whose `Target` differs from the slot's
current `Target` (otherwise the sorted array is as before); with no pending update
it returns false and modifies neither the slot nor the sorted array (nor the
context); `ProcessContexts` sorts only when the first sorted entry is null; so a
block in which every pending slot update carries the slot's current `Target`
leaves the slots' targets and a sorted array with a non-null first entry
unchanged. -/
theorem CalcEffectSlotParams_sorted {Props Params Context : Type}
    (partition : (SlotPtr → Bool) → List SlotPtr → List SlotPtr × List SlotPtr)
    (propsAt : Nat → EffectSlotProps Props)
    (apply : Nat → EffectSlotProps Props → Params → Context → Params × Context)
    (slot : EffectSlotUpdate Params) (sorted_slots : List (Option SlotPtr))
    (context : Context) :
    ((∃ p, slot.Update = some p ∧ slot.Target ≠ (propsAt p).Target) →
      (CalcEffectSlotParams propsAt apply slot sorted_slots context).2.2.1 =
        sorted_slots.set 0 none) ∧
    ((¬ ∃ p, slot.Update = some p ∧ slot.Target ≠ (propsAt p).Target) →
      (CalcEffectSlotParams propsAt apply slot sorted_slots context).2.2.1 = sorted_slots) ∧
    (slot.Update = none →
      CalcEffectSlotParams propsAt apply slot sorted_slots context =
        (false, slot, sorted_slots, context)) ∧
    (∀ (Target : SlotPtr → Option SlotPtr) (auxslots : List SlotPtr) (first : SlotPtr)
        (others : List (Option SlotPtr)),
      ProcessContexts_sorted_slots partition Target auxslots (some first :: others) =
        some first :: others) ∧
    (∀ (auxslots : List SlotPtr) (slots : SlotPtr → EffectSlotUpdate Params)
        (first : SlotPtr) (others : List (Option SlotPtr)) (force : Bool),
      (∀ s ∈ auxslots, ∀ p, (slots s).Update = some p →
        (propsAt p).Target = (slots s).Target) →
      blockSortedSlots partition propsAt apply auxslots slots (some first :: others) context
          force = some first :: others ∧
      ∀ s, ((updateEffectSlots propsAt apply auxslots slots (some first :: others) context
          force).1 s).Target = (slots s).Target) := by
  refine ⟨?_, ?_, ?_, ?_, ?_⟩
  · rintro ⟨p, hu, ht⟩
    unfold CalcEffectSlotParams
    rw [hu]
    simp only []
    rw [if_pos ht]
  · intro hno
    unfold CalcEffectSlotParams
    cases hu : slot.Update with
    | none => rfl
    | some p =>
      simp only []
      have ht : ¬ slot.Target ≠ (propsAt p).Target := fun h => hno ⟨p, hu, h⟩
      rw [if_neg ht]
  · intro hu
    unfold CalcEffectSlotParams
    rw [hu]
  · intro Target auxslots first others
    unfold ProcessContexts_sorted_slots
    split_ifs <;> rfl
  · intro auxslots slots first others force h
    obtain ⟨h1, h2⟩ := updateEffectSlots_same_target propsAt apply auxslots slots
      (some first :: others) context force h
    refine ⟨?_, h2⟩
    unfold blockSortedSlots
    simp only []
    rw [h1]
    unfold ProcessContexts_sorted_slots
    split_ifs <;> rfl

/-- Witness for C33: slot 1 has a pending update with its current target 2; the
sorted array `[1, 2]` is left as it is by the update and by the block. -/
theorem CalcEffectSlotParams_sorted_witness :
    (¬ ∃ p, (exampleSlotUpdates 1).Update = some p ∧
      (exampleSlotUpdates 1).Target ≠ (exampleSlotProps p).Target) ∧
    (CalcEffectSlotParams exampleSlotProps (fun _ _ a c => (a + 1, c + 1))
      (exampleSlotUpdates 1) [some 1, some 2] (0 : Nat)).2.2.1 = [some 1, some 2] ∧
    blockSortedSlots stablePartition exampleSlotProps (fun _ _ a c => (a + 1, c + 1)) [1, 2]
      exampleSlotUpdates [some 1, some 2] (0 : Nat) false = [some 1, some 2] := by
  have hno : ¬ ∃ p, (exampleSlotUpdates 1).Update = some p ∧
      (exampleSlotUpdates 1).Target ≠ (exampleSlotProps p).Target := by
    rintro ⟨p, hu, ht⟩
    have hp : p = 5 := by
      simp [exampleSlotUpdates] at hu
      exact hu.symm
    subst hp
    exact ht rfl
  have hsame : ∀ s ∈ ([1, 2] : List SlotPtr), ∀ p, (exampleSlotUpdates s).Update = some p →
      (exampleSlotProps p).Target = (exampleSlotUpdates s).Target := by
    intro s hs p hp
    simp only [List.mem_cons, List.mem_singleton, List.not_mem_nil, or_false] at hs
    rcases hs with rfl | rfl
    · have : p = 5 := by
        simp [exampleSlotUpdates] at hp
        exact hp.symm
      subst this
      rfl
    · simp [exampleSlotUpdates] at hp
  exact ⟨hno,
    (CalcEffectSlotParams_sorted stablePartition exampleSlotProps
      (fun _ _ a c => (a + 1, c + 1)) (exampleSlotUpdates 1) [some 1, some 2] (0 : Nat)).2.1
      hno,
    ((CalcEffectSlotParams_sorted stablePartition exampleSlotProps
      (fun _ _ a c => (a + 1, c + 1)) (exampleSlotUpdates 1) [some 1, some 2]
      (0 : Nat)).2.2.2.2 [1, 2] exampleSlotUpdates 1 [some 2] false hsame).1⟩

/-! ## Ambisonic upsampling as a matrix product -/

theorem upsample_inner (MaxAmbiChannels : Nat) (upsampler rotator : Nat → Nat → ℚ) (i : Nat)
    (hi : i < MaxAmbiChannels) :
    ∀ (K : Nat) (out : Nat → Nat → ℚ), K ≤ MaxAmbiChannels →
      ∃ out1, (List.range K).foldlM (fun out1 k =>
          if i < MaxAmbiChannels ∧ k < MaxAmbiChannels then
            some (upsampleRow MaxAmbiChannels rotator (upsampler i k) i k out1)
          else none) out = some out1 ∧
        (∀ x, x < MaxAmbiChannels →
          out1 i x = out i x + ∑ k ∈ Finset.range K, upsampler i k * rotator k x) ∧
        (∀ y x, (y ≠ i ∨ MaxAmbiChannels ≤ x) → out1 y x = out y x) := by
  intro K
  induction K with
  | zero =>
    intro out _
    exact ⟨out, rfl, fun x _ => by simp, fun _ _ _ => rfl⟩
  | succ K ih =>
    intro out hK
    obtain ⟨mid, hm, hsum, hother⟩ := ih out (by omega)
    rw [List.range_succ, List.foldlM_append, hm]
    have hK' : K < MaxAmbiChannels := by omega
    refine ⟨upsampleRow MaxAmbiChannels rotator (upsampler i K) i K mid, ?_, ?_, ?_⟩
    · simp only [List.foldlM_cons, List.foldlM_nil, bind_pure, Option.bind_eq_bind,
        Option.some_bind]
      rw [if_pos ⟨hi, hK'⟩]
    · intro x hx
      unfold upsampleRow
      rw [if_pos ⟨rfl, hx⟩, hsum x hx, Finset.sum_range_succ]
      ring
    · intro y x hyx
      unfold upsampleRow
      have hneg : ¬ (y = i ∧ x < MaxAmbiChannels) := by
        rintro ⟨h1, h2⟩
        rcases hyx with h | h
        · exact h h1
        · omega
      rw [if_neg hneg]
      exact hother y x hyx

theorem upsample_outer (MaxAmbiChannels num_chans : Nat) (upsampler rotator : Nat → Nat → ℚ)
    (hnum : num_chans ≤ MaxAmbiChannels) :
    ∀ (N : Nat) (out : Nat → Nat → ℚ), N ≤ MaxAmbiChannels →
      ∃ out1, (List.range N).foldlM (fun out i =>
          (List.range num_chans).foldlM (fun out1 k =>
            if i < MaxAmbiChannels ∧ k < MaxAmbiChannels then
              some (upsampleRow MaxAmbiChannels rotator (upsampler i k) i k out1)
            else none) out) out = some out1 ∧
        (∀ i x, i < N → x < MaxAmbiChannels →
          out1 i x = out i x + ∑ k ∈ Finset.range num_chans, upsampler i k * rotator k x) ∧
        (∀ y x, (N ≤ y ∨ MaxAmbiChannels ≤ x) → out1 y x = out y x) := by
  intro N
  induction N with
  | zero =>
    intro out _
    exact ⟨out, rfl, fun i x hi _ => absurd hi (Nat.not_lt_zero i), fun _ _ _ => rfl⟩
  | succ N ih =>
    intro out hN
    obtain ⟨mid, hm, hsum, hother⟩ := ih out (by omega)
    rw [List.range_succ, List.foldlM_append, hm]
    obtain ⟨out1, h1, h2, h3⟩ := upsample_inner MaxAmbiChannels upsampler rotator N
      (by omega) num_chans mid hnum
    refine ⟨out1, ?_, ?_, ?_⟩
    · simp only [List.foldlM_cons, List.foldlM_nil, bind_pure, Option.bind_eq_bind,
        Option.some_bind]
      rw [h1]
    · intro i x hi hx
      by_cases hiN : i = N
      · subst hiN
        rw [h2 x hx, hother i x (Or.inl (le_refl _))]
      · rw [h3 i x (Or.inl hiN)]
        exact hsum i x (by omega) hx
    · intro y x hyx
      have hy : y ≠ N ∨ MaxAmbiChannels ≤ x := by
        rcases hyx with h | h
        · exact Or.inl (by omega)
        · exact Or.inr h
      rw [h3 y x hy]
      apply hother
      rcases hyx with h | h
      · exact Or.inl (by omega)
      · exact Or.inr h

/-- C34: `UpsampleBFormatTransform` computes a matrix product. With at most
`MaxAmbiChannels` upsampler rows and `AmbiChannelsFromOrder(ambi_order) =
(ambi_order + 1)^2` at most `MaxAmbiChannels`, the function completes, every entry
`output[i][j]` with `i` below `upsampler.size()` and `j` below `MaxAmbiChannels` is
the sum over `k < (ambi_order + 1)^2` of `upsampler[i][k] * rotator[k][j]`, and
the rows of `output` at or beyond `upsampler.size()` are left unchanged. -/
theorem UpsampleBFormatTransform_product (MaxAmbiChannels : Nat)
    (AmbiChannelsFromOrder : Nat → Nat) (output : Nat → Nat → ℚ) (upsampler_size : Nat)
    (upsampler rotator : Nat → Nat → ℚ) (ambi_order : Nat)
    (hsize : upsampler_size ≤ MaxAmbiChannels)
    (hchans : AmbiChannelsFromOrder ambi_order = (ambi_order + 1) ^ 2)
    (horder : (ambi_order + 1) ^ 2 ≤ MaxAmbiChannels) :
    ∃ out, UpsampleBFormatTransform MaxAmbiChannels AmbiChannelsFromOrder output
        upsampler_size upsampler rotator ambi_order = some out ∧
      (∀ i j, i < upsampler_size → j < MaxAmbiChannels →
        out i j = upsampleProduct upsampler rotator ambi_order i j) ∧
      (∀ i j, upsampler_size ≤ i → out i j = output i j) := by
  unfold UpsampleBFormatTransform
  simp only []
  rw [hchans]
  obtain ⟨out1, h1, h2, h3⟩ := upsample_outer MaxAmbiChannels ((ambi_order + 1) ^ 2) upsampler
    rotator horder upsampler_size
    (fun y x => if y < upsampler_size ∧ y < MaxAmbiChannels ∧ x < MaxAmbiChannels then 0
      else output y x) (by omega)
  refine ⟨out1, h1, ?_, ?_⟩
  · intro i j hi hj
    rw [h2 i j hi hj, if_pos ⟨hi, by omega, hj⟩, zero_add]
    rfl
  · intro i j hi
    rw [h3 i j (Or.inl hi), if_neg (by omega)]

/-- Witness for C34: a first-order layout (`MaxAmbiChannels = 4`), two upsampler
rows, the identity as rotator. -/
theorem UpsampleBFormatTransform_product_witness :
    ∃ out, UpsampleBFormatTransform 4 (fun n => (n + 1) ^ 2) (fun _ _ => 7) 2
        (fun i k => (i + 2 * k : ℚ)) (fun k j => if k = j then 1 else 0) 1 = some out ∧
      (∀ i j, i < 2 → j < 4 →
        out i j = upsampleProduct (fun i k => (i + 2 * k : ℚ))
          (fun k j => if k = j then 1 else 0) 1 i j) ∧
      (∀ i j, 2 ≤ i → out i j = 7) :=
  UpsampleBFormatTransform_product 4 (fun n => (n + 1) ^ 2) (fun _ _ => 7) 2
    (fun i k => (i + 2 * k : ℚ)) (fun k j => if k = j then 1 else 0) 1 (by decide) rfl
    (by decide)

/-! ## The sorted slots are a permutation of the active slots -/

theorem sortLoop_perm
    {partition : (SlotPtr → Bool) → List SlotPtr → List SlotPtr × List SlotPtr}
    (Target : SlotPtr → Option SlotPtr) (hpart : IsStdPartition partition) :
    ∀ (n : Nat) (sorted : List SlotPtr) (split_point : Nat),
      (sortLoop partition Target n sorted split_point).Perm sorted := by
  intro n
  induction n with
  | zero => intro sorted split_point; simp only [sortLoop]; exact List.Perm.refl _
  | succ m ih =>
    intro sorted split_point
    simp only [sortLoop]
    by_cases hsp : split_point > 1
    · rw [if_pos hsp]
      by_cases hbrk : m + 1 = split_point
      · rw [if_pos hbrk]
      · rw [if_neg hbrk]
        refine (ih _ _).trans ?_
        have hp := (hpart (fun slot => Target slot != sorted[m]?) (sorted.take split_point)).1
        have := hp.append_right (sorted.drop split_point)
        rwa [List.take_append_drop] at this
    · rw [if_neg hsp]

theorem sortSlots_perm
    {partition : (SlotPtr → Bool) → List SlotPtr → List SlotPtr × List SlotPtr}
    (Target : SlotPtr → Option SlotPtr) (hpart : IsStdPartition partition)
    (auxslots : List SlotPtr) : (sortSlots partition Target auxslots).Perm auxslots := by
  unfold sortSlots
  simp only []
  refine (sortLoop_perm Target hpart _ _ _).trans ?_
  rw [partition_copy_eq]
  simp only [List.nil_append, List.append_nil]
  have h1 : (List.filter (has_target Target) auxslots.reverse ++
      (List.filter (fun s => !has_target Target s) auxslots.reverse).reverse).Perm
      (List.filter (has_target Target) auxslots.reverse ++
        List.filter (fun s => !has_target Target s) auxslots.reverse) :=
    List.Perm.append_left _ (List.reverse_perm _)
  exact (h1.trans (List.filter_append_perm _ _)).trans (List.reverse_perm _)

/-- C35: for every `Target` configuration of a non-empty active slot list with at
least one slot without target (cycles and orphans included), and any
`std::partition` meeting the standard's contract, the sorted array that
`ProcessContexts` produces when `sorted_slots[0]` is null is a permutation of the
active slot list: every slot occurs in it as often as in the active list, hence
exactly once when the active slots are distinct, and its effect is processed
exactly once per block. The assertion `split_point != sorted_slots.end()` holds. -/
theorem ProcessContexts_sorted_perm
    (partition : (SlotPtr → Bool) → List SlotPtr → List SlotPtr × List SlotPtr)
    (Target : SlotPtr → Option SlotPtr) (auxslots : List SlotPtr)
    (sorted_slots : List (Option SlotPtr))
    (hpart : IsStdPartition partition) (hne : auxslots ≠ [])
    (hnull : ∃ s ∈ auxslots, Target s = none)
    (hfirst : sorted_slots[0]? = some none) :
    (partition_copy (has_target Target) auxslots.reverse [] []).1.length < auxslots.length ∧
    ∃ sorted : List SlotPtr, ProcessContexts_sorted_slots partition Target auxslots sorted_slots =
        sorted.map some ∧
      sorted.Perm auxslots ∧
      (∀ s, sorted.count s = auxslots.count s) ∧
      (auxslots.Nodup → sorted.Nodup ∧ ∀ s ∈ auxslots, sorted.count s = 1) := by
  constructor
  · rw [partition_copy_eq]
    simp only [List.nil_append]
    obtain ⟨s, hs, ht⟩ := hnull
    have hlen : (List.filter (has_target Target) auxslots.reverse).length <
        auxslots.reverse.length := by
      apply List.length_filter_lt_length_iff_exists.mpr
      exact ⟨s, List.mem_reverse.mpr hs, by simp [has_target, ht]⟩
    rwa [List.length_reverse] at hlen
  · have hperm := sortSlots_perm Target hpart auxslots
    refine ⟨sortSlots partition Target auxslots, ?_, hperm, fun s => hperm.count_eq s, ?_⟩
    · unfold ProcessContexts_sorted_slots
      have hemp : auxslots.isEmpty = false := by
        cases auxslots with
        | nil => exact absurd rfl hne
        | cons a l => rfl
      rw [hemp]
      cases sorted_slots with
      | nil => simp at hfirst
      | cons a l =>
        simp only [List.getElem?_cons_zero, Option.some.injEq] at hfirst
        subst hfirst
        rfl
    · intro hnd
      have hnd' : (sortSlots partition Target auxslots).Nodup := hperm.nodup_iff.mpr hnd
      refine ⟨hnd', ?_⟩
      intro s hs
      exact List.count_eq_one_of_mem hnd' (hperm.mem_iff.mpr hs)

/-- Witness for C35: slots 1 and 2 target each other, slot 3 targets a slot that is
not active, slot 4 has no target; the sorted array holds the four slots. -/
theorem ProcessContexts_sorted_perm_witness :
    ([1, 2, 3, 4] : List SlotPtr) ≠ [] ∧
    (∃ s ∈ ([1, 2, 3, 4] : List SlotPtr), cycleTarget s = none) ∧
    ∃ sorted : List SlotPtr, ProcessContexts_sorted_slots stablePartition cycleTarget [1, 2, 3, 4]
        [none, none, none, none] = sorted.map some ∧
      sorted.Perm [1, 2, 3, 4] :=
  ⟨by decide, ⟨4, by decide, rfl⟩,
    let ⟨sorted, h1, h2, _⟩ := (ProcessContexts_sorted_perm stablePartition cycleTarget
      [1, 2, 3, 4] [none, none, none, none] stablePartition_isStdPartition (by decide)
      ⟨4, by decide, rfl⟩ (by decide)).2
    ⟨sorted, h1, h2⟩⟩

/-! ## IMA4: ranges of the decoder state -/

theorem clamp_int_bounds {lo hi : Int} (h : lo ≤ hi) (v : Int) :
    lo ≤ clamp v lo hi ∧ clamp v lo hi ≤ hi := by
  unfold clamp
  split_ifs with a b
  · exact ⟨le_refl _, h⟩
  · exact ⟨h, le_refl _⟩
  · exact ⟨not_lt.mp a, not_lt.mp b⟩

theorem tableAt_ok (table : List Int) (i : Nat) (h : i < table.length) :
    tableAt table i = Except.ok table[i] := by
  unfold tableAt
  rw [List.getElem?_eq_getElem h]
  rfl

theorem nibble_lt (b s : Nat) : (b >>> s) &&& 0xf < 16 := by
  have h : (b >>> s) &&& 0xf = (b >>> s) % 2 ^ 4 := Nat.and_pow_two_sub_one_eq_mod _ 4
  rw [h]
  exact Nat.mod_lt _ (by norm_num)

theorem sign_extend_range (lo hi : Nat) (hlo : lo < 256) (hhi : hi < 256) :
    -32768 ≤ (((lo ||| (hi <<< 8)) ^^^ 0x8000 : Nat) : Int) - 32768 ∧
    (((lo ||| (hi <<< 8)) ^^^ 0x8000 : Nat) : Int) - 32768 ≤ 32767 := by
  have h1 : lo ||| (hi <<< 8) < 2 ^ 16 := by
    apply Nat.or_lt_two_pow
    · omega
    · rw [Nat.shiftLeft_eq]
      omega
  have h2 : (lo ||| (hi <<< 8)) ^^^ 0x8000 < 2 ^ 16 :=
    Nat.xor_lt_two_pow h1 (by norm_num)
  omega

theorem spanAt_lt (src : List Nat) (i b : Nat) (h : spanAt src i = Except.ok b) : b < 256 := by
  unfold spanAt at h
  cases hs : src[i]? with
  | none => rw [hs] at h; cases h
  | some v =>
    rw [hs] at h
    cases h
    exact Nat.mod_lt _ (by norm_num)

theorem IMA4_block_header_range (srcChan srcStep blockBytes : Nat) (src : List Nat)
    (r : (Int × Int) × List Nat × List Nat)
    (h : IMA4_block_header srcChan srcStep blockBytes src = Except.ok r) :
    (-32768 ≤ r.1.1 ∧ r.1.1 ≤ 32767) ∧ (0 ≤ r.1.2 ∧ r.1.2 ≤ 88) := by
  unfold IMA4_block_header at h
  obtain ⟨b0, h0, h⟩ := Load.bind_eq_ok h
  obtain ⟨b1, h1, h⟩ := Load.bind_eq_ok h
  obtain ⟨b2, h2, h⟩ := Load.bind_eq_ok h
  obtain ⟨b3, h3, h⟩ := Load.bind_eq_ok h
  obtain ⟨nd, h4, h⟩ := Load.bind_eq_ok h
  obtain ⟨s1, h5, h⟩ := Load.bind_eq_ok h
  cases h
  refine ⟨sign_extend_range b0 b1 (spanAt_lt _ _ _ h0) (spanAt_lt _ _ _ h1), ?_⟩
  have hm : MaxStepIndex = 88 := by decide
  rw [hm]
  exact clamp_int_bounds (by norm_num) _

theorem IMA4_decode_nibble_range (nibbleData : List Nat) (srcStep : Nat) (state : Int × Int)
    (off : Nat) (hidx : 0 ≤ state.2 ∧ state.2 ≤ 88) :
    toUInt state.2 < IMAStep_size.length ∧
    (∀ b, spanAt nibbleData ((off >>> 1) / 4 * 4 * srcStep + ((off >>> 1) &&& 3)) =
        Except.ok b →
      ∃ r, IMA4_decode_nibble nibbleData srcStep state off = Except.ok r) ∧
    (∀ r, IMA4_decode_nibble nibbleData srcStep state off = Except.ok r →
      (-32768 ≤ r.1 ∧ r.1 ≤ 32767) ∧ (0 ≤ r.2 ∧ r.2 ≤ 88)) := by
  have hlen : IMAStep_size.length = 89 := by decide
  have hu : toUInt state.2 < IMAStep_size.length := by
    rw [hlen]
    have : (toUInt state.2 : Int) = state.2 := toUInt_of_nonneg hidx.1 (by omega)
    omega
  have hm : MaxStepIndex = 88 := by decide
  refine ⟨hu, ?_, ?_⟩
  · intro b hb
    unfold IMA4_decode_nibble
    simp only []
    rw [hb]
    have hn := nibble_lt b ((off &&& 1) * 4)
    rw [show (Except.ok b >>= _) = _ from rfl]
    simp only [bind, Except.bind]
    rw [tableAt_ok IMA4Codeword _ (by simpa using hn), tableAt_ok IMAStep_size _ hu,
      tableAt_ok IMA4Index_adjust _ (by simpa using hn)]
    exact ⟨_, rfl⟩
  · intro r h
    unfold IMA4_decode_nibble at h
    obtain ⟨b, _, h⟩ := Load.bind_eq_ok h
    obtain ⟨cw, _, h⟩ := Load.bind_eq_ok h
    obtain ⟨st, _, h⟩ := Load.bind_eq_ok h
    obtain ⟨adj, _, h⟩ := Load.bind_eq_ok h
    cases h
    refine ⟨clamp_int_bounds (by norm_num) _, ?_⟩
    rw [hm]
    exact clamp_int_bounds (by norm_num) _

theorem IMA4_decode_run_range (nibbleData : List Nat) (srcStep : Nat) :
    ∀ (k : Nat) (state : Int × Int) (off : Nat) (r : (Int × Int) × List Int),
      (0 ≤ state.2 ∧ state.2 ≤ 88) →
      IMA4_decode_run nibbleData srcStep k state off = Except.ok r →
      (0 ≤ r.1.2 ∧ r.1.2 ≤ 88) ∧ ∀ s ∈ r.2, -32768 ≤ s ∧ s ≤ 32767 := by
  intro k
  induction k with
  | zero =>
    intro state off r hs h
    simp only [IMA4_decode_run, pure, Except.pure] at h
    cases h
    exact ⟨hs, fun s hs => by simp at hs⟩
  | succ k ih =>
    intro state off r hs h
    simp only [IMA4_decode_run] at h
    obtain ⟨s1, h1, h⟩ := Load.bind_eq_ok h
    obtain ⟨rest, h2, h⟩ := Load.bind_eq_ok h
    cases h
    obtain ⟨hr1, hr2⟩ := (IMA4_decode_nibble_range nibbleData srcStep state off hs).2.2 s1 h1
    obtain ⟨i1, i2⟩ := ih s1 (off + 1) rest hr2 h2
    refine ⟨i1, ?_⟩
    intro s hmem
    rcases List.mem_cons.mp hmem with rfl | hm
    · exact hr1
    · exact i2 s hm

theorem sampleToFloat_range {s : Int} (h : -32768 ≤ s ∧ s ≤ 32767) :
    -1 ≤ sampleToFloat s ∧ sampleToFloat s < 1 := by
  unfold sampleToFloat
  have h1 : (-32768 : ℚ) ≤ (s : ℚ) := by exact_mod_cast h.1
  have h2 : (s : ℚ) ≤ 32767 := by exact_mod_cast h.2
  constructor
  · rw [le_div_iff₀ (by norm_num)]; linarith
  · rw [div_lt_iff₀ (by norm_num)]; linarith

theorem IMA4_blocks_range (srcChan srcStep spb : Nat) :
    ∀ (fuel : Nat) (src : List Nat) (skip n : Nat) (out : List ℚ),
      LoadSamples_IMA4_blocks srcChan srcStep spb fuel src skip n = Except.ok out →
      ∀ x ∈ out, -1 ≤ x ∧ x < 1 := by
  intro fuel
  induction fuel with
  | zero =>
    intro src skip n out h
    cases n with
    | zero =>
      simp only [LoadSamples_IMA4_blocks, pure, Except.pure] at h
      cases h
      intro x hx
      simp at hx
    | succ n => simp [LoadSamples_IMA4_blocks, throw, throwThe, MonadExceptOf.throw] at h
  | succ fuel ih =>
    intro src skip n out h
    cases n with
    | zero =>
      simp only [LoadSamples_IMA4_blocks, pure, Except.pure] at h
      cases h
      intro x hx
      simp at hx
    | succ n =>
      simp only [LoadSamples_IMA4_blocks] at h
      obtain ⟨header, hh, h⟩ := Load.bind_eq_ok h
      obtain ⟨hsmp, hidx⟩ := IMA4_block_header_range _ _ _ _ _ hh
      have hfirst := sampleToFloat_range hsmp
      have key : ∀ (written : List ℚ) (remaining skip1 : Nat),
          (∀ x ∈ written, -1 ≤ x ∧ x < 1) →
          (do
            let skipped ← IMA4_decode_run header.2.1 srcStep skip1 header.1 0
            let decoded ← IMA4_decode_run header.2.1 srcStep
              (min remaining (spb - (skip1 + 1))) skipped.1 skip1
            let rest ← LoadSamples_IMA4_blocks srcChan srcStep spb fuel header.2.2 0
              (remaining - min remaining (spb - (skip1 + 1)))
            pure (written ++ decoded.2.map sampleToFloat ++ rest)) = Except.ok out →
          ∀ x ∈ out, -1 ≤ x ∧ x < 1 := by
        intro written remaining skip1 hw h
        obtain ⟨r1, h1, h⟩ := Load.bind_eq_ok h
        obtain ⟨r2, h2, h⟩ := Load.bind_eq_ok h
        obtain ⟨rest, h3, h⟩ := Load.bind_eq_ok h
        cases h
        obtain ⟨hi1, _⟩ := IMA4_decode_run_range _ _ _ _ _ _ hidx h1
        obtain ⟨_, hs2⟩ := IMA4_decode_run_range _ _ _ _ _ _ hi1 h2
        have hrest := ih _ _ _ _ h3
        intro x hx
        rcases List.mem_append.mp hx with hx | hx
        · rcases List.mem_append.mp hx with hx | hx
          · exact hw x hx
          · obtain ⟨s, hs, rfl⟩ := List.mem_map.mp hx
            exact sampleToFloat_range (hs2 s hs)
        · exact hrest x hx
      by_cases h0 : skip = 0
      · simp only [h0, if_true] at h
        by_cases hrem : n = 0
        · rw [if_pos hrem] at h
          cases h
          intro x hx
          rcases List.mem_singleton.mp hx with rfl
          exact hfirst
        · rw [if_neg hrem] at h
          exact key _ _ _ (fun x hx => by
            rcases List.mem_singleton.mp hx with rfl
            exact hfirst) h
      · simp only [h0, if_false] at h
        rw [if_neg (by omega)] at h
        exact key _ _ _ (fun x hx => by simp at hx) h

/-- C36: in the IMA4 decoder, for every block header and every nibble sequence, the
step index lies in `[0, 88]` and the predictor sample in `[-32768, 32767]` after
the header and after each decoded nibble; hence every `IMAStep_size` lookup is in
range (the lookups of `decode_nibble` do not fail: it completes whenever its
nibble byte is inside the data) and every output sample of `LoadSamples<IMA4Data>`
lies in `[-1, 1)`. -/
theorem IMA4_state_ranges (srcChan srcStep samplesPerBlock : Nat) :
    (∀ (blockBytes : Nat) (src : List Nat) (r : (Int × Int) × List Nat × List Nat),
      IMA4_block_header srcChan srcStep blockBytes src = Except.ok r →
      (-32768 ≤ r.1.1 ∧ r.1.1 ≤ 32767) ∧ (0 ≤ r.1.2 ∧ r.1.2 ≤ 88)) ∧
    (∀ (nibbleData : List Nat) (state : Int × Int) (nibbleOffset : Nat),
      (0 ≤ state.2 ∧ state.2 ≤ 88) →
      toUInt state.2 < IMAStep_size.length ∧
      (∀ b, spanAt nibbleData ((nibbleOffset >>> 1) / 4 * 4 * srcStep +
          ((nibbleOffset >>> 1) &&& 3)) = Except.ok b →
        ∃ r, IMA4_decode_nibble nibbleData srcStep state nibbleOffset = Except.ok r) ∧
      (∀ r, IMA4_decode_nibble nibbleData srcStep state nibbleOffset = Except.ok r →
        (-32768 ≤ r.1 ∧ r.1 ≤ 32767) ∧ (0 ≤ r.2 ∧ r.2 ≤ 88))) ∧
    (∀ (fuel dstSize : Nat) (src : List Nat) (srcOffset : Nat) (out : List ℚ),
      LoadSamples_IMA4 fuel dstSize src srcChan srcOffset srcStep samplesPerBlock =
        Except.ok out →
      ∀ x ∈ out, -1 ≤ x ∧ x < 1) ∧
    (∀ (fuel dstSize : Nat) (src : List Nat) (srcOffset : Nat),
      1 < samplesPerBlock → dstSize ≤ fuel →
      LoadSamples_IMA4 fuel dstSize src srcChan srcOffset srcStep samplesPerBlock ≠
        Except.error LoadError.outOfFuel) := by
  refine ⟨fun blockBytes src r h => IMA4_block_header_range _ _ _ _ _ h,
    fun nibbleData state off hs => IMA4_decode_nibble_range nibbleData srcStep state off hs,
    ?_, ?_⟩
  · intro fuel dstSize src srcOffset out h
    unfold LoadSamples_IMA4 at h
    obtain ⟨src1, _, h⟩ := Load.bind_eq_ok h
    exact IMA4_blocks_range _ _ _ _ _ _ _ _ h
  · intro fuel dstSize src srcOffset hspb hf
    unfold LoadSamples_IMA4
    exact Load.bind_ne_outOfFuel (subspan_ne_outOfFuel _ _)
      fun _ _ => IMA4_blocks_ne_outOfFuel _ _ _ _ _ _ _ (Nat.mod_lt _ (by omega)) hf

/-- Witness for C36: three samples from offset 5 of the example buffer of two
9-sample blocks lie in `[-1, 1)`. -/
theorem IMA4_state_ranges_witness :
    LoadSamples_IMA4 2 3 ima4Example 0 5 1 9 =
      Except.ok [sampleToFloat 3, sampleToFloat 34, sampleToFloat 38] ∧
    ∀ x ∈ [sampleToFloat 3, sampleToFloat 34, sampleToFloat 38], -1 ≤ x ∧ x < 1 :=
  ⟨rfl, (IMA4_state_ranges 0 1 9).2.2.1 2 3 ima4Example 5 _ rfl⟩

/-! ## MSADPCM: the scale is not bounded from above -/

/-- Whenever `decode_nibble` of the MSADPCM decoder completes, the new sample lies in
`[-32768, 32767]`, the old sample has moved to the second history place and the new
scale is at least 16. -/
theorem MSADPCM_decode_nibble_result (nibbleData : List Nat) (coeffs : Int × Int)
    (state : Int × Int × Int) (off : Nat) (r : Int × Int × Int)
    (h : MSADPCM_decode_nibble nibbleData coeffs state off = Except.ok r) :
    (-32768 ≤ r.1 ∧ r.1 ≤ 32767) ∧ r.2.1 = state.1 ∧ 16 ≤ r.2.2 := by
  unfold MSADPCM_decode_nibble at h
  obtain ⟨b, _, h⟩ := Load.bind_eq_ok h
  obtain ⟨pred, _, h⟩ := Load.bind_eq_ok h
  obtain ⟨mixed, _, h⟩ := Load.bind_eq_ok h
  obtain ⟨sum, _, h⟩ := Load.bind_eq_ok h
  obtain ⟨adaption, _, h⟩ := Load.bind_eq_ok h
  obtain ⟨scaled, _, h⟩ := Load.bind_eq_ok h
  cases h
  refine ⟨?_, rfl, le_max_left _ _⟩
  unfold clamp
  split_ifs with a b
  · exact ⟨le_refl _, by norm_num⟩
  · exact ⟨by norm_num, le_refl _⟩
  · exact ⟨not_lt.mp a, not_lt.mp b⟩

theorem checkedInt_ok {v : Int} (h1 : -2147483648 ≤ v) (h2 : v ≤ 2147483647) :
    checkedInt v = Except.ok v := by
  unfold checkedInt
  rw [if_pos ⟨h1, h2⟩]
  rfl

theorem checkedInt_of_abs {v : Int} (h : |v| ≤ 2147483647) : checkedInt v = Except.ok v := by
  obtain ⟨h1, h2⟩ := abs_le.mp h
  exact checkedInt_ok (by linarith) h2

theorem abs_tdiv_le (a b : Int) : |a.tdiv b| ≤ |a| := by
  rw [Int.abs_eq_natAbs, Int.abs_eq_natAbs, Int.natAbs_tdiv]
  exact_mod_cast Nat.div_le_self _ _

theorem abs_mul_le {a b A B : Int} (ha : |a| ≤ A) (hb : |b| ≤ B) : |a * b| ≤ A * B := by
  rw [abs_mul]
  exact mul_le_mul ha hb (abs_nonneg _) (le_trans (abs_nonneg _) ha)

/-- The intermediate values of `decode_nibble` stay inside the signed 32-bit range
as long as the scale is at most `2796202` (the largest value whose product with the
adaption 768 fits): with history samples in the 16-bit range and coefficients from
the table, `decode_nibble` completes whenever its nibble byte is inside the data. -/
theorem MSADPCM_decode_nibble_safe (nibbleData : List Nat) (coeffs : Int × Int)
    (state : Int × Int × Int) (off b : Nat)
    (hc : coeffs ∈ MSADPCMAdaptionCoeff)
    (hh0 : -32768 ≤ state.1 ∧ state.1 ≤ 32767)
    (hh1 : -32768 ≤ state.2.1 ∧ state.2.1 ≤ 32767)
    (hs : -32768 ≤ state.2.2 ∧ state.2.2 ≤ 2796202)
    (hb : spanAt nibbleData (off >>> 1) = Except.ok b) :
    ∃ r, MSADPCM_decode_nibble nibbleData coeffs state off = Except.ok r := by
  have hcoef : ∀ c ∈ MSADPCMAdaptionCoeff, |c.1| ≤ 512 ∧ |c.2| ≤ 256 := by decide
  have hadapt : ∀ a ∈ MSADPCMAdaption, 0 ≤ a ∧ a ≤ 768 := by decide
  have hxor : ∀ n < 16, |((n ^^^ 0x08 : Nat) : Int) - 0x08| ≤ 8 := by decide
  obtain ⟨hc1, hc2⟩ := hcoef coeffs hc
  have hn := nibble_lt b (((off &&& 1) ^^^ 1) * 4)
  have hk := hxor _ hn
  have hlen : MSADPCMAdaption.length = 16 := by decide
  have hin : ((b >>> (((off &&& 1) ^^^ 1) * 4)) &&& 0xf) < MSADPCMAdaption.length := by
    rw [hlen]; exact hn
  obtain ⟨ha0, ha1⟩ := hadapt _ (List.getElem_mem hin)
  generalize hA : MSADPCMAdaption[(b >>> (((off &&& 1) ^^^ 1) * 4)) &&& 0xf] = A at ha0 ha1
  have htab : tableAt MSADPCMAdaption ((b >>> (((off &&& 1) ^^^ 1) * 4)) &&& 0xf) =
      Except.ok A := by
    rw [tableAt_ok _ _ hin, hA]
  generalize hK : (((b >>> (((off &&& 1) ^^^ 1) * 4)) &&& 0xf ^^^ 0x08 : Nat) : Int) - 0x08 = K
    at hk
  obtain ⟨h0, h1, scale⟩ := state
  simp only at hh0 hh1 hs
  have hsabs : |scale| ≤ 2796202 := abs_le.mpr ⟨by linarith [hs.1], hs.2⟩
  have hh0abs : |h0| ≤ 32768 := abs_le.mpr ⟨hh0.1, by linarith [hh0.2]⟩
  have hh1abs : |h1| ≤ 32768 := abs_le.mpr ⟨hh1.1, by linarith [hh1.2]⟩
  have hpred : |K * scale| ≤ 8 * 2796202 := abs_mul_le hk hsabs
  have hm0 : |h0 * coeffs.1| ≤ 32768 * 512 := abs_mul_le hh0abs hc1
  have hm1 : |h1 * coeffs.2| ≤ 32768 * 256 := abs_mul_le hh1abs hc2
  have hmixed : |h0 * coeffs.1 + h1 * coeffs.2| ≤ 32768 * 512 + 32768 * 256 :=
    le_trans (abs_add _ _) (add_le_add hm0 hm1)
  have hdiff : |(h0 * coeffs.1 + h1 * coeffs.2).tdiv 256| ≤ 32768 * 512 + 32768 * 256 :=
    le_trans (abs_tdiv_le _ _) hmixed
  have hsum : |K * scale + (h0 * coeffs.1 + h1 * coeffs.2).tdiv 256| ≤
      8 * 2796202 + (32768 * 512 + 32768 * 256) :=
    le_trans (abs_add _ _) (add_le_add hpred hdiff)
  have hAabs : |A| ≤ 768 := abs_le.mpr ⟨by linarith, ha1⟩
  have hscaled : |A * scale| ≤ 768 * 2796202 := abs_mul_le hAabs hsabs
  have e1 := checkedInt_of_abs (le_trans hpred (by norm_num))
  have e2 := checkedInt_of_abs (le_trans hmixed (by norm_num))
  have e3 := checkedInt_of_abs (le_trans hsum (by norm_num))
  have e4 := checkedInt_of_abs (le_trans hscaled (by norm_num))
  unfold MSADPCM_decode_nibble
  simp only []
  rw [hb]
  simp only [bind, Except.bind]
  rw [hK, e1]
  simp only []
  rw [e2]
  simp only []
  rw [e3]
  simp only []
  rw [htab]
  simp only []
  rw [e4]
  exact ⟨_, rfl⟩

/-- C37 at a block whose scale grows: with the initial scale `0x7FFF` and nibbles of
value 8, each decoded nibble triples the scale (`32767, 98301, 294903, 884709,
2654127, 7962381`); decoding the sixth nibble computes `MSADPCMAdaption[8] * scale =
768 * 7962381 = 6115108608`, outside the signed 32-bit range. Seven samples of the
block (two from the header, five nibbles) are decoded; the eighth is not. -/
theorem LoadSamples_MSADPCM_scale_overflow :
    LoadSamples_MSADPCM 1 8 msadpcmGrowingScale 0 0 1 10 =
      Except.error LoadError.intOverflow ∧
    LoadSamples_MSADPCM 1 7 msadpcmGrowingScale 0 0 1 10 =
      Except.ok ([0, 0, -32768, -32768, -32768, -32768, -32768].map sampleToFloat) ∧
    MSADPCM_decode_run (msadpcmGrowingScale.drop 7) (256, 0) 1 5 (0, 0, 32767) 0 =
      Except.ok ((-32768, -32768, 7962381), [-32768, -32768, -32768, -32768, -32768]) ∧
    MSADPCM_decode_nibble (msadpcmGrowingScale.drop 7) (256, 0) (-32768, -32768, 7962381) 5 =
      Except.error LoadError.intOverflow ∧
    (2147483647 : Int) < 768 * 7962381 := by
  refine ⟨?_, ?_, ?_, ?_, by norm_num⟩
  · rfl
  · rfl
  · rfl
  · rfl

/-! ## Azimuth scaling -/

theorem triple_angle_unit {x z : ℝ} (h : x ^ 2 + z ^ 2 = 1) :
    (x * 3 - x * x * x * 4) ^ 2 + (z * z * z * 4 - z * 3) ^ 2 = 1 := by
  linear_combination ((4 * (x ^ 2 + z ^ 2) - 1) ^ 2 - 48 * x ^ 2 * z ^ 2) * h

theorem cos30_binary32_lt : ((cos30_binary32 : ℚ) : ℝ) < Real.cos (Real.pi / 6) := by
  have e : ((cos30_binary32 : ℚ) : ℝ) = 14529495 / 16777216 := by
    unfold cos30_binary32
    push_cast
    rfl
  rw [e, Real.cos_pi_div_six, lt_div_iff₀ (by norm_num : (0 : ℝ) < 2)]
  rw [Real.lt_sqrt (by norm_num)]
  norm_num

theorem cos30_binary32_next : Real.cos (Real.pi / 6) < 14529496 / 16777216 := by
  rw [Real.cos_pi_div_six, div_lt_iff₀ (by norm_num : (0 : ℝ) < 2)]
  rw [Real.sqrt_lt' (by norm_num)]
  norm_num

theorem triple_at_bound (theta C : ℝ) (hC2 : C ^ 2 = 3 / 4) (heq : C = Real.cos theta) :
    Real.sin (3 * theta) = (if 0 ≤ Real.sin theta then 1 else -1) ∧
    Real.cos (3 * theta) = 0 := by
  rw [Real.sin_three_mul, Real.cos_three_mul]
  have hcos2 : Real.cos theta ^ 2 = 3 / 4 := by rw [← heq]; exact hC2
  have hsin2 : Real.sin theta ^ 2 = 1 / 4 := by
    have := Real.sin_sq_add_cos_sq theta
    linarith
  have hfac : (Real.sin theta - 1 / 2) * (Real.sin theta + 1 / 2) = 0 := by
    linear_combination hsin2
  constructor
  · by_cases hp : 0 ≤ Real.sin theta
    · rw [if_pos hp]
      have hs1 : Real.sin theta = 1 / 2 := by
        rcases mul_eq_zero.mp hfac with h | h
        · linarith
        · linarith
      rw [hs1]; norm_num
    · rw [if_neg hp]
      have hs1 : Real.sin theta = -(1 / 2) := by
        rcases mul_eq_zero.mp hfac with h | h
        · linarith
        · linarith
      rw [hs1]; norm_num
  · have : 4 * Real.cos theta ^ 3 - 3 * Real.cos theta =
        Real.cos theta * (4 * Real.cos theta ^ 2 - 3) := by ring
    rw [this, hcos2]
    ring

/-- On every binary32 value `z` the test `z > 0.866025403785f` of
`ScaleAzimuthFront3` is the test `z > cos(pi/6)` of its comment: the binary32 values
above 1/2 are multiples of `2^-24`, the literal is `14529495 / 2^24`, and
`cos(pi/6)` lies between it and the next multiple. -/
theorem cos30_binary32_test (z : ℝ) (hz : z ≤ 1 / 2 ∨ ∃ k : ℤ, z = (k : ℝ) / 16777216) :
    ((cos30_binary32 : ℚ) : ℝ) < z ↔ Real.cos (Real.pi / 6) < z := by
  have h1 := cos30_binary32_lt
  have h2 := cos30_binary32_next
  have e : ((cos30_binary32 : ℚ) : ℝ) = 14529495 / 16777216 := by
    unfold cos30_binary32
    push_cast
    rfl
  constructor
  · intro h
    rcases hz with hz | ⟨k, rfl⟩
    · rw [e] at h
      exfalso
      linarith
    · rw [e, div_lt_div_iff_of_pos_right (by norm_num : (0 : ℝ) < 16777216)] at h
      have hk : (14529495 : ℤ) < k := by exact_mod_cast h
      have hk1 : (14529496 : ℝ) ≤ (k : ℝ) := by exact_mod_cast (by omega : (14529496 : ℤ) ≤ k)
      have : (14529496 : ℝ) / 16777216 ≤ (k : ℝ) / 16777216 :=
        div_le_div_of_nonneg_right hk1 (by norm_num)
      linarith
  · intro h
    linarith

/-- The literal `0.866025403785f` denotes `cos30_binary32`: it is the binary32 value
nearest to `0.866025403785`. -/
theorem roundBinary32_cos30 :
    roundBinary32 (866025403785 / 1000000000000) = cos30_binary32 := by
  rw [roundBinary32_eq _ (-1) 14529495 (by norm_num [abs_of_pos]) (by norm_num [abs_of_pos])
    (by norm_num) (by norm_num [abs_lt])]
  unfold cos30_binary32
  norm_num

/-- On every `float` result `z` (every value of `roundBinary32`) the test
`z > 0.866025403785f` is the test `z > cos(pi/6)`. -/
theorem cos30_binary32_test_rounded (q : ℚ) :
    ((cos30_binary32 : ℚ) : ℝ) < ((roundBinary32 q : ℚ) : ℝ) ↔
      Real.cos (Real.pi / 6) < ((roundBinary32 q : ℚ) : ℝ) := by
  apply cos30_binary32_test
  rcases roundBinary32_grid q with h | ⟨k, hk⟩
  · left
    have : ((roundBinary32 q : ℚ) : ℝ) ≤ ((1 / 2 : ℚ) : ℝ) := by exact_mod_cast h
    simpa using this
  · right
    refine ⟨k, ?_⟩
    rw [hk]
    push_cast
    rfl

/-- With `cos30_binary32` as the bound, `ScaleAzimuthFront3` over the reals is the
function with the bound `cos(pi/6)` at every `pos` whose quotient `z` is a binary32
value. -/
theorem ScaleAzimuthFront3_binary32_bound (sqrt : ℝ → ℝ) (copysign : ℝ → ℝ → ℝ)
    (pos : ℝ × ℝ × ℝ)
    (hz : -pos.2.2 / sqrt (pos.1 * pos.1 + pos.2.2 * pos.2.2) ≤ 1 / 2 ∨
      ∃ k : ℤ, -pos.2.2 / sqrt (pos.1 * pos.1 + pos.2.2 * pos.2.2) = (k : ℝ) / 16777216) :
    ScaleAzimuthFront3 sqrt copysign ((cos30_binary32 : ℚ) : ℝ) pos =
      ScaleAzimuthFront3 sqrt copysign (Real.cos (Real.pi / 6)) pos := by
  unfold ScaleAzimuthFront3
  simp only [gt_iff_lt, cos30_binary32_test _ hz]

/-- C40: over the reals, with the bound `cos(pi/6)` of the test, `ScaleAzimuthFront3`
returns its input unchanged when `pos[2] >= 0`; for every `pos` with `pos[2] < 0` it
preserves `pos[1]` and the horizontal length `sqrt(pos[0]^2 + pos[2]^2)`, hence the
norm; it maps an azimuth within 30 degrees to three times the azimuth and every
other frontal azimuth to exactly 90 degrees to the side of `pos[0]` (`pos[2] = 0`).
The azimuth is `theta` with `pos[0] = L sin theta` and `pos[2] = -L cos theta`, `L`
being the horizontal length. -/
theorem ScaleAzimuthFront3_spec (copysign : ℝ → ℝ → ℝ)
    (hcopy : ∀ a b : ℝ, 0 ≤ a → (0 ≤ b → copysign a b = a) ∧ (b < 0 → copysign a b = -a))
    (pos : ℝ × ℝ × ℝ) :
    (0 ≤ pos.2.2 →
      ScaleAzimuthFront3 Real.sqrt copysign (Real.cos (Real.pi / 6)) pos = pos) ∧
    (pos.2.2 < 0 →
      (ScaleAzimuthFront3 Real.sqrt copysign (Real.cos (Real.pi / 6)) pos).2.1 = pos.2.1 ∧
      Real.sqrt ((ScaleAzimuthFront3 Real.sqrt copysign (Real.cos (Real.pi / 6)) pos).1 ^ 2 +
          (ScaleAzimuthFront3 Real.sqrt copysign (Real.cos (Real.pi / 6)) pos).2.2 ^ 2) =
        Real.sqrt (pos.1 ^ 2 + pos.2.2 ^ 2) ∧
      (ScaleAzimuthFront3 Real.sqrt copysign (Real.cos (Real.pi / 6)) pos).1 ^ 2 +
          (ScaleAzimuthFront3 Real.sqrt copysign (Real.cos (Real.pi / 6)) pos).2.1 ^ 2 +
          (ScaleAzimuthFront3 Real.sqrt copysign (Real.cos (Real.pi / 6)) pos).2.2 ^ 2 =
        pos.1 ^ 2 + pos.2.1 ^ 2 + pos.2.2 ^ 2 ∧
      ∀ theta L : ℝ, 0 < L → pos.1 = L * Real.sin theta → pos.2.2 = -(L * Real.cos theta) →
        (|theta| ≤ Real.pi / 6 →
          (ScaleAzimuthFront3 Real.sqrt copysign (Real.cos (Real.pi / 6)) pos).1 =
            L * Real.sin (3 * theta) ∧
          (ScaleAzimuthFront3 Real.sqrt copysign (Real.cos (Real.pi / 6)) pos).2.2 =
            -(L * Real.cos (3 * theta))) ∧
        (Real.pi / 6 ≤ |theta| → |theta| ≤ Real.pi →
          (ScaleAzimuthFront3 Real.sqrt copysign (Real.cos (Real.pi / 6)) pos).1 =
            (if 0 ≤ Real.sin theta then L else -L) ∧
          (ScaleAzimuthFront3 Real.sqrt copysign (Real.cos (Real.pi / 6)) pos).2.2 = 0) ∧
        (Real.cos (Real.pi / 6) < Real.cos theta →
          (ScaleAzimuthFront3 Real.sqrt copysign (Real.cos (Real.pi / 6)) pos).1 =
            L * Real.sin (3 * theta) ∧
          (ScaleAzimuthFront3 Real.sqrt copysign (Real.cos (Real.pi / 6)) pos).2.2 =
            -(L * Real.cos (3 * theta))) ∧
        (Real.cos theta ≤ Real.cos (Real.pi / 6) →
          (ScaleAzimuthFront3 Real.sqrt copysign (Real.cos (Real.pi / 6)) pos).1 =
            (if 0 ≤ Real.sin theta then L else -L) ∧
          (ScaleAzimuthFront3 Real.sqrt copysign (Real.cos (Real.pi / 6)) pos).2.2 = 0)) := by
  generalize hC : Real.cos (Real.pi / 6) = C
  have hC2 : C ^ 2 = 3 / 4 := by
    rw [← hC, Real.cos_pi_div_six, div_pow, Real.sq_sqrt (by norm_num)]
    norm_num
  have hCpos : 0 < C := by
    rw [← hC]
    exact Real.cos_pos_of_mem_Ioo ⟨by linarith [Real.pi_pos], by linarith [Real.pi_pos]⟩
  refine ⟨?_, ?_⟩
  · intro h
    unfold ScaleAzimuthFront3
    rw [if_neg (not_lt.mpr h)]
  · intro hneg
    have hs : 0 < pos.1 * pos.1 + pos.2.2 * pos.2.2 := by nlinarith [mul_self_nonneg pos.1]
    have hlen : 0 < Real.sqrt (pos.1 * pos.1 + pos.2.2 * pos.2.2) := Real.sqrt_pos.mpr hs
    have hsq : Real.sqrt (pos.1 * pos.1 + pos.2.2 * pos.2.2) *
        Real.sqrt (pos.1 * pos.1 + pos.2.2 * pos.2.2) = pos.1 * pos.1 + pos.2.2 * pos.2.2 :=
      Real.mul_self_sqrt (le_of_lt hs)
    generalize hl : Real.sqrt (pos.1 * pos.1 + pos.2.2 * pos.2.2) = len at hlen hsq
    have hne : len ≠ 0 := ne_of_gt hlen
    have hunit : (pos.1 / len) ^ 2 + (-pos.2.2 / len) ^ 2 = 1 := by
      field_simp
      nlinarith [hsq]
    have hval : ScaleAzimuthFront3 Real.sqrt copysign C pos =
        if -pos.2.2 / len > C then
          ((pos.1 / len * 3 - pos.1 / len * (pos.1 / len) * (pos.1 / len) * 4) * len, pos.2.1,
            -((-pos.2.2 / len) * (-pos.2.2 / len) * (-pos.2.2 / len) * 4 -
              (-pos.2.2 / len) * 3) * len)
        else (copysign len pos.1, pos.2.1, 0) := by
      unfold ScaleAzimuthFront3
      rw [if_pos hneg]
      simp only []
      rw [hl]
    have hcs : copysign len pos.1 ^ 2 = len ^ 2 := by
      rcases lt_or_le pos.1 0 with h | h
      · rw [((hcopy len pos.1 (le_of_lt hlen)).2 h)]; ring
      · rw [((hcopy len pos.1 (le_of_lt hlen)).1 h)]
    have hlen2 : pos.1 ^ 2 + pos.2.2 ^ 2 = len ^ 2 := by nlinarith [hsq]
    have hplane : (ScaleAzimuthFront3 Real.sqrt copysign C pos).1 ^ 2 +
        (ScaleAzimuthFront3 Real.sqrt copysign C pos).2.2 ^ 2 = pos.1 ^ 2 + pos.2.2 ^ 2 := by
      rw [hval, hlen2]
      split
      · have h3 := triple_angle_unit hunit
        simp only []
        nlinarith [h3]
      · simp only []
        rw [hcs]; ring
    have hy : (ScaleAzimuthFront3 Real.sqrt copysign C pos).2.1 = pos.2.1 := by
      rw [hval]
      split <;> rfl
    refine ⟨hy, by rw [hplane], by rw [hy]; linarith [hplane], ?_⟩
    intro theta L hL hx hz
    have hLlen : len = L := by
      have h1 : len ^ 2 = L ^ 2 := by
        rw [← hlen2, hx, hz]
        linear_combination L ^ 2 * Real.sin_sq_add_cos_sq theta
      have h2 : (len - L) * (len + L) = 0 := by linear_combination h1
      rcases mul_eq_zero.mp h2 with h | h
      · linarith
      · linarith
    have hxl : pos.1 / len = Real.sin theta := by
      rw [hLlen, hx]; field_simp
    have hzl : -pos.2.2 / len = Real.cos theta := by
      rw [hLlen, hz]; field_simp
    rw [hval, hxl, hzl, hLlen]
    have htriple : C < Real.cos theta →
        (if Real.cos theta > C then
            ((Real.sin theta * 3 - Real.sin theta * Real.sin theta * Real.sin theta * 4) * L,
              pos.2.1,
              -(Real.cos theta * Real.cos theta * Real.cos theta * 4 - Real.cos theta * 3) * L)
          else (copysign L pos.1, pos.2.1, 0)).1 = L * Real.sin (3 * theta) ∧
        (if Real.cos theta > C then
            ((Real.sin theta * 3 - Real.sin theta * Real.sin theta * Real.sin theta * 4) * L,
              pos.2.1,
              -(Real.cos theta * Real.cos theta * Real.cos theta * 4 - Real.cos theta * 3) * L)
          else (copysign L pos.1, pos.2.1, 0)).2.2 = -(L * Real.cos (3 * theta)) := by
      intro hc
      rw [if_pos hc]
      simp only []
      rw [Real.sin_three_mul, Real.cos_three_mul]
      constructor <;> ring
    have hclamp : Real.cos theta ≤ C →
        (if Real.cos theta > C then
            ((Real.sin theta * 3 - Real.sin theta * Real.sin theta * Real.sin theta * 4) * L,
              pos.2.1,
              -(Real.cos theta * Real.cos theta * Real.cos theta * 4 - Real.cos theta * 3) * L)
          else (copysign L pos.1, pos.2.1, 0)).1 = (if 0 ≤ Real.sin theta then L else -L) ∧
        (if Real.cos theta > C then
            ((Real.sin theta * 3 - Real.sin theta * Real.sin theta * Real.sin theta * 4) * L,
              pos.2.1,
              -(Real.cos theta * Real.cos theta * Real.cos theta * 4 - Real.cos theta * 3) * L)
          else (copysign L pos.1, pos.2.1, 0)).2.2 = 0 := by
      intro hc
      rw [if_neg (not_lt.mpr hc)]
      simp only []
      refine ⟨?_, trivial⟩
      by_cases hp : 0 ≤ Real.sin theta
      · rw [if_pos hp]
        exact (hcopy L pos.1 (le_of_lt hL)).1 (by rw [hx]; exact mul_nonneg (le_of_lt hL) hp)
      · rw [if_neg hp]
        exact (hcopy L pos.1 (le_of_lt hL)).2
          (by rw [hx]; exact mul_neg_of_pos_of_neg hL (not_le.mp hp))
    refine ⟨?_, ?_, htriple, hclamp⟩
    · intro hth
      have hge : C ≤ Real.cos theta := by
        rw [← hC, ← Real.cos_abs theta]
        exact Real.cos_le_cos_of_nonneg_of_le_pi (abs_nonneg _) (by linarith [Real.pi_pos]) hth
      rcases lt_or_eq_of_le hge with hlt | heq
      · exact htriple hlt
      · obtain ⟨h1, h2⟩ := hclamp (le_of_eq heq.symm)
        obtain ⟨h3, h4⟩ := triple_at_bound theta C hC2 heq
        rw [h1, h2, h3, h4]
        constructor
        · split <;> ring
        · ring
    · intro hlo hhi
      apply hclamp
      rw [← hC, ← Real.cos_abs theta]
      exact Real.cos_le_cos_of_nonneg_of_le_pi (by linarith [Real.pi_pos]) hhi hlo

/-- Witness for C40: the vector `(3, 7, -4)` of horizontal length 5 keeps `pos[1] = 7`
and its norm, and `(3, 7, 4)`, behind, is returned unchanged. -/
theorem ScaleAzimuthFront3_spec_witness :
    (ScaleAzimuthFront3 Real.sqrt (fun a b : ℝ => if b < 0 then -a else a)
        (Real.cos (Real.pi / 6)) ((3 : ℝ), (7 : ℝ), (-4 : ℝ))).2.1 = 7 ∧
    (ScaleAzimuthFront3 Real.sqrt (fun a b : ℝ => if b < 0 then -a else a)
        (Real.cos (Real.pi / 6)) ((3 : ℝ), (7 : ℝ), (-4 : ℝ))).1 ^ 2 +
      (ScaleAzimuthFront3 Real.sqrt (fun a b : ℝ => if b < 0 then -a else a)
        (Real.cos (Real.pi / 6)) ((3 : ℝ), (7 : ℝ), (-4 : ℝ))).2.1 ^ 2 +
      (ScaleAzimuthFront3 Real.sqrt (fun a b : ℝ => if b < 0 then -a else a)
        (Real.cos (Real.pi / 6)) ((3 : ℝ), (7 : ℝ), (-4 : ℝ))).2.2 ^ 2 =
        3 ^ 2 + 7 ^ 2 + (-4) ^ 2 ∧
    ScaleAzimuthFront3 Real.sqrt (fun a b : ℝ => if b < 0 then -a else a)
        (Real.cos (Real.pi / 6)) ((3 : ℝ), (7 : ℝ), (4 : ℝ)) = ((3 : ℝ), (7 : ℝ), (4 : ℝ)) := by
  have hcopy : ∀ a b : ℝ, 0 ≤ a →
      (0 ≤ b → (fun a b : ℝ => if b < 0 then -a else a) a b = a) ∧
      (b < 0 → (fun a b : ℝ => if b < 0 then -a else a) a b = -a) := by
    intro a b _
    exact ⟨fun h => if_neg (not_lt.mpr h), fun h => if_pos h⟩
  have h1 := (ScaleAzimuthFront3_spec _ hcopy ((3 : ℝ), (7 : ℝ), (-4 : ℝ))).2
    (by norm_num)
  have h2 := (ScaleAzimuthFront3_spec _ hcopy ((3 : ℝ), (7 : ℝ), (4 : ℝ))).1 (by norm_num)
  exact ⟨h1.1, h1.2.2.1, h2⟩

/-! ## Ambisonic rotator -/

theorem toSize_of_nonneg {v : Int} (h0 : 0 ≤ v) (h1 : v < 18446744073709551616) :
    toSize v = v.toNat := by
  unfold toSize
  rw [Int.emod_eq_of_lt h0 h1]

theorem toSize_of_neg {v : Int} (h0 : v < 0) (h1 : -18446744073709551616 ≤ v) :
    toSize v = (v + 18446744073709551616).toNat := by
  unfold toSize
  have h : v % 18446744073709551616 = v + 18446744073709551616 := by
    rw [← Int.add_emod_self]
    exact Int.emod_eq_of_lt (by linarith) (by linarith)
  rw [h]

theorem zadd_of_lt {a b : Nat} (h : a + b < 18446744073709551616) : zadd a b = a + b := by
  unfold zadd SizeRange
  exact Nat.mod_eq_of_lt h

theorem zmul_of_lt {a b : Nat} (h : a * b < 18446744073709551616) : zmul a b = a * b := by
  unfold zmul SizeRange
  exact Nat.mod_eq_of_lt h

theorem CalcRotatorSize_step (l : Nat) (h1 : 1 ≤ l) (h2 : l < 23170)
    (hb : CalcRotatorSize l ≤ l * 2147488281) :
    CalcRotatorSize (l + 1) = ((l + 1) * 2 + 1) * ((l + 1) * 2 + 1) + CalcRotatorSize l ∧
    CalcRotatorSize (l + 1) ≤ (l + 1) * 2147488281 := by
  have e1 : zmul (l + 1) 2 = (l + 1) * 2 := zmul_of_lt (by linarith)
  have e2 : zadd ((l + 1) * 2) 1 = (l + 1) * 2 + 1 := zadd_of_lt (by linarith)
  have hsq : ((l + 1) * 2 + 1) * ((l + 1) * 2 + 1) ≤ 46341 * 46341 :=
    Nat.mul_le_mul (by linarith) (by linarith)
  have e3 : zmul ((l + 1) * 2 + 1) ((l + 1) * 2 + 1) =
      ((l + 1) * 2 + 1) * ((l + 1) * 2 + 1) := zmul_of_lt (by linarith)
  have e4 : zadd (((l + 1) * 2 + 1) * ((l + 1) * 2 + 1)) (CalcRotatorSize l) =
      ((l + 1) * 2 + 1) * ((l + 1) * 2 + 1) + CalcRotatorSize l :=
    zadd_of_lt (by linarith)
  have e : CalcRotatorSize (l + 1) =
      ((l + 1) * 2 + 1) * ((l + 1) * 2 + 1) + CalcRotatorSize l := by
    rw [CalcRotatorSize, if_pos (by linarith), e1, e2, e3, e4]
  exact ⟨e, by rw [e]; linarith⟩

theorem CalcRotatorSize_bound : ∀ l : Nat, l ≤ 23170 → CalcRotatorSize l ≤ l * 2147488281
  | 0, _ => by simp [CalcRotatorSize]
  | 1, _ => by simp [CalcRotatorSize]
  | l + 2, h =>
    (CalcRotatorSize_step (l + 1) (by linarith) (by linarith)
      (CalcRotatorSize_bound (l + 1) (by linarith))).2

theorem CalcRotatorSize_succ (l : Nat) (h1 : 1 ≤ l) (h2 : l < 23170) :
    CalcRotatorSize (l + 1) = ((l + 1) * 2 + 1) * ((l + 1) * 2 + 1) + CalcRotatorSize l :=
  (CalcRotatorSize_step l h1 h2 (CalcRotatorSize_bound l (by linarith))).1

theorem RotatorCoeffs_entry_zero (sqrt : ℚ → ℚ)
    (hsqrt : ∀ x : ℚ, 0 ≤ x → (sqrt x = 0 ↔ x = 0)) (l m n : Int) (hl : 2 ≤ l)
    (hm : |m| ≤ l) (hn : |n| ≤ l) :
    ((RotatorCoeffs_entry sqrt l m n).u = 0 ↔ |m| = l) ∧
    (RotatorCoeffs_entry sqrt l m n).v ≠ 0 ∧
    ((RotatorCoeffs_entry sqrt l m n).w = 0 ↔ (m = 0 ∨ l - 1 ≤ |m|)) := by
  have hdenom : (0 : ℚ) <
      ((if |n| = l then (2 * l) * (2 * l - 1) else (l * l - n * n) : Int) : ℚ) := by
    have hi : (0 : Int) < (if |n| = l then (2 * l) * (2 * l - 1) else (l * l - n * n)) := by
      split
      · nlinarith
      · rename_i hne
        have h1 : |n| < l := lt_of_le_of_ne hn hne
        have h2 : 0 ≤ |n| := abs_nonneg n
        have h3 : n * n = |n| * |n| := (abs_mul_abs_self n).symm
        rw [h3]
        nlinarith
    exact_mod_cast hi
  unfold RotatorCoeffs_entry
  simp only []
  generalize ((if |n| = l then (2 * l) * (2 * l - 1) else (l * l - n * n) : Int) : ℚ) = denom
    at hdenom
  have key : ∀ k : Int, 0 ≤ k → (sqrt ((k : ℚ) / denom) = 0 ↔ k = 0) := by
    intro k hk
    have hk' : (0 : ℚ) ≤ (k : ℚ) := by exact_mod_cast hk
    rw [hsqrt _ (div_nonneg hk' (le_of_lt hdenom)), div_eq_zero_iff]
    constructor
    · rintro (h | h)
      · exact_mod_cast h
      · exact absurd h (ne_of_gt hdenom)
    · intro h
      left
      exact_mod_cast h
  have ha0 : 0 ≤ |m| := abs_nonneg m
  have hmm : m * m = |m| * |m| := (abs_mul_abs_self m).symm
  by_cases hm0 : m = 0
  · rw [if_pos hm0]
    simp only []
    refine ⟨?_, ?_, ?_⟩
    · rw [key (l * l) (by nlinarith)]
      constructor
      · intro h
        nlinarith
      · intro h
        rw [hm0] at h
        simp at h
        omega
    · intro h
      rcases mul_eq_zero.mp h with h | h
      · rw [key ((l - 1) * l) (by nlinarith)] at h
        nlinarith
      · norm_num at h
    · exact ⟨fun _ => Or.inl hm0, fun _ => trivial⟩
  · rw [if_neg hm0]
    simp only []
    have ha1 : 1 ≤ |m| := by
      have := abs_pos.mpr hm0
      omega
    refine ⟨?_, ?_, ?_⟩
    · rw [key (l * l - m * m) (by rw [hmm]; nlinarith)]
      constructor
      · intro h
        rw [hmm] at h
        have h2 : (l - |m|) * (l + |m|) = 0 := by linarith
        rcases mul_eq_zero.mp h2 with h3 | h3
        · omega
        · omega
      · intro h
        rw [hmm, h]
        ring
    · intro h
      rcases mul_eq_zero.mp h with h | h
      · rw [key ((l + |m| - 1) * (l + |m|)) (by nlinarith)] at h
        nlinarith
      · norm_num at h
    · have hk : 0 ≤ (l - |m| - 1) * (l - |m|) := by
        rcases eq_or_lt_of_le hm with h | h
        · rw [h]; simp
        · exact mul_nonneg (by omega) (by omega)
      constructor
      · intro h
        right
        rcases mul_eq_zero.mp h with h | h
        · rw [key _ hk] at h
          rcases mul_eq_zero.mp h with h3 | h3
          · omega
          · omega
        · norm_num at h
      · rintro (h | h)
        · exact absurd h hm0
        · have h0 : (l - |m| - 1) * (l - |m|) = 0 := by
            rcases eq_or_lt_of_le hm with h3 | h3
            · rw [h3]; simp
            · have : l - |m| - 1 = 0 := by omega
              rw [this]; simp
          rw [(key _ hk).mpr h0]
          simp

theorem band_index (last_band : Nat) (v : Int) (k : Nat) (hv : v = (k : Int))
    (h : last_band + k < 18446744073709551616) :
    zadd last_band (toSize v) = last_band + k := by
  have hk : k < 18446744073709551616 := by linarith
  have e : toSize v = k := by
    rw [toSize_of_nonneg (by rw [hv]; exact Int.ofNat_nonneg k)
      (by rw [hv]; exact_mod_cast hk), hv]
    exact Int.toNat_natCast k
  rw [e, zadd_of_lt h]

theorem band_last_row (last_band L : Nat) (hL : 1 ≤ L)
    (h : last_band + 2 * L < 18446744073709551616) :
    zadd last_band (zmul (toSize ((L : Int) - 1)) 2) = last_band + 2 * (L - 1) := by
  have e : toSize ((L : Int) - 1) = L - 1 := by
    rw [toSize_of_nonneg (by omega) (by omega)]
    omega
  rw [e, zmul_of_lt (by omega), zadd_of_lt (by omega)]
  ring

theorem P_isSome (M : AmbiRotateMatrix) (last_band L : Nat) (i a n : Int) (hL : 2 ≤ L)
    (hfirst : ∀ r c : Nat, 1 ≤ r → r ≤ 3 → 1 ≤ c → c ≤ 3 → (M r c).isSome = true)
    (hband : ∀ r c : Nat, last_band ≤ r → r ≤ last_band + 2 * (L - 1) → last_band ≤ c →
      c ≤ last_band + 2 * (L - 1) → (M r c).isSome = true)
    (hwrap : last_band + 2 * L < 18446744073709551616)
    (hi : -1 ≤ i ∧ i ≤ 1) (ha : -((L : Int) - 1) ≤ a ∧ a ≤ (L : Int) - 1)
    (hn : -(L : Int) ≤ n ∧ n ≤ (L : Int)) :
    (P i L a n last_band M).isSome = true := by
  have e3 : toSize (1 + 2) = 3 := by rw [toSize_of_nonneg (by norm_num) (by norm_num)]; rfl
  have e1 : toSize (-1 + 2) = 1 := by rw [toSize_of_nonneg (by norm_num) (by norm_num)]; rfl
  have e2 : toSize (0 + 2) = 2 := by rw [toSize_of_nonneg (by norm_num) (by norm_num)]; rfl
  have ei : toSize (i + 2) = (i + 2).toNat := toSize_of_nonneg (by omega) (by omega)
  have hc1 : 1 ≤ (i + 2).toNat := by omega
  have hc3 : (i + 2).toNat ≤ 3 := by omega
  obtain ⟨k, hk⟩ := Int.eq_ofNat_of_zero_le (by omega : 0 ≤ a + (L : Int) - 1)
  have hk2 : k ≤ 2 * (L - 1) := by omega
  have ey : zadd last_band (toSize (a + (L : Int) - 1)) = last_band + k :=
    band_index last_band _ k hk (by omega)
  obtain ⟨v3, h3⟩ := Option.isSome_iff_exists.mp (hfirst 3 (i + 2).toNat (by norm_num) le_rfl hc1 hc3)
  obtain ⟨v1, h1⟩ := Option.isSome_iff_exists.mp (hfirst 1 (i + 2).toNat le_rfl (by norm_num) hc1 hc3)
  obtain ⟨v2, h2⟩ := Option.isSome_iff_exists.mp (hfirst 2 (i + 2).toNat (by norm_num) (by norm_num) hc1 hc3)
  obtain ⟨w0, hw0⟩ := Option.isSome_iff_exists.mp
    (hband last_band (last_band + k) le_rfl (by omega) (by omega) (by omega))
  obtain ⟨w1, hw1⟩ := Option.isSome_iff_exists.mp
    (hband (last_band + 2 * (L - 1)) (last_band + k) (by omega) le_rfl (by omega) (by omega))
  have elast := band_last_row last_band L (by omega) hwrap
  by_cases hn1 : n = -(L : Int)
  · simp only [P, e3, e1, e2, ei, h3, h1, h2, ey, elast, hw0, hw1, if_pos hn1,
      Option.bind_eq_bind, Option.some_bind, Option.pure_def, Option.isSome_some]
  · by_cases hn2 : n = (L : Int)
    · simp only [P, e3, e1, e2, ei, h3, h1, h2, ey, elast, hw0, hw1, if_neg hn1, if_pos hn2,
        Option.bind_eq_bind, Option.some_bind, Option.pure_def, Option.isSome_some]
    · obtain ⟨j, hj⟩ := Int.eq_ofNat_of_zero_le (by omega : 0 ≤ (L : Int) - 1 + n)
      have ej := band_index last_band _ j hj (by omega)
      obtain ⟨w2, hw2⟩ := Option.isSome_iff_exists.mp
        (hband (last_band + j) (last_band + k) (by omega) (by omega) (by omega) (by omega))
      simp only [P, e3, e1, e2, ei, h3, h1, h2, ey, ej, hw2, if_neg hn1, if_neg hn2,
        Option.bind_eq_bind, Option.some_bind, Option.pure_def, Option.isSome_some]

theorem previousBandOnly_isSome (data : Nat → Nat → ℚ) (last_band : Nat) (l : Int) (r c : Nat) :
    (previousBandOnly data last_band l r c).isSome = true ↔
      ((1 ≤ r ∧ r ≤ 3 ∧ 1 ≤ c ∧ c ≤ 3) ∨
        (last_band ≤ r ∧ (r : Int) ≤ last_band + 2 * (l - 1) ∧
          last_band ≤ c ∧ (c : Int) ≤ last_band + 2 * (l - 1))) := by
  unfold previousBandOnly
  split
  · rename_i h
    simp [h]
  · rename_i h
    simp [h]

theorem previousBandOnly_column (data : Nat → Nat → ℚ) (last_band L : Nat) (r y : Nat)
    (hr : last_band ≤ r) (hlb : (last_band = 1 ∧ L = 2) ∨ 4 ≤ last_band)
    (hy : y < last_band ∨ last_band + 2 * (L - 1) < y) (hL : 2 ≤ L) :
    previousBandOnly data last_band L r y = none := by
  have h := previousBandOnly_isSome data last_band L r y
  cases hv : previousBandOnly data last_band (L : Int) r y with
  | none => rfl
  | some v =>
    rw [hv] at h
    have h2 := h.mp rfl
    exfalso
    omega

theorem band_column_outside (last_band L : Nat) (a : Int) (hL : 2 ≤ L) (hL2 : L < 23170)
    (hlb : last_band < 1073741824) (ha : -2147483648 ≤ a ∧ a < 2147483648)
    (hout : a < -((L : Int) - 1) ∨ (L : Int) - 1 < a) :
    zadd last_band (toSize (a + (L : Int) - 1)) < last_band ∨
      last_band + 2 * (L - 1) < zadd last_band (toSize (a + (L : Int) - 1)) := by
  rcases hout with h | h
  · rw [toSize_of_neg (by omega) (by omega)]
    obtain ⟨t, ht⟩ := Int.eq_ofNat_of_zero_le
      (by omega : 0 ≤ a + (L : Int) - 1 + 18446744073709551616)
    rw [ht, Int.toNat_natCast]
    unfold zadd SizeRange
    omega
  · obtain ⟨t, ht⟩ := Int.eq_ofNat_of_zero_le (by omega : 0 ≤ a + (L : Int) - 1)
    rw [band_index last_band _ t ht (by omega)]
    right
    omega

theorem P_outside (data : Nat → Nat → ℚ) (last_band L : Nat) (i a n : Int) (hL : 2 ≤ L)
    (hL2 : L < 23170) (hlb : last_band = (L - 1) * (L - 1))
    (hi : -1 ≤ i ∧ i ≤ 1) (ha : -2147483648 ≤ a ∧ a < 2147483648)
    (hn : -(L : Int) ≤ n ∧ n ≤ (L : Int))
    (hout : a < -((L : Int) - 1) ∨ (L : Int) - 1 < a) :
    P i L a n last_band (previousBandOnly data last_band L) = none := by
  have hlb1 : last_band < 1073741824 := by
    rw [hlb]
    have h1 : L - 1 ≤ 23170 := by omega
    calc (L - 1) * (L - 1) ≤ 23170 * 23170 := Nat.mul_le_mul h1 h1
      _ < 1073741824 := by norm_num
  have hlb2 : (last_band = 1 ∧ L = 2) ∨ 4 ≤ last_band := by
    rcases Nat.lt_or_ge L 3 with h | h
    · left
      have : L = 2 := by omega
      subst this
      exact ⟨hlb, rfl⟩
    · right
      rw [hlb]
      have h1 : 2 ≤ L - 1 := by omega
      calc 4 = 2 * 2 := rfl
        _ ≤ (L - 1) * (L - 1) := Nat.mul_le_mul h1 h1
  have e3 : toSize (1 + 2) = 3 := by rw [toSize_of_nonneg (by norm_num) (by norm_num)]; rfl
  have e1 : toSize (-1 + 2) = 1 := by rw [toSize_of_nonneg (by norm_num) (by norm_num)]; rfl
  have e2 : toSize (0 + 2) = 2 := by rw [toSize_of_nonneg (by norm_num) (by norm_num)]; rfl
  have ei : toSize (i + 2) = (i + 2).toNat := toSize_of_nonneg (by omega) (by omega)
  have hc1 : 1 ≤ (i + 2).toNat := by omega
  have hc3 : (i + 2).toNat ≤ 3 := by omega
  have hsome : ∀ r : Nat, 1 ≤ r → r ≤ 3 →
      ∃ v, previousBandOnly data last_band L r (i + 2).toNat = some v := fun r h1 h2 =>
    Option.isSome_iff_exists.mp
      ((previousBandOnly_isSome data last_band L r _).mpr (Or.inl ⟨h1, h2, hc1, hc3⟩))
  obtain ⟨v3, h3⟩ := hsome 3 (by norm_num) le_rfl
  obtain ⟨v1, h1⟩ := hsome 1 le_rfl (by norm_num)
  obtain ⟨v2, h2⟩ := hsome 2 (by norm_num) (by norm_num)
  have hy := band_column_outside last_band L a hL hL2 hlb1 ha hout
  have hcol : ∀ r : Nat, last_band ≤ r → previousBandOnly data last_band L r
      (zadd last_band (toSize (a + (L : Int) - 1))) = none := fun r hr =>
    previousBandOnly_column data last_band L r _ hr hlb2 hy hL
  have elast := band_last_row last_band L (by omega) (by omega)
  by_cases hn1 : n = -(L : Int)
  · simp only [P, e3, e1, e2, ei, h3, h1, h2, if_pos hn1, hcol last_band le_rfl,
      Option.bind_eq_bind, Option.some_bind, Option.none_bind]
  · by_cases hn2 : n = (L : Int)
    · simp only [P, e3, e1, e2, ei, h3, h1, h2, if_neg hn1, if_pos hn2, elast,
        hcol (last_band + 2 * (L - 1)) (by omega),
        Option.bind_eq_bind, Option.some_bind, Option.none_bind]
    · obtain ⟨j, hj⟩ := Int.eq_ofNat_of_zero_le (by omega : 0 ≤ (L : Int) - 1 + n)
      have ej := band_index last_band _ j hj (by omega)
      simp only [P, e3, e1, e2, ei, h3, h1, h2, if_neg hn1, if_neg hn2, ej,
        hcol (last_band + j) (by omega),
        Option.bind_eq_bind, Option.some_bind, Option.none_bind]

theorem V_isSome (sqrt2 : ℚ) (M : AmbiRotateMatrix) (last_band L : Nat) (m n : Int)
    (hL : 2 ≤ L)
    (hP : ∀ i a : Int, -1 ≤ i ∧ i ≤ 1 → -((L : Int) - 1) ≤ a ∧ a ≤ (L : Int) - 1 →
      (P i L a n last_band M).isSome = true)
    (hm : -(L : Int) ≤ m ∧ m ≤ (L : Int)) :
    (V sqrt2 L m n last_band M).isSome = true := by
  unfold V
  by_cases h : m > 0
  · obtain ⟨p0, h0⟩ := Option.isSome_iff_exists.mp
      (hP 1 (m - 1) (by norm_num) (by omega))
    obtain ⟨p1, h1⟩ := Option.isSome_iff_exists.mp
      (hP (-1) (-m + 1) (by norm_num) (by omega))
    simp only [if_pos h, h0, h1, Option.bind_eq_bind, Option.some_bind, Option.pure_def,
      Option.isSome_some]
  · obtain ⟨p0, h0⟩ := Option.isSome_iff_exists.mp
      (hP 1 (m + 1) (by norm_num) (by omega))
    obtain ⟨p1, h1⟩ := Option.isSome_iff_exists.mp
      (hP (-1) (-m - 1) (by norm_num) (by omega))
    simp only [if_neg h, h0, h1, Option.bind_eq_bind, Option.some_bind, Option.pure_def,
      Option.isSome_some]

theorem W_isSome (M : AmbiRotateMatrix) (last_band L : Nat) (m n : Int)
    (hP : ∀ i a : Int, -1 ≤ i ∧ i ≤ 1 → -((L : Int) - 1) ≤ a ∧ a ≤ (L : Int) - 1 →
      (P i L a n last_band M).isSome = true)
    (hm0 : m ≠ 0) (hm : |m| < (L : Int) - 1) :
    (W L m n last_band M).isSome = true := by
  have hm1 := abs_lt.mp hm
  unfold W
  rw [if_neg hm0]
  by_cases h : m > 0
  · obtain ⟨p0, h0⟩ := Option.isSome_iff_exists.mp
      (hP 1 (m + 1) (by norm_num) (by omega))
    obtain ⟨p1, h1⟩ := Option.isSome_iff_exists.mp
      (hP (-1) (-m - 1) (by norm_num) (by omega))
    simp only [if_pos h, h0, h1, Option.bind_eq_bind, Option.some_bind, Option.pure_def,
      Option.isSome_some]
  · obtain ⟨p0, h0⟩ := Option.isSome_iff_exists.mp
      (hP 1 (m - 1) (by norm_num) (by omega))
    obtain ⟨p1, h1⟩ := Option.isSome_iff_exists.mp
      (hP (-1) (-m + 1) (by norm_num) (by omega))
    simp only [if_neg h, h0, h1, Option.bind_eq_bind, Option.some_bind, Option.pure_def,
      Option.isSome_some]

theorem AmbiRotator_entry_isSome (sqrt : ℚ → ℚ) (sqrt2 : ℚ)
    (hsqrt : ∀ x : ℚ, 0 ≤ x → (sqrt x = 0 ↔ x = 0)) (M : AmbiRotateMatrix)
    (last_band L : Nat) (m n : Int) (hL : 2 ≤ L)
    (hfirst : ∀ r c : Nat, 1 ≤ r → r ≤ 3 → 1 ≤ c → c ≤ 3 → (M r c).isSome = true)
    (hband : ∀ r c : Nat, last_band ≤ r → r ≤ last_band + 2 * (L - 1) → last_band ≤ c →
      c ≤ last_band + 2 * (L - 1) → (M r c).isSome = true)
    (hwrap : last_band + 2 * L < 18446744073709551616)
    (hm : -(L : Int) ≤ m ∧ m ≤ (L : Int)) (hn : -(L : Int) ≤ n ∧ n ≤ (L : Int)) :
    (AmbiRotator_entry sqrt2 (RotatorCoeffs_entry sqrt L m n) L m n last_band M).isSome
      = true := by
  have hP : ∀ i a : Int, -1 ≤ i ∧ i ≤ 1 → -((L : Int) - 1) ≤ a ∧ a ≤ (L : Int) - 1 →
      (P i L a n last_band M).isSome = true := fun i a hi ha =>
    P_isSome M last_band L i a n hL hfirst hband hwrap hi ha hn
  have hc := RotatorCoeffs_entry_zero sqrt hsqrt L m n (by omega) (abs_le.mpr hm)
    (abs_le.mpr hn)
  generalize RotatorCoeffs_entry sqrt L m n = c at hc
  obtain ⟨hu, _, hw⟩ := hc
  have hU : c.u ≠ 0 → ∃ t, U L m n last_band M = some t := by
    intro h
    have h1 : |m| ≠ (L : Int) := fun e => h (hu.mpr e)
    have h2 : |m| < (L : Int) := lt_of_le_of_ne (abs_le.mpr hm) h1
    have h3 := abs_lt.mp h2
    exact Option.isSome_iff_exists.mp (hP 0 m (by norm_num) (by omega))
  obtain ⟨tv, hV⟩ := Option.isSome_iff_exists.mp (V_isSome sqrt2 M last_band L m n hL hP hm)
  have hW : c.w ≠ 0 → ∃ t, W L m n last_band M = some t := by
    intro h
    have h1 : ¬ (m = 0 ∨ (L : Int) - 1 ≤ |m|) := fun e => h (hw.mpr e)
    push_neg at h1
    exact Option.isSome_iff_exists.mp (W_isSome M last_band L m n hP h1.1 h1.2)
  unfold AmbiRotator_entry
  simp only [hV, Option.bind_eq_bind, Option.pure_def, Option.map_some']
  by_cases h1 : c.u ≠ 0
  · obtain ⟨tu, hU1⟩ := hU h1
    by_cases h2 : c.w ≠ 0
    · obtain ⟨tw, hW1⟩ := hW h2
      simp only [if_pos h1, if_pos h2, hU1, hW1, Option.map_some', Option.some_bind]
      split <;> rfl
    · simp only [if_pos h1, if_neg h2, hU1, Option.map_some', Option.some_bind]
      split <;> rfl
  · by_cases h2 : c.w ≠ 0
    · obtain ⟨tw, hW1⟩ := hW h2
      simp only [if_neg h1, if_pos h2, hW1, Option.map_some', Option.some_bind]
      split <;> rfl
    · simp only [if_neg h1, if_neg h2, Option.some_bind]
      split <;> rfl

theorem intRange_length (lo hi : Int) : (intRange lo hi).length = (hi + 1 - lo).toNat := by
  simp [intRange]

theorem mem_intRange {lo hi x : Int} (h : x ∈ intRange lo hi) : lo ≤ x ∧ x ≤ hi := by
  unfold intRange at h
  obtain ⟨k, hk, rfl⟩ := List.mem_map.mp h
  have := List.mem_range.mp hk
  omega

theorem intRange_empty {lo hi : Int} (h : hi < lo) : intRange lo hi = [] := by
  unfold intRange
  have : (hi + 1 - lo).toNat = 0 := by omega
  rw [this]
  rfl

theorem intRange_snoc {lo hi : Int} (h : lo ≤ hi + 1) :
    intRange lo (hi + 1) = intRange lo hi ++ [hi + 1] := by
  unfold intRange
  have e : (hi + 1 + 1 - lo).toNat = (hi + 1 - lo).toNat + 1 := by omega
  rw [e, List.range_succ, List.map_append]
  congr 1
  simp only [List.map_cons, List.map_nil]
  congr 1
  omega

theorem intRange_cons {lo hi : Int} (h : lo ≤ hi) :
    intRange lo hi = lo :: intRange (lo + 1) hi := by
  unfold intRange
  have e : (hi + 1 - lo).toNat = (hi + 1 - (lo + 1)).toNat + 1 := by omega
  rw [e, List.range_succ_eq_map, List.map_cons, List.map_map]
  congr 1
  · simp
  · apply List.map_congr_left
    intro k _
    simp only [Function.comp, Nat.succ_eq_add_one]
    push_cast
    ring

theorem intRange_split : ∀ (d : Nat) (lo hi : Int), lo + d ≤ hi + 1 →
    intRange lo hi = intRange lo (lo + d - 1) ++ intRange (lo + d) hi
  | 0, lo, hi, _ => by
    rw [intRange_empty (by omega : lo + ((0 : Nat) : Int) - 1 < lo)]
    simp
  | d + 1, lo, hi, h => by
    have h1 := intRange_split d lo hi (by push_cast at h; omega)
    have h2 : intRange lo (lo + ((d + 1 : Nat) : Int) - 1) =
        intRange lo (lo + (d : Int) - 1) ++ [lo + (d : Int)] := by
      have e : lo + ((d + 1 : Nat) : Int) - 1 = (lo + (d : Int) - 1) + 1 := by
        push_cast; ring
      rw [e, intRange_snoc (by omega)]
      congr 2
      ring
    have h3 : intRange (lo + (d : Int)) hi =
        (lo + (d : Int)) :: intRange (lo + ((d + 1 : Nat) : Int)) hi := by
      rw [intRange_cons (by push_cast at h; omega)]
      congr 2
      push_cast; ring
    rw [h1, h2, h3]
    simp

theorem flatMap_map_length {α β γ : Type} (g : α → β → γ) (ms : List β) :
    ∀ ns : List α, (ns.flatMap (fun n => ms.map (g n))).length = ns.length * ms.length
  | [] => by simp
  | n :: ns => by
    rw [List.flatMap_cons, List.length_append, flatMap_map_length g ms ns, List.length_map,
      List.length_cons]
    ring

theorem AmbiRotator_m_fold (sqrt : ℚ → ℚ) (sqrt2 : ℚ)
    (hsqrt : ∀ x : ℚ, 0 ≤ x → (sqrt x = 0 ↔ x = 0)) (arr : List CoeffValues)
    (L last_band N y : Nat) (n : Int) (hL : 2 ≤ L) (hN : N < 18446744073709551616)
    (hN4 : 4 ≤ N) (hbandN : last_band + 2 * L ≤ N) (hy : y < N)
    (hn : -(L : Int) ≤ n ∧ n ≤ (L : Int)) :
    ∀ (ms : List Int) (pre rest : List CoeffValues) (M : AmbiRotateMatrix) (x : Nat),
      (∀ m ∈ ms, -(L : Int) ≤ m ∧ m ≤ (L : Int)) →
      arr = pre ++ ms.map (fun m => RotatorCoeffs_entry sqrt L m n) ++ rest →
      (∀ r c : Nat, r < N → c < N → (M r c).isSome = true) →
      x + ms.length ≤ N →
      ∃ M1 : AmbiRotateMatrix,
        ms.foldlM (AmbiRotator_m arr sqrt2 L n last_band y) (M, pre.length, x) =
          some (M1, pre.length + ms.length, x + ms.length) ∧
        (∀ r c : Nat, r < N → c < N → (M1 r c).isSome = true)
  | [], pre, rest, M, x, _, _, hM, _ => ⟨M, rfl, hM⟩
  | m :: ms, pre, rest, M, x, hms, harr, hM, hx => by
    have hget : arr[pre.length]? = some (RotatorCoeffs_entry sqrt L m n) := by
      rw [harr, List.map_cons, List.append_assoc,
        List.getElem?_append_right (le_refl _), Nat.sub_self, List.cons_append,
        List.getElem?_cons_zero]
    obtain ⟨r, hr⟩ := Option.isSome_iff_exists.mp
      (AmbiRotator_entry_isSome sqrt sqrt2 hsqrt M last_band L m n hL
        (fun r c _ h2 _ h4 => hM r c (by omega) (by omega))
        (fun r c _ h2 _ h4 => hM r c (by omega) (by omega))
        (by omega) (hms m (List.mem_cons_self m ms)) hn)
    have hx1 : x < N := by
      simp only [List.length_cons] at hx
      omega
    have hset : matrixSet M y x r =
        some (fun i j => if i = y ∧ j = x then some r else M i j) := by
      unfold matrixSet
      rw [if_pos (hM y x hy hx1)]
    have hstep : AmbiRotator_m arr sqrt2 L n last_band y (M, pre.length, x) m =
        some ((fun i j => if i = y ∧ j = x then some r else M i j), pre.length + 1, x + 1) := by
      unfold AmbiRotator_m
      simp only [hget, hr, hset, Option.bind_eq_bind, Option.some_bind, Option.pure_def]
      rw [zadd_of_lt (by omega)]
    have hM1 : ∀ r1 c1 : Nat, r1 < N → c1 < N →
        ((fun i j => if i = y ∧ j = x then some r else M i j) r1 c1).isSome = true := by
      intro r1 c1 h1 h2
      simp only []
      split
      · rfl
      · exact hM r1 c1 h1 h2
    have harr1 : arr = (pre ++ [RotatorCoeffs_entry sqrt L m n]) ++
        ms.map (fun m => RotatorCoeffs_entry sqrt L m n) ++ rest := by
      rw [harr, List.map_cons]
      simp only [List.append_assoc, List.singleton_append]
    obtain ⟨M2, hfold, hM2⟩ := AmbiRotator_m_fold sqrt sqrt2 hsqrt arr L last_band N y n hL hN
      hN4 hbandN hy hn ms (pre ++ [RotatorCoeffs_entry sqrt L m n]) rest _ (x + 1)
      (fun m1 h1 => hms m1 (List.mem_cons_of_mem m h1)) harr1 hM1
      (by simp only [List.length_cons] at hx; omega)
    refine ⟨M2, ?_, hM2⟩
    rw [List.foldlM_cons, hstep, Option.bind_eq_bind, Option.some_bind]
    rw [List.length_append, List.length_singleton] at hfold
    rw [hfold, List.length_cons]
    congr 3
    · omega
    · omega

theorem AmbiRotator_n_fold (sqrt : ℚ → ℚ) (sqrt2 : ℚ)
    (hsqrt : ∀ x : ℚ, 0 ≤ x → (sqrt x = 0 ↔ x = 0)) (arr : List CoeffValues)
    (L last_band band_idx N : Nat) (hL : 2 ≤ L) (hN : N < 18446744073709551616)
    (hN4 : 4 ≤ N) (hbandN : last_band + 2 * L ≤ N) (hidx : band_idx + (2 * L + 1) ≤ N) :
    ∀ (ns : List Int) (pre rest : List CoeffValues) (M : AmbiRotateMatrix) (y : Nat),
      (∀ n ∈ ns, -(L : Int) ≤ n ∧ n ≤ (L : Int)) →
      arr = pre ++ ns.flatMap (fun n => (intRange (-(L : Int)) L).map
        (fun m => RotatorCoeffs_entry sqrt L m n)) ++ rest →
      (∀ r c : Nat, r < N → c < N → (M r c).isSome = true) →
      y + ns.length ≤ N →
      ∃ M1 : AmbiRotateMatrix,
        ns.foldlM (AmbiRotator_n arr sqrt2 L last_band band_idx) (M, pre.length, y) =
          some (M1, pre.length + ns.length * (2 * L + 1), y + ns.length) ∧
        (∀ r c : Nat, r < N → c < N → (M1 r c).isSome = true)
  | [], pre, rest, M, y, _, _, hM, _ =>
    ⟨M, by rw [List.foldlM_nil, List.length_nil, Nat.zero_mul]; rfl, hM⟩
  | n :: ns, pre, rest, M, y, hns, harr, hM, hy => by
    have hlen : (intRange (-(L : Int)) L).length = 2 * L + 1 := by
      rw [intRange_length]
      omega
    have hy1 : y < N := by
      simp only [List.length_cons] at hy
      omega
    have harr0 : arr = pre ++ (intRange (-(L : Int)) L).map
        (fun m => RotatorCoeffs_entry sqrt L m n) ++
        (ns.flatMap (fun n => (intRange (-(L : Int)) L).map
          (fun m => RotatorCoeffs_entry sqrt L m n)) ++ rest) := by
      rw [harr, List.flatMap_cons]
      simp only [List.append_assoc]
    obtain ⟨M1, hrow, hM1⟩ := AmbiRotator_m_fold sqrt sqrt2 hsqrt arr L last_band N y n hL hN
      hN4 hbandN hy1 (hns n (List.mem_cons_self n ns)) (intRange (-(L : Int)) L) pre _ M
      band_idx (fun m hm => mem_intRange hm) harr0 hM (by rw [hlen]; exact hidx)
    have hstep : AmbiRotator_n arr sqrt2 L last_band band_idx (M, pre.length, y) n =
        some (M1, pre.length + (2 * L + 1), y + 1) := by
      unfold AmbiRotator_n
      simp only [hrow, Option.bind_eq_bind, Option.some_bind, Option.pure_def]
      rw [zadd_of_lt (by omega), hlen]
    have harr1 : arr = (pre ++ (intRange (-(L : Int)) L).map
        (fun m => RotatorCoeffs_entry sqrt L m n)) ++
        ns.flatMap (fun n => (intRange (-(L : Int)) L).map
          (fun m => RotatorCoeffs_entry sqrt L m n)) ++ rest := by
      rw [harr0]
      simp only [List.append_assoc]
    obtain ⟨M2, hfold, hM2⟩ := AmbiRotator_n_fold sqrt sqrt2 hsqrt arr L last_band band_idx N
      hL hN hN4 hbandN hidx ns _ rest M1 (y + 1)
      (fun n1 h1 => hns n1 (List.mem_cons_of_mem n h1)) harr1 hM1
      (by simp only [List.length_cons] at hy; omega)
    refine ⟨M2, ?_, hM2⟩
    rw [List.foldlM_cons, hstep, Option.bind_eq_bind, Option.some_bind]
    rw [List.length_append, List.length_map, hlen] at hfold
    rw [hfold, List.length_cons]
    congr 3
    · ring
    · omega

theorem RotatorCoeffs_written_split (sqrt : ℚ → ℚ) (MaxAmbiOrder k : Nat) (hk1 : 1 ≤ k)
    (hk2 : k + 1 ≤ MaxAmbiOrder) :
    RotatorCoeffs_written sqrt MaxAmbiOrder =
      RotatorCoeffs_written sqrt k ++
        (intRange (-((k + 1 : Nat) : Int)) ((k + 1 : Nat) : Int)).flatMap (fun n =>
          (intRange (-((k + 1 : Nat) : Int)) ((k + 1 : Nat) : Int)).map
            (fun m => RotatorCoeffs_entry sqrt ((k + 1 : Nat) : Int) m n)) ++
        (intRange (((k + 1 : Nat) : Int) + 1) MaxAmbiOrder).flatMap (fun l =>
          (intRange (-l) l).flatMap (fun n =>
            (intRange (-l) l).map (fun m => RotatorCoeffs_entry sqrt l m n))) := by
  unfold RotatorCoeffs_written
  have h1 := intRange_split (k - 1) 2 MaxAmbiOrder (by omega)
  have e1 : (2 : Int) + ((k - 1 : Nat) : Int) - 1 = (k : Int) := by omega
  have e2 : (2 : Int) + ((k - 1 : Nat) : Int) = ((k + 1 : Nat) : Int) := by omega
  rw [e1, e2, intRange_cons (by omega : ((k + 1 : Nat) : Int) ≤ (MaxAmbiOrder : Int))] at h1
  rw [h1, List.flatMap_append, List.flatMap_cons, List.append_assoc]

theorem RotatorCoeffs_written_length (sqrt : ℚ → ℚ) :
    ∀ k : Nat, k ≤ 23170 → (RotatorCoeffs_written sqrt k).length = CalcRotatorSize k
  | 0, _ => by
    unfold RotatorCoeffs_written
    rw [intRange_empty (by norm_num)]
    rfl
  | 1, _ => by
    unfold RotatorCoeffs_written
    rw [intRange_empty (by norm_num)]
    rfl
  | k + 2, h => by
    have ih := RotatorCoeffs_written_length sqrt (k + 1) (by omega)
    have hs := RotatorCoeffs_written_split sqrt (k + 2) (k + 1) (by omega) le_rfl
    rw [intRange_empty (by omega : (((k + 2 : Nat) : Int)) < ((k + 1 + 1 : Nat) : Int) + 1),
      List.flatMap_nil, List.append_nil] at hs
    rw [hs, List.length_append, ih, flatMap_map_length, intRange_length,
      CalcRotatorSize_succ (k + 1) (by omega) (by omega)]
    have e : (((k + 1 + 1 : Nat) : Int) + 1 - -((k + 1 + 1 : Nat) : Int)).toNat =
        (k + 1 + 1) * 2 + 1 := by omega
    rw [e]
    ring

theorem AmbiRotator_l_step (sqrt : ℚ → ℚ) (sqrt2 : ℚ)
    (hsqrt : ∀ x : ℚ, 0 ≤ x → (sqrt x = 0 ↔ x = 0)) (MaxAmbiOrder N k : Nat)
    (rest0 : List CoeffValues) (hmax : MaxAmbiOrder < 23170)
    (hN : N < 18446744073709551616) (hk1 : 1 ≤ k) (hk2 : k + 1 ≤ MaxAmbiOrder)
    (hkN : (k + 1 + 1) * (k + 1 + 1) ≤ N) (M : AmbiRotateMatrix)
    (hM : ∀ r c : Nat, r < N → c < N → (M r c).isSome = true) :
    ∃ M1 : AmbiRotateMatrix,
      AmbiRotator_l (RotatorCoeffs_written sqrt MaxAmbiOrder ++ rest0) sqrt2
          (M, CalcRotatorSize k, (k + 1) * (k + 1), k * k) ((k + 1 : Nat) : Int) =
        some (M1, CalcRotatorSize (k + 1), (k + 1 + 1) * (k + 1 + 1), (k + 1) * (k + 1)) ∧
      (∀ r c : Nat, r < N → c < N → (M1 r c).isSome = true) := by
  have harr : RotatorCoeffs_written sqrt MaxAmbiOrder ++ rest0 =
      RotatorCoeffs_written sqrt k ++
        (intRange (-((k + 1 : Nat) : Int)) ((k + 1 : Nat) : Int)).flatMap (fun n =>
          (intRange (-((k + 1 : Nat) : Int)) ((k + 1 : Nat) : Int)).map
            (fun m => RotatorCoeffs_entry sqrt ((k + 1 : Nat) : Int) m n)) ++
        ((intRange (((k + 1 : Nat) : Int) + 1) MaxAmbiOrder).flatMap (fun l =>
          (intRange (-l) l).flatMap (fun n =>
            (intRange (-l) l).map (fun m => RotatorCoeffs_entry sqrt l m n))) ++ rest0) := by
    rw [RotatorCoeffs_written_split sqrt MaxAmbiOrder k hk1 hk2]
    simp only [List.append_assoc]
  have hlen : (intRange (-((k + 1 : Nat) : Int)) ((k + 1 : Nat) : Int)).length =
      2 * (k + 1) + 1 := by
    rw [intRange_length]
    omega
  have hsq : (k + 1 + 1) * (k + 1 + 1) = (k + 1) * (k + 1) + (2 * (k + 1) + 1) := by ring
  have hsq2 : (k + 1) * (k + 1) = k * k + (2 * k + 1) := by ring
  obtain ⟨M1, hfold, hM1⟩ := AmbiRotator_n_fold sqrt sqrt2 hsqrt
    (RotatorCoeffs_written sqrt MaxAmbiOrder ++ rest0) (k + 1) (k * k) ((k + 1) * (k + 1)) N
    (by omega) hN (by omega) (by omega) (by omega)
    (intRange (-((k + 1 : Nat) : Int)) ((k + 1 : Nat) : Int))
    (RotatorCoeffs_written sqrt k) _ M ((k + 1) * (k + 1))
    (fun n hn => mem_intRange hn) harr hM (by rw [hlen]; omega)
  refine ⟨M1, ?_, hM1⟩
  rw [RotatorCoeffs_written_length sqrt k (by omega), hlen] at hfold
  have hu : toUInt ((k + 1 : Nat) : Int) = k + 1 := by
    unfold toUInt
    omega
  unfold AmbiRotator_l
  simp only [hfold, Option.bind_eq_bind, Option.some_bind, Option.pure_def]
  rw [hu, zmul_of_lt (by omega),
    zadd_of_lt (by omega : (k + 1) * 2 + 1 < 18446744073709551616),
    zadd_of_lt (by omega), CalcRotatorSize_succ k hk1 (by omega)]
  congr 3
  · ring
  · congr 1
    ring

theorem AmbiRotator_l_fold (sqrt : ℚ → ℚ) (sqrt2 : ℚ)
    (hsqrt : ∀ x : ℚ, 0 ≤ x → (sqrt x = 0 ↔ x = 0)) (MaxAmbiOrder N : Nat)
    (rest0 : List CoeffValues) (hmax : MaxAmbiOrder < 23170)
    (hN : N < 18446744073709551616) (M : AmbiRotateMatrix)
    (hM : ∀ r c : Nat, r < N → c < N → (M r c).isSome = true) :
    ∀ k : Nat, k + 1 ≤ MaxAmbiOrder → (k + 1 + 1) * (k + 1 + 1) ≤ N →
      ∃ M1 : AmbiRotateMatrix,
        (intRange 2 ((k + 1 : Nat) : Int)).foldlM
            (AmbiRotator_l (RotatorCoeffs_written sqrt MaxAmbiOrder ++ rest0) sqrt2)
            (M, 0, 4, 1) =
          some (M1, CalcRotatorSize (k + 1), (k + 1 + 1) * (k + 1 + 1), (k + 1) * (k + 1)) ∧
        (∀ r c : Nat, r < N → c < N → (M1 r c).isSome = true)
  | 0, _, _ => by
    rw [intRange_empty (by norm_num)]
    exact ⟨M, rfl, hM⟩
  | k + 1, h1, h2 => by
    obtain ⟨M1, hfold, hM1⟩ := AmbiRotator_l_fold sqrt sqrt2 hsqrt MaxAmbiOrder N rest0 hmax hN
      M hM k (by omega) (by nlinarith)
    obtain ⟨M2, hstep, hM2⟩ := AmbiRotator_l_step sqrt sqrt2 hsqrt MaxAmbiOrder N (k + 1) rest0
      hmax hN (by omega) h1 h2 M1 hM1
    refine ⟨M2, ?_, hM2⟩
    have e : ((k + 1 + 1 : Nat) : Int) = ((k + 1 : Nat) : Int) + 1 := by push_cast; ring
    rw [e, intRange_snoc (by omega), List.foldlM_append, hfold, Option.bind_eq_bind,
      Option.some_bind, List.foldlM_cons, ← e, hstep, Option.bind_eq_bind,
      Option.some_bind, List.foldlM_nil]
    rfl

theorem intRange_getElem (lo hi : Int) (j : Nat) (hj : lo + j ≤ hi) :
    (intRange lo hi)[j]? = some (lo + (j : Int)) := by
  unfold intRange
  rw [List.getElem?_map, List.getElem?_range (by omega)]
  rfl

theorem flatMap_getElem {α β : Type} (f : α → List β) (x : α) (B : List α) (W j : Nat)
    (hj : j < (f x).length) :
    ∀ A : List α, (∀ a ∈ A, (f a).length = W) →
      ((A ++ x :: B).flatMap f)[A.length * W + j]? = (f x)[j]?
  | [], _ => by
    rw [List.nil_append, List.flatMap_cons, List.length_nil, Nat.zero_mul, Nat.zero_add,
      List.getElem?_append_left hj]
  | a :: A, hA => by
    have hlen : (f a).length = W := hA a (List.mem_cons_self a A)
    have e : (a :: A).length * W + j = (f a).length + (A.length * W + j) := by
      rw [List.length_cons, hlen]
      ring
    rw [List.cons_append, List.flatMap_cons, e,
      List.getElem?_append_right (Nat.le_add_right _ _), Nat.add_sub_cancel_left]
    exact flatMap_getElem f x B W j hj A (fun a1 h1 => hA a1 (List.mem_cons_of_mem a h1))

theorem grid_getElem {α : Type} (g : Int → Int → α) (lo hi : Int) (i j : Nat)
    (hi1 : lo + i ≤ hi) (hj : lo + j ≤ hi) :
    ((intRange lo hi).flatMap (fun n => (intRange lo hi).map (fun m => g m n)))[
      i * (hi + 1 - lo).toNat + j]? = some (g (lo + j) (lo + i)) := by
  generalize hrow : (fun n => (intRange lo hi).map (fun m => g m n)) = row
  have hrowlen : ∀ n, (row n).length = (hi + 1 - lo).toNat := by
    intro n
    rw [← hrow]
    simp only [List.length_map, intRange_length]
  have hs := intRange_split i lo hi (by omega)
  rw [intRange_cons (by omega : lo + (i : Int) ≤ hi)] at hs
  have hAlen : (intRange lo (lo + (i : Int) - 1)).length = i := by
    rw [intRange_length]
    omega
  have h := flatMap_getElem row (lo + (i : Int)) (intRange (lo + (i : Int) + 1) hi)
    (hi + 1 - lo).toNat j (by rw [hrowlen]; omega) (intRange lo (lo + (i : Int) - 1))
    (fun a _ => hrowlen a)
  rw [hAlen, ← hs] at h
  rw [h, ← hrow]
  simp only []
  rw [List.getElem?_map, intRange_getElem lo hi j hj]
  rfl

theorem RotatorCoeffs_written_getElem (sqrt : ℚ → ℚ) (MaxAmbiOrder L : Nat) (m n : Int)
    (hL : 2 ≤ L) (hL2 : L ≤ MaxAmbiOrder) (hmax : MaxAmbiOrder < 23170)
    (hm : -(L : Int) ≤ m ∧ m ≤ (L : Int)) (hn : -(L : Int) ≤ n ∧ n ≤ (L : Int)) :
    (RotatorCoeffs_written sqrt MaxAmbiOrder)[CalcRotatorSize (L - 1) +
        ((n + (L : Int)).toNat * (2 * L + 1) + (m + (L : Int)).toNat)]? =
      some (RotatorCoeffs_entry sqrt L m n) := by
  obtain ⟨k, rfl⟩ : ∃ k, L = k + 1 := ⟨L - 1, by omega⟩
  have hs := RotatorCoeffs_written_split sqrt MaxAmbiOrder k (by omega) hL2
  have hg := grid_getElem (fun m n => RotatorCoeffs_entry sqrt ((k + 1 : Nat) : Int) m n)
    (-((k + 1 : Nat) : Int)) ((k + 1 : Nat) : Int) (n + ((k + 1 : Nat) : Int)).toNat
    (m + ((k + 1 : Nat) : Int)).toNat (by omega) (by omega)
  have e1 : (((k + 1 : Nat) : Int) + 1 - -((k + 1 : Nat) : Int)).toNat = 2 * (k + 1) + 1 := by
    omega
  have e2 : -((k + 1 : Nat) : Int) + ((m + ((k + 1 : Nat) : Int)).toNat : Int) = m := by
    omega
  have e3 : -((k + 1 : Nat) : Int) + ((n + ((k + 1 : Nat) : Int)).toNat : Int) = n := by
    omega
  rw [e1, e2, e3] at hg
  have hlen := RotatorCoeffs_written_length sqrt k (by omega)
  have hidx : (n + ((k + 1 : Nat) : Int)).toNat * (2 * (k + 1) + 1) +
      (m + ((k + 1 : Nat) : Int)).toNat <
      ((intRange (-((k + 1 : Nat) : Int)) ((k + 1 : Nat) : Int)).flatMap (fun n =>
          (intRange (-((k + 1 : Nat) : Int)) ((k + 1 : Nat) : Int)).map
            (fun m => RotatorCoeffs_entry sqrt ((k + 1 : Nat) : Int) m n))).length := by
    rcases Nat.lt_or_ge _ _ with h | h
    · exact h
    · rw [List.getElem?_eq_none h] at hg
      exact absurd hg (by simp)
  rw [hs, List.append_assoc, Nat.add_sub_cancel,
    List.getElem?_append_right (by rw [hlen]; exact Nat.le_add_right _ _), hlen,
    Nat.add_sub_cancel_left, List.getElem?_append_left hidx]
  exact hg

/-- C39: in `AmbiRotator`, for every order from 2 to `MaxAmbiOrder` and every
`(l, m, n)` visited, each evaluation of `P(i, l, a, n)` made through `U`, `V` or `W`
has `-(l-1) <= a <= l-1`, so that its accesses stay inside the previous band.
(1) The constructor fills `mCoeffs` exactly: it writes `CalcRotatorSize(MaxAmbiOrder)`
values. (2) For a visit `(l, m, n)`: the coefficients at the position of the iterator
(`CalcRotatorSize(l-1)` for the earlier bands, `(n+l)*(2l+1) + (m+l)` inside the band)
are those computed for `(l, m, n)`; `u` is zero exactly when `|m| = l`, `w` is zero
exactly when `m = 0` or `|m| >= l-1`, so `W` is only called with `m != 0`; the value
of the entry is computed with no failed assertion on a matrix of which only the
first-order block and the block of the previous band, starting at
`last_band = (l-1)^2`, can be accessed; and on such a matrix `P(i, l, a, n)` can be
evaluated exactly when `-(l-1) <= a <= l-1`. (3) On a square matrix of at least
`(order+1)^2` rows the loop over the bands `2..order` ends with the iterator
advanced `CalcRotatorSize(order)` times, `band_idx = (order+1)^2` and
`last_band = order^2`, and `AmbiRotator` returns. `std::sqrt` is any function that
is zero only at zero, and `MaxAmbiOrder` stays below 23170, where the `int`
arithmetic of the code cannot overflow. -/
theorem AmbiRotator_previous_band (sqrt : ℚ → ℚ) (sqrt2 : ℚ) (MaxAmbiOrder : Nat)
    (hsqrt : ∀ x : ℚ, 0 ≤ x → (sqrt x = 0 ↔ x = 0)) (hmax : MaxAmbiOrder < 23170) :
    RotatorCoeffs sqrt MaxAmbiOrder = some (RotatorCoeffs_written sqrt MaxAmbiOrder) ∧
    (RotatorCoeffs_written sqrt MaxAmbiOrder).length = CalcRotatorSize MaxAmbiOrder ∧
    (∀ (L : Nat) (m n : Int), 2 ≤ L → L ≤ MaxAmbiOrder →
      -(L : Int) ≤ m ∧ m ≤ (L : Int) → -(L : Int) ≤ n ∧ n ≤ (L : Int) →
      (RotatorCoeffs_written sqrt MaxAmbiOrder)[CalcRotatorSize (L - 1) +
          ((n + (L : Int)).toNat * (2 * L + 1) + (m + (L : Int)).toNat)]? =
        some (RotatorCoeffs_entry sqrt L m n) ∧
      ((RotatorCoeffs_entry sqrt L m n).u = 0 ↔ |m| = (L : Int)) ∧
      ((RotatorCoeffs_entry sqrt L m n).w = 0 ↔ (m = 0 ∨ (L : Int) - 1 ≤ |m|)) ∧
      ((RotatorCoeffs_entry sqrt L m n).w ≠ 0 → m ≠ 0) ∧
      (∀ data : Nat → Nat → ℚ,
        (AmbiRotator_entry sqrt2 (RotatorCoeffs_entry sqrt L m n) L m n ((L - 1) * (L - 1))
          (previousBandOnly data ((L - 1) * (L - 1)) L)).isSome = true) ∧
      (∀ (data : Nat → Nat → ℚ) (i a : Int), -1 ≤ i ∧ i ≤ 1 →
        -2147483648 ≤ a ∧ a < 2147483648 →
        ((P i L a n ((L - 1) * (L - 1))
            (previousBandOnly data ((L - 1) * (L - 1)) L)).isSome = true ↔
          (-((L : Int) - 1) ≤ a ∧ a ≤ (L : Int) - 1)))) ∧
    (∀ (order : Nat) (data : Nat → Nat → ℚ) (size : Nat), 2 ≤ order →
      order ≤ MaxAmbiOrder → (order + 1) * (order + 1) ≤ size →
      size < 18446744073709551616 →
      ∃ M1 : AmbiRotateMatrix,
        (intRange 2 (order : Int)).foldlM
            (AmbiRotator_l (RotatorCoeffs_written sqrt MaxAmbiOrder) sqrt2)
            (squareMatrix data size, 0, 4, 1) =
          some (M1, CalcRotatorSize order, (order + 1) * (order + 1), order * order) ∧
        AmbiRotator (RotatorCoeffs_written sqrt MaxAmbiOrder) sqrt2
            (squareMatrix data size) (order : Int) =
          some (M1, CalcRotatorSize order)) := by
  have hlen := RotatorCoeffs_written_length sqrt MaxAmbiOrder (by omega)
  refine ⟨?_, hlen, ?_, ?_⟩
  · unfold RotatorCoeffs
    rw [if_pos (le_of_eq hlen), hlen, Nat.sub_self, List.replicate_zero, List.append_nil]
  · intro L m n hL hL2 hm hn
    have hc := RotatorCoeffs_entry_zero sqrt hsqrt L m n (by omega) (abs_le.mpr hm)
      (abs_le.mpr hn)
    have hlb : (L - 1) * (L - 1) < 1073741824 := by
      have h1 : L - 1 ≤ 23170 := by omega
      calc (L - 1) * (L - 1) ≤ 23170 * 23170 := Nat.mul_le_mul h1 h1
        _ < 1073741824 := by norm_num
    have hfirst : ∀ (data : Nat → Nat → ℚ) (r c : Nat), 1 ≤ r → r ≤ 3 → 1 ≤ c → c ≤ 3 →
        (previousBandOnly data ((L - 1) * (L - 1)) L r c).isSome = true :=
      fun data r c h1 h2 h3 h4 =>
        (previousBandOnly_isSome data _ L r c).mpr (Or.inl ⟨h1, h2, h3, h4⟩)
    have hband : ∀ (data : Nat → Nat → ℚ) (r c : Nat), (L - 1) * (L - 1) ≤ r →
        r ≤ (L - 1) * (L - 1) + 2 * (L - 1) → (L - 1) * (L - 1) ≤ c →
        c ≤ (L - 1) * (L - 1) + 2 * (L - 1) →
        (previousBandOnly data ((L - 1) * (L - 1)) L r c).isSome = true :=
      fun data r c h1 h2 h3 h4 =>
        (previousBandOnly_isSome data _ L r c).mpr
          (Or.inr ⟨h1, by omega, h3, by omega⟩)
    refine ⟨RotatorCoeffs_written_getElem sqrt MaxAmbiOrder L m n hL hL2 hmax hm hn,
      hc.1, hc.2.2, fun hw h0 => hw (hc.2.2.mpr (Or.inl h0)), ?_, ?_⟩
    · intro data
      exact AmbiRotator_entry_isSome sqrt sqrt2 hsqrt _ _ L m n hL (hfirst data)
        (hband data) (by omega) hm hn
    · intro data i a hi ha
      constructor
      · intro h
        by_contra hout
        have hout1 : a < -((L : Int) - 1) ∨ (L : Int) - 1 < a := by omega
        rw [P_outside data _ L i a n hL (by omega) rfl hi ha hn hout1] at h
        exact absurd h (by simp)
      · intro h
        exact P_isSome _ _ L i a n hL (hfirst data) (hband data) (by omega) hi h hn
  · intro order data size ho ho2 hsize hsize2
    obtain ⟨k, rfl⟩ : ∃ k, order = k + 1 := ⟨order - 1, by omega⟩
    have hM : ∀ r c : Nat, r < size → c < size →
        (squareMatrix data size r c).isSome = true := by
      intro r c h1 h2
      unfold squareMatrix
      rw [if_pos ⟨h1, h2⟩]
      rfl
    obtain ⟨M1, hfold, _⟩ := AmbiRotator_l_fold sqrt sqrt2 hsqrt MaxAmbiOrder size []
      hmax hsize2 (squareMatrix data size) hM k ho2 hsize
    rw [List.append_nil] at hfold
    refine ⟨M1, hfold, ?_⟩
    unfold AmbiRotator
    rw [if_neg (by omega), hfold]
    rfl

theorem AmbiRotator_previous_band_witness :
    RotatorCoeffs (fun x => x) 3 = some (RotatorCoeffs_written (fun x => x) 3) ∧
    (RotatorCoeffs_written (fun x => x) 3).length = 74 ∧
    ((RotatorCoeffs_entry (fun x => x) ((3 : Nat) : Int) 2 1).w = 0 ↔
      ((2 : Int) = 0 ∨ (((3 : Nat) : Int)) - 1 ≤ |(2 : Int)|)) ∧
    (∃ M1 : AmbiRotateMatrix,
      AmbiRotator (RotatorCoeffs_written (fun x => x) 3) 1
          (squareMatrix (fun r c => if r = c then 1 else 0) 16) ((3 : Nat) : Int) =
        some (M1, 74)) := by
  have h := AmbiRotator_previous_band (fun x => x) 1 3 (fun x _ => Iff.rfl) (by norm_num)
  have e : CalcRotatorSize 3 = 74 := by decide
  rw [e] at h
  obtain ⟨M1, _, hM1⟩ := h.2.2.2 3 (fun r c => if r = c then 1 else 0) 16 (by norm_num)
    (by norm_num) (by norm_num) (by norm_num)
  rw [e] at hM1
  exact ⟨h.1, h.2.1, (h.2.2.1 3 2 1 (by norm_num) (by norm_num) (by norm_num)
    (by norm_num)).2.2.1, M1, hM1⟩

end OpenALSoft
